import Mathlib

/-!
# Marquee layout files: validator and renderer

A shallow embedding of the parsing and validation code of the Marquee layout
tools (`src/validate/validate.c`, `src/renderer/renderer.c`,
`src/editor/editor.c`) and theorems about it.

Conventions of the embedding

* A wide string is a `List Char`; `cstr` cuts a buffer at its first NUL, which
  is what `wcslen` and every string function of the C library see.
* A C `int` is an `Int`.  Counters (`lineNum`, `segmentCount`, `errorCount`)
  only count characters or lines of a text whose length is itself an `int`
  (`(int)wcslen(buffer)`), so they are modelled without wrap-around.
* `wcstol` and `_wtoi` follow the C library for the ASCII digits and the
  white space of the "C" locale, with `long` and `int` both 32 bits wide (the
  Windows ABI the three programs are written for): out-of-range values clamp
  to `LONG_MAX` and `LONG_MIN`.
* `swprintf` with `%d` is `toString` of the `Int`.
* The fixed arrays `errors[MAX_ERRORS]` and `stack[MAX_NESTING_DEPTH]` are
  lists; the guards of the source (`errorCount < MAX_ERRORS`,
  `depth >= MAX_NESTING_DEPTH`, `linePos < 1023`) are kept as they are.
* renderer.c writes to its arrays (`segments`, `lines`, `texts`, `current`)
  without a bound check; a write outside one of them leaves defined behaviour,
  and the function that makes it returns `none`.
-/

namespace Marquee

/-! ## Strings of the C library -/

/-- The terminator of a wide string. -/
def NUL : Char := Char.ofNat 0

/-- The characters of a buffer up to its first NUL: the string `wcslen` measures. -/
def cstr (buffer : List Char) : List Char :=
  buffer.takeWhile (fun c => c != NUL)

/-- Embeds `wcsncmp(line, p, wcslen(p)) == 0`: the line begins with the characters of `p`. -/
def startsWith (line : List Char) (p : String) : Bool :=
  line.take p.length == p.toList

/-- Embeds `iswspace` in the "C" locale. -/
def iswspace (c : Char) : Bool :=
  c == ' ' || c == '\t' || c == '\n' || c == Char.ofNat 11 || c == Char.ofNat 12 || c == '\r'

/-- Embeds `LONG_MAX` for a 32-bit `long`. -/
def LONG_MAX : Int := 2147483647

/-- Embeds `LONG_MIN` for a 32-bit `long`. -/
def LONG_MIN : Int := -2147483648

/-- The value of the leading decimal digits of `s`, continuing from `acc`. -/
def digitsValue : List Char → Nat → Nat
  | [], acc => acc
  | c :: rest, acc =>
    if '0' ≤ c ∧ c ≤ '9' then digitsValue rest (acc * 10 + (c.toNat - '0'.toNat)) else acc

/-- Embeds `wcstol(s, NULL, 10)`: white space, an optional sign, decimal digits; the
result is clamped to the range of `long`.  No digits gives 0. -/
def wcstol (s : List Char) : Int :=
  let body := s.dropWhile iswspace
  let v : Int :=
    match body with
    | '-' :: rest => -(digitsValue rest 0 : Int)
    | '+' :: rest => (digitsValue rest 0 : Int)
    | _ => (digitsValue body 0 : Int)
  if v > LONG_MAX then LONG_MAX else if v < LONG_MIN then LONG_MIN else v

/-! ## validate.c: the diagnostic list -/

/-- Embeds `MAX_ERRORS` of validate.c. -/
def MAX_ERRORS : Nat := 1000

/-- Embeds `MAX_NESTING_DEPTH`. -/
def MAX_NESTING_DEPTH : Nat := 255

/-- A diagnostic: `severity` is 0 = info, 1 = warning, 2 = error. -/
structure ValidationError where
  lineNumber : Int
  message : String
  severity : Nat
  deriving DecidableEq, Repr

/-- The type of `AddValidationError`, with the list `errors[0 .. errorCount)` it
updates made explicit.  validate.c and editor.c each define their own
`AddValidationError`; the code that reports through it is embedded with the
routine as its first argument (`...With add`). -/
abbrev AddFn := List ValidationError → Int → String → Nat → List ValidationError

/-- Embeds `AddValidationError` of validate.c: append to `errors` unless `errorCount`
reached `MAX_ERRORS`. -/
def AddValidationError : AddFn := fun errors lineNum message severity =>
  if errors.length < MAX_ERRORS then errors ++ [⟨lineNum, message, severity⟩] else errors

/-! ## validate.c: colour markup -/

/-- One of `0-9`, `A-F`, `a-f`. -/
def isHexChar (c : Char) : Bool :=
  ('0' ≤ c && c ≤ '9') || ('A' ≤ c && c ≤ 'F') || ('a' ≤ c && c ≤ 'f')

/-- Embeds `IsValidHexColor(str, len)`. -/
def IsValidHexColor (str : List Char) (len : Nat) : Bool :=
  if len ≠ 6 then false
  else (List.range 6).all (fun i => isHexChar (str.getD i NUL))

/-- An entry of the backtick stack. -/
structure BacktickState where
  position : Nat
  hasColor : Bool
  deriving DecidableEq, Repr

/-- The live entries of `BacktickStack`, innermost first; `depth` is its length. -/
abbrev BacktickStack := List BacktickState

/-- Embeds `PushBacktick`: refuses (returns false, stack unchanged) at `MAX_NESTING_DEPTH`. -/
def PushBacktick (stack : BacktickStack) (position : Nat) (hasColor : Bool) :
    Bool × BacktickStack :=
  if stack.length ≥ MAX_NESTING_DEPTH then (false, stack)
  else (true, ⟨position, hasColor⟩ :: stack)

/-- Embeds `PopBacktick`: refuses (returns false) on the empty stack. -/
def PopBacktick (stack : BacktickStack) : Bool × BacktickStack :=
  match stack with
  | [] => (false, [])
  | _ :: rest => (true, rest)

/-- The look-ahead loop of `ValidateColorSyntax`, run over the characters that
follow a backtick; `j` is the index of the first of them.  Returns `colonPos`
and `nextQuotePos` (`none` for -1). -/
def findColonQuote : List Char → Nat → Option Nat → Option Nat × Option Nat
  | [], _, colonPos => (colonPos, none)
  | [c], j, colonPos =>
    if c = ':' ∧ colonPos = none then (some j, none)
    else if c = '\'' then (colonPos, some j)
    else (colonPos, none)
  | c :: d :: rest, j, colonPos =>
    if c = '\\' then findColonQuote rest (j + 2) colonPos
    else if c = ':' ∧ colonPos = none then findColonQuote (d :: rest) (j + 1) (some j)
    else if c = '\'' then (colonPos, some j)
    else if c = '`' then (colonPos, none)
    else findColonQuote (d :: rest) (j + 1) colonPos

/-- The body of the main loop of `ValidateColorSyntax` for the unescaped
character `c` at index `i`; `rest` is what follows it in the line. -/
def colorSyntaxCharWith (add : AddFn) (lineNum : Int) (c : Char) (rest : List Char) (i : Nat)
    (stack : BacktickStack) (errors : List ValidationError) :
    BacktickStack × List ValidationError :=
  if c = '`' then
    let look := findColonQuote rest (i + 1) none
    let colonPos := look.1
    let nextQuotePos := look.2
    let checked : Bool × List ValidationError :=
      match colonPos with
      | none => (false, errors)
      | some cp =>
        if nextQuotePos = none ∨ (∃ q, nextQuotePos = some q ∧ cp < q) then
          let paramLen := cp - i - 1
          if paramLen = 6 then
            if IsValidHexColor (rest.take 6) 6 then (true, errors)
            else (false, add errors lineNum "Invalid hex color specification" 2)
          else if paramLen > 0 then
            (false, add errors lineNum "Color specification must be exactly 6 hex characters" 2)
          else (false, errors)
        else (false, errors)
    let pushed := PushBacktick stack i checked.1
    if pushed.1 then (pushed.2, checked.2)
    else (pushed.2, add checked.2 lineNum "Too many nested color specifications (maximum 255)" 2)
  else if c = '\'' then
    let popped := PopBacktick stack
    if popped.1 then (popped.2, errors)
    else (popped.2, add errors lineNum "Closing quote without opening backtick" 2)
  else (stack, errors)

/-- The main loop of `ValidateColorSyntax` from index `i` on. -/
def colorSyntaxLoopWith (add : AddFn) (lineNum : Int) : List Char → Nat → BacktickStack →
    List ValidationError → BacktickStack × List ValidationError
  | [], _, stack, errors => (stack, errors)
  | [c], i, stack, errors => colorSyntaxCharWith add lineNum c [] i stack errors
  | c :: d :: rest, i, stack, errors =>
    if c = '\\' then colorSyntaxLoopWith add lineNum rest (i + 2) stack errors
    else
      let r := colorSyntaxCharWith add lineNum c (d :: rest) i stack errors
      colorSyntaxLoopWith add lineNum (d :: rest) (i + 1) r.1 r.2

/-- The message `swprintf` builds for `depth` unmatched backticks. -/
def unclosedMessage (depth : Int) : String :=
  "Unclosed color specification (" ++ toString depth ++ " unmatched backticks)"

/-- Embeds `ValidateColorSyntax(line, lineNum)`: the diagnostic list after the call. -/
def ValidateColorSyntaxWith (add : AddFn) (line : List Char) (lineNum : Int)
    (errors : List ValidationError) : List ValidationError :=
  let r := colorSyntaxLoopWith add lineNum line 0 [] errors
  if r.1.length ≠ 0 then
    add r.2 lineNum (unclosedMessage r.1.length) 2
  else r.2

/-- Embeds `ValidateColorSyntax` of validate.c. -/
def ValidateColorSyntax (line : List Char) (lineNum : Int) (errors : List ValidationError) :
    List ValidationError :=
  ValidateColorSyntaxWith AddValidationError line lineNum errors

/-! ## validate.c: ValidateFile -/

/-- The local variables of `ValidateFile` together with the diagnostic list. -/
structure VState where
  errors : List ValidationError
  line : List Char
  lineNum : Int
  segmentCount : Int
  hasLPS : Bool
  hasSW : Bool
  hasSH : Bool
  hasSC : Bool
  hasSD : Bool
  inSegment : Bool
  expectedSegments : Int
  hasTPF : Bool
  hasPM : Bool
  deriving DecidableEq, Repr

/-- The state at the start of the scan (`errorCount = 0`, `lineNum = 1`). -/
def VState.init : VState :=
  { errors := [], line := [], lineNum := 1, segmentCount := 0,
    hasLPS := false, hasSW := false, hasSH := false, hasSC := false, hasSD := false,
    inSegment := false, expectedSegments := 0, hasTPF := false, hasPM := false }

/-- Embeds `if (cond) AddValidationError(...)`. -/
def addIf (add : AddFn) (cond : Bool) (errors : List ValidationError) (lineNum : Int)
    (message : String) (severity : Nat) : List ValidationError :=
  if cond then add errors lineNum message severity else errors

/-- The classification of one non-empty, non-comment line (the chain of
`if`/`else if` over the commands, `START`, `END`, content and stray text). -/
def classifyLineWith (add : AddFn) (s : VState) : VState :=
  let line := s.line
  let n := s.lineNum
  if startsWith line "LPS" then
    let e1 := addIf add s.hasLPS s.errors n "Duplicate LPS command" 2
    let e2 := if line.length > 4 then
        addIf add (decide (wcstol (line.drop 4) ≤ 0)) e1 n "LPS must be positive" 2 else e1
    { s with errors := e2, hasLPS := true }
  else if startsWith line "SW" then
    let e1 := addIf add s.hasSW s.errors n "Duplicate SW command" 2
    let e2 := if line.length > 3 then
        addIf add (decide (wcstol (line.drop 3) ≤ 0)) e1 n "SW must be positive" 2 else e1
    { s with errors := e2, hasSW := true }
  else if startsWith line "SH" then
    let e1 := addIf add s.hasSH s.errors n "Duplicate SH command" 2
    let e2 := if line.length > 3 then
        addIf add (decide (wcstol (line.drop 3) ≤ 0)) e1 n "SH must be positive" 2 else e1
    { s with errors := e2, hasSH := true }
  else if startsWith line "SC" then
    let e1 := addIf add s.hasSC s.errors n "Duplicate SC command" 2
    if line.length > 3 then
      let v := wcstol (line.drop 3)
      { s with errors := addIf add (decide (v ≤ 0)) e1 n "SC must be positive" 2,
               hasSC := true, expectedSegments := v }
    else { s with errors := e1, hasSC := true }
  else if startsWith line "SD" then
    let e1 := addIf add s.hasSD s.errors n "Duplicate SD command" 2
    let e2 := if line.length > 3 then
        addIf add (decide (wcstol (line.drop 3) < 0)) e1 n "SD cannot be negative" 2 else e1
    { s with errors := e2, hasSD := true }
  else if startsWith line "CD" then
    let e2 := if line.length > 3 then
        addIf add (decide (wcstol (line.drop 3) < 0)) s.errors n "CD cannot be negative" 2
      else s.errors
    { s with errors := e2 }
  else if startsWith line "TPF" then
    let e1 := addIf add s.hasTPF s.errors n "Duplicate TPF command" 1
    let e3 := if line.length > 4 then
        let v := wcstol (line.drop 4)
        let e2 := addIf add (decide (v ≤ 0)) e1 n "TPF (millis per frame) must be positive" 2
        addIf add (decide (v < 16)) e2 n "TPF below 16ms may cause performance issues" 1
      else e1
    { s with errors := e3, hasTPF := true }
  else if startsWith line "PM" then
    let e1 := addIf add s.hasPM s.errors n "Duplicate PM command" 1
    let e3 := if line.length > 3 then
        let v := wcstol (line.drop 3)
        let e2 := addIf add (decide (v ≤ 0)) e1 n
          "PM (pixel movement per frame) must be positive" 2
        addIf add (decide (v > 20)) e2 n "PM above 20 pixels may scroll too fast" 1
      else e1
    { s with errors := e3, hasPM := true }
  else if line = "START".toList then
    { s with errors := addIf add s.inSegment s.errors n "START inside another segment" 2,
             inSegment := true }
  else if line = "END".toList then
    { s with errors := addIf add (!s.inSegment) s.errors n "END without START" 2,
             inSegment := false, segmentCount := s.segmentCount + 1 }
  else if s.inSegment then
    { s with errors := ValidateColorSyntaxWith add line n s.errors }
  else
    { s with errors := add s.errors n "Text outside segment" 2 }

/-- What the scan does when it meets `\n` or the end of the text: the line
collected so far is classified unless it is empty or a comment, then the line
buffer is reset and `lineNum` incremented. -/
def endOfLineWith (add : AddFn) (s : VState) : VState :=
  let s1 := if s.line.head? ≠ some '/' ∧ s.line.length > 0 then classifyLineWith add s else s
  { s1 with line := [], lineNum := s1.lineNum + 1 }

/-- The character loop of `ValidateFile` over the text (`i < textLen`), ending
with the pass `i = textLen` where `c` is the terminator. -/
def scanTextWith (add : AddFn) : List Char → VState → VState
  | [], s => endOfLineWith add s
  | c :: rest, s =>
    if c = '\r' then scanTextWith add rest s
    else if c = '\n' then scanTextWith add rest (endOfLineWith add s)
    else scanTextWith add rest
      (if s.line.length < 1023 then { s with line := s.line ++ [c] } else s)

/-- The message `swprintf` builds for a segment count that differs from `SC`. -/
def expectedMessage (expectedSegments segmentCount : Int) : String :=
  "Expected " ++ toString expectedSegments ++ " segments, found " ++ toString segmentCount

/-- The checks of `ValidateFile` that follow the scan. -/
def finalChecksWith (add : AddFn) (s : VState) : List ValidationError :=
  let e1 := addIf add (!s.hasLPS) s.errors 0 "Missing LPS command" 2
  let e2 := addIf add (!s.hasSW) e1 0 "Missing SW command" 2
  let e3 := addIf add (!s.hasSH) e2 0 "Missing SH command" 2
  let e4 := addIf add (!s.hasSC) e3 0 "Missing SC command" 2
  let e5 := addIf add (!s.hasSD) e4 0 "Missing SD command" 2
  let e6 := addIf add (decide (s.expectedSegments ≠ s.segmentCount)) e5 0
    (expectedMessage s.expectedSegments s.segmentCount) 2
  addIf add s.inSegment e6 (s.lineNum - 1) "File ends with unclosed segment" 2

/-- The body of `ValidateFile` once the file is in `buffer`: scan, then checks. -/
def ValidateFileWith (add : AddFn) (buffer : List Char) : List ValidationError :=
  finalChecksWith add (scanTextWith add (cstr buffer) VState.init)

/-- The state of validate.c `ValidateFile` when the scan of the buffer is over. -/
def scanResult (buffer : List Char) : VState :=
  scanTextWith AddValidationError (cstr buffer) VState.init

/-- Embeds `ValidateFile` of validate.c on the decoded content of a file that could be
read: the diagnostic list `errors[0 .. errorCount)` it leaves. -/
def ValidateFile (buffer : List Char) : List ValidationError :=
  ValidateFileWith AddValidationError buffer

/-- How a run of validate.c ends: the exit code of the process and the
diagnostic list (`errors[0 .. errorCount)`, a global that starts empty). -/
structure Run where
  exitCode : Int
  errors : List ValidationError
  deriving DecidableEq, Repr

/-- Embeds `main` of validate.c.  `argc` is the argument count; `file` is the decoded
content of the file named on the command line, `none` when `ValidateFile`
returns 0 (the file cannot be opened or the buffer cannot be allocated). -/
def main (argc : Nat) (file : Option (List Char)) : Run :=
  if argc ≠ 2 then { exitCode := 1, errors := [] }
  else
    match file with
    | none => { exitCode := 1, errors := [] }
    | some buffer =>
      let errors := ValidateFile buffer
      { exitCode := if errors.any (fun e => e.severity == 2) then 1 else 0, errors := errors }

/-! ## renderer.c: the document -/

/-- Embeds `MAX_SEGMENTS`. -/
def MAX_SEGMENTS : Nat := 10

/-- Embeds `MAX_LINES_PER_SEGMENT`. -/
def MAX_LINES_PER_SEGMENT : Nat := 50

/-- Embeds `MAX_COLORED_TEXTS_PER_LINE`. -/
def MAX_COLORED_TEXTS_PER_LINE : Nat := 20

/-- Embeds `MAX_TEXT_LENGTH`. -/
def MAX_TEXT_LENGTH : Nat := 1000

/-- Embeds `RGB(r, g, b)` as a `COLORREF`. -/
def RGB (r g b : Nat) : Nat := r + g * 256 + b * 65536

/-- Embeds `MarqueeConfig`. -/
structure MarqueeConfig where
  linesPerScreen : Int
  screenWidth : Int
  screenHeight : Int
  screenCount : Int
  screenDelay : Int
  centerDelay : Int
  timePerFrame : Int
  pixelsPerFrame : Int
  deriving DecidableEq, Repr

/-- Embeds `ColoredText`: a run of text and its colour. -/
structure ColoredText where
  text : List Char
  color : Nat
  deriving DecidableEq, Repr

/-- Embeds `TextLine`: the runs `texts[0 .. textCount)`. -/
structure TextLine where
  texts : List ColoredText
  deriving DecidableEq, Repr

/-- Embeds `TextSegment`: the lines `lines[0 .. lineCount)`. -/
structure TextSegment where
  lines : List TextLine
  deriving DecidableEq, Repr

/-- Embeds `MarqueeRenderer` without its window and font handles.  `segments` stands
for the array `segments[MAX_SEGMENTS]`: slot `i` is `segments.getD i`. -/
structure MarqueeRenderer where
  config : MarqueeConfig
  segments : List TextSegment
  segmentCount : Int
  currentScreen : Int
  isRunning : Bool
  scrollPosition : Int
  lastUpdate : Nat
  isCurrentScreenCentered : Bool
  centerStartTime : Nat
  deriving DecidableEq, Repr

/-- Embeds `InitRenderer`, on a zeroed `segments` array. -/
def InitRenderer : MarqueeRenderer :=
  { config := { linesPerScreen := 2, screenWidth := 600, screenHeight := 80, screenCount := 2,
                screenDelay := 500, centerDelay := 1500, timePerFrame := 50,
                pixelsPerFrame := 3 },
    segments := List.replicate MAX_SEGMENTS { lines := [] },
    segmentCount := 0, currentScreen := 0, isRunning := false, scrollPosition := 0,
    lastUpdate := 0, isCurrentScreenCentered := false, centerStartTime := 0 }

/-- The value of a hexadecimal digit (0 for any other character). -/
def hexDigitValue (c : Char) : Nat :=
  if '0' ≤ c ∧ c ≤ '9' then c.toNat - '0'.toNat
  else if 'A' ≤ c ∧ c ≤ 'F' then c.toNat - 'A'.toNat + 10
  else if 'a' ≤ c ∧ c ≤ 'f' then c.toNat - 'a'.toNat + 10
  else 0

/-- Embeds `wcstoul(s, NULL, 16)` on a string of two characters, as `ParseHexColor`
uses it: the value of the leading hexadecimal digits. -/
def wcstoul16 (s : List Char) : Nat :=
  match s with
  | [a, b] =>
    if isHexChar a then
      if isHexChar b then hexDigitValue a * 16 + hexDigitValue b else hexDigitValue a
    else 0
  | _ => 0

/-- Embeds `ParseHexColor`: white unless `colorStr` has six characters. -/
def ParseHexColor (colorStr : List Char) : Nat :=
  match colorStr with
  | [r1, r2, g1, g2, b1, b2] => RGB (wcstoul16 [r1, r2]) (wcstoul16 [g1, g2]) (wcstoul16 [b1, b2])
  | _ => RGB 255 255 255

/-- The local variables of `ParseColoredLine`: the runs stored so far
(`textCount` is their number), the accumulator `current[0 .. currentPos)`, the
entries `colorStack[0 .. colorDepth]` with the innermost first, and
`currentColor`. -/
structure ParseState where
  texts : List ColoredText
  current : List Char
  colorStack : List Nat
  currentColor : Nat
  deriving DecidableEq, Repr

/-- The look-ahead loop of `ParseColoredLine` over the characters that follow a
backtick, the first of them at index `j`: the index of the first unescaped
colon met before any unescaped quote or backtick. -/
def findColon : List Char → Nat → Option Nat
  | [], _ => none
  | [c], j => if c = ':' then some j else none
  | c :: d :: rest, j =>
    if c = '\\' then findColon rest (j + 2)
    else if c = ':' then some j
    else if c = '\'' ∨ c = '`' then none
    else findColon (d :: rest) (j + 1)

/-- The three places where `ParseColoredLine` saves `current` as a run: nothing
to do when `currentPos` is 0; `none` when `texts[textCount]` lies outside
`texts[MAX_COLORED_TEXTS_PER_LINE]`, or the terminator `current[currentPos]`
outside `current[MAX_TEXT_LENGTH]`. -/
def flushRun (st : ParseState) : Option ParseState :=
  if st.current.length > 0 then
    if st.texts.length < MAX_COLORED_TEXTS_PER_LINE ∧ st.current.length < MAX_TEXT_LENGTH then
      some { st with texts := st.texts ++ [⟨st.current, st.currentColor⟩], current := [] }
    else none
  else some st

/-- The write `current[currentPos++] = c`; `none` when it lies outside
`current[MAX_TEXT_LENGTH]`. -/
def putChar (st : ParseState) (c : Char) : Option ParseState :=
  if st.current.length < MAX_TEXT_LENGTH then some { st with current := st.current ++ [c] }
  else none

/-- The main loop of `ParseColoredLine`.  `skip` counts the characters that the
loop passes over because `i` was advanced (an escaped character, or the colour
specification up to its colon). -/
def parseLoop : List Char → Nat → ParseState → Option ParseState
  | [], _, st => some st
  | _ :: rest, skip + 1, st => parseLoop rest skip st
  | c :: rest, 0, st =>
    if c = '\\' ∧ rest ≠ [] then
      match putChar st (rest.headD NUL) with
      | none => none
      | some st1 => parseLoop rest 1 st1
    else if c = '`' then
      match flushRun st with
      | none => none
      | some st1 =>
        match findColon rest 1 with
        | some colonOff =>
          let paramLen := colonOff - 1
          let colorSpec := rest.take 6
          let st2 :=
            if paramLen = 6 ∧ colorSpec.all isHexChar ∧
                st1.colorStack.length - 1 < MAX_NESTING_DEPTH - 1 then
              { st1 with currentColor := ParseHexColor colorSpec,
                         colorStack := ParseHexColor colorSpec :: st1.colorStack }
            else st1
          parseLoop rest colonOff st2
        | none =>
          match putChar st1 c with
          | none => none
          | some st2 => parseLoop rest 0 st2
    else if c = '\'' then
      match flushRun st with
      | none => none
      | some st1 =>
        match st1.colorStack with
        | _ :: below :: more =>
          parseLoop rest 0 { st1 with colorStack := below :: more, currentColor := below }
        | _ => parseLoop rest 0 { st1 with currentColor := RGB 255 255 255 }
    else
      match putChar st c with
      | none => none
      | some st1 => parseLoop rest 0 st1

/-- Embeds `ParseColoredLine`: the runs of a line, `none` when a run would be stored
past the end of `texts` or a character past the end of `current`. -/
def ParseColoredLine (line : List Char) : Option TextLine :=
  match parseLoop line 0 { texts := [], current := [], colorStack := [RGB 255 255 255],
                           currentColor := RGB 255 255 255 } with
  | none => none
  | some st =>
    match flushRun st with
    | none => none
    | some st1 => some { texts := st1.texts }

/-! ## renderer.c: LoadLayoutFile -/

/-- Embeds `_wtoi`: as `wcstol`, for an `int` as wide as `long`. -/
def _wtoi (s : List Char) : Int := wcstol s

/-- The successive results of `fgetws(line, MAX_TEXT_LENGTH, file)` on the
characters of the stream: each read stops after a newline or after
`MAX_TEXT_LENGTH - 1` characters; `cur` is the part of the pending read. -/
def fgetwsChunks : List Char → List Char → List (List Char)
  | [], cur => if cur = [] then [] else [cur]
  | c :: rest, cur =>
    if c = '\n' ∨ cur.length + 1 = MAX_TEXT_LENGTH - 1 then
      (cur ++ [c]) :: fgetwsChunks rest []
    else fgetwsChunks rest (cur ++ [c])

/-- The local variables of `LoadLayoutFile` with the renderer it fills.  `buf`
is the content of the array `line[MAX_TEXT_LENGTH]`, terminators included. -/
structure LoadState where
  renderer : MarqueeRenderer
  buf : List Char
  inSegment : Bool
  currentSegment : Option Nat
  deriving DecidableEq, Repr

/-- What `fgetws` followed by the removal of a final `\n` and then of a final
`\r` leaves in the array `line`. -/
def readIntoBuf (buf chunk : List Char) : List Char :=
  let buf1 := chunk ++ NUL :: buf.drop (chunk.length + 1)
  let len0 := (cstr buf1).length
  let buf2 := if len0 > 0 ∧ buf1.getD (len0 - 1) NUL = '\n' then buf1.set (len0 - 1) NUL else buf1
  let len1 := (cstr buf2).length
  if len1 > 0 ∧ buf2.getD (len1 - 1) NUL = '\r' then buf2.set (len1 - 1) NUL else buf2

/-- The write `currentSegment->lines[lineCount] = tl; lineCount++`; `none` when
the segment or the line lies outside its array. -/
def appendLine (r : MarqueeRenderer) (seg : Nat) (tl : TextLine) : Option MarqueeRenderer :=
  if seg < MAX_SEGMENTS ∧ seg < r.segments.length then
    let lines := (r.segments.getD seg { lines := [] }).lines
    if lines.length < MAX_LINES_PER_SEGMENT then
      some { r with segments := r.segments.set seg { lines := lines ++ [tl] } }
    else none
  else none

/-- The body of the `while (fgetws(...))` loop of `LoadLayoutFile` for one read. -/
def loadChunk (st : LoadState) (chunk : List Char) : Option LoadState :=
  let buf := readIntoBuf st.buf chunk
  let line := cstr buf
  let arg := fun (k : Nat) => cstr (buf.drop k)
  let r := st.renderer
  let st0 := { st with buf := buf }
  if line.length = 0 ∨ line.head? = some '/' then
    if st.inSegment ∧ st.currentSegment ≠ none ∧ line.head? ≠ some '/' then
      match st.currentSegment with
      | none => some st0
      | some seg =>
        match appendLine r seg { texts := [] } with
        | none => none
        | some r1 => some { st0 with renderer := r1 }
    else some st0
  else if startsWith line "LPS" then
    some { st0 with renderer := { r with config := { r.config with linesPerScreen := _wtoi (arg 4) } } }
  else if startsWith line "SW" then
    some { st0 with renderer := { r with config := { r.config with screenWidth := _wtoi (arg 3) } } }
  else if startsWith line "SH" then
    some { st0 with renderer := { r with config := { r.config with screenHeight := _wtoi (arg 3) } } }
  else if startsWith line "SC" then
    some { st0 with renderer := { r with config := { r.config with screenCount := _wtoi (arg 3) } } }
  else if startsWith line "SD" then
    some { st0 with renderer := { r with config := { r.config with screenDelay := _wtoi (arg 3) } } }
  else if startsWith line "CD" then
    some { st0 with renderer := { r with config := { r.config with centerDelay := _wtoi (arg 3) } } }
  else if startsWith line "TPF" then
    let value := _wtoi (arg 4)
    if value > 0 then
      some { st0 with renderer := { r with config := { r.config with timePerFrame := value } } }
    else some st0
  else if startsWith line "PM" then
    let value := _wtoi (arg 3)
    if value > 0 then
      some { st0 with renderer := { r with config := { r.config with pixelsPerFrame := value } } }
    else some st0
  else if line = "START".toList then
    let seg := r.segmentCount.toNat
    if seg < MAX_SEGMENTS ∧ seg < r.segments.length then
      some { st0 with inSegment := true, currentSegment := some seg,
                      renderer := { r with segments := r.segments.set seg { lines := [] } } }
    else none
  else if line = "END".toList then
    some { st0 with inSegment := false, currentSegment := none,
                    renderer := { r with segmentCount := r.segmentCount + 1 } }
  else if st.inSegment ∧ st.currentSegment ≠ none then
    match st.currentSegment with
    | none => some st0
    | some seg =>
      if seg < MAX_SEGMENTS ∧ seg < r.segments.length ∧
          (r.segments.getD seg { lines := [] }).lines.length < MAX_LINES_PER_SEGMENT then
        match ParseColoredLine line with
        | none => none
        | some tl =>
          match appendLine r seg tl with
          | none => none
          | some r1 => some { st0 with renderer := r1 }
      else none
  else some st0

/-- The `while (fgetws(...))` loop of `LoadLayoutFile` over the successive reads. -/
def loadLoop : List (List Char) → LoadState → Option LoadState
  | [], st => some st
  | chunk :: more, st =>
    match loadChunk st chunk with
    | none => none
    | some st1 => loadLoop more st1

/-- Embeds `LoadLayoutFile` on a file that could be opened.  `stream` is the sequence
of wide characters the stream delivers, `stack` the content of the array `line`
on entry.  The result is the renderer after the call, the window and the font
left out; it is `none` when the call leaves defined behaviour: a write outside
`segments`, `lines` or `texts`, or the division by a zero `linesPerScreen`
(or of `INT_MIN` by -1) in the font size. -/
def LoadLayoutFile (renderer : MarqueeRenderer) (stream : List Char) (stack : List Char) :
    Option MarqueeRenderer :=
  let st0 : LoadState := { renderer := { renderer with segmentCount := 0 }, buf := stack,
                           inSegment := false, currentSegment := none }
  match loadLoop (fgetwsChunks stream []) st0 with
  | none => none
  | some st =>
    let c := st.renderer.config
    if c.linesPerScreen = 0 ∨ (c.screenHeight = LONG_MIN ∧ c.linesPerScreen = -1) then none
    else some st.renderer

/-! ## renderer.c: the animation -/

/-- The number of values of a `DWORD`; `GetTickCount` counts modulo this. -/
def DWORD_RANGE : Nat := 4294967296

/-- Embeds the conversion of an `int` to `DWORD`, which C applies to the `int` operand
of a comparison with a `DWORD`. -/
def toDWORD (v : Int) : Nat := (v % 4294967296).toNat

/-- Embeds `a - b` on two `DWORD`s: the difference modulo 2^32. -/
def dwordSub (a b : Nat) : Nat :=
  (a % DWORD_RANGE + DWORD_RANGE - b % DWORD_RANGE) % DWORD_RANGE

/-- Embeds `StartMarquee`; `now` is the value `GetTickCount()` returns.  The timer it
sets delivers the ticks and is outside the embedding. -/
def StartMarquee (renderer : MarqueeRenderer) (now : Nat) : MarqueeRenderer :=
  { renderer with isRunning := true, scrollPosition := renderer.config.screenWidth,
                  lastUpdate := now, isCurrentScreenCentered := false, centerStartTime := 0 }

/-- Embeds `StopMarquee`. -/
def StopMarquee (renderer : MarqueeRenderer) : MarqueeRenderer :=
  { renderer with isRunning := false }

/-- Embeds `ResetMarquee`. -/
def ResetMarquee (renderer : MarqueeRenderer) : MarqueeRenderer :=
  let r := StopMarquee renderer
  { r with currentScreen := 0, scrollPosition := r.config.screenWidth,
           isCurrentScreenCentered := false, centerStartTime := 0 }

/-- The loop over the runs of a line that adds their widths to `width`, in
`GetTextWidth` (`lineWidth`) and in `RenderMarquee` (`totalWidth`).  `measure`
stands for `GetTextExtentPoint32W` with the font of the renderer: the width
`textSize.cx` of a text. -/
def lineWidth (measure : List Char → Int) : List ColoredText → Int → Int
  | [], width => width
  | t :: ts, width => lineWidth measure ts (width + measure t.text)

/-- The loop of `GetTextWidth` over the lines of the segment. -/
def maxLineWidth (measure : List Char → Int) : List TextLine → Int → Int
  | [], maxWidth => maxWidth
  | l :: ls, maxWidth =>
    let w := lineWidth measure l.texts 0
    maxLineWidth measure ls (if w > maxWidth then w else maxWidth)

/-- Embeds `GetTextWidth`.  A slot of `segments` that was never filled reads as a
segment without lines. -/
def GetTextWidth (measure : List Char → Int) (renderer : MarqueeRenderer) : Int :=
  if renderer.segmentCount = 0 ∨ renderer.currentScreen ≥ renderer.segmentCount then 0
  else
    maxLineWidth measure
      (renderer.segments.getD renderer.currentScreen.toNat { lines := [] }).lines 0

/-- Embeds `DoesTextFitInWindow`. -/
def DoesTextFitInWindow (measure : List Char → Int) (renderer : MarqueeRenderer) : Bool :=
  if renderer.segmentCount = 0 ∨ renderer.currentScreen ≥ renderer.segmentCount then true
  else decide (GetTextWidth measure renderer ≤ renderer.config.screenWidth)

/-- The value a 32-bit `int` holds after an operation whose result `v` may
leave its range: the representative of `v` modulo 2^32 between `INT_MIN` and
`INT_MAX`, as the two's complement targets of the program compute it. -/
def wrapInt (v : Int) : Int := (v + 2147483648) % 4294967296 - 2147483648

/-- Embeds `UpdateMarquee`, the handler of a timer tick; `now` is the value
`GetTickCount()` returns.  The two comparisons of elapsed time with a delay are
comparisons of `DWORD`s; `%` is the remainder of C, which truncates.  The
subtraction `scrollPosition -= pixelsPerFrame` is the one of a 32-bit `int`: a
file sets both operands, and the difference wraps when it leaves the range.
The repaint requests leave the state as it is; so does the call of `Sleep`
between two segments, whose argument `UpdateMarqueeSleep` gives. -/
def UpdateMarquee (measure : List Char → Int) (renderer : MarqueeRenderer) (now : Nat) :
    MarqueeRenderer :=
  if renderer.isRunning = false ∨ renderer.segmentCount = 0 then renderer
  else if renderer.isCurrentScreenCentered = false ∧
      DoesTextFitInWindow measure renderer = true then
    { renderer with isCurrentScreenCentered := true, centerStartTime := now }
  else if renderer.isCurrentScreenCentered = true then
    if dwordSub now renderer.centerStartTime ≥ toDWORD renderer.config.centerDelay then
      { renderer with
        currentScreen := Int.tmod (renderer.currentScreen + 1) renderer.segmentCount,
        scrollPosition := renderer.config.screenWidth,
        isCurrentScreenCentered := false, centerStartTime := 0 }
    else renderer
  else if dwordSub now renderer.lastUpdate ≥ toDWORD renderer.config.timePerFrame then
    let r1 := { renderer with
                scrollPosition :=
                  wrapInt (renderer.scrollPosition - renderer.config.pixelsPerFrame) }
    let r2 :=
      if r1.scrollPosition < -GetTextWidth measure r1 then
        { r1 with currentScreen := Int.tmod (r1.currentScreen + 1) r1.segmentCount,
                  scrollPosition := r1.config.screenWidth }
      else r1
    { r2 with lastUpdate := now }
  else renderer

/-- The call `Sleep(renderer->config.screenDelay)` of `UpdateMarquee`: the
number of milliseconds for which a tick blocks before it returns, as the
`DWORD` that `Sleep` receives, and `none` for a tick that does not reach the
call.  A tick reaches it when it scrolls the current segment out of the
window. -/
def UpdateMarqueeSleep (measure : List Char → Int) (renderer : MarqueeRenderer) (now : Nat) :
    Option Nat :=
  if renderer.isRunning = false ∨ renderer.segmentCount = 0 then none
  else if renderer.isCurrentScreenCentered = false ∧
      DoesTextFitInWindow measure renderer = true then none
  else if renderer.isCurrentScreenCentered = true then none
  else if dwordSub now renderer.lastUpdate ≥ toDWORD renderer.config.timePerFrame then
    let r1 := { renderer with
                scrollPosition :=
                  wrapInt (renderer.scrollPosition - renderer.config.pixelsPerFrame) }
    if r1.scrollPosition < -GetTextWidth measure r1 then some (toDWORD r1.config.screenDelay)
    else none
  else none

/-- A call `TextOutW(hdc, x, y, text, textLen)` with the colour set before it. -/
structure TextOut where
  x : Int
  y : Int
  text : List Char
  color : Nat
  deriving DecidableEq, Repr

/-- The loop of `RenderMarquee` over the runs of a line: each run is drawn at
`x`, which then advances by the width of the run. -/
def drawRuns (measure : List Char → Int) : List ColoredText → Int → Int → List TextOut
  | [], _, _ => []
  | t :: ts, x, y => ⟨x, y, t.text, t.color⟩ :: drawRuns measure ts (x + measure t.text) y

/-- The loop of `RenderMarquee` over the lines `lineIndex, lineIndex + 1, ...` of
the segment while `lineIndex < maxLines`; `count` is the number of lines left
to draw. -/
def drawLines (measure : List Char → Int) (renderer : MarqueeRenderer) (segment : TextSegment)
    (lineHeight : Int) : Nat → Nat → List TextOut
  | 0, _ => []
  | count + 1, lineIndex =>
    let line := segment.lines.getD lineIndex { texts := [] }
    let y := (lineIndex : Int) * lineHeight + 30
    let x :=
      if renderer.isCurrentScreenCentered then
        Int.tdiv (renderer.config.screenWidth - lineWidth measure line.texts 0) 2
      else renderer.scrollPosition
    drawRuns measure line.texts x y ++
      drawLines measure renderer segment lineHeight count (lineIndex + 1)

/-- Embeds `RenderMarquee`: the calls of `TextOutW` it makes, in order.  The result is
`none` when the division for `lineHeight` is undefined (by zero, or of
`INT_MIN` by -1).  `/` is the division of C, which truncates. -/
def RenderMarquee (measure : List Char → Int) (renderer : MarqueeRenderer) :
    Option (List TextOut) :=
  if renderer.segmentCount = 0 ∨ renderer.currentScreen ≥ renderer.segmentCount then some []
  else
    let c := renderer.config
    if c.linesPerScreen = 0 ∨ (c.screenHeight = LONG_MIN ∧ c.linesPerScreen = -1) then none
    else
      let segment := renderer.segments.getD renderer.currentScreen.toNat { lines := [] }
      let lineHeight := Int.tdiv c.screenHeight c.linesPerScreen
      let maxLines : Int :=
        if (segment.lines.length : Int) < c.linesPerScreen then segment.lines.length
        else c.linesPerScreen
      some (drawLines measure renderer segment lineHeight maxLines.toNat 0)

/-! ## Notions the statements are written with -/

/-- The recorder without a capacity: every diagnostic handed over is kept.
Running the validator with it gives the diagnostics in the order in which
`AddValidationError` is called. -/
def appendError : AddFn := fun errors lineNum message severity =>
  errors ++ [⟨lineNum, message, severity⟩]

/-- What a list bounded by `MAX_ERRORS` keeps of the diagnostics `ds` handed to
it one after the other. -/
def addMany (errors ds : List ValidationError) : List ValidationError :=
  errors ++ ds.take (MAX_ERRORS - errors.length)

/-- A recorder `add` that acts on the list through `grow`. -/
structure Recorder (add : AddFn)
    (grow : List ValidationError → List ValidationError → List ValidationError) : Prop where
  add_eq : ∀ e n m s, add e n m s = grow e [⟨n, m, s⟩]
  grow_nil : ∀ e, grow e [] = e
  grow_append : ∀ e a b, grow (grow e a) b = grow e (a ++ b)

/-- The logical lines of a text: it is cut at every `\n`, every `\r` is
dropped, and a line keeps its first 1023 characters.  `cur` is the beginning of
the first line. -/
def splitLines : List Char → List Char → List (List Char)
  | [], cur => [cur]
  | c :: rest, cur =>
    if c = '\r' then splitLines rest cur
    else if c = '\n' then cur :: splitLines rest []
    else splitLines rest (if cur.length < 1023 then cur ++ [c] else cur)

/-- The logical lines of the text in `buffer`; line `k` (from 0) has number `k + 1`. -/
def logicalLines (buffer : List Char) : List (List Char) :=
  splitLines (cstr buffer) []

/-- The validator meets the end of the logical line `l` in state `s`. -/
def lineStepWith (add : AddFn) (s : VState) (l : List Char) : VState :=
  endOfLineWith add { s with line := l }

/-- The validator goes through the logical lines `ls` from state `s`. -/
def runLinesWith (add : AddFn) : List (List Char) → VState → VState
  | [], s => s
  | l :: ls, s => runLinesWith add ls (lineStepWith add s l)

/-- The state of validate.c `ValidateFile` when it has gone through the first
`k` logical lines of the text. -/
def stateAfter (buffer : List Char) (k : Nat) : VState :=
  runLinesWith AddValidationError ((logicalLines buffer).take k) VState.init

/-- Whether a segment is open after the lines `ls`, `o` telling whether one was
open before them: `START` opens, `END` closes. -/
def openAfter : List (List Char) → Bool → Bool
  | [], o => o
  | l :: ls, o =>
    if l = "START".toList then openAfter ls true
    else if l = "END".toList then openAfter ls false
    else openAfter ls o

/-- The number of balanced `START`/`END` pairs in `ls`: the `END` lines that
close an open segment (`o`: a segment is open before `ls`). -/
def balancedPairs : List (List Char) → Bool → Nat
  | [], _ => 0
  | l :: ls, o =>
    if l = "START".toList then balancedPairs ls true
    else if l = "END".toList then (if o then 1 else 0) + balancedPairs ls false
    else balancedPairs ls o

/-- The value declared by the last `SC` line of `ls` that carries a parameter
(more than three characters); `d` when there is none. -/
def declaredSC : List (List Char) → Int → Int
  | [], d => d
  | l :: ls, d =>
    if startsWith l "SC" ∧ l.length > 3 then declaredSC ls (wcstol (l.drop 3)) else declaredSC ls d

/-- The text made of `n` lines `x`, each ended by `\n`. -/
def junk : Nat → List Char
  | 0 => []
  | n + 1 => 'x' :: '\n' :: junk n

/-- The diagnostics of the lines of `junk n` when they are numbered from `first`. -/
def junkErrors : Nat → Int → List ValidationError
  | 0, _ => []
  | n + 1, first => ⟨first, "Text outside segment", 2⟩ :: junkErrors n (first + 1)

/-- A line as `LoadLayoutFile` sees it after a read: cut at a NUL, a final
`\n` removed, then a final `\r`. -/
def stripLine (chunk : List Char) : List Char :=
  let l := cstr chunk
  let l1 := if l.getLast? = some '\n' then l.dropLast else l
  if l1.getLast? = some '\r' then l1.dropLast else l1

/-- The lines `LoadLayoutFile` sees in a stream, one for each read. -/
def rendererLines (stream : List Char) : List (List Char) :=
  (fgetwsChunks stream []).map stripLine

/-- The branches of the scan for a logical line: skipped (empty or comment),
one of the eight commands, `START`, `END`, or any other text. -/
inductive LineKind where
  | skip | lps | sw | sh | sc | sd | cd | tpf | pm | start | stop | other
  deriving DecidableEq, Repr

/-- The branch `ValidateFile` takes for the logical line `l`. -/
def lineKind (l : List Char) : LineKind :=
  if ¬ (l.head? ≠ some '/' ∧ l.length > 0) then LineKind.skip
  else if startsWith l "LPS" then LineKind.lps
  else if startsWith l "SW" then LineKind.sw
  else if startsWith l "SH" then LineKind.sh
  else if startsWith l "SC" then LineKind.sc
  else if startsWith l "SD" then LineKind.sd
  else if startsWith l "CD" then LineKind.cd
  else if startsWith l "TPF" then LineKind.tpf
  else if startsWith l "PM" then LineKind.pm
  else if l = "START".toList then LineKind.start
  else if l = "END".toList then LineKind.stop
  else LineKind.other

/-- One diagnostic, or none. -/
def diagIf (c : Bool) (n : Int) (m : String) (sev : Nat) : List ValidationError :=
  if c then [⟨n, m, sev⟩] else []

/-- The diagnostics the validator reports for the logical line `l` met in state
`s`, by branch. -/
def lineDiags (s : VState) (l : List Char) : List ValidationError :=
  let n := s.lineNum
  match lineKind l with
  | LineKind.skip => []
  | LineKind.lps => diagIf s.hasLPS n "Duplicate LPS command" 2 ++
      diagIf (decide (l.length > 4 ∧ wcstol (l.drop 4) ≤ 0)) n "LPS must be positive" 2
  | LineKind.sw => diagIf s.hasSW n "Duplicate SW command" 2 ++
      diagIf (decide (l.length > 3 ∧ wcstol (l.drop 3) ≤ 0)) n "SW must be positive" 2
  | LineKind.sh => diagIf s.hasSH n "Duplicate SH command" 2 ++
      diagIf (decide (l.length > 3 ∧ wcstol (l.drop 3) ≤ 0)) n "SH must be positive" 2
  | LineKind.sc => diagIf s.hasSC n "Duplicate SC command" 2 ++
      diagIf (decide (l.length > 3 ∧ wcstol (l.drop 3) ≤ 0)) n "SC must be positive" 2
  | LineKind.sd => diagIf s.hasSD n "Duplicate SD command" 2 ++
      diagIf (decide (l.length > 3 ∧ wcstol (l.drop 3) < 0)) n "SD cannot be negative" 2
  | LineKind.cd =>
      diagIf (decide (l.length > 3 ∧ wcstol (l.drop 3) < 0)) n "CD cannot be negative" 2
  | LineKind.tpf => diagIf s.hasTPF n "Duplicate TPF command" 1 ++
      diagIf (decide (l.length > 4 ∧ wcstol (l.drop 4) ≤ 0)) n
        "TPF (millis per frame) must be positive" 2 ++
      diagIf (decide (l.length > 4 ∧ wcstol (l.drop 4) < 16)) n
        "TPF below 16ms may cause performance issues" 1
  | LineKind.pm => diagIf s.hasPM n "Duplicate PM command" 1 ++
      diagIf (decide (l.length > 3 ∧ wcstol (l.drop 3) ≤ 0)) n
        "PM (pixel movement per frame) must be positive" 2 ++
      diagIf (decide (l.length > 3 ∧ wcstol (l.drop 3) > 20)) n
        "PM above 20 pixels may scroll too fast" 1
  | LineKind.start => diagIf s.inSegment n "START inside another segment" 2
  | LineKind.stop => diagIf (!s.inSegment) n "END without START" 2
  | LineKind.other =>
      if s.inSegment then ValidateColorSyntaxWith appendError l n []
      else [⟨n, "Text outside segment", 2⟩]

/-- The variables of the scan after the logical line `l` met in state `s`, the
diagnostic list left as it was. -/
def lineCtl (s : VState) (l : List Char) : VState :=
  let base := { s with line := [], lineNum := s.lineNum + 1 }
  match lineKind l with
  | LineKind.lps => { base with hasLPS := true }
  | LineKind.sw => { base with hasSW := true }
  | LineKind.sh => { base with hasSH := true }
  | LineKind.sc =>
    { base with hasSC := true,
                expectedSegments :=
                  if l.length > 3 then wcstol (l.drop 3) else s.expectedSegments }
  | LineKind.sd => { base with hasSD := true }
  | LineKind.tpf => { base with hasTPF := true }
  | LineKind.pm => { base with hasPM := true }
  | LineKind.start => { base with inSegment := true }
  | LineKind.stop => { base with inSegment := false, segmentCount := s.segmentCount + 1 }
  | _ => base

/-- The variables of the scan after the logical lines `ls`, from state `s`;
the diagnostic list is left as it is in `s`. -/
def runCtl : List (List Char) → VState → VState
  | [], s => s
  | l :: ls, s => runCtl ls (lineCtl s l)

/-- The diagnostics the validator reports for the logical lines `ls`, from state `s`. -/
def scanDiags : List (List Char) → VState → List ValidationError
  | [], _ => []
  | l :: ls, s => lineDiags s l ++ scanDiags ls (lineCtl s l)

/-- The diagnostics the validator reports after the scan, in state `s`. -/
def finalDiags (s : VState) : List ValidationError :=
  diagIf (!s.hasLPS) 0 "Missing LPS command" 2 ++
  diagIf (!s.hasSW) 0 "Missing SW command" 2 ++
  diagIf (!s.hasSH) 0 "Missing SH command" 2 ++
  diagIf (!s.hasSC) 0 "Missing SC command" 2 ++
  diagIf (!s.hasSD) 0 "Missing SD command" 2 ++
  diagIf (decide (s.expectedSegments ≠ s.segmentCount)) 0
    (expectedMessage s.expectedSegments s.segmentCount) 2 ++
  diagIf s.inSegment (s.lineNum - 1) "File ends with unclosed segment" 2

/-- The diagnostics `ValidateFile` reports for the text in `buffer`, in the
order in which it reports them: those of the scan, line after line, then those
of the checks that follow it. -/
def reported (buffer : List Char) : List ValidationError :=
  scanDiags (logicalLines buffer) VState.init ++
    finalDiags (runCtl (logicalLines buffer) VState.init)

/-- The fixed messages of `ValidateColorSyntax`. -/
def colorMessages : List String :=
  ["Invalid hex color specification",
   "Color specification must be exactly 6 hex characters",
   "Too many nested color specifications (maximum 255)",
   "Closing quote without opening backtick"]

/-- A diagnostic that `ValidateColorSyntax` can report for line `n`. -/
def IsColorDiag (n : Int) (d : ValidationError) : Prop :=
  d.lineNumber = n ∧ d.severity = 2 ∧
    (d.message ∈ colorMessages ∨
      ∃ k : Int, d.message = unclosedMessage k)

/-- The fixed messages of the scan of `ValidateFile`, those of the markup left out. -/
def lineMessages : List String :=
  ["Duplicate LPS command", "LPS must be positive", "Duplicate SW command", "SW must be positive",
   "Duplicate SH command", "SH must be positive", "Duplicate SC command", "SC must be positive",
   "Duplicate SD command", "SD cannot be negative", "CD cannot be negative",
   "Duplicate TPF command", "TPF (millis per frame) must be positive",
   "TPF below 16ms may cause performance issues", "Duplicate PM command",
   "PM (pixel movement per frame) must be positive", "PM above 20 pixels may scroll too fast",
   "START inside another segment", "END without START", "Text outside segment"]

/-- The renderer after loading the text `SC 5`, `START`, `hi`, `END`. -/
def loadedExample : MarqueeRenderer :=
  { InitRenderer with
    config := { InitRenderer.config with screenCount := 5 },
    segments := (InitRenderer.segments).set 0
      { lines := [{ texts := [{ text := "hi".toList, color := RGB 255 255 255 }] }] },
    segmentCount := 1 }

/-- The line made of the command `cmd`, a blank and the decimal numeral of `n`. -/
def commandLine (cmd : String) (n : Int) : List Char :=
  (cmd ++ " " ++ toString n).toList

/-- Whether a line has no unescaped backtick and no unescaped single quote; a
backslash escapes the character that follows it. -/
def plainLine : List Char → Bool
  | [] => true
  | [c] => decide (c ≠ '`' ∧ c ≠ '\'')
  | c :: d :: rest =>
    if c = '\\' then plainLine rest
    else decide (c ≠ '`' ∧ c ≠ '\'') && plainLine (d :: rest)

/-- The line with every escaping backslash removed and each escaped character
kept; a backslash that ends the line escapes nothing and is kept. -/
def unescape : List Char → List Char
  | [] => []
  | [c] => [c]
  | c :: d :: rest =>
    if c = '\\' then d :: unescape rest else c :: unescape (d :: rest)

/-- The text between a backtick and the nearest unescaped colon that follows it
before any unescaped quote or backtick; `none` when there is no such colon.
The argument is what follows the backtick in the line. -/
def colorSpecOf : List Char → Option (List Char)
  | [] => none
  | [c] => if c = ':' then some [] else none
  | c :: d :: rest =>
    if c = '\\' then (colorSpecOf rest).map (fun s => c :: d :: s)
    else if c = ':' then some []
    else if c = '\'' ∨ c = '`' then none
    else (colorSpecOf (d :: rest)).map (fun s => c :: s)

/-- Whether a text is exactly six hexadecimal digits. -/
def sixHex (spec : List Char) : Bool :=
  decide (spec.length = 6) && spec.all isHexChar

/-- The two messages of `ValidateColorSyntax` about a colour specification. -/
def specMessages : List String :=
  ["Invalid hex color specification", "Color specification must be exactly 6 hex characters"]

/-- The Error for the colour specification of the backtick that `rest` follows:
none when the backtick has no specification, or one that is empty or six
hexadecimal digits. -/
def specDiag (rest : List Char) (lineNum : Int) : List ValidationError :=
  match colorSpecOf rest with
  | some spec =>
    if spec = [] ∨ sixHex spec = true then []
    else if spec.length = 6 then [⟨lineNum, "Invalid hex color specification", 2⟩]
    else [⟨lineNum, "Color specification must be exactly 6 hex characters", 2⟩]
  | none => []

/-- The Errors for the colour specifications of the unescaped backticks of a
line, from left to right. -/
def specDiags : List Char → Int → List ValidationError
  | [], _ => []
  | [_], _ => []
  | c :: d :: rest, lineNum =>
    if c = '\\' then specDiags rest lineNum
    else (if c = '`' then specDiag (d :: rest) lineNum else []) ++ specDiags (d :: rest) lineNum

/-- The number of unescaped backticks of a line. -/
def tickCount : List Char → Nat
  | [] => 0
  | [c] => if c = '`' then 1 else 0
  | c :: d :: rest =>
    if c = '\\' then tickCount rest
    else (if c = '`' then 1 else 0) + tickCount (d :: rest)

/-- Whether a line has no unescaped single quote. -/
def noQuote : List Char → Bool
  | [] => true
  | [c] => decide (c ≠ '\'')
  | c :: d :: rest =>
    if c = '\\' then noQuote rest else decide (c ≠ '\'') && noQuote (d :: rest)

/-- The diagnostics `ValidateColorSyntax` hands over for a line, in the order
in which it reports them, whatever room the list has. -/
def markupDiags (line : List Char) (lineNum : Int) : List ValidationError :=
  ValidateColorSyntaxWith appendError line lineNum []

/-- The renderer after the ticks at the times `ticks`, one call of
`UpdateMarquee` for each. -/
def runTicks (measure : List Char → Int) : List Nat → MarqueeRenderer → MarqueeRenderer
  | [], r => r
  | now :: more, r => runTicks measure more (UpdateMarquee measure r now)

/-- Whether each tick of `ticks` comes at least `delay` after the one before
it, the first one after `last`, the difference being taken as `UpdateMarquee`
takes it. -/
def spaced (delay : Nat) : Nat → List Nat → Prop
  | _, [] => True
  | last, now :: more => dwordSub now last ≥ delay ∧ spaced delay now more

/-- The measure that gives every text the width 650. -/
def wide : List Char → Int := fun _ => 650

/-- The times of `n` ticks that follow one another at 50 ms, the first one 50 ms
after `t`. -/
def everyFifty : Nat → Nat → List Nat
  | 0, _ => []
  | n + 1, t => (t + 50) :: everyFifty n (t + 50)

/-- The measure that gives every character the width 10. -/
def narrow : List Char → Int := fun t => 10 * t.length

/-- The text with every line feed turned into carriage return, line feed. -/
def toCRLF : List Char → List Char
  | [] => []
  | c :: rest => if c = '\n' then '\r' :: '\n' :: toCRLF rest else c :: toCRLF rest

/-- The text without its carriage returns. -/
def dropCR (text : List Char) : List Char :=
  text.filter (fun c => c != '\r')

/-- What one read of `LoadLayoutFile` does, by the branch `kind` taken for the
line read: `buf` is the array `line` after the read, `line` the string in it. -/
def loadByKind (st : LoadState) (buf line : List Char) : LineKind → Option LoadState
  | LineKind.skip =>
    if st.inSegment ∧ st.currentSegment ≠ none ∧ line.head? ≠ some '/' then
      match st.currentSegment with
      | none => some { st with buf := buf }
      | some seg =>
        match appendLine st.renderer seg { texts := [] } with
        | none => none
        | some r1 => some { st with buf := buf, renderer := r1 }
    else some { st with buf := buf }
  | LineKind.lps =>
    some { st with buf := buf, renderer := { st.renderer with
      config := { st.renderer.config with linesPerScreen := _wtoi (cstr (buf.drop 4)) } } }
  | LineKind.sw =>
    some { st with buf := buf, renderer := { st.renderer with
      config := { st.renderer.config with screenWidth := _wtoi (cstr (buf.drop 3)) } } }
  | LineKind.sh =>
    some { st with buf := buf, renderer := { st.renderer with
      config := { st.renderer.config with screenHeight := _wtoi (cstr (buf.drop 3)) } } }
  | LineKind.sc =>
    some { st with buf := buf, renderer := { st.renderer with
      config := { st.renderer.config with screenCount := _wtoi (cstr (buf.drop 3)) } } }
  | LineKind.sd =>
    some { st with buf := buf, renderer := { st.renderer with
      config := { st.renderer.config with screenDelay := _wtoi (cstr (buf.drop 3)) } } }
  | LineKind.cd =>
    some { st with buf := buf, renderer := { st.renderer with
      config := { st.renderer.config with centerDelay := _wtoi (cstr (buf.drop 3)) } } }
  | LineKind.tpf =>
    if _wtoi (cstr (buf.drop 4)) > 0 then
      some { st with buf := buf, renderer := { st.renderer with
        config := { st.renderer.config with timePerFrame := _wtoi (cstr (buf.drop 4)) } } }
    else some { st with buf := buf }
  | LineKind.pm =>
    if _wtoi (cstr (buf.drop 3)) > 0 then
      some { st with buf := buf, renderer := { st.renderer with
        config := { st.renderer.config with pixelsPerFrame := _wtoi (cstr (buf.drop 3)) } } }
    else some { st with buf := buf }
  | LineKind.start =>
    if st.renderer.segmentCount.toNat < MAX_SEGMENTS ∧
        st.renderer.segmentCount.toNat < st.renderer.segments.length then
      some { st with buf := buf, inSegment := true,
                     currentSegment := some st.renderer.segmentCount.toNat,
                     renderer := { st.renderer with
                       segments := st.renderer.segments.set st.renderer.segmentCount.toNat
                         { lines := [] } } }
    else none
  | LineKind.stop =>
    some { st with buf := buf, inSegment := false, currentSegment := none,
                   renderer := { st.renderer with
                     segmentCount := st.renderer.segmentCount + 1 } }
  | LineKind.other =>
    if st.inSegment ∧ st.currentSegment ≠ none then
      match st.currentSegment with
      | none => some { st with buf := buf }
      | some seg =>
        if seg < MAX_SEGMENTS ∧ seg < st.renderer.segments.length ∧
            (st.renderer.segments.getD seg { lines := [] }).lines.length <
              MAX_LINES_PER_SEGMENT then
          match ParseColoredLine line with
          | none => none
          | some tl =>
            match appendLine st.renderer seg tl with
            | none => none
            | some r1 => some { st with buf := buf, renderer := r1 }
        else none
    else some { st with buf := buf }

/-- The invariant on the index of the current segment: when a document with
segments is loaded, `currentScreen` is the index of one of them. -/
def validScreen (r : MarqueeRenderer) : Prop :=
  0 < r.segmentCount → 0 ≤ r.currentScreen ∧ r.currentScreen < r.segmentCount

/-- The chunks of `n + 1` lines: the line `first`, then `n` times the line `l`. -/
def repeatLines (first l : List Char) (n : Nat) : List Char :=
  first ++ (List.replicate n l).flatten

/-- Whether the backticks (as openers) and the single quotes (as closers) of a
line form a balanced bracket sequence: no prefix has more quotes than
backticks, and the totals are equal. -/
def balancedMarks (l : List Char) : Bool :=
  (List.range (l.length + 1)).all
      (fun k => decide ((l.take k).count '\'' ≤ (l.take k).count '`')) &&
    decide (l.count '\'' = l.count '`')

/-- Whether the nesting depth of the backticks and quotes of a line, the number
of backticks of a prefix less the number of its quotes, never exceeds `d`. -/
def depthWithin (d : Nat) (l : List Char) : Bool :=
  (List.range (l.length + 1)).all
    (fun k => decide ((l.take k).count '`' - (l.take k).count '\'' ≤ d))

/-- Whether the marks of `l` close the `d` scopes open before it and all its
own, without closing a scope that is not open and without opening one when
`MAX_NESTING_DEPTH` scopes are open. -/
def marksOk : List Char → Nat → Bool
  | [], d => decide (d = 0)
  | c :: rest, d =>
    if c = '`' then decide (d < MAX_NESTING_DEPTH) && marksOk rest (d + 1)
    else if c = '\'' then decide (0 < d) && marksOk rest (d - 1)
    else marksOk rest d

/-- The state in which `ParseColoredLine` enters its loop: no run, an empty
accumulator, `colorDepth` 0 with white in `colorStack[0]`. -/
def parseInit : ParseState :=
  { texts := [], current := [], colorStack := [RGB 255 255 255],
    currentColor := RGB 255 255 255 }

/-- One pass of the loop of `ParseColoredLine` at the character `c`, `rest`
being what follows it: the number of characters the loop passes over next and
the state after the pass; `none` when the pass writes outside `texts` or
`current`. -/
def parseStep (c : Char) (rest : List Char) (st : ParseState) : Option (Nat × ParseState) :=
  if c = '\\' ∧ rest ≠ [] then
    match putChar st (rest.headD NUL) with
    | none => none
    | some st1 => some (1, st1)
  else if c = '`' then
    match flushRun st with
    | none => none
    | some st1 =>
      match findColon rest 1 with
      | some colonOff =>
        some (colonOff,
          if colonOff - 1 = 6 ∧ (rest.take 6).all isHexChar ∧
              st1.colorStack.length - 1 < MAX_NESTING_DEPTH - 1 then
            { st1 with currentColor := ParseHexColor (rest.take 6),
                       colorStack := ParseHexColor (rest.take 6) :: st1.colorStack }
          else st1)
      | none =>
        match putChar st1 c with
        | none => none
        | some st2 => some (0, st2)
  else if c = '\'' then
    match flushRun st with
    | none => none
    | some st1 =>
      match st1.colorStack with
      | _ :: below :: more =>
        some (0, { st1 with colorStack := below :: more, currentColor := below })
      | _ => some (0, { st1 with currentColor := RGB 255 255 255 })
  else
    match putChar st c with
    | none => none
    | some st1 => some (0, st1)

/-- The states the loop of `ParseColoredLine` goes through on `line`:
`Visits line rest skip st` says that the loop comes to the point where `rest`
is still to be read, `skip` characters of it are to be passed over, and the
variables are as in `st`. -/
inductive Visits (line : List Char) : List Char → Nat → ParseState → Prop where
  | start : Visits line line 0 parseInit
  | skip {c : Char} {rest : List Char} {k : Nat} {st : ParseState} :
      Visits line (c :: rest) (k + 1) st → Visits line rest k st
  | step {c : Char} {rest : List Char} {st st1 : ParseState} {k : Nat} :
      Visits line (c :: rest) 0 st → parseStep c rest st = some (k, st1) →
      Visits line rest k st1

/-! ## editor.c: the validator of the editor

editor.c has its own `AddValidationError`, `ValidateColorSyntax` and
`ValidateFile`.  Its `IsValidHexColor`, `PushBacktick`, `PopBacktick` and the
look-ahead loop of its `ValidateColorSyntax` are, statement for statement, those
of validate.c, and are embedded once. -/

/-- Embeds `MAX_ERRORS` of editor.c. -/
def Editor.MAX_ERRORS : Nat := 50

/-- Embeds `AddValidationError` of editor.c: append to `g_editor->errors` unless
`errorCount` reached `MAX_ERRORS`. -/
def Editor.AddValidationError : AddFn := fun errors lineNum message severity =>
  if errors.length < Editor.MAX_ERRORS then errors ++ [⟨lineNum, message, severity⟩] else errors

/-- The body of the main loop of `ValidateColorSyntax` of editor.c for the
unescaped character `c` at index `i`; `rest` is what follows it in the line. -/
def Editor.colorSyntaxCharWith (add : AddFn) (lineNum : Int) (c : Char) (rest : List Char)
    (i : Nat) (stack : BacktickStack) (errors : List ValidationError) :
    BacktickStack × List ValidationError :=
  if c = '`' then
    let look := findColonQuote rest (i + 1) none
    let colonPos := look.1
    let nextQuotePos := look.2
    let checked : Bool × List ValidationError :=
      match colonPos with
      | none => (false, errors)
      | some cp =>
        if nextQuotePos = none ∨ (∃ q, nextQuotePos = some q ∧ cp < q) then
          let paramLen := cp - i - 1
          if paramLen = 6 then
            if IsValidHexColor (rest.take 6) 6 then (true, errors)
            else (false, add errors lineNum "Invalid hex color specification" 2)
          else if paramLen > 0 then
            (false, add errors lineNum "Color specification must be exactly 6 hex characters" 2)
          else (false, errors)
        else (false, errors)
    let pushed := PushBacktick stack i checked.1
    if pushed.1 then (pushed.2, checked.2)
    else (pushed.2, add checked.2 lineNum "Too many nested color specifications (maximum 10)" 2)
  else if c = '\'' then
    let popped := PopBacktick stack
    if popped.1 then (popped.2, errors)
    else (popped.2, add errors lineNum "Closing quote without opening backtick" 2)
  else (stack, errors)

/-- The main loop of `ValidateColorSyntax` of editor.c from index `i` on. -/
def Editor.colorSyntaxLoopWith (add : AddFn) (lineNum : Int) : List Char → Nat → BacktickStack →
    List ValidationError → BacktickStack × List ValidationError
  | [], _, stack, errors => (stack, errors)
  | [c], i, stack, errors => Editor.colorSyntaxCharWith add lineNum c [] i stack errors
  | c :: d :: rest, i, stack, errors =>
    if c = '\\' then Editor.colorSyntaxLoopWith add lineNum rest (i + 2) stack errors
    else
      let r := Editor.colorSyntaxCharWith add lineNum c (d :: rest) i stack errors
      Editor.colorSyntaxLoopWith add lineNum (d :: rest) (i + 1) r.1 r.2

/-- Embeds `ValidateColorSyntax(line, lineNum)` of editor.c: the diagnostic list after
the call. -/
def Editor.ValidateColorSyntaxWith (add : AddFn) (line : List Char) (lineNum : Int)
    (errors : List ValidationError) : List ValidationError :=
  let r := Editor.colorSyntaxLoopWith add lineNum line 0 [] errors
  if r.1.length ≠ 0 then
    add r.2 lineNum (unclosedMessage r.1.length) 2
  else r.2

/-- The write `a[i] = c` on an array whose first `i` elements at least are known. -/
def writeAt (a : List Char) (i : Nat) (c : Char) : List Char :=
  a.take i ++ c :: a.drop (i + 1)

/-- The local variables of `ValidateFile` of editor.c together with the
diagnostic list.  `buf` is the content of the array `line[1024]`, which the
function never clears, and `linePos` the index of the next character. -/
structure Editor.VState where
  errors : List ValidationError
  buf : List Char
  linePos : Nat
  lineNum : Int
  segmentCount : Int
  hasLPS : Bool
  hasSW : Bool
  hasSH : Bool
  hasSC : Bool
  hasSD : Bool
  inSegment : Bool
  expectedSegments : Int
  hasTPF : Bool
  hasPM : Bool
  deriving DecidableEq, Repr

/-- The state at the start of the scan of editor.c (`ClearErrors`, `lineNum = 1`);
`stack` is what the array `line` holds on entry. -/
def Editor.VState.init (stack : List Char) : Editor.VState :=
  { errors := [], buf := stack, linePos := 0, lineNum := 1, segmentCount := 0,
    hasLPS := false, hasSW := false, hasSH := false, hasSC := false, hasSD := false,
    inSegment := false, expectedSegments := 0, hasTPF := false, hasPM := false }

/-- The classification of one non-empty, non-comment line in editor.c.  The
parameter of a command is read at `&line[4]` or `&line[3]` whatever the length
of the line. -/
def Editor.classifyLineWith (add : AddFn) (s : Editor.VState) : Editor.VState :=
  let line := cstr s.buf
  let arg := fun (k : Nat) => cstr (s.buf.drop k)
  let n := s.lineNum
  if startsWith line "LPS" then
    let e1 := addIf add s.hasLPS s.errors n "Duplicate LPS command" 2
    { s with errors := addIf add (decide (_wtoi (arg 4) ≤ 0)) e1 n "LPS must be positive" 2,
             hasLPS := true }
  else if startsWith line "SW" then
    let e1 := addIf add s.hasSW s.errors n "Duplicate SW command" 2
    { s with errors := addIf add (decide (_wtoi (arg 3) ≤ 0)) e1 n "SW must be positive" 2,
             hasSW := true }
  else if startsWith line "SH" then
    let e1 := addIf add s.hasSH s.errors n "Duplicate SH command" 2
    { s with errors := addIf add (decide (_wtoi (arg 3) ≤ 0)) e1 n "SH must be positive" 2,
             hasSH := true }
  else if startsWith line "SC" then
    let e1 := addIf add s.hasSC s.errors n "Duplicate SC command" 2
    let v := _wtoi (arg 3)
    { s with errors := addIf add (decide (v ≤ 0)) e1 n "SC must be positive" 2,
             hasSC := true, expectedSegments := v }
  else if startsWith line "SD" then
    let e1 := addIf add s.hasSD s.errors n "Duplicate SD command" 2
    { s with errors := addIf add (decide (_wtoi (arg 3) < 0)) e1 n "SD cannot be negative" 2,
             hasSD := true }
  else if startsWith line "CD" then
    { s with errors :=
        addIf add (decide (_wtoi (arg 3) < 0)) s.errors n "CD cannot be negative" 2 }
  else if startsWith line "TPF" then
    let e1 := addIf add s.hasTPF s.errors n "Duplicate TPF command" 1
    let v := _wtoi (arg 4)
    let e2 := addIf add (decide (v ≤ 0)) e1 n "TPF (millis per frame) must be positive" 2
    { s with errors := addIf add (decide (v < 16)) e2 n
               "TPF below 16ms may cause performance issues" 1,
             hasTPF := true }
  else if startsWith line "PM" then
    let e1 := addIf add s.hasPM s.errors n "Duplicate PM command" 1
    let v := _wtoi (arg 3)
    let e2 := addIf add (decide (v ≤ 0)) e1 n
      "PM (pixel movement per frame) must be positive" 2
    { s with errors := addIf add (decide (v > 20)) e2 n
               "PM above 20 pixels may scroll too fast" 1,
             hasPM := true }
  else if line = "START".toList then
    { s with errors := addIf add s.inSegment s.errors n "START inside another segment" 2,
             inSegment := true }
  else if line = "END".toList then
    { s with errors := addIf add (!s.inSegment) s.errors n "END without START" 2,
             inSegment := false, segmentCount := s.segmentCount + 1 }
  else if s.inSegment then
    { s with errors := Editor.ValidateColorSyntaxWith add line n s.errors }
  else
    { s with errors := add s.errors n "Text outside segment" 2 }

/-- What the scan of editor.c does when it meets `\n` or the end of the text:
the terminator is written at `line[linePos]`, the line is classified unless it
is empty or a comment, then `linePos` is reset and `lineNum` incremented. -/
def Editor.endOfLineWith (add : AddFn) (s : Editor.VState) : Editor.VState :=
  let s0 := { s with buf := writeAt s.buf s.linePos NUL }
  let s1 := if (cstr s0.buf).head? ≠ some '/' ∧ (cstr s0.buf).length > 0 then
      Editor.classifyLineWith add s0 else s0
  { s1 with linePos := 0, lineNum := s1.lineNum + 1 }

/-- The character loop of `ValidateFile` of editor.c over the text, ending with
the pass where `c` is the terminator. -/
def Editor.scanTextWith (add : AddFn) : List Char → Editor.VState → Editor.VState
  | [], s => Editor.endOfLineWith add s
  | c :: rest, s =>
    if c = '\r' then Editor.scanTextWith add rest s
    else if c = '\n' then Editor.scanTextWith add rest (Editor.endOfLineWith add s)
    else Editor.scanTextWith add rest
      (if s.linePos < 1023 then
        { s with buf := writeAt s.buf s.linePos c, linePos := s.linePos + 1 } else s)

/-- The checks of `ValidateFile` of editor.c that follow the scan. -/
def Editor.finalChecksWith (add : AddFn) (s : Editor.VState) : List ValidationError :=
  let e1 := addIf add (!s.hasLPS) s.errors 0 "Missing LPS command" 2
  let e2 := addIf add (!s.hasSW) e1 0 "Missing SW command" 2
  let e3 := addIf add (!s.hasSH) e2 0 "Missing SH command" 2
  let e4 := addIf add (!s.hasSC) e3 0 "Missing SC command" 2
  let e5 := addIf add (!s.hasSD) e4 0 "Missing SD command" 2
  let e6 := addIf add (decide (s.expectedSegments ≠ s.segmentCount)) e5 0
    (expectedMessage s.expectedSegments s.segmentCount) 2
  addIf add s.inSegment e6 (s.lineNum - 1) "File ends with unclosed segment" 2

/-- The body of `ValidateFile` of editor.c once the text of the edit control is
in `buffer`: scan, then checks. -/
def Editor.ValidateFileWith (add : AddFn) (stack buffer : List Char) : List ValidationError :=
  Editor.finalChecksWith add (Editor.scanTextWith add (cstr buffer) (Editor.VState.init stack))

/-- Embeds `ValidateFile` of editor.c on the text `buffer` of the edit control: the
diagnostic list `g_editor->errors[0 .. errorCount)` it leaves.  `stack` is what
the local array `line` holds on entry. -/
def Editor.ValidateFile (stack buffer : List Char) : List ValidationError :=
  Editor.ValidateFileWith Editor.AddValidationError stack buffer

/-- The text `NewFile` of editor.c puts in the edit control. -/
def Editor.template : List Char :=
  ("// Created with Marquee Layout Editor\r\n" ++
   "\r\n" ++
   "LPS 2\r\n" ++
   "//         Number of lines per screenfull\r\n" ++
   "\r\n" ++
   "SW  600\r\n" ++
   "//         Screen width, px\r\n" ++
   "SH  40\r\n" ++
   "//         Screen height, px\r\n" ++
   "\r\n" ++
   "SC  1\r\n" ++
   "//         Count of screens\r\n" ++
   "SD  500\r\n" ++
   "//         Delay after marquee stop scrolling to move to next screen (ms)\r\n" ++
   "CD  1500\r\n" ++
   "//         Delay after non-scrolling screen is displayed before moving to the next scene. (ms)\r\n" ++
   "TPF 50\r\n" ++
   "//         OPTIONAL, millis per frame\r\n" ++
   "PM  3\r\n" ++
   "//         OPTIONAL, pixel movement per frame\r\n" ++
   "\r\n" ++
   "//         Screen template\r\n" ++
   "START\r\n" ++ "`00FF00:Hello, `FF0000:world'!'\r\n" ++ "END\r\n").toList

/-- The wording of editor.c for a message of validate.c: the two programs differ
in the message for a backtick that finds the stack full. -/
def editorMessage (m : String) : String :=
  if m = "Too many nested color specifications (maximum 255)" then
    "Too many nested color specifications (maximum 10)"
  else m

/-- A diagnostic of validate.c in the wording of editor.c. -/
def editorWording (d : ValidationError) : ValidationError :=
  { d with message := editorMessage d.message }

/-- The recorder `add` when it is handed the wording of editor.c. -/
def renAdd (add : AddFn) : AddFn := fun errors lineNum message severity =>
  add errors lineNum (editorMessage message) severity

/-- Whether a logical line that is a command carries a parameter: it is longer
than the command and one character more (4 characters for `LPS` and `TPF`, 3
for the others). -/
def paramOK (l : List Char) : Bool :=
  match lineKind l with
  | LineKind.lps => decide (l.length > 4)
  | LineKind.tpf => decide (l.length > 4)
  | LineKind.sw => decide (l.length > 3)
  | LineKind.sh => decide (l.length > 3)
  | LineKind.sc => decide (l.length > 3)
  | LineKind.sd => decide (l.length > 3)
  | LineKind.cd => decide (l.length > 3)
  | LineKind.pm => decide (l.length > 3)
  | _ => true

/-- The variables of the scan of editor.c seen as those of validate.c: the line
collected so far is `line[0 .. linePos)`. -/
def Editor.VState.toV (s : Editor.VState) : Marquee.VState :=
  { errors := s.errors, line := s.buf.take s.linePos, lineNum := s.lineNum,
    segmentCount := s.segmentCount, hasLPS := s.hasLPS, hasSW := s.hasSW, hasSH := s.hasSH,
    hasSC := s.hasSC, hasSD := s.hasSD, inSegment := s.inSegment,
    expectedSegments := s.expectedSegments, hasTPF := s.hasTPF, hasPM := s.hasPM }

/-- What a list bounded by `MAX_ERRORS` of editor.c keeps of the diagnostics `ds`
handed to it one after the other, in the wording of editor.c. -/
def editorMany (errors ds : List ValidationError) : List ValidationError :=
  errors ++ (ds.map editorWording).take (Editor.MAX_ERRORS - errors.length)

/-- The text made of the line `START` and a line of 256 backticks. -/
def deepText : List Char :=
  "START\n".toList ++ List.replicate 256 '`'

/-- Whether a logical line that is one of the commands `LPS`, `SW`, `SH`, `SC`,
`SD`, `CD` carries a parameter: it is longer than the command and one character
more. -/
def configParamOK (l : List Char) : Bool :=
  match lineKind l with
  | LineKind.lps => decide (l.length > 4)
  | LineKind.sw => decide (l.length > 3)
  | LineKind.sh => decide (l.length > 3)
  | LineKind.sc => decide (l.length > 3)
  | LineKind.sd => decide (l.length > 3)
  | LineKind.cd => decide (l.length > 3)
  | _ => true

/-- The constraints of a layout configuration. -/
def validConfig (c : MarqueeConfig) : Prop :=
  0 < c.linesPerScreen ∧ 0 < c.screenWidth ∧ 0 < c.screenHeight ∧ 0 < c.screenCount ∧
    0 ≤ c.screenDelay ∧ 0 ≤ c.centerDelay

/-- The state in which `LoadLayoutFile` enters its loop of reads. -/
def loadInit (renderer : MarqueeRenderer) (stack : List Char) : LoadState :=
  { renderer := { renderer with segmentCount := 0 }, buf := stack, inSegment := false,
    currentSegment := none }

/-- A text of 1000 lines `PM 21` followed by the line `LPS 0`. -/
def capText : List Char :=
  repeatLines [] "PM 21\n".toList 1000 ++ "LPS 0\n".toList

/-- A valid text followed by a comment of 999 characters that goes on, in the
same line, with `LPS 0`. -/
def longText : List Char :=
  "LPS 2\nSW 600\nSH 40\nSC 1\nSD 0\nSTART\nEND\n".toList ++
    ('/' :: List.replicate 998 'x' ++ "LPS 0\n".toList)

/-! ## The recorder: what a run hands over and what the list keeps -/

theorem addMany_nil (e : List ValidationError) : addMany e [] = e := by
  simp [addMany]

theorem addMany_append (e a b : List ValidationError) :
    addMany (addMany e a) b = addMany e (a ++ b) := by
  unfold addMany
  rw [List.append_assoc, List.take_append_eq_append_take]
  congr 2
  simp only [List.length_append, List.length_take]
  congr 1
  omega

theorem recorder_capped : Recorder AddValidationError addMany where
  add_eq := by
    intro e n m s
    unfold AddValidationError addMany
    by_cases h : e.length < MAX_ERRORS
    · have : MAX_ERRORS - e.length = (MAX_ERRORS - e.length - 1) + 1 := by omega
      rw [if_pos h, this]; simp
    · have : MAX_ERRORS - e.length = 0 := by omega
      rw [if_neg h, this]; simp
  grow_nil := addMany_nil
  grow_append := addMany_append

theorem recorder_append : Recorder appendError (fun e ds => e ++ ds) where
  add_eq := by intro e n m s; rfl
  grow_nil := by intro e; simp
  grow_append := by intro e a b; simp

theorem addIf_grow {add grow} (R : Recorder add grow) (c : Bool) (e : List ValidationError)
    (n : Int) (m : String) (s : Nat) :
    addIf add c e n m s = grow e (if c then [⟨n, m, s⟩] else []) := by
  cases c <;> simp [addIf, R.add_eq, R.grow_nil]

theorem colorSyntaxChar_grow {add grow} (R : Recorder add grow) (n : Int) (c : Char)
    (rest : List Char) (i : Nat) (st : BacktickStack) (e : List ValidationError) :
    colorSyntaxCharWith add n c rest i st e =
      ((colorSyntaxCharWith appendError n c rest i st []).1,
        grow e (colorSyntaxCharWith appendError n c rest i st []).2) := by
  unfold colorSyntaxCharWith PushBacktick PopBacktick
  generalize findColonQuote rest (i + 1) none = look
  rcases look with ⟨cp, q⟩
  by_cases hc : c = '`'
  · simp only [hc, if_true]
    by_cases hd : st.length ≥ MAX_NESTING_DEPTH
    · rcases cp with _ | cp
      · simp [hd, R.add_eq, appendError]
      · by_cases h1 : q = none ∨ ∃ q', q = some q' ∧ cp < q'
        · by_cases h2 : cp - i - 1 = 6
          · by_cases h3 : IsValidHexColor (List.take 6 rest) 6 = true
            · simp [hd, h1, h2, h3, R.add_eq, appendError]
            · simp [hd, h1, h2, h3, R.add_eq, R.grow_append, appendError]
          · by_cases h3 : cp - i - 1 > 0
            · simp [hd, h1, h2, h3, R.add_eq, R.grow_append, appendError]
            · simp [hd, h1, h2, h3, R.add_eq, appendError]
        · simp [hd, h1, R.add_eq, appendError]
    · rcases cp with _ | cp
      · simp [hd, R.grow_nil]
      · by_cases h1 : q = none ∨ ∃ q', q = some q' ∧ cp < q'
        · by_cases h2 : cp - i - 1 = 6
          · by_cases h3 : IsValidHexColor (List.take 6 rest) 6 = true
            · simp [hd, h1, h2, h3, R.grow_nil]
            · simp [hd, h1, h2, h3, R.add_eq, appendError]
          · by_cases h3 : cp - i - 1 > 0
            · simp [hd, h1, h2, h3, R.add_eq, appendError]
            · simp [hd, h1, h2, h3, R.grow_nil]
        · simp [hd, h1, R.grow_nil]
  · simp only [hc, if_false]
    by_cases hq : c = '\''
    · rcases st with _ | ⟨t, st⟩ <;> simp [hq, R.add_eq, R.grow_nil, appendError]
    · simp [hq, R.grow_nil]

theorem colorSyntaxLoop_grow {add grow} (R : Recorder add grow) (n : Int) :
    ∀ (l : List Char) (i : Nat) (st : BacktickStack) (e : List ValidationError),
    colorSyntaxLoopWith add n l i st e =
      ((colorSyntaxLoopWith appendError n l i st []).1,
        grow e (colorSyntaxLoopWith appendError n l i st []).2)
  | [], i, st, e => by simp [colorSyntaxLoopWith, R.grow_nil]
  | [c], i, st, e => by
    simp only [colorSyntaxLoopWith]
    exact colorSyntaxChar_grow R n c [] i st e
  | c :: d :: rest, i, st, e => by
    simp only [colorSyntaxLoopWith]
    by_cases hc : c = '\\'
    · simp only [hc, if_true]
      exact colorSyntaxLoop_grow R n rest (i + 2) st e
    · simp only [hc, if_false]
      rw [colorSyntaxChar_grow R n c (d :: rest) i st e]
      rw [colorSyntaxLoop_grow R n (d :: rest) (i + 1) _ (grow e _)]
      rw [colorSyntaxLoop_grow recorder_append n (d :: rest) (i + 1) _
        (colorSyntaxCharWith appendError n c (d :: rest) i st []).2]
      simp [R.grow_append]

theorem ValidateColorSyntax_grow {add grow} (R : Recorder add grow) (l : List Char) (n : Int)
    (e : List ValidationError) :
    ValidateColorSyntaxWith add l n e = grow e (ValidateColorSyntaxWith appendError l n []) := by
  unfold ValidateColorSyntaxWith
  rw [colorSyntaxLoop_grow R n l 0 [] e]
  by_cases h : (colorSyntaxLoopWith appendError n l 0 [] []).1.length ≠ 0
  · rw [if_pos h, if_pos h]
    simp [R.add_eq, R.grow_append, appendError]
  · rw [if_neg h, if_neg h]


/-! ## The scan, line by line -/

theorem lineKind_cases (l : List Char) :
    (¬ (l.head? ≠ some '/' ∧ l.length > 0) ∧ lineKind l = LineKind.skip) ∨
    ((l.head? ≠ some '/' ∧ l.length > 0) ∧ startsWith l "LPS" = true ∧ lineKind l = LineKind.lps) ∨
    ((l.head? ≠ some '/' ∧ l.length > 0) ∧ ¬ startsWith l "LPS" = true ∧ startsWith l "SW" = true ∧ lineKind l = LineKind.sw) ∨
    ((l.head? ≠ some '/' ∧ l.length > 0) ∧ ¬ startsWith l "LPS" = true ∧ ¬ startsWith l "SW" = true ∧ startsWith l "SH" = true ∧ lineKind l = LineKind.sh) ∨
    ((l.head? ≠ some '/' ∧ l.length > 0) ∧ ¬ startsWith l "LPS" = true ∧ ¬ startsWith l "SW" = true ∧ ¬ startsWith l "SH" = true ∧ startsWith l "SC" = true ∧ lineKind l = LineKind.sc) ∨
    ((l.head? ≠ some '/' ∧ l.length > 0) ∧ ¬ startsWith l "LPS" = true ∧ ¬ startsWith l "SW" = true ∧ ¬ startsWith l "SH" = true ∧ ¬ startsWith l "SC" = true ∧ startsWith l "SD" = true ∧ lineKind l = LineKind.sd) ∨
    ((l.head? ≠ some '/' ∧ l.length > 0) ∧ ¬ startsWith l "LPS" = true ∧ ¬ startsWith l "SW" = true ∧ ¬ startsWith l "SH" = true ∧ ¬ startsWith l "SC" = true ∧ ¬ startsWith l "SD" = true ∧ startsWith l "CD" = true ∧ lineKind l = LineKind.cd) ∨
    ((l.head? ≠ some '/' ∧ l.length > 0) ∧ ¬ startsWith l "LPS" = true ∧ ¬ startsWith l "SW" = true ∧ ¬ startsWith l "SH" = true ∧ ¬ startsWith l "SC" = true ∧ ¬ startsWith l "SD" = true ∧ ¬ startsWith l "CD" = true ∧ startsWith l "TPF" = true ∧ lineKind l = LineKind.tpf) ∨
    ((l.head? ≠ some '/' ∧ l.length > 0) ∧ ¬ startsWith l "LPS" = true ∧ ¬ startsWith l "SW" = true ∧ ¬ startsWith l "SH" = true ∧ ¬ startsWith l "SC" = true ∧ ¬ startsWith l "SD" = true ∧ ¬ startsWith l "CD" = true ∧ ¬ startsWith l "TPF" = true ∧ startsWith l "PM" = true ∧ lineKind l = LineKind.pm) ∨
    ((l.head? ≠ some '/' ∧ l.length > 0) ∧ ¬ startsWith l "LPS" = true ∧ ¬ startsWith l "SW" = true ∧ ¬ startsWith l "SH" = true ∧ ¬ startsWith l "SC" = true ∧ ¬ startsWith l "SD" = true ∧ ¬ startsWith l "CD" = true ∧ ¬ startsWith l "TPF" = true ∧ ¬ startsWith l "PM" = true ∧ l = "START".toList ∧ lineKind l = LineKind.start) ∨
    ((l.head? ≠ some '/' ∧ l.length > 0) ∧ ¬ startsWith l "LPS" = true ∧ ¬ startsWith l "SW" = true ∧ ¬ startsWith l "SH" = true ∧ ¬ startsWith l "SC" = true ∧ ¬ startsWith l "SD" = true ∧ ¬ startsWith l "CD" = true ∧ ¬ startsWith l "TPF" = true ∧ ¬ startsWith l "PM" = true ∧ ¬ l = "START".toList ∧ l = "END".toList ∧ lineKind l = LineKind.stop) ∨
    ((l.head? ≠ some '/' ∧ l.length > 0) ∧ ¬ startsWith l "LPS" = true ∧ ¬ startsWith l "SW" = true ∧ ¬ startsWith l "SH" = true ∧ ¬ startsWith l "SC" = true ∧ ¬ startsWith l "SD" = true ∧ ¬ startsWith l "CD" = true ∧ ¬ startsWith l "TPF" = true ∧ ¬ startsWith l "PM" = true ∧ ¬ l = "START".toList ∧ ¬ l = "END".toList ∧ lineKind l = LineKind.other) := by
  unfold lineKind
  by_cases h0 : (l.head? ≠ some '/' ∧ l.length > 0)
  · rw [if_neg (not_not.mpr h0)]
    by_cases h1 : startsWith l "LPS" = true
    · rw [if_pos h1]
      exact Or.inr (Or.inl ⟨h0, h1, rfl⟩)
    · rw [if_neg h1]
      by_cases h2 : startsWith l "SW" = true
      · rw [if_pos h2]
        exact Or.inr (Or.inr (Or.inl ⟨h0, h1, h2, rfl⟩))
      · rw [if_neg h2]
        by_cases h3 : startsWith l "SH" = true
        · rw [if_pos h3]
          exact Or.inr (Or.inr (Or.inr (Or.inl ⟨h0, h1, h2, h3, rfl⟩)))
        · rw [if_neg h3]
          by_cases h4 : startsWith l "SC" = true
          · rw [if_pos h4]
            exact Or.inr (Or.inr (Or.inr (Or.inr (Or.inl ⟨h0, h1, h2, h3, h4, rfl⟩))))
          · rw [if_neg h4]
            by_cases h5 : startsWith l "SD" = true
            · rw [if_pos h5]
              exact Or.inr (Or.inr (Or.inr (Or.inr (Or.inr (Or.inl ⟨h0, h1, h2, h3, h4, h5, rfl⟩)))))
            · rw [if_neg h5]
              by_cases h6 : startsWith l "CD" = true
              · rw [if_pos h6]
                exact Or.inr (Or.inr (Or.inr (Or.inr (Or.inr (Or.inr (Or.inl ⟨h0, h1, h2, h3, h4, h5, h6, rfl⟩))))))
              · rw [if_neg h6]
                by_cases h7 : startsWith l "TPF" = true
                · rw [if_pos h7]
                  exact Or.inr (Or.inr (Or.inr (Or.inr (Or.inr (Or.inr (Or.inr (Or.inl ⟨h0, h1, h2, h3, h4, h5, h6, h7, rfl⟩)))))))
                · rw [if_neg h7]
                  by_cases h8 : startsWith l "PM" = true
                  · rw [if_pos h8]
                    exact Or.inr (Or.inr (Or.inr (Or.inr (Or.inr (Or.inr (Or.inr (Or.inr (Or.inl ⟨h0, h1, h2, h3, h4, h5, h6, h7, h8, rfl⟩))))))))
                  · rw [if_neg h8]
                    by_cases h9 : l = "START".toList
                    · rw [if_pos h9]
                      exact Or.inr (Or.inr (Or.inr (Or.inr (Or.inr (Or.inr (Or.inr (Or.inr (Or.inr (Or.inl ⟨h0, h1, h2, h3, h4, h5, h6, h7, h8, h9, rfl⟩)))))))))
                    · rw [if_neg h9]
                      by_cases h10 : l = "END".toList
                      · rw [if_pos h10]
                        exact Or.inr (Or.inr (Or.inr (Or.inr (Or.inr (Or.inr (Or.inr (Or.inr (Or.inr (Or.inr (Or.inl ⟨h0, h1, h2, h3, h4, h5, h6, h7, h8, h9, h10, rfl⟩))))))))))
                      · rw [if_neg h10]
                        exact Or.inr (Or.inr (Or.inr (Or.inr (Or.inr (Or.inr (Or.inr (Or.inr (Or.inr (Or.inr (Or.inr ⟨h0, h1, h2, h3, h4, h5, h6, h7, h8, h9, h10, rfl⟩))))))))))
  · rw [if_pos h0]
    exact Or.inl ⟨h0, rfl⟩

/-- The end of a logical line: the variables of the scan change as `lineCtl` says
and the diagnostics `lineDiags` are handed to the recorder. -/
theorem lineStep_eq {add grow} (R : Recorder add grow) (s : VState) (l : List Char) :
    lineStepWith add s l = { lineCtl s l with errors := grow s.errors (lineDiags s l) } := by
  rcases lineKind_cases l with ⟨h0, hk⟩ | ⟨h0, hp, hk⟩ |
    ⟨h0, h1, hp, hk⟩ |
    ⟨h0, h1, h2, hp, hk⟩ |
    ⟨h0, h1, h2, h3, hp, hk⟩ |
    ⟨h0, h1, h2, h3, h4, hp, hk⟩ |
    ⟨h0, h1, h2, h3, h4, h5, hp, hk⟩ |
    ⟨h0, h1, h2, h3, h4, h5, h6, hp, hk⟩ |
    ⟨h0, h1, h2, h3, h4, h5, h6, h7, hp, hk⟩ |
    ⟨h0, h1, h2, h3, h4, h5, h6, h7, h8, hp, hk⟩ |
    ⟨h0, h1, h2, h3, h4, h5, h6, h7, h8, h9, hp, hk⟩ |
    ⟨h0, h1, h2, h3, h4, h5, h6, h7, h8, h9, h10, hk⟩
  · unfold lineDiags lineCtl lineStepWith endOfLineWith
    simp only [hk]
    rw [if_neg h0]
    simp [R.grow_nil]
  · unfold lineDiags lineCtl lineStepWith endOfLineWith
    simp only [hk]
    rw [if_pos h0]
    unfold classifyLineWith
    simp only []
    rw [if_pos hp]
    by_cases hl : l.length > 4 <;> by_cases hv : wcstol (l.drop 4) ≤ 0 <;> cases hd : s.hasLPS <;>
      simp [addIf, R.add_eq, R.grow_nil, R.grow_append, diagIf, hl, hv]
  · unfold lineDiags lineCtl lineStepWith endOfLineWith
    simp only [hk]
    rw [if_pos h0]
    unfold classifyLineWith
    simp only []
    rw [if_neg h1, if_pos hp]
    by_cases hl : l.length > 3 <;> by_cases hv : wcstol (l.drop 3) ≤ 0 <;> cases hd : s.hasSW <;>
      simp [addIf, R.add_eq, R.grow_nil, R.grow_append, diagIf, hl, hv]
  · unfold lineDiags lineCtl lineStepWith endOfLineWith
    simp only [hk]
    rw [if_pos h0]
    unfold classifyLineWith
    simp only []
    rw [if_neg h1, if_neg h2, if_pos hp]
    by_cases hl : l.length > 3 <;> by_cases hv : wcstol (l.drop 3) ≤ 0 <;> cases hd : s.hasSH <;>
      simp [addIf, R.add_eq, R.grow_nil, R.grow_append, diagIf, hl, hv]
  · unfold lineDiags lineCtl lineStepWith endOfLineWith
    simp only [hk]
    rw [if_pos h0]
    unfold classifyLineWith
    simp only []
    rw [if_neg h1, if_neg h2, if_neg h3, if_pos hp]
    by_cases hl : l.length > 3 <;> by_cases hv : wcstol (l.drop 3) ≤ 0 <;> cases hd : s.hasSC <;>
      simp [addIf, R.add_eq, R.grow_nil, R.grow_append, diagIf, hl, hv]
  · unfold lineDiags lineCtl lineStepWith endOfLineWith
    simp only [hk]
    rw [if_pos h0]
    unfold classifyLineWith
    simp only []
    rw [if_neg h1, if_neg h2, if_neg h3, if_neg h4, if_pos hp]
    by_cases hl : l.length > 3 <;> by_cases hv : wcstol (l.drop 3) < 0 <;> cases hd : s.hasSD <;>
      simp [addIf, R.add_eq, R.grow_nil, R.grow_append, diagIf, hl, hv]
  · unfold lineDiags lineCtl lineStepWith endOfLineWith
    simp only [hk]
    rw [if_pos h0]
    unfold classifyLineWith
    simp only []
    rw [if_neg h1, if_neg h2, if_neg h3, if_neg h4, if_neg h5, if_pos hp]
    by_cases hl : l.length > 3 <;> by_cases hv : wcstol (l.drop 3) < 0 <;>
      simp [addIf, R.add_eq, R.grow_nil, R.grow_append, diagIf, hl, hv]
  · unfold lineDiags lineCtl lineStepWith endOfLineWith
    simp only [hk]
    rw [if_pos h0]
    unfold classifyLineWith
    simp only []
    rw [if_neg h1, if_neg h2, if_neg h3, if_neg h4, if_neg h5, if_neg h6, if_pos hp]
    by_cases hl : l.length > 4 <;> by_cases hv : wcstol (l.drop 4) ≤ 0 <;> by_cases hw : wcstol (l.drop 4) < 16 <;> cases hd : s.hasTPF <;>
      simp [addIf, R.add_eq, R.grow_nil, R.grow_append, diagIf, hl, hv, hw]
  · unfold lineDiags lineCtl lineStepWith endOfLineWith
    simp only [hk]
    rw [if_pos h0]
    unfold classifyLineWith
    simp only []
    rw [if_neg h1, if_neg h2, if_neg h3, if_neg h4, if_neg h5, if_neg h6, if_neg h7, if_pos hp]
    by_cases hl : l.length > 3 <;> by_cases hv : wcstol (l.drop 3) ≤ 0 <;> by_cases hw : wcstol (l.drop 3) > 20 <;> cases hd : s.hasPM <;>
      simp [addIf, R.add_eq, R.grow_nil, R.grow_append, diagIf, hl, hv, hw]
  · unfold lineDiags lineCtl lineStepWith endOfLineWith
    simp only [hk]
    rw [if_pos h0]
    unfold classifyLineWith
    simp only []
    rw [if_neg h1, if_neg h2, if_neg h3, if_neg h4, if_neg h5, if_neg h6, if_neg h7, if_neg h8, if_pos hp]
    cases hd : s.inSegment <;> simp [addIf, R.add_eq, R.grow_nil, diagIf]
  · unfold lineDiags lineCtl lineStepWith endOfLineWith
    simp only [hk]
    rw [if_pos h0]
    unfold classifyLineWith
    simp only []
    rw [if_neg h1, if_neg h2, if_neg h3, if_neg h4, if_neg h5, if_neg h6, if_neg h7, if_neg h8, if_neg h9, if_pos hp]
    cases hd : s.inSegment <;> simp [addIf, R.add_eq, R.grow_nil, diagIf]
  · unfold lineDiags lineCtl lineStepWith endOfLineWith
    simp only [hk]
    rw [if_pos h0]
    unfold classifyLineWith
    simp only []
    rw [if_neg h1, if_neg h2, if_neg h3, if_neg h4, if_neg h5, if_neg h6, if_neg h7, if_neg h8, if_neg h9, if_neg h10]
    cases hd : s.inSegment
    · simp [R.add_eq]
    · simp only [if_true, Bool.false_eq_true, if_false]
      rw [ValidateColorSyntax_grow R l s.lineNum s.errors]


theorem splitLines_ne_nil : ∀ (text cur : List Char), splitLines text cur ≠ []
  | [], cur => by simp [splitLines]
  | c :: rest, cur => by
    unfold splitLines
    split_ifs
    · exact splitLines_ne_nil rest cur
    · simp
    · exact splitLines_ne_nil rest _
    · exact splitLines_ne_nil rest _

theorem runLines_line (add : AddFn) (ls : List (List Char)) (s : VState) (x : List Char)
    (h : ls ≠ []) : runLinesWith add ls { s with line := x } = runLinesWith add ls s := by
  cases ls with
  | nil => exact absurd rfl h
  | cons l ls => rfl

theorem scanText_eq_runLines (add : AddFn) :
    ∀ (text : List Char) (s : VState),
    scanTextWith add text s = runLinesWith add (splitLines text s.line) s
  | [], s => by simp [scanTextWith, splitLines, runLinesWith, lineStepWith]
  | c :: rest, s => by
    unfold scanTextWith splitLines
    by_cases h1 : c = '\r'
    · simp only [h1, if_true]; exact scanText_eq_runLines add rest s
    · simp only [h1, if_false]
      by_cases h2 : c = '\n'
      · simp only [h2, if_true, runLinesWith]
        rw [scanText_eq_runLines add rest (endOfLineWith add s)]
        simp [endOfLineWith, lineStepWith]
      · simp only [h2, if_false]
        rw [scanText_eq_runLines add rest]
        by_cases h3 : s.line.length < 1023
        · simp only [h3, if_true]
          exact runLines_line add _ s _ (splitLines_ne_nil _ _)
        · simp only [h3, if_false]

theorem startsWith_take2 {l : List Char} {p : String} (h : startsWith l p = true)
    (h2 : 2 ≤ p.length) : l.take 2 = p.toList.take 2 := by
  unfold startsWith at h
  have h' : l.take p.length = p.toList := by simpa using h
  rw [← h', List.take_take, Nat.min_eq_left h2]

theorem startsWith_split {l : List Char} {p : String} (h : startsWith l p = true)
    (h2 : 2 ≤ p.length) : l = p.toList.take 2 ++ l.drop 2 := by
  rw [← startsWith_take2 h h2, List.take_append_drop]

theorem lineKind_of_LPS {l : List Char} (h : startsWith l "LPS" = true) :
    lineKind l = LineKind.lps := by
  have hs := startsWith_split h (by decide)
  have h2 : "LPS".toList.take 2 = ['L', 'P'] := by decide
  rw [h2] at hs
  generalize l.drop 2 = t at hs
  subst hs
  have h' : startsWith ('L' :: 'P' :: t) "LPS" = true := h
  simp [lineKind, h']

theorem lineKind_of_SW {l : List Char} (h : startsWith l "SW" = true) :
    lineKind l = LineKind.sw := by
  have hs := startsWith_split h (by decide)
  have h2 : "SW".toList.take 2 = ['S', 'W'] := by decide
  rw [h2] at hs
  generalize l.drop 2 = t at hs
  subst hs
  simp [lineKind, startsWith, String.length]

theorem lineKind_of_SH {l : List Char} (h : startsWith l "SH" = true) :
    lineKind l = LineKind.sh := by
  have hs := startsWith_split h (by decide)
  have h2 : "SH".toList.take 2 = ['S', 'H'] := by decide
  rw [h2] at hs
  generalize l.drop 2 = t at hs
  subst hs
  simp [lineKind, startsWith, String.length]

theorem lineKind_of_SC {l : List Char} (h : startsWith l "SC" = true) :
    lineKind l = LineKind.sc := by
  have hs := startsWith_split h (by decide)
  have h2 : "SC".toList.take 2 = ['S', 'C'] := by decide
  rw [h2] at hs
  generalize l.drop 2 = t at hs
  subst hs
  simp [lineKind, startsWith, String.length]

theorem lineKind_of_SD {l : List Char} (h : startsWith l "SD" = true) :
    lineKind l = LineKind.sd := by
  have hs := startsWith_split h (by decide)
  have h2 : "SD".toList.take 2 = ['S', 'D'] := by decide
  rw [h2] at hs
  generalize l.drop 2 = t at hs
  subst hs
  simp [lineKind, startsWith, String.length]

theorem lineKind_START : lineKind "START".toList = LineKind.start := by decide

theorem lineKind_END : lineKind "END".toList = LineKind.stop := by decide

/-- What the branch taken says about the line. -/
theorem lineKind_spec (l : List Char) :
    match lineKind l with
    | LineKind.skip => ¬ (l.head? ≠ some '/' ∧ l.length > 0)
    | LineKind.lps => (l.head? ≠ some '/' ∧ l.length > 0) ∧ startsWith l "LPS" = true
    | LineKind.sw => (l.head? ≠ some '/' ∧ l.length > 0) ∧ ¬ startsWith l "LPS" = true ∧ startsWith l "SW" = true
    | LineKind.sh => (l.head? ≠ some '/' ∧ l.length > 0) ∧ ¬ startsWith l "LPS" = true ∧ ¬ startsWith l "SW" = true ∧ startsWith l "SH" = true
    | LineKind.sc => (l.head? ≠ some '/' ∧ l.length > 0) ∧ ¬ startsWith l "LPS" = true ∧ ¬ startsWith l "SW" = true ∧ ¬ startsWith l "SH" = true ∧ startsWith l "SC" = true
    | LineKind.sd => (l.head? ≠ some '/' ∧ l.length > 0) ∧ ¬ startsWith l "LPS" = true ∧ ¬ startsWith l "SW" = true ∧ ¬ startsWith l "SH" = true ∧ ¬ startsWith l "SC" = true ∧ startsWith l "SD" = true
    | LineKind.cd => (l.head? ≠ some '/' ∧ l.length > 0) ∧ ¬ startsWith l "LPS" = true ∧ ¬ startsWith l "SW" = true ∧ ¬ startsWith l "SH" = true ∧ ¬ startsWith l "SC" = true ∧ ¬ startsWith l "SD" = true ∧ startsWith l "CD" = true
    | LineKind.tpf => (l.head? ≠ some '/' ∧ l.length > 0) ∧ ¬ startsWith l "LPS" = true ∧ ¬ startsWith l "SW" = true ∧ ¬ startsWith l "SH" = true ∧ ¬ startsWith l "SC" = true ∧ ¬ startsWith l "SD" = true ∧ ¬ startsWith l "CD" = true ∧ startsWith l "TPF" = true
    | LineKind.pm => (l.head? ≠ some '/' ∧ l.length > 0) ∧ ¬ startsWith l "LPS" = true ∧ ¬ startsWith l "SW" = true ∧ ¬ startsWith l "SH" = true ∧ ¬ startsWith l "SC" = true ∧ ¬ startsWith l "SD" = true ∧ ¬ startsWith l "CD" = true ∧ ¬ startsWith l "TPF" = true ∧ startsWith l "PM" = true
    | LineKind.start => (l.head? ≠ some '/' ∧ l.length > 0) ∧ ¬ startsWith l "LPS" = true ∧ ¬ startsWith l "SW" = true ∧ ¬ startsWith l "SH" = true ∧ ¬ startsWith l "SC" = true ∧ ¬ startsWith l "SD" = true ∧ ¬ startsWith l "CD" = true ∧ ¬ startsWith l "TPF" = true ∧ ¬ startsWith l "PM" = true ∧ l = "START".toList
    | LineKind.stop => (l.head? ≠ some '/' ∧ l.length > 0) ∧ ¬ startsWith l "LPS" = true ∧ ¬ startsWith l "SW" = true ∧ ¬ startsWith l "SH" = true ∧ ¬ startsWith l "SC" = true ∧ ¬ startsWith l "SD" = true ∧ ¬ startsWith l "CD" = true ∧ ¬ startsWith l "TPF" = true ∧ ¬ startsWith l "PM" = true ∧ ¬ l = "START".toList ∧ l = "END".toList
    | LineKind.other => (l.head? ≠ some '/' ∧ l.length > 0) ∧ ¬ startsWith l "LPS" = true ∧ ¬ startsWith l "SW" = true ∧ ¬ startsWith l "SH" = true ∧ ¬ startsWith l "SC" = true ∧ ¬ startsWith l "SD" = true ∧ ¬ startsWith l "CD" = true ∧ ¬ startsWith l "TPF" = true ∧ ¬ startsWith l "PM" = true ∧ ¬ l = "START".toList ∧ ¬ l = "END".toList := by
  rcases lineKind_cases l with
    ⟨h0, hk⟩ |
    ⟨h0, hp, hk⟩ |
    ⟨h0, h1, hp, hk⟩ |
    ⟨h0, h1, h2, hp, hk⟩ |
    ⟨h0, h1, h2, h3, hp, hk⟩ |
    ⟨h0, h1, h2, h3, h4, hp, hk⟩ |
    ⟨h0, h1, h2, h3, h4, h5, hp, hk⟩ |
    ⟨h0, h1, h2, h3, h4, h5, h6, hp, hk⟩ |
    ⟨h0, h1, h2, h3, h4, h5, h6, h7, hp, hk⟩ |
    ⟨h0, h1, h2, h3, h4, h5, h6, h7, h8, hp, hk⟩ |
    ⟨h0, h1, h2, h3, h4, h5, h6, h7, h8, h9, hp, hk⟩ |
    ⟨h0, h1, h2, h3, h4, h5, h6, h7, h8, h9, hp, hk⟩
  · rw [hk]; exact h0
  · rw [hk]; exact ⟨h0, hp⟩
  · rw [hk]; exact ⟨h0, h1, hp⟩
  · rw [hk]; exact ⟨h0, h1, h2, hp⟩
  · rw [hk]; exact ⟨h0, h1, h2, h3, hp⟩
  · rw [hk]; exact ⟨h0, h1, h2, h3, h4, hp⟩
  · rw [hk]; exact ⟨h0, h1, h2, h3, h4, h5, hp⟩
  · rw [hk]; exact ⟨h0, h1, h2, h3, h4, h5, h6, hp⟩
  · rw [hk]; exact ⟨h0, h1, h2, h3, h4, h5, h6, h7, hp⟩
  · rw [hk]; exact ⟨h0, h1, h2, h3, h4, h5, h6, h7, h8, hp⟩
  · rw [hk]; exact ⟨h0, h1, h2, h3, h4, h5, h6, h7, h8, h9, hp⟩
  · rw [hk]; exact ⟨h0, h1, h2, h3, h4, h5, h6, h7, h8, h9, hp⟩

theorem lineKind_start_iff (l : List Char) : lineKind l = LineKind.start ↔ l = "START".toList := by
  constructor
  · intro h
    have k := lineKind_spec l
    rw [h] at k
    exact k.2.2.2.2.2.2.2.2.2
  · intro h; rw [h]; exact lineKind_START

theorem lineKind_stop_iff (l : List Char) : lineKind l = LineKind.stop ↔ l = "END".toList := by
  constructor
  · intro h
    have k := lineKind_spec l
    rw [h] at k
    exact k.2.2.2.2.2.2.2.2.2.2
  · intro h; rw [h]; exact lineKind_END

theorem lineKind_sc_iff (l : List Char) : lineKind l = LineKind.sc ↔ startsWith l "SC" = true := by
  constructor
  · intro h
    have k := lineKind_spec l
    rw [h] at k
    exact k.2.2.2.2
  · exact lineKind_of_SC

theorem lineKind_other_of {l : List Char} (h0 : l ≠ []) (h1 : l.head? ≠ some '/')
    (hc : ∀ p ∈ ["LPS", "SW", "SH", "SC", "SD", "CD", "TPF", "PM"], startsWith l p = false)
    (hs : l ≠ "START".toList) (he : l ≠ "END".toList) : lineKind l = LineKind.other := by
  have g : l.head? ≠ some '/' ∧ l.length > 0 := ⟨h1, List.length_pos.mpr h0⟩
  have c1 : ¬ startsWith l "LPS" = true := by simp [hc "LPS" (by simp)]
  have c2 : ¬ startsWith l "SW" = true := by simp [hc "SW" (by simp)]
  have c3 : ¬ startsWith l "SH" = true := by simp [hc "SH" (by simp)]
  have c4 : ¬ startsWith l "SC" = true := by simp [hc "SC" (by simp)]
  have c5 : ¬ startsWith l "SD" = true := by simp [hc "SD" (by simp)]
  have c6 : ¬ startsWith l "CD" = true := by simp [hc "CD" (by simp)]
  have c7 : ¬ startsWith l "TPF" = true := by simp [hc "TPF" (by simp)]
  have c8 : ¬ startsWith l "PM" = true := by simp [hc "PM" (by simp)]
  unfold lineKind
  rw [if_neg (not_not.mpr g), if_neg c1, if_neg c2, if_neg c3, if_neg c4, if_neg c5, if_neg c6,
    if_neg c7, if_neg c8, if_neg hs, if_neg he]

/-! ### The variables of the scan -/

theorem runCtl_append (a b : List (List Char)) (s : VState) :
    runCtl (a ++ b) s = runCtl b (runCtl a s) := by
  induction a generalizing s with
  | nil => rfl
  | cons l a ih => exact ih _

theorem lineCtl_lineNum (s : VState) (l : List Char) : (lineCtl s l).lineNum = s.lineNum + 1 := by
  unfold lineCtl; cases lineKind l <;> rfl

theorem lineCtl_inSegment (s : VState) (l : List Char) :
    (lineCtl s l).inSegment = openAfter [l] s.inSegment := by
  unfold lineCtl openAfter openAfter
  by_cases h1 : l = "START".toList
  · rw [if_pos h1, (lineKind_start_iff l).mpr h1]
  · rw [if_neg h1]
    by_cases h2 : l = "END".toList
    · rw [if_pos h2, (lineKind_stop_iff l).mpr h2]
    · rw [if_neg h2]
      have k1 := mt (lineKind_start_iff l).mp h1
      have k2 := mt (lineKind_stop_iff l).mp h2
      revert k1 k2
      cases lineKind l <;> simp

theorem lineCtl_segmentCount (s : VState) (l : List Char) :
    (lineCtl s l).segmentCount = s.segmentCount + (if l = "END".toList then 1 else 0) := by
  unfold lineCtl
  by_cases h2 : l = "END".toList
  · rw [if_pos h2, (lineKind_stop_iff l).mpr h2]
  · rw [if_neg h2]
    have k2 := mt (lineKind_stop_iff l).mp h2
    revert k2
    cases lineKind l <;> simp

theorem lineCtl_expectedSegments (s : VState) (l : List Char) :
    (lineCtl s l).expectedSegments = declaredSC [l] s.expectedSegments := by
  unfold lineCtl declaredSC declaredSC
  by_cases h : startsWith l "SC" = true
  · rw [(lineKind_sc_iff l).mpr h]
    by_cases h3 : l.length > 3 <;> simp [h, h3]
  · have k := mt (lineKind_sc_iff l).mp h
    rw [if_neg (fun (c : startsWith l "SC" = true ∧ l.length > 3) => h c.1)]
    revert k
    cases lineKind l <;> simp

theorem openAfter_cons (l : List Char) (ls : List (List Char)) (o : Bool) :
    openAfter (l :: ls) o = openAfter ls (openAfter [l] o) := by
  simp only [openAfter]
  split_ifs <;> rfl

theorem declaredSC_cons (l : List Char) (ls : List (List Char)) (d : Int) :
    declaredSC (l :: ls) d = declaredSC ls (declaredSC [l] d) := by
  simp only [declaredSC]
  split_ifs <;> rfl

theorem runCtl_lineNum (ls : List (List Char)) (s : VState) :
    (runCtl ls s).lineNum = s.lineNum + ls.length := by
  induction ls generalizing s with
  | nil => simp [runCtl]
  | cons l ls ih => rw [runCtl, ih, lineCtl_lineNum]; simp; omega

theorem runCtl_inSegment (ls : List (List Char)) (s : VState) :
    (runCtl ls s).inSegment = openAfter ls s.inSegment := by
  induction ls generalizing s with
  | nil => rfl
  | cons l ls ih =>
    rw [runCtl, ih, lineCtl_inSegment, ← openAfter_cons]

theorem runCtl_segmentCount (ls : List (List Char)) (s : VState) :
    (runCtl ls s).segmentCount = s.segmentCount + ls.count "END".toList := by
  induction ls generalizing s with
  | nil => simp [runCtl]
  | cons l ls ih =>
    rw [runCtl, ih, lineCtl_segmentCount, List.count_cons]
    by_cases h : l = "END".toList
    · have h' : (l == "END".toList) = true := by simpa using h
      rw [if_pos h, if_pos h']; push_cast; omega
    · have h' : ¬ (l == "END".toList) = true := by simpa using h
      rw [if_neg h, if_neg h']; simp

theorem runCtl_expectedSegments (ls : List (List Char)) (s : VState) :
    (runCtl ls s).expectedSegments = declaredSC ls s.expectedSegments := by
  induction ls generalizing s with
  | nil => rfl
  | cons l ls ih =>
    rw [runCtl, ih, lineCtl_expectedSegments, ← declaredSC_cons]

theorem lineCtl_errors (s : VState) (l : List Char) : (lineCtl s l).errors = s.errors := by
  unfold lineCtl
  cases lineKind l <;> rfl

theorem lineCtl_setErrors (s : VState) (l : List Char) (e : List ValidationError) :
    lineCtl { s with errors := e } l = { lineCtl s l with errors := e } := by
  unfold lineCtl
  cases lineKind l <;> rfl

theorem lineDiags_setErrors (s : VState) (l : List Char) (e : List ValidationError) :
    lineDiags { s with errors := e } l = lineDiags s l := rfl

theorem runCtl_setErrors (ls : List (List Char)) (s : VState) (e : List ValidationError) :
    runCtl ls { s with errors := e } = { runCtl ls s with errors := e } := by
  induction ls generalizing s with
  | nil => rfl
  | cons l ls ih => rw [runCtl, runCtl, lineCtl_setErrors, ih]

theorem scanDiags_setErrors (ls : List (List Char)) (s : VState) (e : List ValidationError) :
    scanDiags ls { s with errors := e } = scanDiags ls s := by
  induction ls generalizing s with
  | nil => rfl
  | cons l ls ih => rw [scanDiags, scanDiags, lineCtl_setErrors, ih, lineDiags_setErrors]

/-- The scan over the logical lines `ls`: the variables change as `runCtl` says
and the diagnostics `scanDiags` are handed to the recorder. -/
theorem runLines_eq {add grow} (R : Recorder add grow) :
    ∀ (ls : List (List Char)) (s : VState),
    runLinesWith add ls s = { runCtl ls s with errors := grow s.errors (scanDiags ls s) }
  | [], s => by simp [runLinesWith, runCtl, scanDiags, R.grow_nil]
  | l :: ls, s => by
    rw [runLinesWith, lineStep_eq R s l, runLines_eq R ls, runCtl, scanDiags,
      runCtl_setErrors, scanDiags_setErrors]
    simp [R.grow_append]

theorem finalChecks_eq {add grow} (R : Recorder add grow) (s : VState) :
    finalChecksWith add s = grow s.errors (finalDiags s) := by
  unfold finalChecksWith finalDiags
  simp only [addIf_grow R, R.grow_append, List.append_assoc]
  rfl

theorem finalDiags_setErrors (s : VState) (e : List ValidationError) :
    finalDiags { s with errors := e } = finalDiags s := rfl

theorem ValidateFileWith_eq {add grow} (R : Recorder add grow) (buffer : List Char) :
    ValidateFileWith add buffer = grow [] (reported buffer) := by
  unfold ValidateFileWith reported logicalLines
  rw [scanText_eq_runLines, runLines_eq R, finalChecks_eq R, finalDiags_setErrors]
  simp [R.grow_append, VState.init]

/-- The list `ValidateFile` leaves is made of the first `MAX_ERRORS` diagnostics it reports. -/
theorem ValidateFile_eq_take (buffer : List Char) :
    ValidateFile buffer = (reported buffer).take MAX_ERRORS := by
  unfold ValidateFile
  rw [ValidateFileWith_eq recorder_capped]
  simp [addMany]

theorem ValidateFile_not_full (buffer : List Char) (h : (ValidateFile buffer).length < MAX_ERRORS) :
    ValidateFile buffer = reported buffer := by
  rw [ValidateFile_eq_take] at h ⊢
  apply List.take_of_length_le
  rw [List.length_take] at h
  omega

theorem scanResult_eq (buffer : List Char) :
    scanResult buffer =
      { runCtl (logicalLines buffer) VState.init with
        errors := addMany [] (scanDiags (logicalLines buffer) VState.init) } := by
  unfold scanResult logicalLines
  rw [scanText_eq_runLines, runLines_eq recorder_capped]
  rfl

theorem stateAfter_eq (buffer : List Char) (k : Nat) :
    stateAfter buffer k =
      { runCtl ((logicalLines buffer).take k) VState.init with
        errors := addMany [] (scanDiags ((logicalLines buffer).take k) VState.init) } := by
  unfold stateAfter
  rw [runLines_eq recorder_capped]
  rfl

/-! ### The diagnostics of the scan -/

theorem colorSyntaxChar_entries (n : Int) (c : Char) (rest : List Char) (i : Nat)
    (st : BacktickStack) :
    ∀ d ∈ (colorSyntaxCharWith appendError n c rest i st []).2, IsColorDiag n d := by
  unfold colorSyntaxCharWith PushBacktick PopBacktick
  generalize findColonQuote rest (i + 1) none = look
  rcases look with ⟨cp, q⟩
  by_cases hc : c = '`'
  · simp only [hc, if_true]
    by_cases hd : st.length ≥ MAX_NESTING_DEPTH
    · rcases cp with _ | cp
      · simp [hd, appendError, IsColorDiag, colorMessages]
      · by_cases h1 : q = none ∨ ∃ q', q = some q' ∧ cp < q'
        · by_cases h2 : cp - i - 1 = 6
          · by_cases h3 : IsValidHexColor (List.take 6 rest) 6 = true
            · simp [hd, h1, h2, h3, appendError, IsColorDiag, colorMessages]
            · simp [hd, h1, h2, h3, appendError, IsColorDiag, colorMessages]
          · by_cases h3 : cp - i - 1 > 0
            · simp [hd, h1, h2, h3, appendError, IsColorDiag, colorMessages]
            · simp [hd, h1, h2, h3, appendError, IsColorDiag, colorMessages]
        · simp [hd, h1, appendError, IsColorDiag, colorMessages]
    · rcases cp with _ | cp
      · simp [hd]
      · by_cases h1 : q = none ∨ ∃ q', q = some q' ∧ cp < q'
        · by_cases h2 : cp - i - 1 = 6
          · by_cases h3 : IsValidHexColor (List.take 6 rest) 6 = true
            · simp [hd, h1, h2, h3]
            · simp [hd, h1, h2, h3, appendError, IsColorDiag, colorMessages]
          · by_cases h3 : cp - i - 1 > 0
            · simp [hd, h1, h2, h3, appendError, IsColorDiag, colorMessages]
            · simp [hd, h1, h2, h3]
        · simp [hd, h1]
  · simp only [hc, if_false]
    by_cases hq : c = '\''
    · rcases st with _ | ⟨t, st⟩ <;> simp [hq, appendError, IsColorDiag, colorMessages]
    · simp [hq]

theorem colorSyntaxLoop_entries (n : Int) :
    ∀ (l : List Char) (i : Nat) (st : BacktickStack),
    ∀ d ∈ (colorSyntaxLoopWith appendError n l i st []).2, IsColorDiag n d
  | [], i, st => by simp [colorSyntaxLoopWith]
  | [c], i, st => by
    simp only [colorSyntaxLoopWith]
    exact colorSyntaxChar_entries n c [] i st
  | c :: d :: rest, i, st => by
    simp only [colorSyntaxLoopWith]
    by_cases hc : c = '\\'
    · simp only [hc, if_true]
      exact colorSyntaxLoop_entries n rest (i + 2) st
    · simp only [hc, if_false]
      rw [colorSyntaxLoop_grow recorder_append n (d :: rest) (i + 1) _
        (colorSyntaxCharWith appendError n c (d :: rest) i st []).2]
      intro x hx
      rcases List.mem_append.mp hx with h | h
      · exact colorSyntaxChar_entries n c (d :: rest) i st x h
      · exact colorSyntaxLoop_entries n (d :: rest) (i + 1) _ x h

theorem ValidateColorSyntax_entries (l : List Char) (n : Int) :
    ∀ d ∈ ValidateColorSyntaxWith appendError l n [], IsColorDiag n d := by
  unfold ValidateColorSyntaxWith
  by_cases h : (colorSyntaxLoopWith appendError n l 0 [] []).1.length ≠ 0
  · rw [if_pos h]
    simp only [appendError]
    intro x hx
    rcases List.mem_append.mp hx with h' | h'
    · exact colorSyntaxLoop_entries n l 0 [] x h'
    · rw [List.mem_singleton] at h'
      subst h'
      exact ⟨rfl, rfl, Or.inr ⟨_, rfl⟩⟩
  · rw [if_neg h]
    exact colorSyntaxLoop_entries n l 0 []

theorem mem_diagIf {c : Bool} {n : Int} {m : String} {sev : Nat} {d : ValidationError}
    (h : d ∈ diagIf c n m sev) : c = true ∧ d = ⟨n, m, sev⟩ := by
  unfold diagIf at h
  cases c <;> simp_all

theorem mem_diagIf_iff {c : Bool} {n : Int} {m : String} {sev : Nat} {d : ValidationError} :
    d ∈ diagIf c n m sev ↔ c = true ∧ d = ⟨n, m, sev⟩ := by
  unfold diagIf
  cases c <;> simp

/-- Every diagnostic of a line carries the number of the line and one of the
messages of the scan or of the markup. -/
theorem lineDiags_entries (s : VState) (l : List Char) :
    ∀ d ∈ lineDiags s l, d.lineNumber = s.lineNum ∧
      (d.message ∈ lineMessages ∨ IsColorDiag s.lineNum d) := by
  unfold lineDiags
  cases lineKind l
  case skip => simp
  case other =>
    by_cases h : s.inSegment = true
    · simp only [h, if_true]
      intro d hd
      have := ValidateColorSyntax_entries l s.lineNum d hd
      exact ⟨this.1, Or.inr this⟩
    · simp [h, lineMessages]
  case cd =>
    intro d hd
    obtain ⟨-, rfl⟩ := mem_diagIf hd; simp [lineMessages]
  case start =>
    intro d hd
    obtain ⟨-, rfl⟩ := mem_diagIf hd; simp [lineMessages]
  case stop =>
    intro d hd
    obtain ⟨-, rfl⟩ := mem_diagIf hd; simp [lineMessages]
  case lps =>
    intro d hd
    rcases List.mem_append.mp hd with hd | hd <;> (obtain ⟨-, rfl⟩ := mem_diagIf hd; simp [lineMessages])
  case sw =>
    intro d hd
    rcases List.mem_append.mp hd with hd | hd <;> (obtain ⟨-, rfl⟩ := mem_diagIf hd; simp [lineMessages])
  case sh =>
    intro d hd
    rcases List.mem_append.mp hd with hd | hd <;> (obtain ⟨-, rfl⟩ := mem_diagIf hd; simp [lineMessages])
  case sc =>
    intro d hd
    rcases List.mem_append.mp hd with hd | hd <;> (obtain ⟨-, rfl⟩ := mem_diagIf hd; simp [lineMessages])
  case sd =>
    intro d hd
    rcases List.mem_append.mp hd with hd | hd <;> (obtain ⟨-, rfl⟩ := mem_diagIf hd; simp [lineMessages])
  case tpf =>
    intro d hd
    rcases List.mem_append.mp hd with hd | hd
    · rcases List.mem_append.mp hd with hd | hd <;> (obtain ⟨-, rfl⟩ := mem_diagIf hd; simp [lineMessages])
    · obtain ⟨-, rfl⟩ := mem_diagIf hd; simp [lineMessages]
  case pm =>
    intro d hd
    rcases List.mem_append.mp hd with hd | hd
    · rcases List.mem_append.mp hd with hd | hd <;> (obtain ⟨-, rfl⟩ := mem_diagIf hd; simp [lineMessages])
    · obtain ⟨-, rfl⟩ := mem_diagIf hd; simp [lineMessages]

theorem lineDiags_lineNumber {s : VState} {l : List Char} {d : ValidationError}
    (h : d ∈ lineDiags s l) : d.lineNumber = s.lineNum :=
  (lineDiags_entries s l d h).1

theorem scanDiags_append (a b : List (List Char)) (s : VState) :
    scanDiags (a ++ b) s = scanDiags a s ++ scanDiags b (runCtl a s) := by
  induction a generalizing s with
  | nil => rfl
  | cons l a ih => simp [scanDiags, runCtl, ih]

theorem scanDiags_lineNumber (ls : List (List Char)) (s : VState) :
    ∀ d ∈ scanDiags ls s, s.lineNum ≤ d.lineNumber ∧ d.lineNumber < s.lineNum + ls.length := by
  induction ls generalizing s with
  | nil => simp [scanDiags]
  | cons l ls ih =>
    intro d hd
    rw [scanDiags] at hd
    rcases List.mem_append.mp hd with h | h
    · rw [lineDiags_lineNumber h]; constructor
      · exact le_refl _
      · simp only [List.length_cons]; push_cast; omega
    · have := ih _ d h
      rw [lineCtl_lineNum] at this
      simp only [List.length_cons]
      push_cast
      omega

theorem scanDiags_entries (ls : List (List Char)) (s : VState) :
    ∀ d ∈ scanDiags ls s, d.message ∈ lineMessages ∨ ∃ n, IsColorDiag n d := by
  induction ls generalizing s with
  | nil => simp [scanDiags]
  | cons l ls ih =>
    intro d hd
    rw [scanDiags] at hd
    rcases List.mem_append.mp hd with h | h
    · rcases (lineDiags_entries s l d h).2 with h1 | h1
      · exact Or.inl h1
      · exact Or.inr ⟨_, h1⟩
    · exact ih _ d h

theorem getElem?_split {α : Type} : ∀ {ls : List α} {k : Nat} {l : α},
    ls[k]? = some l → ls = ls.take k ++ l :: ls.drop (k + 1)
  | [], k, l, h => by simp at h
  | x :: xs, 0, l, h => by simp at h; simp [h]
  | x :: xs, k + 1, l, h => by
    simp at h
    have := getElem?_split h
    simp [← this]

/-- The diagnostics of the scan that carry the number of line `k` (from 0) are
those of that line. -/
theorem scanDiags_filter {ls : List (List Char)} {k : Nat} {l : List Char} (s : VState)
    (h : ls[k]? = some l) :
    (scanDiags ls s).filter (fun d => d.lineNumber = s.lineNum + k) =
      lineDiags (runCtl (ls.take k) s) l := by
  have hk : k < ls.length := by
    by_contra hc
    rw [List.getElem?_eq_none (by omega)] at h
    exact absurd h (by simp)
  have hlen : (ls.take k).length = k := by simp; omega
  conv_lhs => rw [getElem?_split h]
  rw [scanDiags_append, scanDiags, List.filter_append, List.filter_append]
  have h1 : (scanDiags (ls.take k) s).filter (fun d => d.lineNumber = s.lineNum + k) = [] := by
    rw [List.filter_eq_nil_iff]
    intro d hd
    have := scanDiags_lineNumber _ s d hd
    rw [hlen] at this
    simp; omega
  have h2 : (lineDiags (runCtl (ls.take k) s) l).filter (fun d => d.lineNumber = s.lineNum + k) =
      lineDiags (runCtl (ls.take k) s) l := by
    rw [List.filter_eq_self]
    intro d hd
    rw [lineDiags_lineNumber hd, runCtl_lineNum, hlen]
    simp
  have h3 : (scanDiags (ls.drop (k + 1)) (lineCtl (runCtl (ls.take k) s) l)).filter
      (fun d => d.lineNumber = s.lineNum + k) = [] := by
    rw [List.filter_eq_nil_iff]
    intro d hd
    have := scanDiags_lineNumber _ _ d hd
    rw [lineCtl_lineNum, runCtl_lineNum, hlen] at this
    simp; omega
  rw [h1, h2, h3]; simp

theorem scanDiags_mem {ls : List (List Char)} {k : Nat} {l : List Char} (s : VState)
    (h : ls[k]? = some l) {d : ValidationError} (hd : d ∈ lineDiags (runCtl (ls.take k) s) l) :
    d ∈ scanDiags ls s := by
  rw [getElem?_split h, scanDiags_append, scanDiags]
  simp [hd]

/-! ### Flags, line count -/

theorem lineKind_lps_iff (l : List Char) :
    lineKind l = LineKind.lps ↔ startsWith l "LPS" = true := by
  constructor
  · intro h
    have k := lineKind_spec l
    rw [h] at k
    exact k.2
  · exact lineKind_of_LPS

theorem lineCtl_hasLPS (s : VState) (l : List Char) :
    (lineCtl s l).hasLPS = (s.hasLPS || startsWith l "LPS") := by
  unfold lineCtl
  by_cases h : startsWith l "LPS" = true
  · rw [(lineKind_lps_iff l).mpr h, h]; simp
  · have k := mt (lineKind_lps_iff l).mp h
    have h' : startsWith l "LPS" = false := by simpa using h
    rw [h']
    revert k
    cases lineKind l <;> simp

theorem runCtl_hasLPS (ls : List (List Char)) (s : VState) :
    (runCtl ls s).hasLPS = (s.hasLPS || ls.any (fun l => startsWith l "LPS")) := by
  induction ls generalizing s with
  | nil => simp [runCtl]
  | cons l ls ih => rw [runCtl, ih, lineCtl_hasLPS]; simp [Bool.or_assoc]

theorem lineKind_sw_iff (l : List Char) :
    lineKind l = LineKind.sw ↔ startsWith l "SW" = true := by
  constructor
  · intro h
    have k := lineKind_spec l
    rw [h] at k
    exact k.2.2
  · exact lineKind_of_SW

theorem lineCtl_hasSW (s : VState) (l : List Char) :
    (lineCtl s l).hasSW = (s.hasSW || startsWith l "SW") := by
  unfold lineCtl
  by_cases h : startsWith l "SW" = true
  · rw [(lineKind_sw_iff l).mpr h, h]; simp
  · have k := mt (lineKind_sw_iff l).mp h
    have h' : startsWith l "SW" = false := by simpa using h
    rw [h']
    revert k
    cases lineKind l <;> simp

theorem runCtl_hasSW (ls : List (List Char)) (s : VState) :
    (runCtl ls s).hasSW = (s.hasSW || ls.any (fun l => startsWith l "SW")) := by
  induction ls generalizing s with
  | nil => simp [runCtl]
  | cons l ls ih => rw [runCtl, ih, lineCtl_hasSW]; simp [Bool.or_assoc]

theorem lineKind_sh_iff (l : List Char) :
    lineKind l = LineKind.sh ↔ startsWith l "SH" = true := by
  constructor
  · intro h
    have k := lineKind_spec l
    rw [h] at k
    exact k.2.2.2
  · exact lineKind_of_SH

theorem lineCtl_hasSH (s : VState) (l : List Char) :
    (lineCtl s l).hasSH = (s.hasSH || startsWith l "SH") := by
  unfold lineCtl
  by_cases h : startsWith l "SH" = true
  · rw [(lineKind_sh_iff l).mpr h, h]; simp
  · have k := mt (lineKind_sh_iff l).mp h
    have h' : startsWith l "SH" = false := by simpa using h
    rw [h']
    revert k
    cases lineKind l <;> simp

theorem runCtl_hasSH (ls : List (List Char)) (s : VState) :
    (runCtl ls s).hasSH = (s.hasSH || ls.any (fun l => startsWith l "SH")) := by
  induction ls generalizing s with
  | nil => simp [runCtl]
  | cons l ls ih => rw [runCtl, ih, lineCtl_hasSH]; simp [Bool.or_assoc]

theorem lineCtl_hasSC (s : VState) (l : List Char) :
    (lineCtl s l).hasSC = (s.hasSC || startsWith l "SC") := by
  unfold lineCtl
  by_cases h : startsWith l "SC" = true
  · rw [(lineKind_sc_iff l).mpr h, h]; simp
  · have k := mt (lineKind_sc_iff l).mp h
    have h' : startsWith l "SC" = false := by simpa using h
    rw [h']
    revert k
    cases lineKind l <;> simp

theorem runCtl_hasSC (ls : List (List Char)) (s : VState) :
    (runCtl ls s).hasSC = (s.hasSC || ls.any (fun l => startsWith l "SC")) := by
  induction ls generalizing s with
  | nil => simp [runCtl]
  | cons l ls ih => rw [runCtl, ih, lineCtl_hasSC]; simp [Bool.or_assoc]

theorem lineKind_sd_iff (l : List Char) :
    lineKind l = LineKind.sd ↔ startsWith l "SD" = true := by
  constructor
  · intro h
    have k := lineKind_spec l
    rw [h] at k
    exact k.2.2.2.2.2
  · exact lineKind_of_SD

theorem lineCtl_hasSD (s : VState) (l : List Char) :
    (lineCtl s l).hasSD = (s.hasSD || startsWith l "SD") := by
  unfold lineCtl
  by_cases h : startsWith l "SD" = true
  · rw [(lineKind_sd_iff l).mpr h, h]; simp
  · have k := mt (lineKind_sd_iff l).mp h
    have h' : startsWith l "SD" = false := by simpa using h
    rw [h']
    revert k
    cases lineKind l <;> simp

theorem runCtl_hasSD (ls : List (List Char)) (s : VState) :
    (runCtl ls s).hasSD = (s.hasSD || ls.any (fun l => startsWith l "SD")) := by
  induction ls generalizing s with
  | nil => simp [runCtl]
  | cons l ls ih => rw [runCtl, ih, lineCtl_hasSD]; simp [Bool.or_assoc]


theorem splitLines_length : ∀ (text cur : List Char),
    (splitLines text cur).length = text.count '\n' + 1
  | [], cur => by simp [splitLines]
  | c :: rest, cur => by
    unfold splitLines
    by_cases h1 : c = '\r'
    · rw [if_pos h1, splitLines_length rest cur, h1]
      simp [List.count_cons]
    · rw [if_neg h1]
      by_cases h2 : c = '\n'
      · rw [if_pos h2, h2]
        simp [List.count_cons, splitLines_length rest []]
      · rw [if_neg h2, splitLines_length rest _]
        have : ¬ (c == '\n') = true := by simpa using h2
        simp [List.count_cons, this]

theorem logicalLines_length (buffer : List Char) :
    (logicalLines buffer).length = (cstr buffer).count '\n' + 1 :=
  splitLines_length _ _

theorem init_lineNum : VState.init.lineNum = 1 := rfl

/-! ### A text that fills the list -/

theorem cstr_junk_append (n : Nat) (t : List Char) : cstr (junk n ++ t) = junk n ++ cstr t := by
  induction n with
  | zero => rfl
  | succ n ih =>
    have h1 : ('x' != NUL) = true := by decide
    have h2 : ('\n' != NUL) = true := by decide
    unfold cstr at ih ⊢
    simp only [junk, List.cons_append, List.takeWhile_cons, h1, h2, if_true, ih]

theorem splitLines_junk (n : Nat) (t : List Char) :
    splitLines (junk n ++ t) [] = List.replicate n ['x'] ++ splitLines t [] := by
  induction n with
  | zero => rfl
  | succ n ih =>
    have h1 : ¬ 'x' = '\r' := by decide
    have h2 : ¬ 'x' = '\n' := by decide
    have h3 : ¬ '\n' = '\r' := by decide
    simp only [junk, List.cons_append]
    rw [splitLines, if_neg h1, if_neg h2, splitLines, if_neg h3, if_pos rfl, ih]
    simp [List.replicate_succ]

theorem logicalLines_junk (n : Nat) (t : List Char) :
    logicalLines (junk n ++ t) = List.replicate n ['x'] ++ logicalLines t := by
  unfold logicalLines
  rw [cstr_junk_append, splitLines_junk]

theorem lineKind_x : lineKind ['x'] = LineKind.other := by decide

theorem scanDiags_junk (n : Nat) (s : VState) (h : s.inSegment = false) :
    scanDiags (List.replicate n ['x']) s = junkErrors n s.lineNum := by
  induction n generalizing s with
  | zero => rfl
  | succ n ih =>
    rw [List.replicate_succ, scanDiags, junkErrors, ih]
    · simp [lineDiags, lineKind_x, h, lineCtl]
    · simp [lineCtl, lineKind_x, h]

theorem junkErrors_length (n : Nat) (f : Int) : (junkErrors n f).length = n := by
  induction n generalizing f with
  | zero => rfl
  | succ n ih => simp [junkErrors, ih]

theorem junkErrors_entries (n : Nat) (f : Int) :
    ∀ d ∈ junkErrors n f, d.message = "Text outside segment" ∧ d.severity = 2 ∧
      f ≤ d.lineNumber ∧ d.lineNumber < f + n := by
  induction n generalizing f with
  | zero => simp [junkErrors]
  | succ n ih =>
    intro d hd
    rw [junkErrors] at hd
    rcases List.mem_cons.mp hd with h | h
    · subst h; simp
    · have := ih _ d h
      refine ⟨this.1, this.2.1, ?_, ?_⟩ <;> push_cast <;> omega

/-- After `MAX_ERRORS` stray lines the list is full: whatever follows them, the
validator leaves the diagnostics of these lines and nothing else. -/
theorem ValidateFile_junk (t : List Char) :
    ValidateFile (junk MAX_ERRORS ++ t) = junkErrors MAX_ERRORS 1 := by
  rw [ValidateFile_eq_take, reported, logicalLines_junk, scanDiags_append,
    scanDiags_junk _ _ rfl, List.append_assoc, List.take_append_eq_append_take,
    junkErrors_length]
  simp
  exact List.take_of_length_le (by rw [junkErrors_length])

/-! ### The checks after the scan -/

theorem expectedMessage_head (e f : Int) : (expectedMessage e f).data.head? = some 'E' := by
  unfold expectedMessage
  simp [String.data_append]

theorem unclosedMessage_head (k : Int) : (unclosedMessage k).data.head? = some 'U' := by
  unfold unclosedMessage
  simp [String.data_append]

theorem mem_finalDiags_iff (s : VState) (d : ValidationError) :
    d ∈ finalDiags s ↔
      (s.hasLPS = false ∧ d = ⟨0, "Missing LPS command", 2⟩) ∨
      (s.hasSW = false ∧ d = ⟨0, "Missing SW command", 2⟩) ∨
      (s.hasSH = false ∧ d = ⟨0, "Missing SH command", 2⟩) ∨
      (s.hasSC = false ∧ d = ⟨0, "Missing SC command", 2⟩) ∨
      (s.hasSD = false ∧ d = ⟨0, "Missing SD command", 2⟩) ∨
      (s.expectedSegments ≠ s.segmentCount ∧
        d = ⟨0, expectedMessage s.expectedSegments s.segmentCount, 2⟩) ∨
      (s.inSegment = true ∧ d = ⟨s.lineNum - 1, "File ends with unclosed segment", 2⟩) := by
  unfold finalDiags
  simp only [List.mem_append, mem_diagIf_iff, or_assoc]
  simp

theorem mem_reported_iff (buffer : List Char) (d : ValidationError) :
    d ∈ reported buffer ↔
      d ∈ scanDiags (logicalLines buffer) VState.init ∨
      d ∈ finalDiags (runCtl (logicalLines buffer) VState.init) := by
  unfold reported
  exact List.mem_append

theorem scanDiags_lineNumber_pos {buffer : List Char} {d : ValidationError}
    (h : d ∈ scanDiags (logicalLines buffer) VState.init) : 1 ≤ d.lineNumber :=
  (scanDiags_lineNumber _ _ d h).1

theorem scanResult_segmentCount (buffer : List Char) :
    (scanResult buffer).segmentCount = (runCtl (logicalLines buffer) VState.init).segmentCount := by
  rw [scanResult_eq]

theorem scanResult_expectedSegments (buffer : List Char) :
    (scanResult buffer).expectedSegments =
      (runCtl (logicalLines buffer) VState.init).expectedSegments := by
  rw [scanResult_eq]

theorem final_lineNum (buffer : List Char) :
    (runCtl (logicalLines buffer) VState.init).lineNum - 1 = ((logicalLines buffer).length : Int) := by
  rw [runCtl_lineNum, init_lineNum]; omega

theorem logicalLines_length_pos (buffer : List Char) : 0 < (logicalLines buffer).length := by
  rw [logicalLines_length]; omega

/-- C1 (amended). For every text in which no logical line begins with `SD`, the
list `ValidateFile` builds contains the entry with line number 0, severity 2 and
message `Missing SD command`, unless the list is full (it holds `MAX_ERRORS`
entries). -/
theorem C1_missing_SD (buffer : List Char)
    (h : ∀ l ∈ logicalLines buffer, startsWith l "SD" = false)
    (hfull : (ValidateFile buffer).length < MAX_ERRORS) :
    (⟨0, "Missing SD command", 2⟩ : ValidationError) ∈ ValidateFile buffer := by
  rw [ValidateFile_not_full buffer hfull, mem_reported_iff, mem_finalDiags_iff]
  right; right; right; right; right; left
  refine ⟨?_, rfl⟩
  rw [runCtl_hasSD]
  simp only [VState.init, Bool.false_or]
  rw [List.any_eq_false]
  intro l hl
  simp [h l hl]

theorem C1_missing_SD_witness :
    (∀ l ∈ logicalLines "LPS 2\nSW 600".toList, startsWith l "SD" = false) ∧
    (ValidateFile "LPS 2\nSW 600".toList).length < MAX_ERRORS ∧
    (⟨0, "Missing SD command", 2⟩ : ValidationError) ∈ ValidateFile "LPS 2\nSW 600".toList :=
  ⟨by decide, by decide, C1_missing_SD _ (by decide) (by decide)⟩

/-- C1 as stated fails: the text of 1000 stray lines `x` has no line that begins
with `SD`, and the list holds no `Missing SD command` entry (it is full). -/
theorem C1_counterexample :
    (∀ l ∈ logicalLines (junk 1000), startsWith l "SD" = false) ∧
    (⟨0, "Missing SD command", 2⟩ : ValidationError) ∉ ValidateFile (junk 1000) := by
  constructor
  · have h := logicalLines_junk 1000 []
    rw [List.append_nil] at h
    rw [h]
    intro l hl
    rcases List.mem_append.mp hl with h1 | h1
    · rw [List.eq_of_mem_replicate h1]; decide
    · have : logicalLines [] = [[]] := by decide
      rw [this] at h1
      simp at h1; subst h1; decide
  · have h := ValidateFile_junk []
    rw [List.append_nil] at h
    intro hm
    have hm' : (⟨0, "Missing SD command", 2⟩ : ValidationError) ∈ junkErrors MAX_ERRORS 1 := by
      rw [← h]; exact hm
    have := (junkErrors_entries _ _ _ hm').1
    exact absurd this (by decide)


/-- C2 (amended). `CD` is not enforced as a required command: every entry of the
list with line number 0 is an Error whose message is one of `Missing LPS
command`, `Missing SW command`, `Missing SH command`, `Missing SC command`,
`Missing SD command`, or the segment-count message; no file-level diagnostic is
about `CD`. -/
theorem C2_file_level_diagnostics (buffer : List Char) (e : ValidationError)
    (he : e ∈ ValidateFile buffer) (h0 : e.lineNumber = 0) :
    e.severity = 2 ∧
      (e.message ∈ ["Missing LPS command", "Missing SW command", "Missing SH command",
          "Missing SC command", "Missing SD command"] ∨
        e.message = expectedMessage (scanResult buffer).expectedSegments
          (scanResult buffer).segmentCount) := by
  rw [ValidateFile_eq_take] at he
  have hr := List.mem_of_mem_take he
  rw [mem_reported_iff] at hr
  rcases hr with hs | hf
  · have := scanDiags_lineNumber_pos hs
    omega
  · rw [mem_finalDiags_iff] at hf
    rcases hf with ⟨-, rfl⟩ | ⟨-, rfl⟩ | ⟨-, rfl⟩ | ⟨-, rfl⟩ | ⟨-, rfl⟩ | ⟨-, rfl⟩ | ⟨-, rfl⟩
    · simp
    · simp
    · simp
    · simp
    · simp
    · refine ⟨rfl, Or.inr ?_⟩
      rw [scanResult_expectedSegments, scanResult_segmentCount]
    · exfalso
      have h1 := final_lineNum buffer
      have h2 := logicalLines_length_pos buffer
      simp only at h0
      omega

theorem C2_file_level_diagnostics_witness :
    (⟨0, "Missing LPS command", 2⟩ : ValidationError) ∈ ValidateFile [] ∧
    (2 = 2 ∧
      ("Missing LPS command" ∈ ["Missing LPS command", "Missing SW command", "Missing SH command",
          "Missing SC command", "Missing SD command"] ∨
        "Missing LPS command" = expectedMessage (scanResult []).expectedSegments
          (scanResult []).segmentCount)) :=
  ⟨by decide, C2_file_level_diagnostics [] ⟨0, "Missing LPS command", 2⟩ (by decide) rfl⟩

/-- C2 as stated fails: a text with the five other commands, one segment and no
line beginning with `CD` gets no diagnostic at all. -/
theorem C2_counterexample :
    (∀ l ∈ logicalLines "LPS 2\nSW 600\nSH 40\nSC 1\nSD 500\nSTART\nhi\nEND".toList,
      startsWith l "CD" = false) ∧
    ValidateFile "LPS 2\nSW 600\nSH 40\nSC 1\nSD 500\nSTART\nhi\nEND".toList = [] := by
  constructor <;> decide

/-- C5 (amended). An `END` line met while no segment is open yields the Error
`END without START` at its line (unless the list is full) and raises the
segment counter like every `END` line: for every text the counter that is
compared with `SC` is the number of `END` lines, balanced or not. -/
theorem C5_segment_counter (buffer : List Char) :
    (scanResult buffer).segmentCount = ((logicalLines buffer).count "END".toList : Int) ∧
    ∀ k : Nat, (logicalLines buffer)[k]? = some "END".toList →
      openAfter ((logicalLines buffer).take k) false = false →
      (ValidateFile buffer).length < MAX_ERRORS →
      (⟨k + 1, "END without START", 2⟩ : ValidationError) ∈ ValidateFile buffer := by
  constructor
  · rw [scanResult_segmentCount, runCtl_segmentCount]
    simp [VState.init]
  · intro k hk ho hfull
    rw [ValidateFile_not_full buffer hfull, mem_reported_iff]
    left
    apply scanDiags_mem _ hk
    have hin : (runCtl ((logicalLines buffer).take k) VState.init).inSegment = false := by
      rw [runCtl_inSegment]; exact ho
    have hlen : ((logicalLines buffer).take k).length = k := by
      have : k < (logicalLines buffer).length := by
        by_contra hc
        rw [List.getElem?_eq_none (by omega)] at hk
        exact absurd hk (by simp)
      simp; omega
    unfold lineDiags
    rw [lineKind_END]
    simp only [runCtl_lineNum, hin, hlen, init_lineNum]
    simp [diagIf]
    omega

theorem C5_segment_counter_witness :
    (scanResult "END".toList).segmentCount = ((logicalLines "END".toList).count "END".toList : Int) ∧
    (⟨(0 : Nat) + 1, "END without START", 2⟩ : ValidationError) ∈ ValidateFile "END".toList :=
  ⟨(C5_segment_counter "END".toList).1,
   (C5_segment_counter "END".toList).2 0 (by decide) (by decide) (by decide)⟩

/-- C5 as stated fails: for the text `END` the validator reports `END without
START` and the segment counter is 1, while the text has no balanced
`START`/`END` pair. -/
theorem C5_counterexample :
    (⟨1, "END without START", 2⟩ : ValidationError) ∈ ValidateFile "END".toList ∧
    (scanResult "END".toList).segmentCount = 1 ∧
    balancedPairs (logicalLines "END".toList) false = 0 := by
  refine ⟨by decide, by decide, by decide⟩

theorem getElem?_lt_length {α : Type} {ls : List α} {k : Nat} {l : α} (h : ls[k]? = some l) :
    k < ls.length := by
  by_contra hc
  rw [List.getElem?_eq_none (by omega)] at h
  exact absurd h (by simp)

theorem mem_take_of_getElem? {α : Type} {ls : List α} {i j : Nat} {a : α} (hij : i < j)
    (ha : ls[i]? = some a) : a ∈ ls.take j := by
  have : (ls.take j)[i]? = some a := by rw [List.getElem?_take_of_lt hij]; exact ha
  exact List.getElem?_mem this

theorem length_take_of_getElem? {α : Type} {ls : List α} {k : Nat} {l : α} (h : ls[k]? = some l) :
    (ls.take k).length = k := by
  have := getElem?_lt_length h
  simp; omega

theorem duplicate_LPS {ls : List (List Char)} {i j : Nat} {a b : List Char} (hij : i < j)
    (ha : ls[i]? = some a) (hb : ls[j]? = some b) (sa : startsWith a "LPS" = true)
    (sb : startsWith b "LPS" = true) :
    (⟨j + 1, "Duplicate LPS command", 2⟩ : ValidationError) ∈
      lineDiags (runCtl (ls.take j) VState.init) b := by
  have hflag : (runCtl (ls.take j) VState.init).hasLPS = true := by
    rw [runCtl_hasLPS, Bool.or_eq_true]
    right
    rw [List.any_eq_true]
    exact ⟨a, mem_take_of_getElem? hij ha, sa⟩
  unfold lineDiags
  rw [lineKind_of_LPS sb]
  simp only [hflag, runCtl_lineNum, length_take_of_getElem? hb, init_lineNum]
  rw [List.mem_append]
  left
  rw [mem_diagIf_iff]
  refine ⟨rfl, ?_⟩
  congr 1
  omega

theorem duplicate_SW {ls : List (List Char)} {i j : Nat} {a b : List Char} (hij : i < j)
    (ha : ls[i]? = some a) (hb : ls[j]? = some b) (sa : startsWith a "SW" = true)
    (sb : startsWith b "SW" = true) :
    (⟨j + 1, "Duplicate SW command", 2⟩ : ValidationError) ∈
      lineDiags (runCtl (ls.take j) VState.init) b := by
  have hflag : (runCtl (ls.take j) VState.init).hasSW = true := by
    rw [runCtl_hasSW, Bool.or_eq_true]
    right
    rw [List.any_eq_true]
    exact ⟨a, mem_take_of_getElem? hij ha, sa⟩
  unfold lineDiags
  rw [lineKind_of_SW sb]
  simp only [hflag, runCtl_lineNum, length_take_of_getElem? hb, init_lineNum]
  rw [List.mem_append]
  left
  rw [mem_diagIf_iff]
  refine ⟨rfl, ?_⟩
  congr 1
  omega

theorem duplicate_SH {ls : List (List Char)} {i j : Nat} {a b : List Char} (hij : i < j)
    (ha : ls[i]? = some a) (hb : ls[j]? = some b) (sa : startsWith a "SH" = true)
    (sb : startsWith b "SH" = true) :
    (⟨j + 1, "Duplicate SH command", 2⟩ : ValidationError) ∈
      lineDiags (runCtl (ls.take j) VState.init) b := by
  have hflag : (runCtl (ls.take j) VState.init).hasSH = true := by
    rw [runCtl_hasSH, Bool.or_eq_true]
    right
    rw [List.any_eq_true]
    exact ⟨a, mem_take_of_getElem? hij ha, sa⟩
  unfold lineDiags
  rw [lineKind_of_SH sb]
  simp only [hflag, runCtl_lineNum, length_take_of_getElem? hb, init_lineNum]
  rw [List.mem_append]
  left
  rw [mem_diagIf_iff]
  refine ⟨rfl, ?_⟩
  congr 1
  omega

theorem duplicate_SC {ls : List (List Char)} {i j : Nat} {a b : List Char} (hij : i < j)
    (ha : ls[i]? = some a) (hb : ls[j]? = some b) (sa : startsWith a "SC" = true)
    (sb : startsWith b "SC" = true) :
    (⟨j + 1, "Duplicate SC command", 2⟩ : ValidationError) ∈
      lineDiags (runCtl (ls.take j) VState.init) b := by
  have hflag : (runCtl (ls.take j) VState.init).hasSC = true := by
    rw [runCtl_hasSC, Bool.or_eq_true]
    right
    rw [List.any_eq_true]
    exact ⟨a, mem_take_of_getElem? hij ha, sa⟩
  unfold lineDiags
  rw [lineKind_of_SC sb]
  simp only [hflag, runCtl_lineNum, length_take_of_getElem? hb, init_lineNum]
  rw [List.mem_append]
  left
  rw [mem_diagIf_iff]
  refine ⟨rfl, ?_⟩
  congr 1
  omega

theorem duplicate_SD {ls : List (List Char)} {i j : Nat} {a b : List Char} (hij : i < j)
    (ha : ls[i]? = some a) (hb : ls[j]? = some b) (sa : startsWith a "SD" = true)
    (sb : startsWith b "SD" = true) :
    (⟨j + 1, "Duplicate SD command", 2⟩ : ValidationError) ∈
      lineDiags (runCtl (ls.take j) VState.init) b := by
  have hflag : (runCtl (ls.take j) VState.init).hasSD = true := by
    rw [runCtl_hasSD, Bool.or_eq_true]
    right
    rw [List.any_eq_true]
    exact ⟨a, mem_take_of_getElem? hij ha, sa⟩
  unfold lineDiags
  rw [lineKind_of_SD sb]
  simp only [hflag, runCtl_lineNum, length_take_of_getElem? hb, init_lineNum]
  rw [List.mem_append]
  left
  rw [mem_diagIf_iff]
  refine ⟨rfl, ?_⟩
  congr 1
  omega

/-- C3 (amended). For each of the commands `LPS`, `SW`, `SH`, `SC`, `SD` (not
`CD`, which is never checked for a second occurrence), whenever a line carrying
the command follows an earlier line carrying it, the list holds the Error
`Duplicate <command> command` with the 1-based number of that later line, unless
the list is full. -/
theorem C3_duplicate_command (buffer : List Char) (cmd : String) (i j : Nat) (a b : List Char)
    (hcmd : cmd ∈ ["LPS", "SW", "SH", "SC", "SD"]) (hij : i < j)
    (ha : (logicalLines buffer)[i]? = some a) (hb : (logicalLines buffer)[j]? = some b)
    (sa : startsWith a cmd = true) (sb : startsWith b cmd = true)
    (hfull : (ValidateFile buffer).length < MAX_ERRORS) :
    (⟨j + 1, "Duplicate " ++ cmd ++ " command", 2⟩ : ValidationError) ∈ ValidateFile buffer := by
  rw [ValidateFile_not_full buffer hfull, mem_reported_iff]
  left
  apply scanDiags_mem _ hb
  simp only [List.mem_cons, List.mem_singleton, List.not_mem_nil, or_false] at hcmd
  rcases hcmd with rfl | rfl | rfl | rfl | rfl
  · exact duplicate_LPS hij ha hb sa sb
  · exact duplicate_SW hij ha hb sa sb
  · exact duplicate_SH hij ha hb sa sb
  · exact duplicate_SC hij ha hb sa sb
  · exact duplicate_SD hij ha hb sa sb

theorem C3_duplicate_command_witness :
    (⟨(1 : Nat) + 1, "Duplicate " ++ "SW" ++ " command", 2⟩ : ValidationError) ∈
      ValidateFile "SW 1\nSW 2".toList :=
  C3_duplicate_command "SW 1\nSW 2".toList "SW" 0 1 "SW 1".toList "SW 2".toList
    (by decide) (by decide) (by decide) (by decide) (by decide) (by decide) (by decide)

/-- C3 as stated fails for `CD`: in the text made of the lines `CD 1` and `CD 2`
the second line carries `CD` again and no diagnostic has line number 2. -/
theorem C3_counterexample :
    (logicalLines "CD 1\nCD 2".toList)[0]? = some "CD 1".toList ∧
    (logicalLines "CD 1\nCD 2".toList)[1]? = some "CD 2".toList ∧
    startsWith "CD 1".toList "CD" = true ∧ startsWith "CD 2".toList "CD" = true ∧
    ∀ e ∈ ValidateFile "CD 1\nCD 2".toList, e.lineNumber ≠ 2 := by
  refine ⟨by decide, by decide, by decide, by decide, by decide⟩

theorem scanResult_eq_declaredSC (buffer : List Char) :
    (scanResult buffer).expectedSegments = declaredSC (logicalLines buffer) 0 := by
  rw [scanResult_expectedSegments, runCtl_expectedSegments]
  rfl

theorem expectedMessage_ne_of_head {e f : Int} {t : String} (h : t.data.head? ≠ some 'E') :
    expectedMessage e f ≠ t := by
  intro he
  apply h
  rw [← he]
  exact expectedMessage_head e f

/-- C4 (amended). After the scan the list holds the line-0 Error `Expected E
segments, found F` if and only if `F` differs from `E`, unless the list is
full; `E` is the value declared by the last `SC` line that carries a parameter
(0 when there is none) and `F` is the segment counter of the validator. -/
theorem C4_segment_count_mismatch (buffer : List Char)
    (hfull : (ValidateFile buffer).length < MAX_ERRORS) :
    (scanResult buffer).expectedSegments = declaredSC (logicalLines buffer) 0 ∧
    ((⟨0, expectedMessage (declaredSC (logicalLines buffer) 0) (scanResult buffer).segmentCount,
        2⟩ : ValidationError) ∈ ValidateFile buffer ↔
      (scanResult buffer).segmentCount ≠ declaredSC (logicalLines buffer) 0) := by
  refine ⟨scanResult_eq_declaredSC buffer, ?_⟩
  rw [ValidateFile_not_full buffer hfull, mem_reported_iff, mem_finalDiags_iff,
    ← scanResult_eq_declaredSC, scanResult_expectedSegments, scanResult_segmentCount]
  constructor
  · intro h
    rcases h with hs | hf
    · have := scanDiags_lineNumber_pos hs
      simp only at this
      omega
    · rcases hf with ⟨-, h⟩ | ⟨-, h⟩ | ⟨-, h⟩ | ⟨-, h⟩ | ⟨-, h⟩ | ⟨h, -⟩ | ⟨-, h⟩
      · exact absurd (congrArg ValidationError.message h)
          (expectedMessage_ne_of_head (t := "Missing LPS command") (by decide))
      · exact absurd (congrArg ValidationError.message h)
          (expectedMessage_ne_of_head (t := "Missing SW command") (by decide))
      · exact absurd (congrArg ValidationError.message h)
          (expectedMessage_ne_of_head (t := "Missing SH command") (by decide))
      · exact absurd (congrArg ValidationError.message h)
          (expectedMessage_ne_of_head (t := "Missing SC command") (by decide))
      · exact absurd (congrArg ValidationError.message h)
          (expectedMessage_ne_of_head (t := "Missing SD command") (by decide))
      · exact fun hc => h hc.symm
      · exact absurd (congrArg ValidationError.message h)
          (expectedMessage_ne_of_head (t := "File ends with unclosed segment") (by decide))
  · intro h
    right; right; right; right; right; right; left
    exact ⟨fun hc => h hc.symm, rfl⟩

theorem C4_segment_count_mismatch_witness :
    (scanResult "SC 1".toList).expectedSegments = declaredSC (logicalLines "SC 1".toList) 0 ∧
    ((⟨0, expectedMessage (declaredSC (logicalLines "SC 1".toList) 0)
        (scanResult "SC 1".toList).segmentCount, 2⟩ : ValidationError) ∈
          ValidateFile "SC 1".toList ↔
      (scanResult "SC 1".toList).segmentCount ≠ declaredSC (logicalLines "SC 1".toList) 0) :=
  C4_segment_count_mismatch "SC 1".toList (by decide)

theorem declaredSC_append (a b : List (List Char)) (d : Int) :
    declaredSC (a ++ b) d = declaredSC b (declaredSC a d) := by
  induction a generalizing d with
  | nil => rfl
  | cons l a ih =>
    rw [List.cons_append, declaredSC_cons, ih, ← declaredSC_cons]

theorem declaredSC_junk (n : Nat) (d : Int) : declaredSC (List.replicate n ['x']) d = d := by
  induction n generalizing d with
  | zero => rfl
  | succ n ih =>
    rw [List.replicate_succ, declaredSC_cons, ih, declaredSC, if_neg (by decide), declaredSC]

theorem openAfter_append (a b : List (List Char)) (o : Bool) :
    openAfter (a ++ b) o = openAfter b (openAfter a o) := by
  induction a generalizing o with
  | nil => rfl
  | cons l a ih =>
    rw [List.cons_append, openAfter_cons, ih, ← openAfter_cons]

theorem openAfter_junk (n : Nat) (o : Bool) : openAfter (List.replicate n ['x']) o = o := by
  induction n generalizing o with
  | zero => rfl
  | succ n ih =>
    rw [List.replicate_succ, openAfter_cons, ih]
    cases o <;> decide

theorem count_END_junk (n : Nat) : (List.replicate n ['x']).count "END".toList = 0 := by
  rw [List.count_replicate]
  have h : (['x'] == "END".toList) = false := by decide
  rw [h]
  rfl

theorem not_mem_ValidateFile_junk (t : List Char) (d : ValidationError)
    (h : d.message ≠ "Text outside segment" ∨ d.lineNumber < 1 ∨ 1000 < d.lineNumber) :
    d ∉ ValidateFile (junk 1000 ++ t) := by
  intro hm
  have hj := ValidateFile_junk t
  have hm' : d ∈ junkErrors MAX_ERRORS 1 := by rw [← hj]; exact hm
  have := junkErrors_entries _ _ _ hm'
  have h3 := this.2.2.2
  simp only [MAX_ERRORS] at h3
  rcases h with h | h | h
  · exact h this.1
  · omega
  · push_cast at h3; omega

theorem scanResult_segmentCount_eq_count (buffer : List Char) :
    (scanResult buffer).segmentCount = ((logicalLines buffer).count "END".toList : Int) := by
  rw [scanResult_segmentCount, runCtl_segmentCount]
  simp [VState.init]

/-- C4 as stated fails: after 1000 stray lines and the line `SC 1`, `E` is 1 and
the segment counter `F` is 0, but the list has no `Expected 1 segments, found 0`
entry (it is full before the check). -/
theorem C4_counterexample :
    declaredSC (logicalLines (junk 1000 ++ "SC 1".toList)) 0 = 1 ∧
    (scanResult (junk 1000 ++ "SC 1".toList)).segmentCount = 0 ∧
    (⟨0, expectedMessage 1 0, 2⟩ : ValidationError) ∉
      ValidateFile (junk 1000 ++ "SC 1".toList) := by
  have hl : logicalLines "SC 1".toList = ["SC 1".toList] := by decide
  refine ⟨?_, ?_, ?_⟩
  · rw [logicalLines_junk, declaredSC_append, declaredSC_junk, hl]
    decide
  · rw [scanResult_segmentCount_eq_count, logicalLines_junk, List.count_append, count_END_junk, hl]
    decide
  · exact not_mem_ValidateFile_junk _ _ (Or.inr (Or.inl (by decide)))

/-- C7 (amended). When the file could be read, the exit code of the validator is
1 if the list holds an entry of Error severity (2) and 0 otherwise, so a text
whose diagnostics are all Warnings exits with 0.  (When the file cannot be
opened, or the argument count is wrong, the exit code is 1 with an empty
list.) -/
theorem C7_exit_code (buffer : List Char) :
    (main 2 (some buffer)).errors = ValidateFile buffer ∧
    ((main 2 (some buffer)).exitCode = 1 ↔ ∃ e ∈ ValidateFile buffer, e.severity = 2) ∧
    ((main 2 (some buffer)).exitCode = 0 ↔ ¬ ∃ e ∈ ValidateFile buffer, e.severity = 2) ∧
    ((∀ e ∈ ValidateFile buffer, e.severity = 1) → (main 2 (some buffer)).exitCode = 0) ∧
    (main 2 none).exitCode = 1 ∧ (main 2 none).errors = [] := by
  have key : (main 2 (some buffer)).exitCode =
      if (ValidateFile buffer).any (fun e => e.severity == 2) then 1 else 0 := rfl
  have hany : (ValidateFile buffer).any (fun e => e.severity == 2) = true ↔
      ∃ e ∈ ValidateFile buffer, e.severity = 2 := by
    simp [List.any_eq_true]
  refine ⟨rfl, ?_, ?_, ?_, rfl, rfl⟩
  · rw [key, ← hany]
    by_cases h : (ValidateFile buffer).any (fun e => e.severity == 2) = true <;> simp [h]
  · rw [key, ← hany]
    by_cases h : (ValidateFile buffer).any (fun e => e.severity == 2) = true <;> simp [h]
  · intro hw
    rw [key]
    have : ¬ (ValidateFile buffer).any (fun e => e.severity == 2) = true := by
      rw [hany]
      rintro ⟨e, he, h2⟩
      have := hw e he
      omega
    simp [this]

/-- C7 as stated fails: when the file cannot be opened the exit code is 1 although
the diagnostic list holds no entry of Error severity. -/
theorem C7_counterexample :
    (main 2 none).exitCode = 1 ∧ ¬ ∃ e ∈ (main 2 none).errors, e.severity = 2 := by
  constructor
  · rfl
  · simp [main]

theorem C7_exit_code_witness :
    (∀ e ∈ ValidateFile "LPS 2\nSW 600\nSH 40\nSC 1\nSD 5\nTPF 5\nPM 30\nTPF 50\nSTART\nhi\nEND".toList,
      e.severity = 1) ∧
    (main 2 (some "LPS 2\nSW 600\nSH 40\nSC 1\nSD 5\nTPF 5\nPM 30\nTPF 50\nSTART\nhi\nEND".toList)).exitCode
      = 0 :=
  ⟨by decide, (C7_exit_code _).2.2.2.1 (by decide)⟩

/-! ### Claims on segments -/

theorem runLinesWith_append (add : AddFn) (a b : List (List Char)) (s : VState) :
    runLinesWith add (a ++ b) s = runLinesWith add b (runLinesWith add a s) := by
  induction a generalizing s with
  | nil => rfl
  | cons l a ih => exact ih _

theorem take_succ_of_getElem? {α : Type} {ls : List α} {k : Nat} {l : α} (h : ls[k]? = some l) :
    ls.take (k + 1) = ls.take k ++ [l] := by
  rw [List.take_succ, h]; rfl

theorem stateAfter_succ {buffer : List Char} {k : Nat} {l : List Char}
    (h : (logicalLines buffer)[k]? = some l) :
    stateAfter buffer (k + 1) = lineStepWith AddValidationError (stateAfter buffer k) l := by
  unfold stateAfter
  rw [take_succ_of_getElem? h, runLinesWith_append]
  rfl

theorem scanResult_eq_runLines (buffer : List Char) (k : Nat) :
    scanResult buffer =
      runLinesWith AddValidationError ((logicalLines buffer).drop k) (stateAfter buffer k) := by
  unfold stateAfter scanResult logicalLines
  rw [scanText_eq_runLines, ← runLinesWith_append, List.take_append_drop]
  rfl

theorem stateAfter_lineNum (buffer : List Char) (k : Nat) (hk : k ≤ (logicalLines buffer).length) :
    (stateAfter buffer k).lineNum = k + 1 := by
  rw [stateAfter_eq]
  simp only [runCtl_lineNum, init_lineNum, List.length_take, Nat.min_eq_left hk]
  omega

theorem stateAfter_inSegment (buffer : List Char) (k : Nat) :
    (stateAfter buffer k).inSegment = openAfter ((logicalLines buffer).take k) false := by
  rw [stateAfter_eq]
  simp only [runCtl_inSegment]
  rfl

theorem lineStep_capped (s : VState) (l : List Char) :
    lineStepWith AddValidationError s l =
      { lineCtl s l with errors := addMany s.errors (lineDiags s l) } :=
  lineStep_eq recorder_capped s l

theorem addMany_singleton (e : List ValidationError) (n : Int) (m : String) (sev : Nat) :
    addMany e [⟨n, m, sev⟩] = AddValidationError e n m sev :=
  (recorder_capped.add_eq e n m sev).symm

theorem AddValidationError_not_full {e : List ValidationError} (h : e.length < MAX_ERRORS)
    (n : Int) (m : String) (sev : Nat) :
    AddValidationError e n m sev = e ++ [⟨n, m, sev⟩] := by
  unfold AddValidationError
  rw [if_pos h]

theorem openAfter_no_marks (mid : List (List Char)) (o : Bool)
    (h : ∀ l ∈ mid, l ≠ "START".toList ∧ l ≠ "END".toList) : openAfter mid o = o := by
  induction mid generalizing o with
  | nil => rfl
  | cons l mid ih =>
    have hl := h l (List.mem_cons_self _ _)
    rw [openAfter, if_neg hl.1, if_neg hl.2]
    exact ih o (fun x hx => h x (List.mem_cons_of_mem _ hx))

theorem count_END_no_marks (mid : List (List Char))
    (h : ∀ l ∈ mid, l ≠ "START".toList ∧ l ≠ "END".toList) : mid.count "END".toList = 0 := by
  rw [List.count_eq_zero]
  intro hm
  exact (h _ hm).2 rfl

theorem runLines_capped_inSegment (mid : List (List Char)) (s : VState) :
    (runLinesWith AddValidationError mid s).inSegment = openAfter mid s.inSegment := by
  rw [runLines_eq recorder_capped]
  exact runCtl_inSegment mid s

theorem runLines_capped_segmentCount (mid : List (List Char)) (s : VState) :
    (runLinesWith AddValidationError mid s).segmentCount =
      s.segmentCount + mid.count "END".toList := by
  rw [runLines_eq recorder_capped]
  exact runCtl_segmentCount mid s

theorem lineStep_START (s : VState) :
    lineStepWith AddValidationError s "START".toList =
      { s with errors := addIf AddValidationError s.inSegment s.errors s.lineNum
                 "START inside another segment" 2,
               line := [], lineNum := s.lineNum + 1, inSegment := true } := by
  rw [lineStep_capped]
  unfold lineCtl lineDiags
  rw [lineKind_START]
  cases h : s.inSegment <;> simp [diagIf, addIf, addMany_singleton, addMany_nil]

theorem lineStep_END (s : VState) :
    lineStepWith AddValidationError s "END".toList =
      { s with errors := addIf AddValidationError (!s.inSegment) s.errors s.lineNum
                 "END without START" 2,
               line := [], lineNum := s.lineNum + 1, inSegment := false,
               segmentCount := s.segmentCount + 1 } := by
  rw [lineStep_capped]
  unfold lineCtl lineDiags
  rw [lineKind_END]
  cases h : s.inSegment <;> simp [diagIf, addIf, addMany_singleton, addMany_nil]

/-- C8 (amended). In the validator, a `START` line met while a segment is open
yields exactly one Error at that line, unless the list is full, and leaves the
parser inside the same open segment with the segment counter unchanged; lines
that are neither `START` nor `END` keep it so; the next `END` closes the segment,
raises the counter by exactly one and adds no diagnostic; and a further `END`
(no `START` in between) yields the Error `END without START`, unless the list is
full. -/
theorem C8_start_inside_segment (s : VState) (mid1 mid2 : List (List Char))
    (hopen : s.inSegment = true)
    (h1 : ∀ l ∈ mid1, l ≠ "START".toList ∧ l ≠ "END".toList)
    (h2 : ∀ l ∈ mid2, l ≠ "START".toList ∧ l ≠ "END".toList)
    (hfull : s.errors.length < MAX_ERRORS) :
    let s1 := lineStepWith AddValidationError s "START".toList
    let s2 := runLinesWith AddValidationError mid1 s1
    let s3 := lineStepWith AddValidationError s2 "END".toList
    let s4 := runLinesWith AddValidationError mid2 s3
    let s5 := lineStepWith AddValidationError s4 "END".toList
    s1 = { s with errors := s.errors ++ [⟨s.lineNum, "START inside another segment", 2⟩],
                  line := [], lineNum := s.lineNum + 1 } ∧
    s2.inSegment = true ∧ s2.segmentCount = s.segmentCount ∧
    s3.inSegment = false ∧ s3.segmentCount = s.segmentCount + 1 ∧ s3.errors = s2.errors ∧
    s4.inSegment = false ∧
    (s4.errors.length < MAX_ERRORS →
      s5.errors = s4.errors ++ [⟨s4.lineNum, "END without START", 2⟩]) := by
  intro s1 s2 s3 s4 s5
  have e0 : s1 = lineStepWith AddValidationError s "START".toList := rfl
  rw [lineStep_START, hopen] at e0
  simp only [addIf, if_true, AddValidationError_not_full hfull] at e0
  have e1 : s1 = { s with errors := s.errors ++ [⟨s.lineNum, "START inside another segment", 2⟩], line := [], lineNum := s.lineNum + 1 } := by
    rw [e0]
    cases s
    simp_all
  have i1 : s1.inSegment = true := by rw [e1]; exact hopen
  have c1 : s1.segmentCount = s.segmentCount := by rw [e1]
  have i2 : s2.inSegment = true := by
    show (runLinesWith AddValidationError mid1 s1).inSegment = true
    rw [runLines_capped_inSegment, openAfter_no_marks mid1 _ h1, i1]
  have c2 : s2.segmentCount = s.segmentCount := by
    show (runLinesWith AddValidationError mid1 s1).segmentCount = _
    rw [runLines_capped_segmentCount, count_END_no_marks mid1 h1, c1]; simp
  have e3 : s3 = lineStepWith AddValidationError s2 "END".toList := rfl
  rw [lineStep_END] at e3
  have i3 : s3.inSegment = false := by rw [e3]
  have c3 : s3.segmentCount = s.segmentCount + 1 := by rw [e3]; simp only; rw [c2]
  have r3 : s3.errors = s2.errors := by rw [e3]; simp [addIf, i2]
  have i4 : s4.inSegment = false := by
    show (runLinesWith AddValidationError mid2 s3).inSegment = false
    rw [runLines_capped_inSegment, openAfter_no_marks mid2 _ h2, i3]
  refine ⟨e1, i2, c2, i3, c3, r3, i4, ?_⟩
  intro hf
  show (lineStepWith AddValidationError s4 "END".toList).errors = _
  rw [lineStep_END]
  simp only [addIf, i4, Bool.not_false, if_true, AddValidationError_not_full hf]

theorem C8_start_inside_segment_witness :
    ({ VState.init with inSegment := true } : VState).inSegment = true ∧
    (∀ l ∈ ["a".toList], l ≠ "START".toList ∧ l ≠ "END".toList) ∧
    (∀ l ∈ ([] : List (List Char)), l ≠ "START".toList ∧ l ≠ "END".toList) ∧
    ({ VState.init with inSegment := true } : VState).errors.length < MAX_ERRORS ∧
    (lineStepWith AddValidationError
      (runLinesWith AddValidationError ["a".toList]
        (lineStepWith AddValidationError { VState.init with inSegment := true } "START".toList))
      "END".toList).segmentCount = ({ VState.init with inSegment := true } : VState).segmentCount + 1 :=
  ⟨rfl, by decide, by decide, by decide,
    (C8_start_inside_segment { VState.init with inSegment := true } ["a".toList] [] rfl
      (by decide) (by decide) (by decide)).2.2.2.2.1⟩

theorem junk_getElem? (n k : Nat) (t : List Char) :
    (logicalLines (junk n ++ t))[n + k]? = (logicalLines t)[k]? := by
  rw [logicalLines_junk, List.getElem?_append_right (by simp)]
  simp

theorem junk_take (n k : Nat) (t : List Char) :
    (logicalLines (junk n ++ t)).take (n + k) =
      List.replicate n ['x'] ++ (logicalLines t).take k := by
  rw [logicalLines_junk, List.take_append_eq_append_take, List.take_of_length_le (by simp)]
  simp

theorem junk_openBefore (n k : Nat) (t : List Char) :
    openAfter ((logicalLines (junk n ++ t)).take (n + k)) false =
      openAfter ((logicalLines t).take k) false := by
  rw [junk_take, openAfter_append, openAfter_junk]

/-- C8 as stated fails: after 1000 stray lines and a `START` line, a second
`START` line (line 1002) is met while the segment is open, and the list holds no
diagnostic for line 1002 (it is full). -/
theorem C8_counterexample :
    (logicalLines (junk 1000 ++ "START\nSTART".toList))[1001]? = some "START".toList ∧
    openAfter ((logicalLines (junk 1000 ++ "START\nSTART".toList)).take 1001) false = true ∧
    ∀ e ∈ ValidateFile (junk 1000 ++ "START\nSTART".toList), e.lineNumber ≠ 1002 := by
  refine ⟨?_, ?_, ?_⟩
  · rw [show (1001 : Nat) = 1000 + 1 from rfl, junk_getElem?]
    decide
  · rw [show (1001 : Nat) = 1000 + 1 from rfl, junk_openBefore]
    decide
  · intro e he h
    exact not_mem_ValidateFile_junk _ e (Or.inr (Or.inr (by omega))) he

/-! ### The unclosed segment -/

theorem unclosedMessage_ne_of_head {k : Int} {t : String} (h : t.data.head? ≠ some 'U') :
    unclosedMessage k ≠ t := by
  intro he
  apply h
  rw [← he]
  exact unclosedMessage_head k

/-- No diagnostic of the scan has the message `t` when `t` is none of the fixed
messages of the scan and of the markup and does not begin with `U`. -/
theorem scanDiags_message_ne (ls : List (List Char)) (s : VState) (t : String)
    (h1 : t ∉ lineMessages) (h2 : t ∉ colorMessages) (h3 : t.data.head? ≠ some 'U') :
    ∀ d ∈ scanDiags ls s, d.message ≠ t := by
  intro d hd he
  rcases scanDiags_entries ls s d hd with h | ⟨n, -, -, h | ⟨k, h⟩⟩
  · rw [he] at h; exact h1 h
  · rw [he] at h; exact h2 h
  · rw [he] at h; exact unclosedMessage_ne_of_head h3 h.symm

theorem filter_diagIf_ne (c : Bool) (n : Int) (m t : String) (sev : Nat) (h : m ≠ t) :
    (diagIf c n m sev).filter (fun e => e.message = t) = [] := by
  cases c <;> simp [diagIf, h]

theorem filter_finalDiags_unclosed (s : VState) (h : s.inSegment = true) :
    (finalDiags s).filter (fun e => e.message = "File ends with unclosed segment") =
      [⟨s.lineNum - 1, "File ends with unclosed segment", 2⟩] := by
  unfold finalDiags
  simp only [List.filter_append]
  rw [filter_diagIf_ne _ _ _ _ _ (by decide), filter_diagIf_ne _ _ _ _ _ (by decide),
    filter_diagIf_ne _ _ _ _ _ (by decide), filter_diagIf_ne _ _ _ _ _ (by decide),
    filter_diagIf_ne _ _ _ _ _ (by decide),
    filter_diagIf_ne _ _ _ _ _ (expectedMessage_ne_of_head (by decide)), h]
  simp [diagIf]

/-- C9 (amended). If the text ends while a segment is open, the list holds exactly
one Error `File ends with unclosed segment`, unless the list is full; its line
number is the number of the last logical line (the number of LF characters plus
one); and the segment counter counts the `END` lines only, so the open segment
is not added to it. -/
theorem C9_unclosed_segment (buffer : List Char)
    (hopen : openAfter (logicalLines buffer) false = true)
    (hfull : (ValidateFile buffer).length < MAX_ERRORS) :
    (ValidateFile buffer).filter (fun e => e.message = "File ends with unclosed segment") =
      [⟨((cstr buffer).count '\n' : Int) + 1, "File ends with unclosed segment", 2⟩] ∧
    (scanResult buffer).segmentCount = ((logicalLines buffer).count "END".toList : Int) := by
  refine ⟨?_, scanResult_segmentCount_eq_count buffer⟩
  rw [ValidateFile_not_full buffer hfull, reported, List.filter_append]
  have h1 : (scanDiags (logicalLines buffer) VState.init).filter
      (fun e => e.message = "File ends with unclosed segment") = [] := by
    rw [List.filter_eq_nil_iff]
    intro d hd
    have := scanDiags_message_ne _ _ "File ends with unclosed segment" (by decide) (by decide)
      (by decide) d hd
    simpa using this
  have h2 : (runCtl (logicalLines buffer) VState.init).inSegment = true := by
    rw [runCtl_inSegment]; exact hopen
  rw [h1, filter_finalDiags_unclosed _ h2, final_lineNum, logicalLines_length]
  simp

theorem C9_unclosed_segment_witness :
    openAfter (logicalLines "START\nabc".toList) false = true ∧
    (ValidateFile "START\nabc".toList).length < MAX_ERRORS ∧
    ((ValidateFile "START\nabc".toList).filter
        (fun e => e.message = "File ends with unclosed segment") =
      [⟨((cstr "START\nabc".toList).count '\n' : Int) + 1, "File ends with unclosed segment", 2⟩] ∧
    (scanResult "START\nabc".toList).segmentCount =
      ((logicalLines "START\nabc".toList).count "END".toList : Int)) :=
  ⟨by decide, by decide, C9_unclosed_segment _ (by decide) (by decide)⟩

/-- C9 as stated fails: after 1000 stray lines and a final `START` line the text
ends while a segment is open, and the list holds no `File ends with unclosed
segment` entry (it is full). -/
theorem C9_counterexample :
    openAfter (logicalLines (junk 1000 ++ "START".toList)) false = true ∧
    ∀ e ∈ ValidateFile (junk 1000 ++ "START".toList),
      e.message ≠ "File ends with unclosed segment" := by
  constructor
  · rw [logicalLines_junk, openAfter_append, openAfter_junk]
    decide
  · intro e he h
    exact not_mem_ValidateFile_junk _ e (Or.inl (by rw [h]; decide)) he

/-! ### Text outside a segment -/

theorem filter_diagIf_line (c : Bool) (n k : Int) (m : String) (sev : Nat) (h : n ≠ k) :
    (diagIf c n m sev).filter (fun e => e.lineNumber = k) = [] := by
  cases c <;> simp [diagIf, h]

theorem filter_finalDiags_line (s : VState) (k : Int) (hk : 1 ≤ k)
    (h : ¬ (s.inSegment = true ∧ s.lineNum - 1 = k)) :
    (finalDiags s).filter (fun e => e.lineNumber = k) = [] := by
  unfold finalDiags
  simp only [List.filter_append]
  have h0 : (0 : Int) ≠ k := by omega
  rw [filter_diagIf_line _ _ _ _ _ h0, filter_diagIf_line _ _ _ _ _ h0,
    filter_diagIf_line _ _ _ _ _ h0, filter_diagIf_line _ _ _ _ _ h0,
    filter_diagIf_line _ _ _ _ _ h0, filter_diagIf_line _ _ _ _ _ h0]
  cases hin : s.inSegment
  · simp [diagIf]
  · rw [filter_diagIf_line _ _ _ _ _ (fun hc => h ⟨hin, hc⟩)]
    simp

theorem lineDiags_other_outside {s : VState} {l : List Char} (hk : lineKind l = LineKind.other)
    (hout : s.inSegment = false) :
    lineDiags s l = [⟨s.lineNum, "Text outside segment", 2⟩] := by
  unfold lineDiags
  rw [hk]
  simp [hout]

theorem lineCtl_other {s : VState} {l : List Char} (hk : lineKind l = LineKind.other) :
    lineCtl s l = { s with line := [], lineNum := s.lineNum + 1 } := by
  unfold lineCtl
  rw [hk]

/-- C10 (amended). For every non-empty logical line that lies outside any segment,
does not begin with `/` nor with a command prefix and is neither `START` nor
`END`, the list holds exactly one diagnostic with the number of that line, the
Error `Text outside segment`, unless the list is full; the line changes nothing
else in the state of the scan than the line counter, and the scan goes on with
the later lines. -/
theorem C10_text_outside_segment (buffer : List Char) (k : Nat) (l : List Char)
    (hl : (logicalLines buffer)[k]? = some l) (hne : l ≠ []) (hcom : l.head? ≠ some '/')
    (hcmd : ∀ p ∈ ["LPS", "SW", "SH", "SC", "SD", "CD", "TPF", "PM"], startsWith l p = false)
    (hs : l ≠ "START".toList) (he : l ≠ "END".toList)
    (hout : openAfter ((logicalLines buffer).take k) false = false)
    (hfull : (ValidateFile buffer).length < MAX_ERRORS) :
    (ValidateFile buffer).filter (fun e => e.lineNumber = (k : Int) + 1) =
      [⟨(k : Int) + 1, "Text outside segment", 2⟩] ∧
    stateAfter buffer (k + 1) =
      { stateAfter buffer k with
        errors := AddValidationError (stateAfter buffer k).errors ((k : Int) + 1)
          "Text outside segment" 2,
        line := [], lineNum := (k : Int) + 2 } ∧
    scanResult buffer =
      runLinesWith AddValidationError ((logicalLines buffer).drop (k + 1))
        (stateAfter buffer (k + 1)) := by
  have hkind := lineKind_other_of hne hcom hcmd hs he
  have hklt := getElem?_lt_length hl
  have hlen := length_take_of_getElem? hl
  have hin : (runCtl ((logicalLines buffer).take k) VState.init).inSegment = false := by
    rw [runCtl_inSegment]; exact hout
  have hnum : (runCtl ((logicalLines buffer).take k) VState.init).lineNum = (k : Int) + 1 := by
    rw [runCtl_lineNum, hlen, init_lineNum]; omega
  refine ⟨?_, ?_, scanResult_eq_runLines buffer (k + 1)⟩
  · rw [ValidateFile_not_full buffer hfull, reported, List.filter_append]
    have hp : (fun (e : ValidationError) => decide (e.lineNumber = (k : Int) + 1)) =
        (fun e => decide (e.lineNumber = VState.init.lineNum + (k : Int))) := by
      funext e; rw [init_lineNum, add_comm]
    have h1 := scanDiags_filter VState.init hl
    rw [← hp, lineDiags_other_outside hkind hin, hnum] at h1
    rw [h1, filter_finalDiags_line _ _ (by omega)]
    · rfl
    · rintro ⟨hopen, hlast⟩
      rw [final_lineNum] at hlast
      have hlen2 : (logicalLines buffer).length = k + 1 := by omega
      have hsplit := getElem?_split hl
      have hdrop : (logicalLines buffer).drop (k + 1) = [] := by
        apply List.drop_of_length_le; omega
      rw [hdrop] at hsplit
      rw [runCtl_inSegment, hsplit, openAfter_append] at hopen
      have hi : VState.init.inSegment = false := rfl
      rw [hi, hout, openAfter, if_neg hs, if_neg he, openAfter] at hopen
      exact absurd hopen (by decide)
  · rw [stateAfter_succ hl, lineStep_capped, lineCtl_other hkind]
    have hs1 : (stateAfter buffer k).inSegment = false := by
      rw [stateAfter_inSegment]; exact hout
    have hs2 : (stateAfter buffer k).lineNum = (k : Int) + 1 :=
      stateAfter_lineNum buffer k (by omega)
    rw [lineDiags_other_outside hkind hs1, addMany_singleton, hs2]
    congr 1

theorem C10_text_outside_segment_witness :
    (ValidateFile "hello".toList).filter (fun e => e.lineNumber = ((0 : Nat) : Int) + 1) =
      [⟨((0 : Nat) : Int) + 1, "Text outside segment", 2⟩] :=
  (C10_text_outside_segment "hello".toList 0 "hello".toList (by decide) (by decide) (by decide)
    (by decide) (by decide) (by decide) (by decide) (by decide)).1

/-- C10 as stated fails: after 1000 stray lines, the line `y` (line 1001) lies
outside any segment and is neither a comment, a command, `START` nor `END`, and
the list holds no diagnostic for line 1001 (it is full). -/
theorem C10_counterexample :
    (logicalLines (junk 1000 ++ "y".toList))[1000]? = some "y".toList ∧
    "y".toList ≠ [] ∧ "y".toList.head? ≠ some '/' ∧
    (∀ p ∈ ["LPS", "SW", "SH", "SC", "SD", "CD", "TPF", "PM"],
      startsWith "y".toList p = false) ∧
    "y".toList ≠ "START".toList ∧ "y".toList ≠ "END".toList ∧
    openAfter ((logicalLines (junk 1000 ++ "y".toList)).take 1000) false = false ∧
    ∀ e ∈ ValidateFile (junk 1000 ++ "y".toList), e.lineNumber ≠ 1001 := by
  refine ⟨?_, by decide, by decide, by decide, by decide, by decide, ?_, ?_⟩
  · rw [show (1000 : Nat) = 1000 + 0 from rfl, junk_getElem?]
    decide
  · rw [show (1000 : Nat) = 1000 + 0 from rfl, junk_openBefore]
    decide
  · intro e he h
    exact not_mem_ValidateFile_junk _ e (Or.inr (Or.inr (by omega))) he

/-! ## renderer.c: the lines of LoadLayoutFile -/

theorem cstr_append_NUL (w rest : List Char) (h : NUL ∉ w) : cstr (w ++ NUL :: rest) = w := by
  induction w with
  | nil => simp [cstr, List.takeWhile]
  | cons c w ih =>
    have hc : (c != NUL) = true := by
      simp only [bne_iff_ne, ne_eq]
      intro e; exact h (by rw [e]; exact List.mem_cons_self _ _)
    have hw : NUL ∉ w := fun hm => h (List.mem_cons_of_mem _ hm)
    unfold cstr at ih ⊢
    rw [List.cons_append, List.takeWhile_cons, if_pos hc, ih hw]

theorem NUL_not_mem_cstr (b : List Char) : NUL ∉ cstr b := by
  intro h
  have := List.mem_takeWhile_imp h
  simp at this

theorem append_NUL_eq (chunk tail : List Char) :
    ∃ rest, chunk ++ NUL :: tail = cstr chunk ++ NUL :: rest := by
  induction chunk with
  | nil => exact ⟨tail, rfl⟩
  | cons c chunk ih =>
    obtain ⟨rest, hr⟩ := ih
    by_cases hc : c = NUL
    · refine ⟨chunk ++ NUL :: tail, ?_⟩
      subst hc
      simp [cstr, List.takeWhile]
    · refine ⟨rest, ?_⟩
      have hb : (c != NUL) = true := by simpa using hc
      unfold cstr at hr ⊢
      rw [List.cons_append, List.takeWhile_cons, if_pos hb, List.cons_append, hr]

/-- Removing a final character `c` from the string held at the start of a buffer. -/
theorem strip_last (w rest : List Char) (c : Char) :
    ∃ rest1,
      (if w.length > 0 ∧ (w ++ NUL :: rest).getD (w.length - 1) NUL = c then
          (w ++ NUL :: rest).set (w.length - 1) NUL else w ++ NUL :: rest) =
        (if w.getLast? = some c then w.dropLast else w) ++ NUL :: rest1 := by
  rcases List.eq_nil_or_concat w with rfl | ⟨u, x, h⟩
  · exact ⟨rest, by simp⟩
  · rw [List.concat_eq_append] at h
    subst h
    have hlen : (u ++ [x]).length - 1 = u.length := by simp
    have hget? : (u ++ [x] ++ NUL :: rest)[u.length]? = some x := by
      rw [List.append_assoc, List.getElem?_append_right (le_refl _)]; simp
    have hget : (u ++ [x] ++ NUL :: rest).getD ((u ++ [x]).length - 1) NUL = x := by
      rw [hlen, List.getD_eq_getElem?_getD, hget?]; rfl
    have hpos : (u ++ [x]).length > 0 := by simp
    by_cases hx : x = c
    · refine ⟨NUL :: rest, ?_⟩
      rw [if_pos ⟨hpos, by rw [hget]; exact hx⟩, if_pos (by simp [hx]), hlen, List.append_assoc]
      simp [List.set_append]
    · refine ⟨rest, ?_⟩
      rw [if_neg (fun h => hx (by rw [← hget]; exact h.2)), if_neg (by simp [hx])]

theorem not_mem_strip (w : List Char) (c : Char) (h : NUL ∉ w) :
    NUL ∉ (if w.getLast? = some c then w.dropLast else w) := by
  split_ifs
  · exact fun hm => h (List.dropLast_subset w hm)
  · exact h

/-- The string `LoadLayoutFile` finds in `line` after a read is `stripLine` of
what was read, whatever the array held before. -/
theorem cstr_readIntoBuf (buf chunk : List Char) :
    cstr (readIntoBuf buf chunk) = stripLine chunk := by
  unfold readIntoBuf stripLine
  obtain ⟨rest, hr⟩ := append_NUL_eq chunk (buf.drop (chunk.length + 1))
  have hw := NUL_not_mem_cstr chunk
  simp only [hr, cstr_append_NUL _ _ hw]
  obtain ⟨rest1, h1⟩ := strip_last (cstr chunk) rest '\n'
  have hw1 := not_mem_strip (cstr chunk) '\n' hw
  rw [h1, cstr_append_NUL _ _ hw1]
  obtain ⟨rest2, h2⟩ := strip_last _ rest1 '\r'
  rw [h2, cstr_append_NUL _ _ (not_mem_strip _ '\r' hw1)]

theorem appendLine_segmentCount {r r1 : MarqueeRenderer} {seg : Nat} {tl : TextLine}
    (h : appendLine r seg tl = some r1) : r1.segmentCount = r.segmentCount := by
  unfold appendLine at h
  simp only at h
  split_ifs at h
  injection h with h
  subst h
  rfl

/-- One read of `LoadLayoutFile` raises `segmentCount` by one when the line read
is `END`, and leaves it otherwise. -/
theorem loadChunk_segmentCount {st st1 : LoadState} {ch : List Char}
    (h : loadChunk st ch = some st1) :
    st1.renderer.segmentCount =
      st.renderer.segmentCount + (if stripLine ch = "END".toList then 1 else 0) := by
  unfold loadChunk at h
  simp only [cstr_readIntoBuf] at h
  generalize stripLine ch = line at h ⊢
  by_cases h0 : line.length = 0 ∨ line.head? = some '/'
  · have hE : ¬ line = "END".toList := by
      intro e; rw [e] at h0; exact absurd h0 (by decide)
    rw [if_pos h0] at h
    rw [if_neg hE]
    by_cases h1 : st.inSegment = true ∧ st.currentSegment ≠ none ∧ line.head? ≠ some '/'
    · rw [if_pos h1] at h
      cases hcs : st.currentSegment with
      | none => rw [hcs] at h; injection h with h; subst h; simp
      | some seg =>
        rw [hcs] at h
        simp only at h
        cases ha : appendLine st.renderer seg { texts := [] } with
        | none => rw [ha] at h; cases h
        | some r1 =>
          rw [ha] at h; injection h with h; subst h
          simp [appendLine_segmentCount ha]
    · rw [if_neg h1] at h; injection h with h; subst h; simp
  · rw [if_neg h0] at h
    by_cases c0 : startsWith line "LPS" = true
    · have hE : ¬ line = "END".toList := by
        intro e; rw [e] at c0; exact absurd c0 (by decide)
      rw [if_pos c0] at h
      rw [if_neg hE]
      injection h with h; subst h; simp
    · rw [if_neg c0] at h
      by_cases c1 : startsWith line "SW" = true
      · have hE : ¬ line = "END".toList := by
          intro e; rw [e] at c1; exact absurd c1 (by decide)
        rw [if_pos c1] at h
        rw [if_neg hE]
        injection h with h; subst h; simp
      · rw [if_neg c1] at h
        by_cases c2 : startsWith line "SH" = true
        · have hE : ¬ line = "END".toList := by
            intro e; rw [e] at c2; exact absurd c2 (by decide)
          rw [if_pos c2] at h
          rw [if_neg hE]
          injection h with h; subst h; simp
        · rw [if_neg c2] at h
          by_cases c3 : startsWith line "SC" = true
          · have hE : ¬ line = "END".toList := by
              intro e; rw [e] at c3; exact absurd c3 (by decide)
            rw [if_pos c3] at h
            rw [if_neg hE]
            injection h with h; subst h; simp
          · rw [if_neg c3] at h
            by_cases c4 : startsWith line "SD" = true
            · have hE : ¬ line = "END".toList := by
                intro e; rw [e] at c4; exact absurd c4 (by decide)
              rw [if_pos c4] at h
              rw [if_neg hE]
              injection h with h; subst h; simp
            · rw [if_neg c4] at h
              by_cases c5 : startsWith line "CD" = true
              · have hE : ¬ line = "END".toList := by
                  intro e; rw [e] at c5; exact absurd c5 (by decide)
                rw [if_pos c5] at h
                rw [if_neg hE]
                injection h with h; subst h; simp
              · rw [if_neg c5] at h
                by_cases c6 : startsWith line "TPF" = true
                · have hE : ¬ line = "END".toList := by
                    intro e; rw [e] at c6; exact absurd c6 (by decide)
                  rw [if_pos c6] at h
                  rw [if_neg hE]
                  by_cases hv : _wtoi (cstr (List.drop 4 (readIntoBuf st.buf ch))) > 0
                  · rw [if_pos hv] at h; injection h with h; subst h; simp
                  · rw [if_neg hv] at h; injection h with h; subst h; simp
                · rw [if_neg c6] at h
                  by_cases c7 : startsWith line "PM" = true
                  · have hE : ¬ line = "END".toList := by
                      intro e; rw [e] at c7; exact absurd c7 (by decide)
                    rw [if_pos c7] at h
                    rw [if_neg hE]
                    by_cases hv : _wtoi (cstr (List.drop 3 (readIntoBuf st.buf ch))) > 0
                    · rw [if_pos hv] at h; injection h with h; subst h; simp
                    · rw [if_neg hv] at h; injection h with h; subst h; simp
                  · rw [if_neg c7] at h
                    by_cases hS : line = "START".toList
                    · have hE : ¬ line = "END".toList := by
                        intro e; rw [e] at hS; exact absurd hS (by decide)
                      rw [if_pos hS] at h
                      rw [if_neg hE]
                      by_cases hb : st.renderer.segmentCount.toNat < MAX_SEGMENTS ∧
                          st.renderer.segmentCount.toNat < st.renderer.segments.length
                      · rw [if_pos hb] at h; injection h with h; subst h; simp
                      · rw [if_neg hb] at h; cases h
                    · rw [if_neg hS] at h
                      by_cases hE : line = "END".toList
                      · rw [if_pos hE] at h
                        rw [if_pos hE]
                        injection h with h; subst h; simp
                      · rw [if_neg hE] at h
                        rw [if_neg hE]
                        by_cases h1 : st.inSegment = true ∧ st.currentSegment ≠ none
                        · rw [if_pos h1] at h
                          cases hcs : st.currentSegment with
                          | none => rw [hcs] at h; injection h with h; subst h; simp
                          | some seg =>
                            rw [hcs] at h
                            simp only at h
                            by_cases hb : seg < MAX_SEGMENTS ∧ seg < st.renderer.segments.length ∧
                                (st.renderer.segments.getD seg { lines := [] }).lines.length <
                                  MAX_LINES_PER_SEGMENT
                            · rw [if_pos hb] at h
                              cases hp : ParseColoredLine line with
                              | none => rw [hp] at h; cases h
                              | some tl =>
                                rw [hp] at h
                                simp only at h
                                cases ha : appendLine st.renderer seg tl with
                                | none => rw [ha] at h; cases h
                                | some r1 =>
                                  rw [ha] at h; injection h with h; subst h
                                  simp [appendLine_segmentCount ha]
                            · rw [if_neg hb] at h; cases h
                        · rw [if_neg h1] at h; injection h with h; subst h; simp

theorem loadLoop_segmentCount : ∀ (chunks : List (List Char)) {st st1 : LoadState},
    loadLoop chunks st = some st1 →
    st1.renderer.segmentCount =
      st.renderer.segmentCount + ((chunks.map stripLine).count "END".toList : Int)
  | [], st, st1, h => by
    rw [loadLoop] at h
    injection h with h
    subst h
    simp
  | ch :: more, st, st1, h => by
    rw [loadLoop] at h
    cases hc : loadChunk st ch with
    | none => rw [hc] at h; cases h
    | some st2 =>
      rw [hc] at h
      simp only at h
      rw [loadLoop_segmentCount more h, loadChunk_segmentCount hc, List.map_cons,
        List.count_cons]
      by_cases he : stripLine ch = "END".toList
      · have he2 : (stripLine ch == "END".toList) = true := by simpa using he
        rw [if_pos he, if_pos he2]; push_cast; omega
      · have he2 : ¬ (stripLine ch == "END".toList) = true := by simpa using he
        rw [if_neg he, if_neg he2]; simp

/-- C6 (amended). For every input text on which the load stays within its arrays
and does not divide by zero (`LoadLayoutFile` gives a result), the
`segmentCount` it leaves is the number of `END` lines of the text, whether or
not a segment was open when they were met, whatever value the `SC` line
declares. -/
theorem C6_renderer_segment_count (renderer r : MarqueeRenderer) (stream stack : List Char)
    (h : LoadLayoutFile renderer stream stack = some r) :
    r.segmentCount = ((rendererLines stream).count "END".toList : Int) := by
  unfold LoadLayoutFile at h
  simp only at h
  cases hl : loadLoop (fgetwsChunks stream [])
      { renderer := { renderer with segmentCount := 0 }, buf := stack, inSegment := false,
        currentSegment := none } with
  | none => rw [hl] at h; cases h
  | some st =>
    rw [hl] at h
    simp only at h
    split_ifs at h
    injection h with h
    subst h
    rw [loadLoop_segmentCount _ hl]
    simp [rendererLines]

theorem C6_renderer_segment_count_witness :
    LoadLayoutFile InitRenderer "SC 5\nSTART\nhi\nEND\n".toList [] = some loadedExample ∧
    loadedExample.segmentCount =
      ((rendererLines "SC 5\nSTART\nhi\nEND\n".toList).count "END".toList : Int) :=
  ⟨by decide, C6_renderer_segment_count InitRenderer loadedExample
    "SC 5\nSTART\nhi\nEND\n".toList [] (by decide)⟩

/-- C6 as stated fails: for the text `END` the renderer leaves `segmentCount` 1,
while the text has no balanced `START`/`END` pair. -/
theorem C6_counterexample :
    (LoadLayoutFile InitRenderer "END".toList []).map (fun r => r.segmentCount) = some 1 ∧
    balancedPairs (rendererLines "END".toList) false = 0 := by
  constructor <;> decide

/-! ### Content lines inside a segment -/

theorem lineDiags_other_inside {s : VState} {l : List Char} (hk : lineKind l = LineKind.other)
    (hin : s.inSegment = true) :
    lineDiags s l = markupDiags l s.lineNum := by
  unfold lineDiags
  rw [hk]
  simp only
  rw [if_pos hin]
  rfl

theorem markupDiags_lineNumber {l : List Char} {n : Int} {d : ValidationError}
    (h : d ∈ markupDiags l n) : d.lineNumber = n :=
  (ValidateColorSyntax_entries l n d h).1

theorem markupDiags_message_ne {l : List Char} {n : Int} {d : ValidationError}
    (h : d ∈ markupDiags l n) : d.message ≠ "File ends with unclosed segment" := by
  have h1 := (ValidateColorSyntax_entries l n d h).2.2
  intro heq
  rcases h1 with h1 | ⟨k, hk⟩
  · rw [heq] at h1
    exact absurd h1 (by decide)
  · rw [heq] at hk
    exact unclosedMessage_ne_of_head (k := k) (t := "File ends with unclosed segment")
      (by decide) hk.symm

theorem ValidateColorSyntax_eq_addMany (l : List Char) (n : Int) (e : List ValidationError) :
    ValidateColorSyntax l n e = addMany e (markupDiags l n) :=
  ValidateColorSyntax_grow recorder_capped l n e

/-- C11 (amended). For every non-empty logical line that lies inside an open
segment, does not begin with `/` nor with a command prefix and is not exactly
`START` or `END`, the diagnostics the validator records for that line are
exactly those that `ValidateColorSyntax` produces for the text of the line with
its 1-based number: the scan calls it on the list as it stands and changes
nothing else than the line counter, and in the final list (unless it is full)
the entries with the number of the line, the closing check for an unclosed
segment left aside, are the ones it reports. -/
theorem C11_content_line (buffer : List Char) (k : Nat) (l : List Char)
    (hl : (logicalLines buffer)[k]? = some l) (hne : l ≠ []) (hcom : l.head? ≠ some '/')
    (hcmd : ∀ p ∈ ["LPS", "SW", "SH", "SC", "SD", "CD", "TPF", "PM"], startsWith l p = false)
    (hs : l ≠ "START".toList) (he : l ≠ "END".toList)
    (hin : openAfter ((logicalLines buffer).take k) false = true) :
    stateAfter buffer (k + 1) =
      { stateAfter buffer k with
        errors := ValidateColorSyntax l ((k : Int) + 1) (stateAfter buffer k).errors,
        line := [], lineNum := (k : Int) + 2 } ∧
    ((ValidateFile buffer).length < MAX_ERRORS →
      (ValidateFile buffer).filter (fun e => e.lineNumber = (k : Int) + 1 ∧
          e.message ≠ "File ends with unclosed segment") =
        ValidateColorSyntax l ((k : Int) + 1) []) := by
  have hkind := lineKind_other_of hne hcom hcmd hs he
  have hklt := getElem?_lt_length hl
  have hlen := length_take_of_getElem? hl
  have hopen : (runCtl ((logicalLines buffer).take k) VState.init).inSegment = true := by
    rw [runCtl_inSegment]; exact hin
  have hnum : (runCtl ((logicalLines buffer).take k) VState.init).lineNum = (k : Int) + 1 := by
    rw [runCtl_lineNum, hlen, init_lineNum]; omega
  constructor
  · rw [stateAfter_succ hl, lineStep_capped, lineCtl_other hkind]
    have hs1 : (stateAfter buffer k).inSegment = true := by
      rw [stateAfter_inSegment]; exact hin
    have hs2 : (stateAfter buffer k).lineNum = (k : Int) + 1 :=
      stateAfter_lineNum buffer k (by omega)
    rw [lineDiags_other_inside hkind hs1, ← ValidateColorSyntax_eq_addMany, hs2]
    congr 1
  · intro hfull
    have hlhs : (ValidateFile buffer).filter (fun e => e.lineNumber = (k : Int) + 1 ∧
          e.message ≠ "File ends with unclosed segment") = markupDiags l ((k : Int) + 1) := by
      rw [ValidateFile_not_full buffer hfull, reported, List.filter_append]
      have hp : (fun (e : ValidationError) => decide (e.lineNumber = (k : Int) + 1 ∧
            e.message ≠ "File ends with unclosed segment")) =
          (fun e => decide (e.message ≠ "File ends with unclosed segment") &&
            decide (e.lineNumber = VState.init.lineNum + (k : Int))) := by
        funext e
        rw [init_lineNum, add_comm, Bool.decide_and, Bool.and_comm]
      rw [hp, ← List.filter_filter, ← List.filter_filter, scanDiags_filter VState.init hl,
        lineDiags_other_inside hkind hopen, hnum]
      have h1 : (markupDiags l ((k : Int) + 1)).filter
          (fun e => decide (e.message ≠ "File ends with unclosed segment")) =
          markupDiags l ((k : Int) + 1) := by
        rw [List.filter_eq_self]
        intro d hd
        exact decide_eq_true (markupDiags_message_ne hd)
      have h2 : ((finalDiags (runCtl (logicalLines buffer) VState.init)).filter
          (fun e => decide (e.lineNumber = VState.init.lineNum + (k : Int)))).filter
          (fun e => decide (e.message ≠ "File ends with unclosed segment")) = [] := by
        rw [List.filter_eq_nil_iff]
        intro d hd
        rw [List.mem_filter, mem_finalDiags_iff] at hd
        rcases hd with ⟨hd, hline⟩
        rw [init_lineNum] at hline
        have hline := of_decide_eq_true hline
        rcases hd with ⟨-, rfl⟩ | ⟨-, rfl⟩ | ⟨-, rfl⟩ | ⟨-, rfl⟩ | ⟨-, rfl⟩ | ⟨-, rfl⟩ | ⟨-, rfl⟩
        all_goals first
          | (simp only at hline; omega)
          | simp
      rw [h1, h2, List.append_nil]
    rw [hlhs, ValidateColorSyntax_eq_addMany]
    have hlen2 : (markupDiags l ((k : Int) + 1)).length < MAX_ERRORS := by
      rw [← hlhs]
      exact lt_of_le_of_lt (List.length_filter_le _ _) hfull
    unfold addMany
    rw [List.nil_append, List.take_of_length_le]
    simp only [List.length_nil]
    omega

theorem C11_content_line_witness :
    stateAfter "START\n`zz:hi".toList (1 + 1) =
      { stateAfter "START\n`zz:hi".toList 1 with
        errors := ValidateColorSyntax "`zz:hi".toList (((1 : Nat) : Int) + 1)
          (stateAfter "START\n`zz:hi".toList 1).errors,
        line := [], lineNum := ((1 : Nat) : Int) + 2 } :=
  (C11_content_line "START\n`zz:hi".toList 1 "`zz:hi".toList (by decide) (by decide) (by decide)
    (by decide) (by decide) (by decide) (by decide)).1

/-- C11 as stated fails: in the text `START`, `SW` followed by a backtick, `END`
the second line is not empty, lies inside the open segment, does not begin with
`/` and is neither `START` nor `END`; the validator takes it for an `SW` command
and records nothing for it, while `ValidateColorSyntax` reports an unclosed
colour specification for its text. -/
theorem C11_counterexample :
    (logicalLines "START\nSW`\nEND".toList)[1]? = some "SW`".toList ∧
    "SW`".toList ≠ [] ∧ "SW`".toList.head? ≠ some '/' ∧
    "SW`".toList ≠ "START".toList ∧ "SW`".toList ≠ "END".toList ∧
    openAfter ((logicalLines "START\nSW`\nEND".toList).take 1) false = true ∧
    (stateAfter "START\nSW`\nEND".toList 1).errors = [] ∧
    (stateAfter "START\nSW`\nEND".toList 2).errors = [] ∧
    (∀ e ∈ ValidateFile "START\nSW`\nEND".toList, e.lineNumber ≠ 2) ∧
    ValidateColorSyntax "SW`".toList 2 [] =
      [⟨2, "Unclosed color specification (1 unmatched backticks)", 2⟩] := by
  refine ⟨by decide, by decide, by decide, by decide, by decide, by decide, by decide,
    by decide, by decide, by decide⟩

/-! ### Decimal numerals -/

theorem digitChar_digit (d : Nat) (h : d < 10) :
    ('0' ≤ d.digitChar ∧ d.digitChar ≤ '9') ∧ d.digitChar.toNat - '0'.toNat = d := by
  interval_cases d <;> decide

theorem digitsValue_append (x y : List Char) (hx : ∀ c ∈ x, '0' ≤ c ∧ c ≤ '9') (acc : Nat) :
    digitsValue (x ++ y) acc = digitsValue y (digitsValue x acc) := by
  induction x generalizing acc with
  | nil => rfl
  | cons c x ih =>
    have hc := hx c (List.mem_cons_self _ _)
    rw [List.cons_append, digitsValue, if_pos hc, digitsValue, if_pos hc]
    exact ih (fun d hd => hx d (List.mem_cons_of_mem _ hd)) _

theorem toDigitsCore_append (f : Nat) : ∀ (n : Nat) (ds : List Char),
    Nat.toDigitsCore 10 f n ds = Nat.toDigitsCore 10 f n [] ++ ds := by
  induction f with
  | zero => intro n ds; simp [Nat.toDigitsCore]
  | succ f ih =>
    intro n ds
    simp only [Nat.toDigitsCore]
    by_cases h : n / 10 = 0
    · simp [h]
    · simp only [h, if_false]
      rw [ih (n / 10) ((n % 10).digitChar :: ds), ih (n / 10) [(n % 10).digitChar]]
      simp

theorem toDigitsCore_value (f : Nat) : ∀ n : Nat, n < f →
    (∀ c ∈ Nat.toDigitsCore 10 f n [], '0' ≤ c ∧ c ≤ '9') ∧
    digitsValue (Nat.toDigitsCore 10 f n []) 0 = n ∧ Nat.toDigitsCore 10 f n [] ≠ [] := by
  induction f with
  | zero => intro n h; omega
  | succ f ih =>
    intro n hn
    have hd := digitChar_digit (n % 10) (Nat.mod_lt _ (by decide))
    simp only [Nat.toDigitsCore]
    by_cases h : n / 10 = 0
    · simp only [h, if_true]
      refine ⟨?_, ?_, by simp⟩
      · intro c hc
        rw [List.mem_singleton] at hc
        rw [hc]; exact hd.1
      · rw [digitsValue, if_pos hd.1, digitsValue, hd.2]
        omega
    · simp only [h, if_false]
      rw [toDigitsCore_append]
      have hlt : n / 10 < f := by omega
      obtain ⟨h1, h2, -⟩ := ih (n / 10) hlt
      refine ⟨?_, ?_, by simp⟩
      · intro c hc
        rcases List.mem_append.mp hc with hc | hc
        · exact h1 c hc
        · rw [List.mem_singleton] at hc
          rw [hc]; exact hd.1
      · rw [digitsValue_append _ _ h1, h2, digitsValue, if_pos hd.1, digitsValue, hd.2]
        omega

theorem repr_value (n : Nat) :
    (∀ c ∈ (Nat.repr n).toList, '0' ≤ c ∧ c ≤ '9') ∧ digitsValue (Nat.repr n).toList 0 = n ∧
      (Nat.repr n).toList ≠ [] :=
  toDigitsCore_value (n + 1) n (Nat.lt_succ_self n)

theorem not_space_of_digit {c : Char} (h : '0' ≤ c ∧ c ≤ '9') :
    iswspace c = false ∧ c ≠ '-' ∧ c ≠ '+' := by
  refine ⟨?_, ?_, ?_⟩
  · unfold iswspace
    have h1 : c ≠ ' ' := by rintro rfl; exact absurd h (by decide)
    have h2 : c ≠ '\t' := by rintro rfl; exact absurd h (by decide)
    have h3 : c ≠ '\n' := by rintro rfl; exact absurd h (by decide)
    have h4 : c ≠ Char.ofNat 11 := by rintro rfl; exact absurd h (by decide)
    have h5 : c ≠ Char.ofNat 12 := by rintro rfl; exact absurd h (by decide)
    have h6 : c ≠ '\r' := by rintro rfl; exact absurd h (by decide)
    simp [h1, h2, h3, h4, h5, h6]
  · rintro rfl; exact absurd h (by decide)
  · rintro rfl; exact absurd h (by decide)

theorem wcstol_plain (c : Char) (t : List Char) (h0 : iswspace c = false) (h1 : c ≠ '-')
    (h2 : c ≠ '+') (hv : (digitsValue (c :: t) 0 : Int) ≤ LONG_MAX) :
    wcstol (c :: t) = (digitsValue (c :: t) 0 : Int) := by
  unfold wcstol
  have hdw : (c :: t).dropWhile iswspace = c :: t := by
    rw [List.dropWhile_cons, h0]; rfl
  simp only [hdw]
  have hlo : LONG_MIN ≤ (digitsValue (c :: t) 0 : Int) := by
    have : LONG_MIN ≤ 0 := by decide
    omega
  have key : ∀ v : Int, v = (digitsValue (c :: t) 0 : Int) →
      (if v > LONG_MAX then LONG_MAX else if v < LONG_MIN then LONG_MIN else v) =
        (digitsValue (c :: t) 0 : Int) := by
    intro v hv2
    rw [hv2, if_neg (by omega), if_neg (by omega)]
  apply key
  split
  · rename_i heq; injection heq with e1 e2; exact absurd e1 h1
  · rename_i heq; injection heq with e1 e2; exact absurd e1 h2
  · rfl

theorem wcstol_minus (t : List Char) (hv : LONG_MIN ≤ -(digitsValue t 0 : Int)) :
    wcstol ('-' :: t) = -(digitsValue t 0 : Int) := by
  unfold wcstol
  have hdw : ('-' :: t).dropWhile iswspace = '-' :: t := by
    rw [List.dropWhile_cons]; rfl
  simp only [hdw]
  have hhi : -(digitsValue t 0 : Int) ≤ LONG_MAX := by
    have : (0 : Int) ≤ LONG_MAX := by decide
    omega
  rw [if_neg (by omega), if_neg (by omega)]

/-- The function `wcstol` reads the decimal numeral of a `long` back. -/
theorem wcstol_toString (n : Int) (h1 : LONG_MIN ≤ n) (h2 : n ≤ LONG_MAX) :
    wcstol (toString n).toList = n := by
  cases n with
  | ofNat m =>
    obtain ⟨hd, hv, hne⟩ := repr_value m
    have hs : (toString (Int.ofNat m)).toList = (Nat.repr m).toList := rfl
    rw [hs]
    cases hr : (Nat.repr m).toList with
    | nil => exact absurd hr hne
    | cons c t =>
      have hc := not_space_of_digit (hd c (by rw [hr]; exact List.mem_cons_self _ _))
      rw [hr] at hv
      have : (Int.ofNat m) = (m : Int) := rfl
      rw [this] at h1 h2 ⊢
      rw [wcstol_plain c t hc.1 hc.2.1 hc.2.2 (by rw [hv]; exact h2), hv]
  | negSucc m =>
    obtain ⟨hd, hv, hne⟩ := repr_value (m + 1)
    have hs : (toString (Int.negSucc m)).toList = '-' :: (Nat.repr (m + 1)).toList := by
      show ("-" ++ Nat.repr (m + 1)).toList = _
      simp
    rw [hs]
    have : Int.negSucc m = -((m + 1 : Nat) : Int) := rfl
    rw [this] at h1 h2 ⊢
    rw [wcstol_minus _ (by rw [hv]; exact h1), hv]

/-! ### Command lines with a decimal parameter -/

theorem commandLine_eq (cmd : String) (n : Int) :
    commandLine cmd n = cmd.toList ++ ' ' :: (toString n).toList := by
  simp [commandLine]

theorem toString_ne_nil (n : Int) : (toString n).toList ≠ [] := by
  cases n with
  | ofNat m => exact (repr_value m).2.2
  | negSucc m =>
    show ("-" ++ Nat.repr (m + 1)).toList ≠ []
    simp

theorem commandLine_arg (cmd : String) (n : Int) (h1 : LONG_MIN ≤ n) (h2 : n ≤ LONG_MAX) :
    (commandLine cmd n).length > cmd.length + 1 ∧
      wcstol ((commandLine cmd n).drop (cmd.length + 1)) = n := by
  rw [commandLine_eq]
  have hne := toString_ne_nil n
  have hlen : 0 < (toString n).toList.length := List.length_pos.mpr hne
  constructor
  · have hc : cmd.toList.length = cmd.length := rfl
    simp only [List.length_append, List.length_cons, hc]
    omega
  · have hd : (cmd.toList ++ ' ' :: (toString n).toList).drop (cmd.length + 1) =
        (toString n).toList := by
      rw [show cmd.length + 1 = cmd.toList.length + 1 from rfl, List.drop_append]
      rfl
    rw [hd, wcstol_toString n h1 h2]

theorem lineKind_LPS_line (n : Int) : lineKind (commandLine "LPS" n) = LineKind.lps := by
  rw [commandLine_eq]; exact lineKind_of_LPS rfl

theorem lineKind_SW_line (n : Int) : lineKind (commandLine "SW" n) = LineKind.sw := by
  rw [commandLine_eq]; exact lineKind_of_SW rfl

theorem lineKind_SH_line (n : Int) : lineKind (commandLine "SH" n) = LineKind.sh := by
  rw [commandLine_eq]; exact lineKind_of_SH rfl

theorem lineKind_SC_line (n : Int) : lineKind (commandLine "SC" n) = LineKind.sc := by
  rw [commandLine_eq]; exact lineKind_of_SC rfl

theorem lineKind_SD_line (n : Int) : lineKind (commandLine "SD" n) = LineKind.sd := by
  rw [commandLine_eq]; exact lineKind_of_SD rfl

theorem lineKind_CD_line (n : Int) : lineKind (commandLine "CD" n) = LineKind.cd := by
  rw [commandLine_eq]
  show lineKind ('C' :: 'D' :: ' ' :: (toString n).toList) = LineKind.cd
  generalize (toString n).toList = t
  simp [lineKind, startsWith, String.length]

theorem lineKind_TPF_line (n : Int) : lineKind (commandLine "TPF" n) = LineKind.tpf := by
  rw [commandLine_eq]
  show lineKind ('T' :: 'P' :: 'F' :: ' ' :: (toString n).toList) = LineKind.tpf
  generalize (toString n).toList = t
  simp [lineKind, startsWith, String.length]

theorem lineKind_PM_line (n : Int) : lineKind (commandLine "PM" n) = LineKind.pm := by
  rw [commandLine_eq]
  show lineKind ('P' :: 'M' :: ' ' :: (toString n).toList) = LineKind.pm
  generalize (toString n).toList = t
  simp [lineKind, startsWith, String.length]

theorem decide_arg {l : List Char} {n : Int} (j : Nat) (P : Int → Prop) [DecidablePred P]
    (h : l.length > j ∧ wcstol (l.drop j) = n) :
    decide (l.length > j ∧ P (wcstol (l.drop j))) = decide (P n) := by
  rw [h.2]
  simp [h.1]

theorem lineDiags_LPS_line (s : VState) (n : Int) (h1 : LONG_MIN ≤ n) (h2 : n ≤ LONG_MAX) :
    lineDiags s (commandLine "LPS" n) =
      diagIf s.hasLPS s.lineNum "Duplicate LPS command" 2 ++
        diagIf (decide (n ≤ 0)) s.lineNum "LPS must be positive" 2 := by
  unfold lineDiags
  rw [lineKind_LPS_line]
  simp only
  rw [decide_arg 4 (fun v => v ≤ 0) (commandLine_arg "LPS" n h1 h2)]

theorem lineDiags_SW_line (s : VState) (n : Int) (h1 : LONG_MIN ≤ n) (h2 : n ≤ LONG_MAX) :
    lineDiags s (commandLine "SW" n) =
      diagIf s.hasSW s.lineNum "Duplicate SW command" 2 ++
        diagIf (decide (n ≤ 0)) s.lineNum "SW must be positive" 2 := by
  unfold lineDiags
  rw [lineKind_SW_line]
  simp only
  rw [decide_arg 3 (fun v => v ≤ 0) (commandLine_arg "SW" n h1 h2)]

theorem lineDiags_SH_line (s : VState) (n : Int) (h1 : LONG_MIN ≤ n) (h2 : n ≤ LONG_MAX) :
    lineDiags s (commandLine "SH" n) =
      diagIf s.hasSH s.lineNum "Duplicate SH command" 2 ++
        diagIf (decide (n ≤ 0)) s.lineNum "SH must be positive" 2 := by
  unfold lineDiags
  rw [lineKind_SH_line]
  simp only
  rw [decide_arg 3 (fun v => v ≤ 0) (commandLine_arg "SH" n h1 h2)]

theorem lineDiags_SC_line (s : VState) (n : Int) (h1 : LONG_MIN ≤ n) (h2 : n ≤ LONG_MAX) :
    lineDiags s (commandLine "SC" n) =
      diagIf s.hasSC s.lineNum "Duplicate SC command" 2 ++
        diagIf (decide (n ≤ 0)) s.lineNum "SC must be positive" 2 := by
  unfold lineDiags
  rw [lineKind_SC_line]
  simp only
  rw [decide_arg 3 (fun v => v ≤ 0) (commandLine_arg "SC" n h1 h2)]

theorem lineDiags_SD_line (s : VState) (n : Int) (h1 : LONG_MIN ≤ n) (h2 : n ≤ LONG_MAX) :
    lineDiags s (commandLine "SD" n) =
      diagIf s.hasSD s.lineNum "Duplicate SD command" 2 ++
        diagIf (decide (n < 0)) s.lineNum "SD cannot be negative" 2 := by
  unfold lineDiags
  rw [lineKind_SD_line]
  simp only
  rw [decide_arg 3 (fun v => v < 0) (commandLine_arg "SD" n h1 h2)]

theorem lineDiags_CD_line (s : VState) (n : Int) (h1 : LONG_MIN ≤ n) (h2 : n ≤ LONG_MAX) :
    lineDiags s (commandLine "CD" n) =
      diagIf (decide (n < 0)) s.lineNum "CD cannot be negative" 2 := by
  unfold lineDiags
  rw [lineKind_CD_line]
  simp only
  rw [decide_arg 3 (fun v => v < 0) (commandLine_arg "CD" n h1 h2)]

theorem lineDiags_TPF_line (s : VState) (n : Int) (h1 : LONG_MIN ≤ n) (h2 : n ≤ LONG_MAX) :
    lineDiags s (commandLine "TPF" n) =
      diagIf s.hasTPF s.lineNum "Duplicate TPF command" 1 ++
        diagIf (decide (n ≤ 0)) s.lineNum "TPF (millis per frame) must be positive" 2 ++
        diagIf (decide (n < 16)) s.lineNum "TPF below 16ms may cause performance issues" 1 := by
  unfold lineDiags
  rw [lineKind_TPF_line]
  simp only
  rw [decide_arg 4 (fun v => v ≤ 0) (commandLine_arg "TPF" n h1 h2),
    decide_arg 4 (fun v => v < 16) (commandLine_arg "TPF" n h1 h2)]

theorem lineDiags_PM_line (s : VState) (n : Int) (h1 : LONG_MIN ≤ n) (h2 : n ≤ LONG_MAX) :
    lineDiags s (commandLine "PM" n) =
      diagIf s.hasPM s.lineNum "Duplicate PM command" 1 ++
        diagIf (decide (n ≤ 0)) s.lineNum "PM (pixel movement per frame) must be positive" 2 ++
        diagIf (decide (n > 20)) s.lineNum "PM above 20 pixels may scroll too fast" 1 := by
  unfold lineDiags
  rw [lineKind_PM_line]
  simp only
  rw [decide_arg 3 (fun v => v ≤ 0) (commandLine_arg "PM" n h1 h2),
    decide_arg 3 (fun v => v > 20) (commandLine_arg "PM" n h1 h2)]

/-- In a list that is not full, an entry that carries the number of line `k`
(from 0) and is not the closing `File ends with unclosed segment` is an entry
the scan reports for that line. -/
theorem mem_ValidateFile_line {buffer : List Char} {k : Nat} {l : List Char}
    (hl : (logicalLines buffer)[k]? = some l)
    (hfull : (ValidateFile buffer).length < MAX_ERRORS) (d : ValidationError)
    (hline : d.lineNumber = (k : Int) + 1)
    (hmsg : d.message ≠ "File ends with unclosed segment") :
    d ∈ ValidateFile buffer ↔ d ∈ lineDiags (runCtl ((logicalLines buffer).take k) VState.init) l := by
  rw [ValidateFile_not_full buffer hfull, mem_reported_iff]
  have hf : d ∈ scanDiags (logicalLines buffer) VState.init ↔
      d ∈ lineDiags (runCtl ((logicalLines buffer).take k) VState.init) l := by
    rw [← scanDiags_filter VState.init hl, List.mem_filter, init_lineNum]
    constructor
    · intro h
      exact ⟨h, decide_eq_true (by omega)⟩
    · intro h; exact h.1
  constructor
  · rintro (h | h)
    · exact hf.mp h
    · rw [mem_finalDiags_iff] at h
      rcases h with ⟨-, rfl⟩ | ⟨-, rfl⟩ | ⟨-, rfl⟩ | ⟨-, rfl⟩ | ⟨-, rfl⟩ | ⟨-, rfl⟩ | ⟨-, rfl⟩
      all_goals first
        | (simp only at hline; omega)
        | exact absurd rfl hmsg
  · intro h
    exact Or.inl (hf.mpr h)

theorem stateBefore_lineNum {buffer : List Char} {k : Nat} {l : List Char}
    (hl : (logicalLines buffer)[k]? = some l) :
    (runCtl ((logicalLines buffer).take k) VState.init).lineNum = (k : Int) + 1 := by
  rw [runCtl_lineNum, length_take_of_getElem? hl, init_lineNum]; omega

/-- C12 (amended). For every integer `n` in the `int` range, a line `LPS n`,
`SW n`, `SH n` or `SC n` makes the validator emit the Error `<command> must be
positive` at that line if and only if `n ≤ 0`, and a line `SD n` or `CD n` makes
it emit the Error `<command> cannot be negative` if and only if `n < 0` (so 0 is
accepted for `SD` and `CD` and rejected for the other four), unless the list is
full. -/
theorem C12_value_checks (buffer : List Char) (k : Nat) (n : Int) (cmd : String)
    (h1 : LONG_MIN ≤ n) (h2 : n ≤ LONG_MAX)
    (hl : (logicalLines buffer)[k]? = some (commandLine cmd n))
    (hfull : (ValidateFile buffer).length < MAX_ERRORS) :
    (cmd ∈ ["LPS", "SW", "SH", "SC"] →
      ((⟨k + 1, cmd ++ " must be positive", 2⟩ : ValidationError) ∈ ValidateFile buffer ↔
        n ≤ 0)) ∧
    (cmd ∈ ["SD", "CD"] →
      ((⟨k + 1, cmd ++ " cannot be negative", 2⟩ : ValidationError) ∈ ValidateFile buffer ↔
        n < 0)) := by
  have hnum := stateBefore_lineNum hl
  constructor
  · intro hc
    simp only [List.mem_cons, List.mem_singleton, List.not_mem_nil, or_false] at hc
    rcases hc with rfl | rfl | rfl | rfl
    · rw [mem_ValidateFile_line hl hfull _ rfl
          (show "LPS" ++ " must be positive" ≠ "File ends with unclosed segment" by decide),
        lineDiags_LPS_line _ n h1 h2,
        List.mem_append, mem_diagIf_iff, mem_diagIf_iff, hnum]
      simp
    · rw [mem_ValidateFile_line hl hfull _ rfl
          (show "SW" ++ " must be positive" ≠ "File ends with unclosed segment" by decide),
        lineDiags_SW_line _ n h1 h2,
        List.mem_append, mem_diagIf_iff, mem_diagIf_iff, hnum]
      simp
    · rw [mem_ValidateFile_line hl hfull _ rfl
          (show "SH" ++ " must be positive" ≠ "File ends with unclosed segment" by decide),
        lineDiags_SH_line _ n h1 h2,
        List.mem_append, mem_diagIf_iff, mem_diagIf_iff, hnum]
      simp
    · rw [mem_ValidateFile_line hl hfull _ rfl
          (show "SC" ++ " must be positive" ≠ "File ends with unclosed segment" by decide),
        lineDiags_SC_line _ n h1 h2,
        List.mem_append, mem_diagIf_iff, mem_diagIf_iff, hnum]
      simp
  · intro hc
    simp only [List.mem_cons, List.mem_singleton, List.not_mem_nil, or_false] at hc
    rcases hc with rfl | rfl
    · rw [mem_ValidateFile_line hl hfull _ rfl
          (show "SD" ++ " cannot be negative" ≠ "File ends with unclosed segment" by decide),
        lineDiags_SD_line _ n h1 h2,
        List.mem_append, mem_diagIf_iff, mem_diagIf_iff, hnum]
      simp
    · rw [mem_ValidateFile_line hl hfull _ rfl
          (show "CD" ++ " cannot be negative" ≠ "File ends with unclosed segment" by decide),
        lineDiags_CD_line _ n h1 h2,
        mem_diagIf_iff, hnum]
      simp

theorem C12_value_checks_witness :
    ((⟨(0 : Nat) + 1, "SD" ++ " cannot be negative", 2⟩ : ValidationError) ∈
        ValidateFile "SD 0".toList ↔ (0 : Int) < 0) :=
  (C12_value_checks "SD 0".toList 0 0 "SD" (by decide) (by decide) (by decide) (by decide)).2
    (by decide)

/-- C12 as stated fails: after 1000 stray lines the line `LPS 0` (line 1001)
carries the value 0, and the list holds no `LPS must be positive` entry (it is
full). -/
theorem C12_counterexample :
    (logicalLines (junk 1000 ++ "LPS 0".toList))[1000]? = some (commandLine "LPS" 0) ∧
    (0 : Int) ≤ 0 ∧
    (⟨1001, "LPS must be positive", 2⟩ : ValidationError) ∉
      ValidateFile (junk 1000 ++ "LPS 0".toList) := by
  refine ⟨?_, le_refl _, ?_⟩
  · rw [show (1000 : Nat) = 1000 + 0 from rfl, junk_getElem?]
    decide
  · exact not_mem_ValidateFile_junk _ _ (Or.inl (by decide))

/-! ### The first line of a text -/

theorem filter_take_nil {α : Type} (p : α → Bool) (m : Nat) (l : List α)
    (h : ∀ a ∈ l, p a = false) : (l.take m).filter p = [] := by
  rw [List.filter_eq_nil_iff]
  intro a ha
  rw [h a (List.mem_of_mem_take ha)]
  simp

/-- The entries of the final list with line number 1 are the diagnostics of the
first logical line, when these are fewer than `MAX_ERRORS` and the line is not
`START`. -/
theorem filter_first_line {buffer : List Char} {l : List Char}
    (hl : (logicalLines buffer)[0]? = some l) (hs : l ≠ "START".toList)
    (hA : (lineDiags VState.init l).length ≤ MAX_ERRORS) :
    (ValidateFile buffer).filter (fun e => e.lineNumber = 1) = lineDiags VState.init l := by
  have hsplit := getElem?_split hl
  rw [List.take_zero, List.nil_append] at hsplit
  have hrep : reported buffer = lineDiags VState.init l ++
      (scanDiags ((logicalLines buffer).drop 1) (lineCtl VState.init l) ++
        finalDiags (runCtl (logicalLines buffer) VState.init)) := by
    have hscan : scanDiags (logicalLines buffer) VState.init = lineDiags VState.init l ++
        scanDiags ((logicalLines buffer).drop 1) (lineCtl VState.init l) := by
      conv_lhs => rw [hsplit]
      rfl
    unfold reported
    rw [hscan, List.append_assoc]
  rw [ValidateFile_eq_take, hrep, List.take_append_eq_append_take, List.filter_append,
    List.take_of_length_le hA]
  have h1 : (lineDiags VState.init l).filter (fun e => e.lineNumber = 1) =
      lineDiags VState.init l := by
    rw [List.filter_eq_self]
    intro d hd
    exact decide_eq_true (lineDiags_lineNumber hd)
  have h2 : ∀ d ∈ scanDiags ((logicalLines buffer).drop 1) (lineCtl VState.init l) ++
      finalDiags (runCtl (logicalLines buffer) VState.init),
      (fun (e : ValidationError) => decide (e.lineNumber = 1)) d = false := by
    intro d hd
    apply decide_eq_false
    rcases List.mem_append.mp hd with hd | hd
    · have := (scanDiags_lineNumber _ _ d hd).1
      rw [lineCtl_lineNum, init_lineNum] at this
      omega
    · intro hline
      have hnil := filter_finalDiags_line (runCtl (logicalLines buffer) VState.init) 1 (le_refl _)
        (by
          rintro ⟨hopen, hlast⟩
          rw [final_lineNum] at hlast
          have hlen : (logicalLines buffer).length = 1 := by omega
          have hdrop : (logicalLines buffer).drop 1 = [] := by
            apply List.drop_of_length_le; omega
          rw [hdrop] at hsplit
          rw [runCtl_inSegment, hsplit, openAfter, if_neg hs] at hopen
          by_cases he : l = "END".toList
          · rw [if_pos he, openAfter] at hopen
            exact absurd hopen (by decide)
          · rw [if_neg he, openAfter] at hopen
            exact absurd hopen (by decide))
      have hmem : d ∈ (finalDiags (runCtl (logicalLines buffer) VState.init)).filter
          (fun e => e.lineNumber = 1) := by
        rw [List.mem_filter]
        exact ⟨hd, decide_eq_true hline⟩
      rw [hnil] at hmem
      exact absurd hmem (List.not_mem_nil _)
  rw [h1, filter_take_nil _ _ _ h2, List.append_nil]

/-! ### The order of the final list -/

/-- The diagnostics of the checks on the required commands and on the segment
count: the entries with line number 0. -/
theorem finalDiags_split (s : VState) :
    ∃ Z : List ValidationError, (∀ d ∈ Z, d.lineNumber = 0) ∧
      finalDiags s = Z ++ diagIf s.inSegment (s.lineNum - 1) "File ends with unclosed segment" 2 := by
  refine ⟨diagIf (!s.hasLPS) 0 "Missing LPS command" 2 ++
    diagIf (!s.hasSW) 0 "Missing SW command" 2 ++
    diagIf (!s.hasSH) 0 "Missing SH command" 2 ++
    diagIf (!s.hasSC) 0 "Missing SC command" 2 ++
    diagIf (!s.hasSD) 0 "Missing SD command" 2 ++
    diagIf (decide (s.expectedSegments ≠ s.segmentCount)) 0
      (expectedMessage s.expectedSegments s.segmentCount) 2, ?_, rfl⟩
  intro d hd
  simp only [List.mem_append] at hd
  rcases hd with ((((hd | hd) | hd) | hd) | hd) | hd <;>
    · rw [(mem_diagIf hd).2]

/-- C14 (amended). In the final list every entry with line number 0 comes after
every entry with a line number greater than 0, except for the Error `File ends
with unclosed segment`: it carries the number of the last line, is added after
the file-level checks, and is then the last entry of the list. -/
theorem C14_file_level_order (buffer : List Char) (i j : Nat) (a b : ValidationError)
    (ha : (ValidateFile buffer)[i]? = some a) (hb : (ValidateFile buffer)[j]? = some b)
    (h0 : a.lineNumber = 0) (hpos : 0 < b.lineNumber) (hij : i < j) :
    b = ⟨((cstr buffer).count '\n' : Int) + 1, "File ends with unclosed segment", 2⟩ ∧
      j + 1 = (ValidateFile buffer).length := by
  obtain ⟨Z, hZ, hfin⟩ := finalDiags_split (runCtl (logicalLines buffer) VState.init)
  have hjlt := getElem?_lt_length hb
  have hilt := getElem?_lt_length ha
  have hlen : (ValidateFile buffer).length ≤ (reported buffer).length := by
    rw [ValidateFile_eq_take, List.length_take]; omega
  rw [ValidateFile_eq_take, List.getElem?_take_of_lt (by
    rw [ValidateFile_eq_take, List.length_take] at hilt; omega)] at ha
  rw [ValidateFile_eq_take, List.getElem?_take_of_lt (by
    rw [ValidateFile_eq_take, List.length_take] at hjlt; omega)] at hb
  have hrep : reported buffer = scanDiags (logicalLines buffer) VState.init ++ (Z ++
      diagIf (runCtl (logicalLines buffer) VState.init).inSegment
        ((runCtl (logicalLines buffer) VState.init).lineNum - 1)
        "File ends with unclosed segment" 2) := by
    rw [reported, hfin]
  rw [hrep] at ha hb hlen
  generalize hS : scanDiags (logicalLines buffer) VState.init = S at ha hb hlen
  have hSpos : ∀ d ∈ S, 1 ≤ d.lineNumber := by
    intro d hd
    rw [← hS] at hd
    exact scanDiags_lineNumber_pos hd
  have hi : S.length ≤ i := by
    by_contra hc
    rw [List.getElem?_append_left (by omega)] at ha
    have := hSpos a (List.getElem?_mem ha)
    omega
  rw [List.getElem?_append_right (by omega)] at hb
  have hj : Z.length ≤ j - S.length := by
    by_contra hc
    rw [List.getElem?_append_left (by omega)] at hb
    have := hZ b (List.getElem?_mem hb)
    omega
  rw [List.getElem?_append_right hj] at hb
  have hmem := mem_diagIf (List.getElem?_mem hb)
  have hlt := getElem?_lt_length hb
  rw [hmem.1] at hlt hlen
  simp only [diagIf, if_true, List.length_singleton, List.length_append] at hlt hlen
  constructor
  · rw [hmem.2, final_lineNum, logicalLines_length]
    push_cast
    rfl
  · omega

theorem C14_file_level_order_witness :
    (⟨1, "File ends with unclosed segment", 2⟩ : ValidationError) =
      ⟨(((cstr "START".toList).count '\n' : Nat) : Int) + 1,
        "File ends with unclosed segment", 2⟩ ∧
      5 + 1 = (ValidateFile "START".toList).length :=
  C14_file_level_order "START".toList 0 5 ⟨0, "Missing LPS command", 2⟩
    ⟨1, "File ends with unclosed segment", 2⟩ (by decide) (by decide) (by decide) (by decide)
    (by decide)

/-- C14 as stated fails: for the text `START` the last entry of the list (index 5)
has line number 1 and comes after the entry at index 0, which has line number
0. -/
theorem C14_counterexample :
    (ValidateFile "START".toList)[0]? = some ⟨0, "Missing LPS command", 2⟩ ∧
    (ValidateFile "START".toList)[5]? = some ⟨1, "File ends with unclosed segment", 2⟩ := by
  constructor <;> decide

/-! ## The resolver -/

theorem flushRun_empty {st : ParseState} (h : st.current = []) : flushRun st = some st := by
  unfold flushRun
  rw [h]
  rfl

theorem flushRun_run {st : ParseState} (h0 : st.current ≠ [])
    (h1 : st.texts.length < MAX_COLORED_TEXTS_PER_LINE)
    (h2 : st.current.length < MAX_TEXT_LENGTH) :
    flushRun st = some { st with texts := st.texts ++ [⟨st.current, st.currentColor⟩],
                                 current := [] } := by
  unfold flushRun
  rw [if_pos (List.length_pos.mpr h0), if_pos ⟨h1, h2⟩]

theorem flushRun_long {st : ParseState} (h : MAX_TEXT_LENGTH ≤ st.current.length) :
    flushRun st = none := by
  unfold flushRun
  have h0 : st.current.length > 0 := by
    have : 0 < MAX_TEXT_LENGTH := by decide
    omega
  rw [if_pos h0, if_neg (by omega)]

theorem parseLoop_skip (a b : List Char) (st : ParseState) :
    parseLoop (a ++ b) a.length st = parseLoop b 0 st := by
  induction a with
  | nil => rfl
  | cons c a ih =>
    rw [List.cons_append, List.length_cons, parseLoop]
    exact ih

theorem parseLoop_char (c : Char) (rest : List Char) (st : ParseState)
    (h : c ≠ '\\' ∧ c ≠ '`' ∧ c ≠ '\'') :
    parseLoop (c :: rest) 0 st =
      match putChar st c with
      | none => none
      | some st1 => parseLoop rest 0 st1 := by
  rw [parseLoop, if_neg (fun hc => h.1 hc.1), if_neg h.2.1, if_neg h.2.2]

theorem parseLoop_escape (d : Char) (rest : List Char) (st : ParseState) :
    parseLoop ('\\' :: d :: rest) 0 st =
      match putChar st d with
      | none => none
      | some st1 => parseLoop rest 0 st1 := by
  rw [parseLoop, if_pos ⟨rfl, List.cons_ne_nil _ _⟩]
  simp only [List.headD_cons]
  cases putChar st d with
  | none => rfl
  | some st1 => simp only; rw [parseLoop]

theorem parseLoop_quote (rest : List Char) (st : ParseState) :
    parseLoop ('\'' :: rest) 0 st =
      match flushRun st with
      | none => none
      | some st1 =>
        match st1.colorStack with
        | _ :: below :: more =>
          parseLoop rest 0 { st1 with colorStack := below :: more, currentColor := below }
        | _ => parseLoop rest 0 { st1 with currentColor := RGB 255 255 255 } := by
  rw [parseLoop, if_neg (fun hc => absurd hc.1 (by decide)), if_neg (by decide), if_pos rfl]

theorem putChar_room {st : ParseState} (c : Char) (h : st.current.length < MAX_TEXT_LENGTH) :
    putChar st c = some { st with current := st.current ++ [c] } := by
  unfold putChar
  rw [if_pos h]

/-- Plain characters are copied to the accumulator. -/
theorem parseLoop_plain (a b : List Char) (st : ParseState)
    (ha : ∀ c ∈ a, c ≠ '\\' ∧ c ≠ '`' ∧ c ≠ '\'')
    (hlen : st.current.length + a.length ≤ MAX_TEXT_LENGTH) :
    parseLoop (a ++ b) 0 st = parseLoop b 0 { st with current := st.current ++ a } := by
  induction a generalizing st with
  | nil => simp
  | cons c a ih =>
    rw [List.cons_append, parseLoop_char c _ st (ha c (List.mem_cons_self _ _)),
      putChar_room c (by rw [List.length_cons] at hlen; omega)]
    simp only
    rw [ih _ (fun d hd => ha d (List.mem_cons_of_mem _ hd))
      (by simp only [List.length_append, List.length_cons, List.length_nil] at hlen ⊢; omega)]
    simp

theorem unescape_length_le : ∀ l : List Char, (unescape l).length ≤ l.length
  | [] => by simp [unescape]
  | [c] => by simp [unescape]
  | c :: d :: rest => by
    unfold unescape
    by_cases h : c = '\\'
    · rw [if_pos h]
      have := unescape_length_le rest
      simp only [List.length_cons]; omega
    · rw [if_neg h]
      have := unescape_length_le (d :: rest)
      simp only [List.length_cons] at this ⊢; omega

/-- On a line without unescaped backtick or quote the loop of the resolver
copies the line, escapes resolved, to the accumulator. -/
theorem parseLoop_unescape : ∀ (l : List Char) (st : ParseState), plainLine l = true →
    st.current.length + (unescape l).length ≤ MAX_TEXT_LENGTH →
    parseLoop l 0 st = some { st with current := st.current ++ unescape l }
  | [], st, _, _ => by simp [parseLoop, unescape]
  | [c], st, hp, hlen => by
    simp only [plainLine, decide_eq_true_eq] at hp
    simp only [unescape, List.length_singleton] at hlen
    rw [parseLoop, if_neg (fun hc => hc.2 rfl), if_neg hp.1, if_neg hp.2,
      putChar_room c (by omega)]
    simp only [parseLoop, unescape]
  | c :: d :: rest, st, hp, hlen => by
    unfold plainLine at hp
    unfold unescape at hlen ⊢
    by_cases h : c = '\\'
    · rw [if_pos h] at hp hlen
      rw [if_pos h, h, parseLoop_escape,
        putChar_room d (by simp only [List.length_cons] at hlen; omega)]
      simp only
      rw [parseLoop_unescape rest _ hp
        (by simp only [List.length_append, List.length_cons, List.length_nil] at hlen ⊢; omega)]
      simp
    · rw [if_neg h] at hp hlen
      rw [Bool.and_eq_true, decide_eq_true_eq] at hp
      rw [if_neg h, parseLoop_char c _ st ⟨h, hp.1.1, hp.1.2⟩,
        putChar_room c (by simp only [List.length_cons] at hlen; omega)]
      simp only
      rw [parseLoop_unescape (d :: rest) _ hp.2
        (by simp only [List.length_append, List.length_cons, List.length_nil] at hlen ⊢; omega)]
      simp

theorem unescape_ne_nil : ∀ {l : List Char}, l ≠ [] → unescape l ≠ []
  | [], h => absurd rfl h
  | [c], _ => by simp [unescape]
  | c :: d :: rest, _ => by
    unfold unescape
    by_cases h : c = '\\'
    · rw [if_pos h]; exact List.cons_ne_nil _ _
    · rw [if_neg h]; exact List.cons_ne_nil _ _

/-! ## Lines without markup -/

theorem colorSyntaxChar_plain (add : AddFn) (n : Int) (c : Char) (rest : List Char) (i : Nat)
    (st : BacktickStack) (e : List ValidationError) (h1 : c ≠ '`') (h2 : c ≠ '\'') :
    colorSyntaxCharWith add n c rest i st e = (st, e) := by
  unfold colorSyntaxCharWith
  rw [if_neg h1, if_neg h2]

/-- On a line without unescaped backtick or quote the loop of the markup
validator changes neither the stack nor the list. -/
theorem colorSyntaxLoop_plainLine (add : AddFn) (n : Int) :
    ∀ (l : List Char) (i : Nat) (st : BacktickStack) (e : List ValidationError),
    plainLine l = true → colorSyntaxLoopWith add n l i st e = (st, e)
  | [], i, st, e, _ => by simp [colorSyntaxLoopWith]
  | [c], i, st, e, hp => by
    simp only [plainLine, decide_eq_true_eq] at hp
    rw [colorSyntaxLoopWith, colorSyntaxChar_plain add n c [] i st e hp.1 hp.2]
  | c :: d :: rest, i, st, e, hp => by
    unfold plainLine at hp
    rw [colorSyntaxLoopWith]
    by_cases h : c = '\\'
    · rw [if_pos h] at hp
      rw [if_pos h]
      exact colorSyntaxLoop_plainLine add n rest (i + 2) st e hp
    · rw [if_neg h] at hp
      rw [Bool.and_eq_true, decide_eq_true_eq] at hp
      rw [if_neg h]
      simp only
      rw [colorSyntaxChar_plain add n c (d :: rest) i st e hp.1.1 hp.1.2]
      exact colorSyntaxLoop_plainLine add n (d :: rest) (i + 1) st e hp.2

/-- Plain characters at the head of a line are passed over by the loop of the
markup validator. -/
theorem colorSyntaxLoop_plain (add : AddFn) (n : Int) (a b : List Char) (i : Nat)
    (st : BacktickStack) (e : List ValidationError)
    (ha : ∀ c ∈ a, c ≠ '\\' ∧ c ≠ '`' ∧ c ≠ '\'') :
    colorSyntaxLoopWith add n (a ++ b) i st e = colorSyntaxLoopWith add n b (i + a.length) st e := by
  induction a generalizing i with
  | nil => simp
  | cons c a ih =>
    have hc := ha c (List.mem_cons_self _ _)
    have ih2 := ih (i + 1) (fun d hd => ha d (List.mem_cons_of_mem _ hd))
    rw [List.cons_append, List.length_cons]
    cases hab : a ++ b with
    | nil =>
      rw [List.append_eq_nil] at hab
      rw [colorSyntaxLoopWith, colorSyntaxChar_plain add n c [] i st e hc.2.1 hc.2.2, hab.1, hab.2]
      simp [colorSyntaxLoopWith]
    | cons d r =>
      rw [colorSyntaxLoopWith, if_neg hc.1]
      simp only
      rw [colorSyntaxChar_plain add n c (d :: r) i st e hc.2.1 hc.2.2, ← hab, ih2]
      congr 1
      omega

theorem plain_of_chars {a : List Char} (ha : ∀ c ∈ a, c ≠ '\\' ∧ c ≠ '`' ∧ c ≠ '\'') :
    plainLine a = true ∧ unescape a = a := by
  induction a with
  | nil => exact ⟨rfl, rfl⟩
  | cons c a ih =>
    have hc := ha c (List.mem_cons_self _ _)
    have ih2 := ih (fun d hd => ha d (List.mem_cons_of_mem _ hd))
    cases a with
    | nil =>
      constructor
      · simp [plainLine, hc.2.1, hc.2.2]
      · rfl
    | cons d r =>
      constructor
      · rw [plainLine, if_neg hc.1, ih2.1]
        simp [hc.2.1, hc.2.2]
      · rw [unescape, if_neg hc.1, ih2.2]

/-- C16. For every line shorter than 1000 characters that has no unescaped
backtick and no unescaped single quote, the resolver yields a single run (none
when the line is empty) in the default white colour whose text is the line with
every escaping backslash removed and each escaped character kept, and the
markup validator adds no diagnostic. -/
theorem C16_plain_line (line : List Char) (hlen : line.length < MAX_TEXT_LENGTH)
    (hp : plainLine line = true) :
    ParseColoredLine line =
      some { texts := if unescape line = [] then []
                      else [{ text := unescape line, color := RGB 255 255 255 }] } ∧
    (unescape line = [] ↔ line = []) ∧
    ∀ (lineNum : Int) (errors : List ValidationError),
      ValidateColorSyntax line lineNum errors = errors := by
  have hu := unescape_length_le line
  refine ⟨?_, ?_, ?_⟩
  · unfold ParseColoredLine
    rw [parseLoop_unescape line _ hp (by simp only [List.length_nil]; omega)]
    simp only [List.nil_append]
    by_cases he : unescape line = []
    · rw [flushRun_empty he, if_pos he]
    · rw [flushRun_run he (by simp [MAX_COLORED_TEXTS_PER_LINE]) (by simp only; omega), if_neg he]
      rfl
  · constructor
    · intro h
      by_contra hne
      exact unescape_ne_nil hne h
    · intro h; rw [h]; rfl
  · intro lineNum errors
    unfold ValidateColorSyntax ValidateColorSyntaxWith
    rw [colorSyntaxLoop_plainLine AddValidationError lineNum line 0 [] errors hp]
    simp

theorem C16_plain_line_witness :
    ParseColoredLine "\\`not a color\\`".toList =
      some { texts := if unescape "\\`not a color\\`".toList = [] then []
                      else [{ text := unescape "\\`not a color\\`".toList,
                              color := RGB 255 255 255 }] } ∧
    unescape "\\`not a color\\`".toList = "`not a color`".toList :=
  ⟨(C16_plain_line "\\`not a color\\`".toList (by decide) (by decide)).1, by decide⟩

/-! ## Colour scopes in the resolver -/

theorem hex_not_mark {c : Char} (h : isHexChar c = true) :
    c ≠ '\\' ∧ c ≠ ':' ∧ c ≠ '\'' ∧ c ≠ '`' := by
  refine ⟨?_, ?_, ?_, ?_⟩ <;>
    · rintro rfl
      exact absurd h (by decide)

/-- The look-ahead of the resolver finds the colon that ends a specification
without marks. -/
theorem findColon_spec (spec rest : List Char) (j : Nat)
    (hs : ∀ c ∈ spec, c ≠ '\\' ∧ c ≠ ':' ∧ c ≠ '\'' ∧ c ≠ '`') :
    findColon (spec ++ ':' :: rest) j = some (j + spec.length) := by
  induction spec generalizing j with
  | nil =>
    cases rest with
    | nil => simp [findColon]
    | cons d r =>
      rw [List.nil_append, findColon, if_neg (by decide), if_pos rfl]
      rfl
  | cons c spec ih =>
    have hc := hs c (List.mem_cons_self _ _)
    have ih2 := ih (j + 1) (fun d hd => hs d (List.mem_cons_of_mem _ hd))
    rw [List.cons_append]
    cases hab : spec ++ ':' :: rest with
    | nil => simp at hab
    | cons d r =>
      rw [findColon, if_neg hc.1, if_neg hc.2.1, if_neg (by
        rintro (h | h)
        · exact hc.2.2.1 h
        · exact hc.2.2.2 h), ← hab, ih2, List.length_cons]
      congr 1
      omega

theorem sixHex_iff {spec : List Char} :
    sixHex spec = true ↔ spec.length = 6 ∧ spec.all isHexChar = true := by
  unfold sixHex
  rw [Bool.and_eq_true, decide_eq_true_eq]

/-- A backtick followed by six hexadecimal digits and a colon opens a scope:
the colour is pushed and becomes the current one. -/
theorem parseLoop_color (spec rest : List Char) (st : ParseState) (h : sixHex spec = true)
    (hcur : st.current = [])
    (hdepth : st.colorStack.length - 1 < MAX_NESTING_DEPTH - 1) :
    parseLoop ('`' :: (spec ++ ':' :: rest)) 0 st =
      parseLoop rest 0 { st with currentColor := ParseHexColor spec,
                                 colorStack := ParseHexColor spec :: st.colorStack } := by
  rw [sixHex_iff] at h
  have hmarks : ∀ c ∈ spec, c ≠ '\\' ∧ c ≠ ':' ∧ c ≠ '\'' ∧ c ≠ '`' := by
    intro c hc
    exact hex_not_mark (List.all_eq_true.mp h.2 c hc)
  have htake : (spec ++ ':' :: rest).take 6 = spec := by
    rw [← h.1, List.take_left']
    rfl
  rw [parseLoop, if_neg (fun hc => absurd hc.1 (by decide)), if_pos rfl, flushRun_empty hcur]
  simp only
  rw [findColon_spec spec rest 1 hmarks]
  simp only
  rw [htake, if_pos ⟨by omega, h.2, hdepth⟩]
  have hskip := parseLoop_skip (spec ++ [':']) rest
    { st with currentColor := ParseHexColor spec,
              colorStack := ParseHexColor spec :: st.colorStack }
  rw [List.length_append, List.length_singleton, List.append_assoc, List.singleton_append,
    Nat.add_comm] at hskip
  exact hskip

/-- C15 (amended). For all valid six-hex-digit colours `c1` and `c2` and all
non-empty texts `x` and `y` shorter than 1000 characters that contain no
backslash, backtick or single quote, the resolver turns the line made of a
backtick, `c1`, a colon, a backtick, `c2`, a colon, `x`, a quote, `y` and a quote
into exactly two runs, in order: `x` coloured `c2`, then `y` coloured `c1`. -/
theorem C15_nested_colors (c1 c2 x y : List Char)
    (h1 : sixHex c1 = true) (h2 : sixHex c2 = true) (hx : x ≠ []) (hy : y ≠ [])
    (px : ∀ c ∈ x, c ≠ '\\' ∧ c ≠ '`' ∧ c ≠ '\'')
    (py : ∀ c ∈ y, c ≠ '\\' ∧ c ≠ '`' ∧ c ≠ '\'')
    (lx : x.length < MAX_TEXT_LENGTH) (ly : y.length < MAX_TEXT_LENGTH) :
    ParseColoredLine
        ('`' :: (c1 ++ ':' :: '`' :: (c2 ++ ':' :: (x ++ '\'' :: (y ++ ['\''])))))  =
      some { texts := [{ text := x, color := ParseHexColor c2 },
                       { text := y, color := ParseHexColor c1 }] } := by
  unfold ParseColoredLine
  rw [parseLoop_color c1 _ _ h1 rfl (by simp [MAX_NESTING_DEPTH])]
  rw [parseLoop_color c2 _ _ h2 rfl (by simp [MAX_NESTING_DEPTH])]
  rw [parseLoop_plain x _ _ px (by simp only [List.length_nil]; omega)]
  rw [parseLoop_quote, flushRun_run (by simpa using hx) (by simp [MAX_COLORED_TEXTS_PER_LINE])
    (by simpa using lx)]
  simp only [List.nil_append]
  rw [parseLoop_plain y _ _ py (by simp only [List.length_nil]; omega)]
  rw [parseLoop_quote, flushRun_run (by simpa using hy) (by simp [MAX_COLORED_TEXTS_PER_LINE])
    (by simpa using ly)]
  simp only [List.nil_append, parseLoop]
  rw [flushRun_empty rfl]
  rfl

theorem C15_nested_colors_witness :
    ParseColoredLine "`AABBCC:`001122:x'y'".toList =
      some { texts := [{ text := "x".toList, color := ParseHexColor "001122".toList },
                       { text := "y".toList, color := ParseHexColor "AABBCC".toList }] } :=
  C15_nested_colors "AABBCC".toList "001122".toList "x".toList "y".toList (by decide) (by decide)
    (by decide) (by decide) (by decide) (by decide) (by decide) (by decide)

theorem colorSyntaxChar_quote_empty (add : AddFn) (n : Int) (rest : List Char) (i : Nat)
    (e : List ValidationError) :
    colorSyntaxCharWith add n '\'' rest i [] e =
      ([], add e n "Closing quote without opening backtick" 2) := by
  unfold colorSyntaxCharWith
  rw [if_neg (by decide), if_pos rfl]
  rfl

theorem replicate_ne_nil : List.replicate 1000 'a' ≠ [] := by
  intro h
  have h1 := congrArg List.length h
  rw [List.length_replicate] at h1
  exact absurd h1 (by decide)

theorem replicate_plain (n : Nat) :
    ∀ c ∈ List.replicate n 'a', c ≠ '\\' ∧ c ≠ '`' ∧ c ≠ '\'' := by
  intro c hc
  rw [List.eq_of_mem_replicate hc]
  decide

/-- C15 as stated fails: with `x` made of 1000 letters `a` the accumulator
`current` of the resolver is full when the first quote is met, and the run
cannot be stored. -/
theorem C15_counterexample :
    sixHex "AABBCC".toList = true ∧ sixHex "001122".toList = true ∧
    List.replicate 1000 'a' ≠ [] ∧ "y".toList ≠ [] ∧
    (∀ c ∈ List.replicate 1000 'a', c ≠ '\\' ∧ c ≠ '`' ∧ c ≠ '\'') ∧
    (∀ c ∈ "y".toList, c ≠ '\\' ∧ c ≠ '`' ∧ c ≠ '\'') ∧
    ParseColoredLine
        ('`' :: ("AABBCC".toList ++ ':' :: '`' :: ("001122".toList ++ ':' ::
          (List.replicate 1000 'a' ++ '\'' :: ("y".toList ++ ['\'']))))) = none := by
  refine ⟨by decide, by decide, replicate_ne_nil, by decide, replicate_plain 1000, by decide, ?_⟩
  unfold ParseColoredLine
  rw [parseLoop_color _ _ _ (by decide) rfl (by simp [MAX_NESTING_DEPTH])]
  rw [parseLoop_color _ _ _ (by decide) rfl (by simp [MAX_NESTING_DEPTH])]
  rw [parseLoop_plain _ _ _ (replicate_plain 1000)
    (by simp only [List.length_nil, List.length_replicate]; decide)]
  rw [parseLoop_quote, flushRun_long (by
    simp only [List.nil_append, List.length_replicate]; decide)]

/-- C17 (amended). For every non-empty text `s` shorter than 1000 characters that
contains no backslash, backtick or single quote, the line made of `s` followed
by one single quote yields exactly one markup diagnostic, the Error `Closing
quote without opening backtick` (unless the list is full), and resolves to
exactly one run with text `s` in the default white colour. -/
theorem C17_unmatched_quote (s : List Char) (lineNum : Int) (errors : List ValidationError)
    (hne : s ≠ []) (hs : ∀ c ∈ s, c ≠ '\\' ∧ c ≠ '`' ∧ c ≠ '\'')
    (hlen : s.length < MAX_TEXT_LENGTH) (hroom : errors.length < MAX_ERRORS) :
    ValidateColorSyntax (s ++ ['\'']) lineNum errors =
      errors ++ [⟨lineNum, "Closing quote without opening backtick", 2⟩] ∧
    ParseColoredLine (s ++ ['\'']) =
      some { texts := [{ text := s, color := RGB 255 255 255 }] } := by
  constructor
  · unfold ValidateColorSyntax ValidateColorSyntaxWith
    rw [colorSyntaxLoop_plain AddValidationError lineNum s ['\''] 0 [] errors hs,
      colorSyntaxLoopWith, colorSyntaxChar_quote_empty]
    simp only [List.length_nil, ne_eq, not_true_eq_false, if_false]
    exact AddValidationError_not_full hroom _ _ _
  · unfold ParseColoredLine
    rw [parseLoop_plain s _ _ hs (by simp only [List.length_nil]; omega)]
    rw [parseLoop_quote, flushRun_run (by simpa using hne)
      (by simp [MAX_COLORED_TEXTS_PER_LINE]) (by simpa using hlen)]
    simp only [List.nil_append, parseLoop]
    rw [flushRun_empty rfl]

theorem C17_unmatched_quote_witness :
    ValidateColorSyntax ("abc".toList ++ ['\'']) 1 [] =
      [] ++ [⟨1, "Closing quote without opening backtick", 2⟩] ∧
    ParseColoredLine ("abc".toList ++ ['\'']) =
      some { texts := [{ text := "abc".toList, color := RGB 255 255 255 }] } :=
  C17_unmatched_quote "abc".toList 1 [] (by decide) (by decide) (by decide) (by decide)

theorem ValidateColorSyntax_full (l : List Char) (n : Int) (e : List ValidationError)
    (h : MAX_ERRORS ≤ e.length) : ValidateColorSyntax l n e = e := by
  rw [ValidateColorSyntax_eq_addMany]
  unfold addMany
  rw [show MAX_ERRORS - e.length = 0 by omega]
  simp

/-- C17 as stated fails: with 1000 letters `a` before the quote the accumulator
`current` of the resolver is full when the quote is met, and no run is stored;
and when the list already holds 1000 diagnostics (those of 1000 stray lines)
the markup validator adds nothing for the line made of `abc` and a quote. -/
theorem C17_counterexample :
    List.replicate 1000 'a' ≠ [] ∧
    (∀ c ∈ List.replicate 1000 'a', c ≠ '\\' ∧ c ≠ '`' ∧ c ≠ '\'') ∧
    ParseColoredLine (List.replicate 1000 'a' ++ ['\'']) = none ∧
    ValidateColorSyntax ("abc".toList ++ ['\'']) 1002 (junkErrors 1000 1) =
      junkErrors 1000 1 := by
  refine ⟨replicate_ne_nil, replicate_plain 1000, ?_, ?_⟩
  · unfold ParseColoredLine
    rw [parseLoop_plain _ _ _ (replicate_plain 1000)
      (by simp only [List.length_nil, List.length_replicate]; decide)]
    rw [parseLoop_quote, flushRun_long (by
      simp only [List.nil_append, List.length_replicate]; decide)]
  · apply ValidateColorSyntax_full
    rw [junkErrors_length]
    decide

/-! ## The markup validator at a backtick -/

theorem findColonQuote_some : ∀ (rest : List Char) (j c0 : Nat),
    (findColonQuote rest j (some c0)).1 = some c0
  | [], j, c0 => rfl
  | [c], j, c0 => by
    rw [findColonQuote, if_neg (fun h => absurd h.2 (by simp))]
    by_cases h : c = '\''
    · rw [if_pos h]
    · rw [if_neg h]
  | c :: d :: rest, j, c0 => by
    rw [findColonQuote]
    by_cases h1 : c = '\\'
    · rw [if_pos h1]; exact findColonQuote_some rest (j + 2) c0
    · rw [if_neg h1, if_neg (fun h => absurd h.2 (by simp))]
      by_cases h2 : c = '\''
      · rw [if_pos h2]
      · rw [if_neg h2]
        by_cases h3 : c = '`'
        · rw [if_pos h3]
        · rw [if_neg h3]; exact findColonQuote_some (d :: rest) (j + 1) c0

/-- The colon the look-ahead of the validator finds is the one that ends the
colour specification. -/
theorem findColonQuote_none : ∀ (rest : List Char) (j : Nat),
    (findColonQuote rest j none).1 = (colorSpecOf rest).map (fun spec => j + spec.length)
  | [], j => rfl
  | [c], j => by
    rw [findColonQuote, colorSpecOf]
    by_cases h : c = ':'
    · rw [if_pos ⟨h, rfl⟩, if_pos h]; rfl
    · rw [if_neg (fun hc => h hc.1), if_neg h]
      by_cases h2 : c = '\''
      · rw [if_pos h2]; rfl
      · rw [if_neg h2]; rfl
  | c :: d :: rest, j => by
    rw [findColonQuote, colorSpecOf]
    by_cases h1 : c = '\\'
    · rw [if_pos h1, if_pos h1, findColonQuote_none rest (j + 2), Option.map_map]
      congr 1
      funext s
      simp only [Function.comp, List.length_cons]
      omega
    · rw [if_neg h1, if_neg h1]
      by_cases h2 : c = ':'
      · rw [if_pos ⟨h2, rfl⟩, if_pos h2, findColonQuote_some]; rfl
      · rw [if_neg (fun hc => h2 hc.1), if_neg h2]
        by_cases h3 : c = '\''
        · rw [if_pos h3, if_pos (Or.inl h3)]; rfl
        · rw [if_neg h3]
          by_cases h4 : c = '`'
          · rw [if_pos h4, if_pos (Or.inr h4)]; rfl
          · rw [if_neg h4, if_neg (by rintro (h | h); exact h3 h; exact h4 h),
              findColonQuote_none (d :: rest) (j + 1), Option.map_map]
            congr 1
            funext s
            simp only [Function.comp, List.length_cons]
            omega

/-- The quote the look-ahead of the validator stops at lies after the colon. -/
theorem findColonQuote_order : ∀ (rest : List Char) (j : Nat) (cpos : Option Nat),
    (∀ c0, cpos = some c0 → c0 < j) →
    ∀ cp q, (findColonQuote rest j cpos).1 = some cp → (findColonQuote rest j cpos).2 = some q →
      cp < q
  | [], j, cpos, _, cp, q, _, h2 => by simp [findColonQuote] at h2
  | [c], j, cpos, hc, cp, q, h1, h2 => by
    rw [findColonQuote] at h1 h2
    by_cases ha : c = ':' ∧ cpos = none
    · rw [if_pos ha] at h2; simp at h2
    · rw [if_neg ha] at h1 h2
      by_cases hb : c = '\''
      · rw [if_pos hb] at h1 h2
        simp only [Option.some.injEq] at h2
        have := hc cp h1
        omega
      · rw [if_neg hb] at h2; simp at h2
  | c :: d :: rest, j, cpos, hc, cp, q, h1, h2 => by
    rw [findColonQuote] at h1 h2
    by_cases h0 : c = '\\'
    · rw [if_pos h0] at h1 h2
      exact findColonQuote_order rest (j + 2) cpos (fun c0 h => by have := hc c0 h; omega)
        cp q h1 h2
    · rw [if_neg h0] at h1 h2
      by_cases ha : c = ':' ∧ cpos = none
      · rw [if_pos ha] at h1 h2
        exact findColonQuote_order (d :: rest) (j + 1) (some j)
          (fun c0 h => by simp only [Option.some.injEq] at h; omega) cp q h1 h2
      · rw [if_neg ha] at h1 h2
        by_cases hb : c = '\''
        · rw [if_pos hb] at h1 h2
          simp only [Option.some.injEq] at h2
          have := hc cp h1
          omega
        · rw [if_neg hb] at h1 h2
          by_cases hd : c = '`'
          · rw [if_pos hd] at h2; simp at h2
          · rw [if_neg hd] at h1 h2
            exact findColonQuote_order (d :: rest) (j + 1) cpos
              (fun c0 h => by have := hc c0 h; omega) cp q h1 h2

/-- The colour specification is the beginning of what follows the backtick. -/
theorem colorSpecOf_prefix : ∀ (rest spec : List Char), colorSpecOf rest = some spec →
    ∃ tail, rest = spec ++ ':' :: tail
  | [], spec, h => by simp [colorSpecOf] at h
  | [c], spec, h => by
    rw [colorSpecOf] at h
    by_cases hc : c = ':'
    · rw [if_pos hc] at h
      simp only [Option.some.injEq] at h
      exact ⟨[], by rw [← h, hc]; rfl⟩
    · rw [if_neg hc] at h; simp at h
  | c :: d :: rest, spec, h => by
    rw [colorSpecOf] at h
    by_cases h1 : c = '\\'
    · rw [if_pos h1, Option.map_eq_some'] at h
      obtain ⟨s, hs, rfl⟩ := h
      obtain ⟨tail, ht⟩ := colorSpecOf_prefix rest s hs
      exact ⟨tail, by rw [ht]; rfl⟩
    · rw [if_neg h1] at h
      by_cases h2 : c = ':'
      · rw [if_pos h2] at h
        simp only [Option.some.injEq] at h
        exact ⟨d :: rest, by rw [← h, h2]; rfl⟩
      · rw [if_neg h2] at h
        by_cases h3 : c = '\'' ∨ c = '`'
        · rw [if_pos h3] at h; simp at h
        · rw [if_neg h3, Option.map_eq_some'] at h
          obtain ⟨s, hs, rfl⟩ := h
          obtain ⟨tail, ht⟩ := colorSpecOf_prefix (d :: rest) s hs
          exact ⟨tail, by rw [ht]; rfl⟩

theorem IsValidHexColor_six {spec : List Char} (h : spec.length = 6) :
    IsValidHexColor spec 6 = spec.all isHexChar := by
  match spec, h with
  | [a, b, c, d, e, f], _ =>
    simp [IsValidHexColor, List.range, List.range.loop, List.getD, Bool.and_assoc]

theorem pushStep (n : Int) (i : Nat) (stack : BacktickStack) (b : Bool)
    (D : List ValidationError) :
    (if (PushBacktick stack i b).1 = true then ((PushBacktick stack i b).2, D)
      else ((PushBacktick stack i b).2,
        appendError D n "Too many nested color specifications (maximum 255)" 2)) =
      (if MAX_NESTING_DEPTH ≤ stack.length then stack else ⟨i, b⟩ :: stack,
        D ++ if MAX_NESTING_DEPTH ≤ stack.length then
            [⟨n, "Too many nested color specifications (maximum 255)", 2⟩]
          else []) := by
  unfold PushBacktick
  by_cases hd : MAX_NESTING_DEPTH ≤ stack.length
  · rw [if_pos hd, if_pos hd, if_pos hd]
    simp [appendError]
  · rw [if_neg hd, if_neg hd, if_neg hd]
    simp

/-- What the markup validator does at an unescaped backtick: it reports the
Error of the colour specification, if any, then pushes the backtick, or reports
the overflow when the stack is full. -/
theorem colorSyntaxChar_tick (n : Int) (rest : List Char) (i : Nat) (stack : BacktickStack) :
    ∃ hc : Bool, colorSyntaxCharWith appendError n '`' rest i stack [] =
      (if MAX_NESTING_DEPTH ≤ stack.length then stack else ⟨i, hc⟩ :: stack,
        specDiag rest n ++
          if MAX_NESTING_DEPTH ≤ stack.length then
            [⟨n, "Too many nested color specifications (maximum 255)", 2⟩]
          else []) := by
  have h1 := findColonQuote_none rest (i + 1)
  have h2 := findColonQuote_order rest (i + 1) none (fun c0 h => by simp at h)
  unfold colorSyntaxCharWith specDiag
  rw [if_pos rfl]
  simp only
  cases hs : colorSpecOf rest with
  | none =>
    rw [hs] at h1
    rw [h1]
    exact ⟨false, pushStep n i stack false []⟩
  | some spec =>
    rw [hs] at h1
    simp only [Option.map_some'] at h1
    rw [h1]
    simp only
    have hq : (findColonQuote rest (i + 1) none).2 = none ∨
        (∃ q, (findColonQuote rest (i + 1) none).2 = some q ∧ i + 1 + spec.length < q) := by
      cases hq2 : (findColonQuote rest (i + 1) none).2 with
      | none => exact Or.inl rfl
      | some q => exact Or.inr ⟨q, rfl, h2 _ q h1 hq2⟩
    rw [if_pos hq]
    have hlen : i + 1 + spec.length - i - 1 = spec.length := by omega
    rw [hlen]
    obtain ⟨tail, ht⟩ := colorSpecOf_prefix rest spec hs
    by_cases h6 : spec.length = 6
    · have htake : rest.take 6 = spec := by
        rw [ht, ← h6, List.take_left']
        rfl
      have hne : spec ≠ [] := by
        intro h; rw [h] at h6; simp at h6
      rw [if_pos h6, htake, IsValidHexColor_six h6]
      by_cases hx : spec.all isHexChar = true
      · have hgood : spec = [] ∨ sixHex spec = true := Or.inr (sixHex_iff.mpr ⟨h6, hx⟩)
        rw [if_pos hx, if_pos hgood]
        exact ⟨true, pushStep n i stack true []⟩
      · have hbad : ¬ (spec = [] ∨ sixHex spec = true) := by
          rintro (h | h)
          · exact hne h
          · exact hx (sixHex_iff.mp h).2
        rw [if_neg hx, if_neg hbad, if_pos h6]
        exact ⟨false, pushStep n i stack false _⟩
    · rw [if_neg h6]
      by_cases h0 : spec.length > 0
      · have hbad : ¬ (spec = [] ∨ sixHex spec = true) := by
          rintro (h | h)
          · rw [h] at h0; simp at h0
          · exact h6 (sixHex_iff.mp h).1
        rw [if_pos h0, if_neg hbad, if_neg h6]
        exact ⟨false, pushStep n i stack false _⟩
      · have hgood : spec = [] ∨ sixHex spec = true :=
          Or.inl (List.length_eq_zero.mp (by omega))
        rw [if_neg h0, if_pos hgood]
        exact ⟨false, pushStep n i stack false []⟩

theorem colorSyntaxChar_quote (n : Int) (rest : List Char) (i : Nat) (stack : BacktickStack) :
    colorSyntaxCharWith appendError n '\'' rest i stack [] =
      (stack.tail,
        if stack = [] then [⟨n, "Closing quote without opening backtick", 2⟩] else []) := by
  unfold colorSyntaxCharWith PopBacktick
  rw [if_neg (by decide), if_pos rfl]
  cases stack with
  | nil => simp [appendError]
  | cons a s => simp

/-! ## The diagnostics of a line of markup -/

theorem specDiag_entries (rest : List Char) (n : Int) :
    ∀ d ∈ specDiag rest n, d.lineNumber = n ∧ d.severity = 2 ∧ d.message ∈ specMessages := by
  intro d hd
  unfold specDiag at hd
  cases hs : colorSpecOf rest with
  | none => rw [hs] at hd; simp at hd
  | some spec =>
    rw [hs] at hd
    simp only at hd
    by_cases h1 : spec = [] ∨ sixHex spec = true
    · rw [if_pos h1] at hd; simp at hd
    · rw [if_neg h1] at hd
      by_cases h2 : spec.length = 6
      · rw [if_pos h2, List.mem_singleton] at hd
        rw [hd]; exact ⟨rfl, rfl, by simp [specMessages]⟩
      · rw [if_neg h2, List.mem_singleton] at hd
        rw [hd]; exact ⟨rfl, rfl, by simp [specMessages]⟩

/-- The diagnostics of one step of the loop that are about a colour
specification. -/
theorem step_filter_spec (n : Int) (c : Char) (rest : List Char) (i : Nat) (st : BacktickStack) :
    ((colorSyntaxCharWith appendError n c rest i st []).2).filter
        (fun e => e.message ∈ specMessages) =
      if c = '`' then specDiag rest n else [] := by
  by_cases h1 : c = '`'
  · obtain ⟨hc, h⟩ := colorSyntaxChar_tick n rest i st
    rw [if_pos h1, h1, h]
    simp only
    rw [List.filter_append]
    have ha : (specDiag rest n).filter (fun e => e.message ∈ specMessages) = specDiag rest n := by
      rw [List.filter_eq_self]
      intro d hd
      exact decide_eq_true (specDiag_entries rest n d hd).2.2
    rw [ha]
    by_cases hd : MAX_NESTING_DEPTH ≤ st.length
    · rw [if_pos hd]
      have : ([⟨n, "Too many nested color specifications (maximum 255)", 2⟩] :
          List ValidationError).filter (fun e => e.message ∈ specMessages) = [] := by
        rw [List.filter_eq_nil_iff]
        intro d hd2
        rw [List.mem_singleton] at hd2
        rw [hd2]
        simp [specMessages]
      rw [this, List.append_nil]
    · rw [if_neg hd, List.filter_nil, List.append_nil]
  · rw [if_neg h1]
    by_cases h2 : c = '\''
    · rw [h2, colorSyntaxChar_quote]
      simp only
      by_cases hs : st = []
      · rw [if_pos hs, List.filter_eq_nil_iff]
        intro d hd2
        rw [List.mem_singleton] at hd2
        rw [hd2]
        simp [specMessages]
      · rw [if_neg hs]; rfl
    · rw [colorSyntaxChar_plain appendError n c rest i st [] h1 h2]
      rfl

theorem specDiag_nil (n : Int) : specDiag [] n = [] := rfl

/-- The diagnostics of the loop that are about a colour specification are those
of the unescaped backticks of the line, from left to right. -/
theorem loop_filter_spec (n : Int) : ∀ (l : List Char) (i : Nat) (st : BacktickStack),
    ((colorSyntaxLoopWith appendError n l i st []).2).filter
        (fun e => e.message ∈ specMessages) = specDiags l n
  | [], i, st => rfl
  | [c], i, st => by
    rw [colorSyntaxLoopWith, step_filter_spec, specDiags, specDiag_nil]
    by_cases h : c = '`'
    · rw [if_pos h]
    · rw [if_neg h]
  | c :: d :: rest, i, st => by
    rw [colorSyntaxLoopWith, specDiags]
    by_cases h : c = '\\'
    · rw [if_pos h, if_pos h]
      exact loop_filter_spec n rest (i + 2) st
    · rw [if_neg h, if_neg h]
      simp only
      rw [colorSyntaxLoop_grow recorder_append n (d :: rest) (i + 1) _
        (colorSyntaxCharWith appendError n c (d :: rest) i st []).2]
      simp only
      rw [List.filter_append, step_filter_spec, loop_filter_spec n (d :: rest) (i + 1)]

theorem appendError_eq (e : List ValidationError) (n : Int) (m : String) (s : Nat) :
    appendError e n m s = e ++ [⟨n, m, s⟩] := rfl

theorem unclosedMessage_not_spec (k : Int) : unclosedMessage k ∉ specMessages := by
  intro h
  simp only [specMessages, List.mem_cons, List.mem_singleton, List.not_mem_nil, or_false] at h
  rcases h with h | h
  · exact unclosedMessage_ne_of_head (by decide) h
  · exact unclosedMessage_ne_of_head (by decide) h

/-- The diagnostics of a line that are about a colour specification. -/
theorem markupDiags_filter_spec (l : List Char) (n : Int) :
    (markupDiags l n).filter (fun e => e.message ∈ specMessages) = specDiags l n := by
  unfold markupDiags ValidateColorSyntaxWith
  simp only
  by_cases h : (colorSyntaxLoopWith appendError n l 0 [] []).1.length ≠ 0
  · rw [if_pos h]
    rw [appendError_eq, List.filter_append, loop_filter_spec]
    have : ([⟨n, unclosedMessage ((colorSyntaxLoopWith appendError n l 0 [] []).1.length), 2⟩] :
        List ValidationError).filter (fun e => e.message ∈ specMessages) = [] := by
      rw [List.filter_eq_nil_iff]
      intro d hd2
      rw [List.mem_singleton] at hd2
      rw [hd2]
      exact fun hc => unclosedMessage_not_spec _ (of_decide_eq_true hc)
    rw [this, List.append_nil]
  · rw [if_neg h, loop_filter_spec]

theorem addMany_room {e D : List ValidationError} (h : (addMany e D).length < MAX_ERRORS) :
    addMany e D = e ++ D := by
  unfold addMany at h ⊢
  rw [List.length_append, List.length_take] at h
  rw [List.take_of_length_le (by omega)]

/-! ## The depth of the backtick stack -/

theorem specDiag_not_overflow (rest : List Char) (n : Int) :
    (specDiag rest n).filter
      (fun e => e.message = "Too many nested color specifications (maximum 255)") = [] := by
  rw [List.filter_eq_nil_iff]
  intro d hd
  have h := (specDiag_entries rest n d hd).2.2
  simp only [specMessages, List.mem_cons, List.mem_singleton, List.not_mem_nil, or_false] at h
  rcases h with h | h <;> rw [h] <;> decide

/-- What a backtick does to the stack and how many overflow Errors it gives. -/
theorem tick_overflow (n : Int) (rest : List Char) (i : Nat) (st : BacktickStack) :
    (colorSyntaxCharWith appendError n '`' rest i st []).1.length =
      (if MAX_NESTING_DEPTH ≤ st.length then st.length else st.length + 1) ∧
    ((colorSyntaxCharWith appendError n '`' rest i st []).2).filter
        (fun e => e.message = "Too many nested color specifications (maximum 255)") =
      if MAX_NESTING_DEPTH ≤ st.length then
        [⟨n, "Too many nested color specifications (maximum 255)", 2⟩]
      else [] := by
  obtain ⟨hc, h⟩ := colorSyntaxChar_tick n rest i st
  rw [h]
  simp only
  rw [List.filter_append, specDiag_not_overflow, List.nil_append]
  by_cases hd : MAX_NESTING_DEPTH ≤ st.length
  · simp [if_pos hd]
  · simp [if_neg hd]

/-- On a line without unescaped quote the stack grows by one for each
unescaped backtick up to `MAX_NESTING_DEPTH`, and each backtick met at that
depth gives one overflow Error. -/
theorem loop_overflow (n : Int) : ∀ (l : List Char) (i : Nat) (st : BacktickStack),
    noQuote l = true → st.length ≤ MAX_NESTING_DEPTH →
    (colorSyntaxLoopWith appendError n l i st []).1.length =
      min MAX_NESTING_DEPTH (st.length + tickCount l) ∧
    ((colorSyntaxLoopWith appendError n l i st []).2).filter
        (fun e => e.message = "Too many nested color specifications (maximum 255)") =
      List.replicate (st.length + tickCount l - MAX_NESTING_DEPTH)
        ⟨n, "Too many nested color specifications (maximum 255)", 2⟩
  | [], i, st, _, hst => by
    rw [colorSyntaxLoopWith, tickCount, Nat.add_zero, Nat.min_eq_right hst,
      show st.length - MAX_NESTING_DEPTH = 0 by omega]
    exact ⟨rfl, rfl⟩
  | [c], i, st, hq, hst => by
    rw [noQuote, decide_eq_true_eq] at hq
    rw [colorSyntaxLoopWith, tickCount]
    by_cases h : c = '`'
    · rw [if_pos h, h]
      obtain ⟨h1, h2⟩ := tick_overflow n [] i st
      rw [h1, h2]
      by_cases hd : MAX_NESTING_DEPTH ≤ st.length
      · rw [if_pos hd, if_pos hd, show st.length + 1 - MAX_NESTING_DEPTH = 1 by omega]
        exact ⟨by omega, rfl⟩
      · rw [if_neg hd, if_neg hd, show st.length + 1 - MAX_NESTING_DEPTH = 0 by omega]
        exact ⟨by omega, rfl⟩
    · rw [if_neg h, colorSyntaxChar_plain appendError n c [] i st [] h hq, Nat.add_zero,
        Nat.min_eq_right hst, show st.length - MAX_NESTING_DEPTH = 0 by omega]
      exact ⟨rfl, rfl⟩
  | c :: d :: rest, i, st, hq, hst => by
    rw [noQuote] at hq
    rw [colorSyntaxLoopWith, tickCount]
    by_cases hb : c = '\\'
    · rw [if_pos hb] at hq
      rw [if_pos hb, if_pos hb]
      exact loop_overflow n rest (i + 2) st hq hst
    · rw [if_neg hb, Bool.and_eq_true, decide_eq_true_eq] at hq
      rw [if_neg hb, if_neg hb]
      simp only
      rw [colorSyntaxLoop_grow recorder_append n (d :: rest) (i + 1) _
        (colorSyntaxCharWith appendError n c (d :: rest) i st []).2]
      simp only
      rw [List.filter_append]
      by_cases h : c = '`'
      · rw [if_pos h, h]
        obtain ⟨h1, h2⟩ := tick_overflow n (d :: rest) i st
        have hst2 : (colorSyntaxCharWith appendError n '`' (d :: rest) i st []).1.length ≤
            MAX_NESTING_DEPTH := by
          rw [h1]
          by_cases hd : MAX_NESTING_DEPTH ≤ st.length
          · rw [if_pos hd]; exact hst
          · rw [if_neg hd]; omega
        obtain ⟨h3, h4⟩ := loop_overflow n (d :: rest) (i + 1) _ hq.2 hst2
        rw [h3, h4, h2, h1]
        generalize MAX_NESTING_DEPTH = M at hst ⊢
        generalize tickCount (d :: rest) = t
        by_cases hd : M ≤ st.length
        · simp only [if_pos hd]
          have he : st.length = M := by omega
          constructor
          · omega
          · rw [show st.length + (1 + t) - M = (st.length + t - M) + 1 by omega,
              List.replicate_succ]
            rfl
        · simp only [if_neg hd, List.nil_append]
          constructor
          · omega
          · congr 1
            omega
      · rw [if_neg h, colorSyntaxChar_plain appendError n c (d :: rest) i st [] h hq.1]
        obtain ⟨h3, h4⟩ := loop_overflow n (d :: rest) (i + 1) st hq.2 hst
        simp only
        rw [h3, h4, List.filter_nil, List.nil_append, Nat.zero_add]
        exact ⟨rfl, rfl⟩

/-! ## Claims on the markup validator -/

theorem step_entries_fixed (n : Int) (c : Char) (rest : List Char) (i : Nat) (st : BacktickStack) :
    ∀ d ∈ (colorSyntaxCharWith appendError n c rest i st []).2, d.message ∈ colorMessages := by
  intro d hd
  by_cases h1 : c = '`'
  · obtain ⟨hc, h⟩ := colorSyntaxChar_tick n rest i st
    rw [h1, h] at hd
    simp only at hd
    rcases List.mem_append.mp hd with hd | hd
    · have h2 := (specDiag_entries rest n d hd).2.2
      simp only [specMessages, List.mem_cons, List.mem_singleton, List.not_mem_nil,
        or_false] at h2
      rcases h2 with h2 | h2 <;> rw [h2] <;> decide
    · by_cases hdep : MAX_NESTING_DEPTH ≤ st.length
      · rw [if_pos hdep, List.mem_singleton] at hd
        rw [hd]; simp [colorMessages]
      · rw [if_neg hdep] at hd
        exact absurd hd (List.not_mem_nil _)
  · by_cases h2 : c = '\''
    · rw [h2, colorSyntaxChar_quote] at hd
      simp only at hd
      by_cases hs : st = []
      · rw [if_pos hs, List.mem_singleton] at hd
        rw [hd]; simp [colorMessages]
      · rw [if_neg hs] at hd
        exact absurd hd (List.not_mem_nil _)
    · rw [colorSyntaxChar_plain appendError n c rest i st [] h1 h2] at hd
      exact absurd hd (List.not_mem_nil _)

/-- The loop of the markup validator reports fixed messages only. -/
theorem loop_entries_fixed (n : Int) : ∀ (l : List Char) (i : Nat) (st : BacktickStack),
    ∀ d ∈ (colorSyntaxLoopWith appendError n l i st []).2, d.message ∈ colorMessages
  | [], i, st => by simp [colorSyntaxLoopWith]
  | [c], i, st => by
    rw [colorSyntaxLoopWith]
    exact step_entries_fixed n c [] i st
  | c :: d :: rest, i, st => by
    rw [colorSyntaxLoopWith]
    by_cases h : c = '\\'
    · rw [if_pos h]
      exact loop_entries_fixed n rest (i + 2) st
    · rw [if_neg h]
      simp only
      rw [colorSyntaxLoop_grow recorder_append n (d :: rest) (i + 1) _
        (colorSyntaxCharWith appendError n c (d :: rest) i st []).2]
      simp only
      intro x hx
      rcases List.mem_append.mp hx with hx | hx
      · exact step_entries_fixed n c (d :: rest) i st x hx
      · exact loop_entries_fixed n (d :: rest) (i + 1) _ x hx

theorem ValidateColorSyntax_room (l : List Char) (n : Int) (e : List ValidationError)
    (h : (ValidateColorSyntax l n e).length < MAX_ERRORS) :
    ValidateColorSyntax l n e = e ++ markupDiags l n := by
  rw [ValidateColorSyntax_eq_addMany] at h ⊢
  exact addMany_room h

/-- C18 (amended). For every line, the markup validator reports one Error for
each unescaped backtick that is followed by an unescaped colon before any
unescaped quote or backtick, unless the text between the backtick and the colon
is empty or exactly six hexadecimal digits (and unless the list is full): the
Error is `Invalid hex color specification` when that text has six characters and
`Color specification must be exactly 6 hex characters` otherwise.  A colon that
follows the backtick at once gives no diagnostic. -/
theorem C18_color_spec_errors (line : List Char) (lineNum : Int) :
    (markupDiags line lineNum).filter (fun e => e.message ∈ specMessages) =
      specDiags line lineNum ∧
    (∀ (rest : List Char) (i : Nat) (stack : BacktickStack),
      ((colorSyntaxCharWith appendError lineNum '`' rest i stack []).2).filter
          (fun e => e.message ∈ specMessages) = specDiag rest lineNum) ∧
    (∀ errors : List ValidationError,
      (ValidateColorSyntax line lineNum errors).length < MAX_ERRORS →
      ValidateColorSyntax line lineNum errors = errors ++ markupDiags line lineNum) := by
  refine ⟨markupDiags_filter_spec line lineNum, ?_, ?_⟩
  · intro rest i stack
    rw [step_filter_spec, if_pos rfl]
  · intro errors h
    exact ValidateColorSyntax_room line lineNum errors h

theorem C18_color_spec_errors_witness :
    ValidateColorSyntax "`12:a'`12345z:b'".toList 1 [] =
      [] ++ markupDiags "`12:a'`12345z:b'".toList 1 ∧
    specDiags "`12:a'`12345z:b'".toList 1 =
      [⟨1, "Color specification must be exactly 6 hex characters", 2⟩,
       ⟨1, "Invalid hex color specification", 2⟩] :=
  ⟨(C18_color_spec_errors "`12:a'`12345z:b'".toList 1).2.2 [] (by decide), by decide⟩

/-- C18 as stated fails: in the line made of a backtick, a colon, `x` and a quote
the backtick is followed at once by a colon, the text between them (empty) is
not six hexadecimal digits, and the markup validator reports nothing; and when
the list already holds 1000 diagnostics it adds nothing for a backtick followed
by `zz` and a colon. -/
theorem C18_counterexample :
    colorSpecOf ":x'".toList = some [] ∧ sixHex [] = false ∧
    ValidateColorSyntax "`:x'".toList 1 [] = [] ∧
    colorSpecOf "zz:x'".toList = some "zz".toList ∧ sixHex "zz".toList = false ∧
    ValidateColorSyntax "`zz:x'".toList 1002 (junkErrors 1000 1) = junkErrors 1000 1 := by
  refine ⟨by decide, by decide, by decide, by decide, by decide, ?_⟩
  apply ValidateColorSyntax_full
  rw [junkErrors_length]
  decide

theorem tickCount_replicate : ∀ n : Nat, tickCount (List.replicate n '`') = n
  | 0 => rfl
  | 1 => rfl
  | n + 2 => by
    rw [List.replicate_succ, List.replicate_succ, tickCount, if_neg (by decide), if_pos rfl,
      ← List.replicate_succ, tickCount_replicate (n + 1)]
    omega

theorem noQuote_replicate : ∀ n : Nat, noQuote (List.replicate n '`') = true
  | 0 => rfl
  | 1 => rfl
  | n + 2 => by
    rw [List.replicate_succ, List.replicate_succ, noQuote, if_neg (by decide),
      ← List.replicate_succ, noQuote_replicate (n + 1)]
    rfl

/-- C19 (amended). In the markup validator a backtick met when 255 scopes are
open gives one Error `Too many nested color specifications (maximum 255)`, is
not pushed and leaves the depth at 255: a line of `n > 255` unescaped backticks
with no unescaped quote yields exactly `n - 255` such Errors, followed by one
Error `Unclosed color specification (255 unmatched backticks)` that ends the
diagnostics of the line, unless the list is full. -/
theorem C19_nesting_overflow (line : List Char) (lineNum : Int)
    (hq : noQuote line = true) (hn : MAX_NESTING_DEPTH < tickCount line) :
    (∀ (rest : List Char) (i : Nat) (stack : BacktickStack),
      stack.length = MAX_NESTING_DEPTH →
      (colorSyntaxCharWith appendError lineNum '`' rest i stack []).1 = stack ∧
      ((colorSyntaxCharWith appendError lineNum '`' rest i stack []).2).filter
          (fun e => e.message = "Too many nested color specifications (maximum 255)") =
        [⟨lineNum, "Too many nested color specifications (maximum 255)", 2⟩]) ∧
    (∃ D : List ValidationError,
      markupDiags line lineNum =
        D ++ [⟨lineNum, "Unclosed color specification (255 unmatched backticks)", 2⟩] ∧
      D.filter (fun e => e.message = "Too many nested color specifications (maximum 255)") =
        List.replicate (tickCount line - 255)
          ⟨lineNum, "Too many nested color specifications (maximum 255)", 2⟩ ∧
      ∀ d ∈ D, d.message ∈ colorMessages) ∧
    (∀ errors : List ValidationError,
      (ValidateColorSyntax line lineNum errors).length < MAX_ERRORS →
      ValidateColorSyntax line lineNum errors = errors ++ markupDiags line lineNum) := by
  refine ⟨?_, ?_, fun errors h => ValidateColorSyntax_room line lineNum errors h⟩
  · intro rest i stack hs
    obtain ⟨hc, h⟩ := colorSyntaxChar_tick lineNum rest i stack
    have h2 := (tick_overflow lineNum rest i stack).2
    rw [if_pos (by omega)] at h2
    refine ⟨?_, h2⟩
    rw [h]
    simp only
    rw [if_pos (by omega)]
  · obtain ⟨h1, h2⟩ := loop_overflow lineNum line 0 [] hq (Nat.zero_le _)
    rw [List.length_nil, Nat.zero_add] at h1 h2
    have hlen : (colorSyntaxLoopWith appendError lineNum line 0 [] []).1.length = 255 := by
      rw [h1]
      exact Nat.min_eq_left (Nat.le_of_lt hn)
    refine ⟨(colorSyntaxLoopWith appendError lineNum line 0 [] []).2, ?_, h2,
      loop_entries_fixed lineNum line 0 []⟩
    unfold markupDiags ValidateColorSyntaxWith
    simp only
    rw [if_pos (by omega), appendError_eq, hlen]
    rfl

theorem C19_nesting_overflow_witness :
    ∃ D : List ValidationError,
      markupDiags (List.replicate 256 '`') 7 =
        D ++ [⟨7, "Unclosed color specification (255 unmatched backticks)", 2⟩] ∧
      D.filter (fun e => e.message = "Too many nested color specifications (maximum 255)") =
        List.replicate (tickCount (List.replicate 256 '`') - 255)
          ⟨7, "Too many nested color specifications (maximum 255)", 2⟩ ∧
      ∀ d ∈ D, d.message ∈ colorMessages :=
  (C19_nesting_overflow (List.replicate 256 '`') 7 (noQuote_replicate 256)
    (by rw [tickCount_replicate]; decide)).2.1

/-- C19 as stated fails: when the list already holds 1000 diagnostics (those of
1000 stray lines), the markup validator adds nothing for a line of 256
backticks, neither the overflow Error nor the Error for the unclosed scopes. -/
theorem C19_counterexample :
    noQuote (List.replicate 256 '`') = true ∧ tickCount (List.replicate 256 '`') = 256 ∧
    ValidateColorSyntax (List.replicate 256 '`') 1002 (junkErrors 1000 1) =
      junkErrors 1000 1 := by
  refine ⟨noQuote_replicate 256, tickCount_replicate 256, ?_⟩
  apply ValidateColorSyntax_full
  rw [junkErrors_length]
  decide

/-! ## A colourless scope inside a coloured one -/

/-- C20, the resolver at the failing input.  In the line made of a scope of
colour `AABBCC` that holds `a`, a colourless scope `zz:b` and `c`, followed by
`d`, the quote that closes the colourless scope pops the entry of `AABBCC` from
the colour stack, since the backtick of the colourless scope pushed nothing:
`c` comes out white instead of `AABBCC`.  The same happens with an empty
specification, a line for which the markup validator, which pushes every
backtick, reports nothing. -/
theorem C20_colorless_scope :
    ParseColoredLine "`AABBCC:a`zz:b'c'd".toList =
      some { texts := [{ text := "a".toList, color := ParseHexColor "AABBCC".toList },
                       { text := "b".toList, color := ParseHexColor "AABBCC".toList },
                       { text := "c".toList, color := RGB 255 255 255 },
                       { text := "d".toList, color := RGB 255 255 255 }] } ∧
    ParseColoredLine "`AABBCC:a`:b'c'd".toList =
      some { texts := [{ text := "a".toList, color := ParseHexColor "AABBCC".toList },
                       { text := "b".toList, color := ParseHexColor "AABBCC".toList },
                       { text := "c".toList, color := RGB 255 255 255 },
                       { text := "d".toList, color := RGB 255 255 255 }] } ∧
    ValidateColorSyntax "`AABBCC:a`:b'c'd".toList 1 [] = [] ∧
    ParseHexColor "AABBCC".toList = RGB 170 187 204 ∧
    ParseHexColor "AABBCC".toList ≠ RGB 255 255 255 := by
  refine ⟨by decide, by decide, by decide, by decide, by decide⟩

/-! ## A backtick without a colour specification -/

/-- A line with exactly one backtick splits at it. -/
theorem split_at_tick : ∀ line : List Char, line.count '`' = 1 →
    ∃ pre post, line = pre ++ '`' :: post ∧ '`' ∉ pre ∧ '`' ∉ post
  | [], h => by simp at h
  | c :: rest, h => by
    by_cases hc : c = '`'
    · subst hc
      rw [List.count_cons_self] at h
      have h0 : rest.count '`' = 0 := by omega
      exact ⟨[], rest, rfl, List.not_mem_nil _, List.count_eq_zero.mp h0⟩
    · rw [List.count_cons_of_ne (fun h => hc h.symm)] at h
      obtain ⟨pre, post, h1, h2, h3⟩ := split_at_tick rest h
      refine ⟨c :: pre, post, by rw [h1]; rfl, ?_, h3⟩
      intro hm
      rcases List.mem_cons.mp hm with hm | hm
      · exact hc hm.symm
      · exact h2 hm

theorem findColon_none : ∀ (l : List Char) (j : Nat), (∀ c ∈ l, c ≠ ':') → findColon l j = none
  | [], j, _ => rfl
  | [c], j, h => by
    rw [findColon, if_neg (h c (List.mem_singleton.mpr rfl))]
  | c :: d :: rest, j, h => by
    rw [findColon]
    by_cases h1 : c = '\\'
    · rw [if_pos h1]
      exact findColon_none rest (j + 2)
        (fun x hx => h x (List.mem_cons_of_mem _ (List.mem_cons_of_mem _ hx)))
    · rw [if_neg h1, if_neg (h c (List.mem_cons_self _ _))]
      by_cases h2 : c = '\'' ∨ c = '`'
      · rw [if_pos h2]
      · rw [if_neg h2]
        exact findColon_none (d :: rest) (j + 1) (fun x hx => h x (List.mem_cons_of_mem _ hx))

/-- What the resolver does at a backtick that no colon follows: the run
collected so far is stored, and the backtick starts the next one. -/
theorem parseLoop_literal_tick (rest : List Char) (st : ParseState)
    (h : findColon rest 1 = none) :
    parseLoop ('`' :: rest) 0 st =
      match flushRun st with
      | none => none
      | some st1 =>
        match putChar st1 '`' with
        | none => none
        | some st2 => parseLoop rest 0 st2 := by
  rw [parseLoop, if_neg (fun hc => absurd hc.1 (by decide)), if_pos rfl]
  cases flushRun st with
  | none => rfl
  | some st1 => simp only [h]

theorem parseLoop_tick_tail (post : List Char) (st1 : ParseState) (hcur : st1.current = [])
    (hp : ∀ c ∈ post, c ≠ '\\' ∧ c ≠ '`' ∧ c ≠ '\'')
    (hl : post.length + 1 ≤ MAX_TEXT_LENGTH) :
    (match putChar st1 '`' with
      | none => none
      | some st2 => parseLoop post 0 st2) = some { st1 with current := '`' :: post } := by
  rw [putChar_room _ (by rw [hcur]; simp [MAX_TEXT_LENGTH])]
  simp only
  have h3 := parseLoop_plain post [] { st1 with current := st1.current ++ ['`'] } hp (by
    simp only [hcur, List.nil_append, List.length_singleton]; omega)
  rw [List.append_nil] at h3
  rw [h3, hcur]
  rfl

/-- C21 (amended). For every line shorter than 1000 characters that is made of
characters other than backslash, single quote and colon and contains exactly
one backtick, the resolver yields default-coloured runs only, whose texts put
together are the whole line, backtick included: the text before the backtick as
one run, unless it is empty, and the backtick with the text after it as the
next run. -/
theorem C21_literal_backtick (line : List Char)
    (hchars : ∀ c ∈ line, c ≠ '\\' ∧ c ≠ '\'' ∧ c ≠ ':')
    (hone : line.count '`' = 1) (hlen : line.length < MAX_TEXT_LENGTH) :
    ∃ pre post, line = pre ++ '`' :: post ∧
      ParseColoredLine line =
        some { texts := (if pre = [] then []
                         else [{ text := pre, color := RGB 255 255 255 }]) ++
                        [{ text := '`' :: post, color := RGB 255 255 255 }] } := by
  obtain ⟨pre, post, hsplit, hpre, hpost⟩ := split_at_tick line hone
  refine ⟨pre, post, hsplit, ?_⟩
  have hlen2 : pre.length + post.length + 1 < MAX_TEXT_LENGTH := by
    rw [hsplit] at hlen
    simp only [List.length_append, List.length_cons] at hlen
    omega
  have hp1 : ∀ c ∈ pre, c ≠ '\\' ∧ c ≠ '`' ∧ c ≠ '\'' := by
    intro c hc
    have := hchars c (by rw [hsplit]; exact List.mem_append_left _ hc)
    exact ⟨this.1, fun h => hpre (h ▸ hc), this.2.1⟩
  have hp2 : ∀ c ∈ post, c ≠ '\\' ∧ c ≠ '`' ∧ c ≠ '\'' := by
    intro c hc
    have := hchars c (by
      rw [hsplit]; exact List.mem_append_right _ (List.mem_cons_of_mem _ hc))
    exact ⟨this.1, fun h => hpost (h ▸ hc), this.2.1⟩
  have hcolon : findColon post 1 = none := by
    apply findColon_none
    intro c hc
    exact (hchars c (by
      rw [hsplit]; exact List.mem_append_right _ (List.mem_cons_of_mem _ hc))).2.2
  rw [hsplit]
  unfold ParseColoredLine
  rw [parseLoop_plain pre _ _ hp1 (by simp only [List.length_nil]; omega),
    parseLoop_literal_tick post _ hcolon]
  simp only [List.nil_append]
  by_cases he : pre = []
  · subst he
    rw [flushRun_empty rfl]
    simp only
    rw [parseLoop_tick_tail post _ rfl hp2 (by omega)]
    simp only
    rw [flushRun_run (by simp) (by simp [MAX_COLORED_TEXTS_PER_LINE])
      (by simp only [List.length_cons]; simp only [List.length_nil] at hlen2; omega)]
    simp
  · rw [flushRun_run (by simpa using he) (by simp [MAX_COLORED_TEXTS_PER_LINE])
      (by simp only; omega)]
    simp only
    rw [parseLoop_tick_tail post _ rfl hp2 (by omega)]
    simp only
    rw [flushRun_run (by simp) (by simp [MAX_COLORED_TEXTS_PER_LINE])
      (by simp only [List.length_cons]; omega), if_neg he]
    simp

theorem C21_literal_backtick_witness :
    ∃ pre post, "`abc".toList = pre ++ '`' :: post ∧
      ParseColoredLine "`abc".toList =
        some { texts := (if pre = [] then []
                         else [{ text := pre, color := RGB 255 255 255 }]) ++
                        [{ text := '`' :: post, color := RGB 255 255 255 }] } :=
  C21_literal_backtick "`abc".toList (by decide) (by decide) (by decide)

/-- C21 as stated fails: the line made of `a`, a backtick and `b` resolves to two
runs, `a` and then the backtick with `b`, not to a single run; and for the line
made of a backtick and 999 letters `a` the accumulator `current` of the resolver
is full at the end of the line, so that no run can be stored. -/
theorem C21_counterexample :
    (∀ c ∈ "a`b".toList, c ≠ '\\' ∧ c ≠ '\'' ∧ c ≠ ':') ∧ "a`b".toList.count '`' = 1 ∧
    ParseColoredLine "a`b".toList =
      some { texts := [{ text := "a".toList, color := RGB 255 255 255 },
                       { text := "`b".toList, color := RGB 255 255 255 }] } ∧
    (∀ c ∈ '`' :: List.replicate 999 'a', c ≠ '\\' ∧ c ≠ '\'' ∧ c ≠ ':') ∧
    ('`' :: List.replicate 999 'a').count '`' = 1 ∧
    ParseColoredLine ('`' :: List.replicate 999 'a') = none := by
  refine ⟨by decide, by decide, by decide, ?_, ?_, ?_⟩
  · intro c hc
    rcases List.mem_cons.mp hc with hc | hc
    · rw [hc]; decide
    · rw [List.eq_of_mem_replicate hc]; decide
  · rw [List.count_cons_self, List.count_replicate, if_neg (by decide)]
  · unfold ParseColoredLine
    rw [parseLoop_literal_tick _ _ (findColon_none _ 1 (by
      intro c hc
      rw [List.eq_of_mem_replicate hc]; decide)), flushRun_empty rfl]
    simp only
    rw [putChar_room _ (by simp [MAX_TEXT_LENGTH])]
    simp only
    have h3 := parseLoop_plain (List.replicate 999 'a') []
      { texts := [], current := [] ++ ['`'], colorStack := [RGB 255 255 255],
        currentColor := RGB 255 255 255 } (replicate_plain 999) (by
          simp only [List.nil_append, List.length_singleton, List.length_replicate]; decide)
    rw [List.append_nil] at h3
    rw [h3]
    simp only [parseLoop]
    rw [flushRun_long (by
      simp only [List.nil_append, List.length_append, List.length_singleton,
        List.length_replicate]; decide)]

theorem colorSpecOf_none : ∀ l : List Char, (∀ c ∈ l, c ≠ ':') → colorSpecOf l = none
  | [], _ => rfl
  | [c], h => by
    rw [colorSpecOf, if_neg (h c (List.mem_singleton.mpr rfl))]
  | c :: d :: rest, h => by
    rw [colorSpecOf]
    by_cases h1 : c = '\\'
    · rw [if_pos h1, colorSpecOf_none rest
        (fun x hx => h x (List.mem_cons_of_mem _ (List.mem_cons_of_mem _ hx)))]
      rfl
    · rw [if_neg h1, if_neg (h c (List.mem_cons_self _ _))]
      by_cases h2 : c = '\'' ∨ c = '`'
      · rw [if_pos h2]
      · rw [if_neg h2, colorSpecOf_none (d :: rest) (fun x hx => h x (List.mem_cons_of_mem _ hx))]
        rfl

/-- The loop of the markup validator at a character that is not a backslash. -/
theorem colorSyntaxLoop_cons (add : AddFn) (n : Int) (c : Char) (rest : List Char) (i : Nat)
    (st : BacktickStack) (e : List ValidationError) (hc : c ≠ '\\') :
    colorSyntaxLoopWith add n (c :: rest) i st e =
      colorSyntaxLoopWith add n rest (i + 1) (colorSyntaxCharWith add n c rest i st e).1
        (colorSyntaxCharWith add n c rest i st e).2 := by
  cases rest with
  | nil => rw [colorSyntaxLoopWith, colorSyntaxLoopWith]
  | cons d r => rw [colorSyntaxLoopWith, if_neg hc]

/-- C22 (amended). In the markup validator every unescaped backtick opens a
scope, with or without a colon after it: a line made of characters other than
backslash, single quote and colon that contains exactly one backtick yields
exactly one diagnostic, the Error `Unclosed color specification (1 unmatched
backticks)`, unless the list is full; the backtick is counted in the total of
unmatched backticks. -/
theorem C22_backtick_without_colon (line : List Char) (lineNum : Int)
    (hchars : ∀ c ∈ line, c ≠ '\\' ∧ c ≠ '\'' ∧ c ≠ ':')
    (hone : line.count '`' = 1) :
    markupDiags line lineNum =
      [⟨lineNum, "Unclosed color specification (1 unmatched backticks)", 2⟩] ∧
    ∀ errors : List ValidationError, errors.length < MAX_ERRORS →
      ValidateColorSyntax line lineNum errors =
        errors ++ [⟨lineNum, "Unclosed color specification (1 unmatched backticks)", 2⟩] := by
  obtain ⟨pre, post, hsplit, hpre, hpost⟩ := split_at_tick line hone
  have hp1 : ∀ c ∈ pre, c ≠ '\\' ∧ c ≠ '`' ∧ c ≠ '\'' := by
    intro c hc
    have := hchars c (by rw [hsplit]; exact List.mem_append_left _ hc)
    exact ⟨this.1, fun h => hpre (h ▸ hc), this.2.1⟩
  have hp2 : ∀ c ∈ post, c ≠ '\\' ∧ c ≠ '`' ∧ c ≠ '\'' := by
    intro c hc
    have := hchars c (by
      rw [hsplit]; exact List.mem_append_right _ (List.mem_cons_of_mem _ hc))
    exact ⟨this.1, fun h => hpost (h ▸ hc), this.2.1⟩
  have hspec : specDiag post lineNum = [] := by
    unfold specDiag
    rw [colorSpecOf_none post (fun c hc => (hchars c (by
      rw [hsplit]; exact List.mem_append_right _ (List.mem_cons_of_mem _ hc))).2.2)]
  have hdiags : markupDiags line lineNum =
      [⟨lineNum, "Unclosed color specification (1 unmatched backticks)", 2⟩] := by
    obtain ⟨hc, htick⟩ := colorSyntaxChar_tick lineNum post (0 + pre.length) []
    rw [hspec, if_neg (by simp [MAX_NESTING_DEPTH]), if_neg (by simp [MAX_NESTING_DEPTH])] at htick
    have hloop : colorSyntaxLoopWith appendError lineNum line 0 [] [] =
        ([⟨0 + pre.length, hc⟩], []) := by
      rw [hsplit, colorSyntaxLoop_plain appendError lineNum pre _ 0 [] [] hp1,
        colorSyntaxLoop_cons appendError lineNum '`' post _ [] [] (by decide), htick]
      have h3 := colorSyntaxLoop_plain appendError lineNum post [] (0 + pre.length + 1)
        [⟨0 + pre.length, hc⟩] [] hp2
      rw [List.append_nil] at h3
      simp only [List.append_nil]
      rw [h3]
      rfl
    unfold markupDiags ValidateColorSyntaxWith
    simp only
    rw [hloop]
    simp only [List.length_singleton, ne_eq, one_ne_zero, not_false_eq_true, if_true,
      appendError_eq, List.nil_append]
    rfl
  refine ⟨hdiags, ?_⟩
  intro errors hroom
  rw [ValidateColorSyntax_eq_addMany, hdiags, addMany_singleton,
    AddValidationError_not_full hroom]

theorem C22_backtick_without_colon_witness :
    markupDiags "a`b".toList 4 =
      [⟨4, "Unclosed color specification (1 unmatched backticks)", 2⟩] :=
  (C22_backtick_without_colon "a`b".toList 4 (by decide) (by decide)).1

/-- C22 as stated fails: for the line made of `a`, a backtick and `b` the markup
validator reports `Unclosed color specification (1 unmatched backticks)`: the
backtick opened a scope and is counted. -/
theorem C22_counterexample :
    (∀ c ∈ "a`b".toList, c ≠ '\\' ∧ c ≠ '\'' ∧ c ≠ ':') ∧ "a`b".toList.count '`' = 1 ∧
    ValidateColorSyntax "a`b".toList 1 [] =
      [⟨1, "Unclosed color specification (1 unmatched backticks)", 2⟩] := by
  refine ⟨by decide, by decide, by decide⟩

/-! ## Start, Stop and Reset -/

/-- C23 (amended). For every renderer state, `StartMarquee` sets the running flag,
the phase Scrolling (centred flag false, `centerStartTime` 0) and
`scrollPosition` equal to `config.screenWidth`, and leaves `currentScreen` as it
is: `currentScreen` is 0 after it when it was 0 before, as it is after
`InitRenderer` and after `ResetMarquee`. -/
theorem C23_start (renderer : MarqueeRenderer) (now : Nat) :
    StartMarquee renderer now =
      { renderer with isRunning := true, scrollPosition := renderer.config.screenWidth,
                      lastUpdate := now, isCurrentScreenCentered := false,
                      centerStartTime := 0 } ∧
    (StartMarquee renderer now).isCurrentScreenCentered = false ∧
    (StartMarquee renderer now).scrollPosition = (StartMarquee renderer now).config.screenWidth ∧
    (StartMarquee renderer now).currentScreen = renderer.currentScreen ∧
    (StartMarquee InitRenderer now).currentScreen = 0 ∧
    (StartMarquee (ResetMarquee renderer) now).currentScreen = 0 :=
  ⟨rfl, rfl, rfl, rfl, rfl, rfl⟩

/-- C23 as stated fails: started from a state in which `currentScreen` is 1,
the renderer still has `currentScreen` 1. -/
theorem C23_counterexample :
    (StartMarquee { InitRenderer with currentScreen := 1 } 0).currentScreen = 1 ∧
    (StartMarquee { InitRenderer with currentScreen := 1 } 0).currentScreen ≠ 0 := by
  constructor <;> decide

/-- C24 (amended). `StopMarquee` changes only the running flag (`scrollPosition`,
`currentScreen` and the centred flag keep their values), and a `StartMarquee`
that follows a Stop resumes with the segment of the stopped state and restarts
its scroll: after it `currentScreen` has the value it had when Stop was called,
`scrollPosition` is `config.screenWidth` and the centred flag is false. -/
theorem C24_stop_then_start (renderer : MarqueeRenderer) (now : Nat) :
    StopMarquee renderer = { renderer with isRunning := false } ∧
    (StopMarquee renderer).scrollPosition = renderer.scrollPosition ∧
    (StopMarquee renderer).currentScreen = renderer.currentScreen ∧
    (StopMarquee renderer).isCurrentScreenCentered = renderer.isCurrentScreenCentered ∧
    (StartMarquee (StopMarquee renderer) now).currentScreen = renderer.currentScreen ∧
    (StartMarquee (StopMarquee renderer) now).scrollPosition = renderer.config.screenWidth ∧
    (StartMarquee (StopMarquee renderer) now).isCurrentScreenCentered = false ∧
    (StartMarquee (StopMarquee renderer) now).isRunning = true :=
  ⟨rfl, rfl, rfl, rfl, rfl, rfl, rfl, rfl⟩

/-- C24 as stated fails: stopped at `scrollPosition` 100 and started again, the
renderer has `scrollPosition` 600, the screen width. -/
theorem C24_counterexample :
    (StopMarquee { InitRenderer with scrollPosition := 100 }).scrollPosition = 100 ∧
    (StartMarquee (StopMarquee { InitRenderer with scrollPosition := 100 }) 0).scrollPosition
      = 600 ∧
    (StartMarquee (StopMarquee { InitRenderer with scrollPosition := 100 }) 0).scrollPosition
      ≠ 100 := by
  refine ⟨by decide, by decide, by decide⟩

/-- C25. For every renderer state, `ResetMarquee` sets `currentScreen` to 0,
`scrollPosition` to `config.screenWidth` and the phase to Scrolling (centred
flag false, `centerStartTime` 0), stops the renderer, and leaves `config`, the
segments and `segmentCount` unchanged. -/
theorem C25_reset (renderer : MarqueeRenderer) :
    ResetMarquee renderer =
      { renderer with isRunning := false, currentScreen := 0,
                      scrollPosition := renderer.config.screenWidth,
                      isCurrentScreenCentered := false, centerStartTime := 0 } ∧
    (ResetMarquee renderer).currentScreen = 0 ∧
    (ResetMarquee renderer).scrollPosition = (ResetMarquee renderer).config.screenWidth ∧
    (ResetMarquee renderer).isCurrentScreenCentered = false ∧
    (ResetMarquee renderer).centerStartTime = 0 ∧
    (ResetMarquee renderer).config = renderer.config ∧
    (ResetMarquee renderer).segments = renderer.segments ∧
    (ResetMarquee renderer).segmentCount = renderer.segmentCount :=
  ⟨rfl, rfl, rfl, rfl, rfl, rfl, rfl, rfl⟩

/-! ## A tick of the timer -/

theorem GetTextWidth_scroll (measure : List Char → Int) (r : MarqueeRenderer) (p : Int) :
    GetTextWidth measure { r with scrollPosition := p } = GetTextWidth measure r := rfl

theorem fits_of_width {measure : List Char → Int} {r : MarqueeRenderer}
    (h : GetTextWidth measure r ≤ r.config.screenWidth) :
    DoesTextFitInWindow measure r = true := by
  unfold DoesTextFitInWindow
  by_cases hg : r.segmentCount = 0 ∨ r.currentScreen ≥ r.segmentCount
  · rw [if_pos hg]
  · rw [if_neg hg]
    exact decide_eq_true h

theorem not_fits_of_width {measure : List Char → Int} {r : MarqueeRenderer}
    (hseg : 0 < r.segmentCount) (hcur : r.currentScreen < r.segmentCount)
    (h : GetTextWidth measure r > r.config.screenWidth) :
    DoesTextFitInWindow measure r = false := by
  unfold DoesTextFitInWindow
  rw [if_neg (by
    rintro (hg | hg)
    · omega
    · omega)]
  exact decide_eq_false (by omega)

theorem dwordSub_of_le {a b : Nat} (h1 : b ≤ a) (h2 : a < DWORD_RANGE) : dwordSub a b = a - b := by
  unfold dwordSub
  have ha : a % DWORD_RANGE = a := Nat.mod_eq_of_lt h2
  have hb : b % DWORD_RANGE = b := Nat.mod_eq_of_lt (by omega)
  have hd : a + DWORD_RANGE - b = (a - b) + DWORD_RANGE := by omega
  rw [ha, hb, hd, Nat.add_mod_right, Nat.mod_eq_of_lt (by omega)]

theorem toDWORD_of_nonneg {v : Int} (h1 : 0 ≤ v) (h2 : v ≤ LONG_MAX) : (toDWORD v : Int) = v := by
  unfold toDWORD
  have h3 : v < 4294967296 := by
    have : LONG_MAX = 2147483647 := rfl
    omega
  rw [Int.emod_eq_of_lt h1 h3, Int.toNat_of_nonneg h1]

/-- A tick in the phase Scrolling when the text fits. -/
theorem update_center (measure : List Char → Int) (r : MarqueeRenderer) (now : Nat)
    (hrun : r.isRunning = true) (hs : r.isCurrentScreenCentered = false)
    (hseg : 0 < r.segmentCount) (hfit : DoesTextFitInWindow measure r = true) :
    UpdateMarquee measure r now =
      { r with isCurrentScreenCentered := true, centerStartTime := now } := by
  unfold UpdateMarquee
  rw [if_neg (by
    rintro (hg | hg)
    · rw [hrun] at hg; exact absurd hg (by decide)
    · omega), if_pos ⟨hs, hfit⟩]

/-- A tick in the phase Centered. -/
theorem update_centered (measure : List Char → Int) (r : MarqueeRenderer) (now : Nat)
    (hrun : r.isRunning = true) (hc : r.isCurrentScreenCentered = true)
    (hseg : 0 < r.segmentCount) :
    UpdateMarquee measure r now =
      if dwordSub now r.centerStartTime ≥ toDWORD r.config.centerDelay then
        { r with currentScreen := Int.tmod (r.currentScreen + 1) r.segmentCount,
                 scrollPosition := r.config.screenWidth,
                 isCurrentScreenCentered := false, centerStartTime := 0 }
      else r := by
  unfold UpdateMarquee
  rw [if_neg (by
    rintro (hg | hg)
    · rw [hrun] at hg; exact absurd hg (by decide)
    · omega), if_neg (by
    rintro ⟨hg, -⟩
    rw [hc] at hg; exact absurd hg (by decide)), if_pos hc]

/-- A difference that stays in the range of an `int` is the value the `int`
holds. -/
theorem wrapInt_of_range {v : Int} (h1 : LONG_MIN ≤ v) (h2 : v ≤ LONG_MAX) : wrapInt v = v := by
  have e1 : LONG_MIN = -2147483648 := rfl
  have e2 : LONG_MAX = 2147483647 := rfl
  unfold wrapInt
  rw [Int.emod_eq_of_lt (by omega) (by omega)]
  omega

/-- The value an `int` holds lies in its range. -/
theorem wrapInt_range (v : Int) : LONG_MIN ≤ wrapInt v ∧ wrapInt v ≤ LONG_MAX := by
  have e1 : LONG_MIN = -2147483648 := rfl
  have e2 : LONG_MAX = 2147483647 := rfl
  unfold wrapInt
  have h1 := Int.emod_nonneg (v + 2147483648) (show (4294967296 : Int) ≠ 0 by decide)
  have h2 := Int.emod_lt_of_pos (v + 2147483648) (show (0 : Int) < 4294967296 by decide)
  constructor <;> omega

/-- A tick in the phase Scrolling when the text does not fit. -/
theorem update_scroll (measure : List Char → Int) (r : MarqueeRenderer) (now : Nat)
    (hrun : r.isRunning = true) (hs : r.isCurrentScreenCentered = false)
    (hseg : 0 < r.segmentCount) (hfit : DoesTextFitInWindow measure r = false) :
    UpdateMarquee measure r now =
      if dwordSub now r.lastUpdate ≥ toDWORD r.config.timePerFrame then
        if wrapInt (r.scrollPosition - r.config.pixelsPerFrame) < -GetTextWidth measure r then
          { r with currentScreen := Int.tmod (r.currentScreen + 1) r.segmentCount,
                   scrollPosition := r.config.screenWidth, lastUpdate := now }
        else { r with scrollPosition := wrapInt (r.scrollPosition - r.config.pixelsPerFrame),
                      lastUpdate := now }
      else r := by
  unfold UpdateMarquee
  rw [if_neg (by
    rintro (hg | hg)
    · rw [hrun] at hg; exact absurd hg (by decide)
    · omega), if_neg (by
    rintro ⟨-, hg⟩
    rw [hfit] at hg; exact absurd hg (by decide)), if_neg (by
    rw [hs]; decide)]
  by_cases hdue : dwordSub now r.lastUpdate ≥ toDWORD r.config.timePerFrame
  · rw [if_pos hdue, if_pos hdue]
    simp only [GetTextWidth_scroll]
    by_cases hadv : wrapInt (r.scrollPosition - r.config.pixelsPerFrame) <
        -GetTextWidth measure r
    · rw [if_pos hadv, if_pos hadv]
    · rw [if_neg hadv, if_neg hadv]
  · rw [if_neg hdue, if_neg hdue]

/-- The call of `Sleep` on a tick in the phase Scrolling when the text does not
fit. -/
theorem update_sleep (measure : List Char → Int) (r : MarqueeRenderer) (now : Nat)
    (hrun : r.isRunning = true) (hs : r.isCurrentScreenCentered = false)
    (hseg : 0 < r.segmentCount) (hfit : DoesTextFitInWindow measure r = false) :
    UpdateMarqueeSleep measure r now =
      if dwordSub now r.lastUpdate ≥ toDWORD r.config.timePerFrame ∧
          wrapInt (r.scrollPosition - r.config.pixelsPerFrame) < -GetTextWidth measure r then
        some (toDWORD r.config.screenDelay)
      else none := by
  unfold UpdateMarqueeSleep
  rw [if_neg (by
    rintro (hg | hg)
    · rw [hrun] at hg; exact absurd hg (by decide)
    · omega), if_neg (by
    rintro ⟨-, hg⟩
    rw [hfit] at hg; exact absurd hg (by decide)), if_neg (by
    rw [hs]; decide)]
  by_cases hdue : dwordSub now r.lastUpdate ≥ toDWORD r.config.timePerFrame
  · rw [if_pos hdue]
    simp only [GetTextWidth_scroll]
    by_cases hadv : wrapInt (r.scrollPosition - r.config.pixelsPerFrame) <
        -GetTextWidth measure r
    · rw [if_pos hadv, if_pos ⟨hdue, hadv⟩]
    · rw [if_neg hadv, if_neg (fun hh => hadv hh.2)]
  · rw [if_neg hdue, if_neg (fun hh => hdue hh.1)]

theorem UpdateMarquee_config (measure : List Char → Int) (r : MarqueeRenderer) (now : Nat) :
    (UpdateMarquee measure r now).config = r.config := by
  unfold UpdateMarquee
  by_cases h1 : r.isRunning = false ∨ r.segmentCount = 0
  · rw [if_pos h1]
  · rw [if_neg h1]
    by_cases h2 : r.isCurrentScreenCentered = false ∧ DoesTextFitInWindow measure r = true
    · rw [if_pos h2]
    · rw [if_neg h2]
      by_cases h3 : r.isCurrentScreenCentered = true
      · rw [if_pos h3]
        by_cases h4 : dwordSub now r.centerStartTime ≥ toDWORD r.config.centerDelay
        · rw [if_pos h4]
        · rw [if_neg h4]
      · rw [if_neg h3]
        by_cases h4 : dwordSub now r.lastUpdate ≥ toDWORD r.config.timePerFrame
        · rw [if_pos h4]
          simp only
          by_cases h5 : wrapInt (r.scrollPosition - r.config.pixelsPerFrame) <
              -GetTextWidth measure
                { r with scrollPosition :=
                    wrapInt (r.scrollPosition - r.config.pixelsPerFrame) }
          · rw [if_pos h5]
          · rw [if_neg h5]
        · rw [if_neg h4]

/-- A tick on a state whose text fits leaves `scrollPosition` at the screen
width when it was there. -/
theorem update_fits_scroll (measure : List Char → Int) (r : MarqueeRenderer) (now : Nat)
    (hfit : DoesTextFitInWindow measure r = true)
    (hpos : r.scrollPosition = r.config.screenWidth) :
    (UpdateMarquee measure r now).scrollPosition = r.config.screenWidth := by
  unfold UpdateMarquee
  by_cases h1 : r.isRunning = false ∨ r.segmentCount = 0
  · rw [if_pos h1]; exact hpos
  · rw [if_neg h1]
    by_cases h2 : r.isCurrentScreenCentered = false ∧ DoesTextFitInWindow measure r = true
    · rw [if_pos h2]; exact hpos
    · rw [if_neg h2]
      have h3 : r.isCurrentScreenCentered = true := by
        cases hc : r.isCurrentScreenCentered with
        | true => rfl
        | false => exact absurd ⟨hc, hfit⟩ h2
      rw [if_pos h3]
      by_cases h4 : dwordSub now r.centerStartTime ≥ toDWORD r.config.centerDelay
      · rw [if_pos h4]
      · rw [if_neg h4]; exact hpos

/-- Along ticks at which the text of the current segment fits, `scrollPosition`
stays at the screen width. -/
theorem runTicks_fits (measure : List Char → Int) : ∀ (ticks : List Nat) (r : MarqueeRenderer),
    r.scrollPosition = r.config.screenWidth →
    (∀ k < ticks.length, DoesTextFitInWindow measure (runTicks measure (ticks.take k) r) = true) →
    ∀ k ≤ ticks.length,
      (runTicks measure (ticks.take k) r).scrollPosition = r.config.screenWidth
  | [], r, hpos, _, k, hk => by
    rw [List.take_nil]; exact hpos
  | now :: more, r, hpos, hfit, k, hk => by
    cases k with
    | zero => exact hpos
    | succ k =>
      have h0 := hfit 0 (by simp)
      rw [List.take_zero] at h0
      have hstep := update_fits_scroll measure r now h0 hpos
      have hcfg := UpdateMarquee_config measure r now
      rw [List.take_succ_cons, runTicks, ← hcfg]
      apply runTicks_fits measure more (UpdateMarquee measure r now) (by rw [hstep, hcfg])
      · intro j hj
        have := hfit (j + 1) (by simp only [List.length_cons]; omega)
        rw [List.take_succ_cons, runTicks] at this
        exact this
      · simp only [List.length_cons] at hk; omega

/-- C26. On a tick while the renderer is running, in the phase Scrolling, with
`segmentCount > 0`, if the measured width of the longest line of the current
segment is at most `screenWidth`, the phase becomes Centered with
`centerStartTime = now`, and nothing else changes (`scrollPosition` and
`currentScreen` in particular); hence along any tick sequence after Start in
which the current segment fits at every tick, `scrollPosition` is never
decremented: it is equal to `screenWidth` after every tick. -/
theorem C26_centering (measure : List Char → Int) (r : MarqueeRenderer) (now : Nat)
    (r0 : MarqueeRenderer) (start : Nat) (ticks : List Nat) :
    (r.isRunning = true → r.isCurrentScreenCentered = false → 0 < r.segmentCount →
      GetTextWidth measure r ≤ r.config.screenWidth →
      UpdateMarquee measure r now =
        { r with isCurrentScreenCentered := true, centerStartTime := now }) ∧
    ((∀ k < ticks.length,
        DoesTextFitInWindow measure
          (runTicks measure (ticks.take k) (StartMarquee r0 start)) = true) →
      ∀ k ≤ ticks.length,
        (runTicks measure (ticks.take k) (StartMarquee r0 start)).scrollPosition =
          r0.config.screenWidth) := by
  constructor
  · intro hrun hs hseg hfit
    exact update_center measure r now hrun hs hseg (fits_of_width hfit)
  · intro hfit k hk
    exact runTicks_fits measure ticks (StartMarquee r0 start) rfl hfit k hk

theorem C26_centering_witness :
    UpdateMarquee narrow (StartMarquee loadedExample 0) 50 =
      { StartMarquee loadedExample 0 with isCurrentScreenCentered := true,
                                          centerStartTime := 50 } ∧
    (runTicks narrow ([50, 100, 2000].take 3) (StartMarquee loadedExample 0)).scrollPosition =
      loadedExample.config.screenWidth :=
  ⟨(C26_centering narrow (StartMarquee loadedExample 0) 50 loadedExample 0 []).1
      (by decide) (by decide) (by decide) (by decide),
    (C26_centering narrow (StartMarquee loadedExample 0) 50 loadedExample 0 [50, 100, 2000]).2
      (by decide) 3 (by decide)⟩

/-- C27 (amended). On a tick while the renderer is running, in the phase
Scrolling, with `segmentCount > 0`, a current segment and a measured width `w`
greater than `screenWidth`: when at least `timePerFrame` has passed since
`lastUpdate` and `scrollPosition - pixelsPerFrame` lies in the range of an
`int`, `scrollPosition` decreases by exactly `pixelsPerFrame`, and if the new
value is less than `-w` then `currentScreen` becomes the remainder of
`currentScreen + 1` by `segmentCount`, `scrollPosition` becomes `screenWidth`
and the tick blocks for `screenDelay` milliseconds, otherwise `currentScreen`
is unchanged and the tick does not block; outside that range the new value is
the difference wrapped into the range; when less time has passed the tick
changes nothing. -/
theorem C27_scroll_step (measure : List Char → Int) (r : MarqueeRenderer) (now : Nat)
    (hrun : r.isRunning = true) (hs : r.isCurrentScreenCentered = false)
    (hseg : 0 < r.segmentCount) (hcur : r.currentScreen < r.segmentCount)
    (hw : GetTextWidth measure r > r.config.screenWidth) :
    (dwordSub now r.lastUpdate ≥ toDWORD r.config.timePerFrame →
      LONG_MIN ≤ r.scrollPosition - r.config.pixelsPerFrame →
      r.scrollPosition - r.config.pixelsPerFrame ≤ LONG_MAX →
      UpdateMarquee measure r now =
        (if r.scrollPosition - r.config.pixelsPerFrame < -GetTextWidth measure r then
          { r with currentScreen := Int.tmod (r.currentScreen + 1) r.segmentCount,
                   scrollPosition := r.config.screenWidth, lastUpdate := now }
        else { r with scrollPosition := r.scrollPosition - r.config.pixelsPerFrame,
                      lastUpdate := now }) ∧
      UpdateMarqueeSleep measure r now =
        (if r.scrollPosition - r.config.pixelsPerFrame < -GetTextWidth measure r then
          some (toDWORD r.config.screenDelay)
        else none)) ∧
    (dwordSub now r.lastUpdate ≥ toDWORD r.config.timePerFrame →
      UpdateMarquee measure r now =
        if wrapInt (r.scrollPosition - r.config.pixelsPerFrame) < -GetTextWidth measure r then
          { r with currentScreen := Int.tmod (r.currentScreen + 1) r.segmentCount,
                   scrollPosition := r.config.screenWidth, lastUpdate := now }
        else { r with scrollPosition := wrapInt (r.scrollPosition - r.config.pixelsPerFrame),
                      lastUpdate := now }) ∧
    (dwordSub now r.lastUpdate < toDWORD r.config.timePerFrame →
      UpdateMarquee measure r now = r ∧ UpdateMarqueeSleep measure r now = none) ∧
    (0 ≤ r.currentScreen →
      Int.tmod (r.currentScreen + 1) r.segmentCount = (r.currentScreen + 1) % r.segmentCount) := by
  have hstep := update_scroll measure r now hrun hs hseg (not_fits_of_width hseg hcur hw)
  have hsleep := update_sleep measure r now hrun hs hseg (not_fits_of_width hseg hcur hw)
  refine ⟨?_, ?_, ?_, ?_⟩
  · intro hdue hlo hhi
    rw [hstep, hsleep, if_pos hdue, wrapInt_of_range hlo hhi]
    refine ⟨rfl, ?_⟩
    by_cases hadv : r.scrollPosition - r.config.pixelsPerFrame < -GetTextWidth measure r
    · rw [if_pos ⟨hdue, hadv⟩, if_pos hadv]
    · rw [if_neg (fun hh => hadv hh.2), if_neg hadv]
  · intro hdue
    rw [hstep, if_pos hdue]
  · intro hdue
    rw [hstep, hsleep, if_neg (by omega), if_neg (fun hh => absurd hh.1 (by omega))]
    exact ⟨rfl, rfl⟩
  · intro h0
    exact Int.tmod_eq_emod (by omega) (by omega)

theorem C27_scroll_step_witness :
    UpdateMarquee wide (StartMarquee loadedExample 0) 50 =
      (if (StartMarquee loadedExample 0).scrollPosition -
          (StartMarquee loadedExample 0).config.pixelsPerFrame <
          -GetTextWidth wide (StartMarquee loadedExample 0) then
        { StartMarquee loadedExample 0 with
          currentScreen := Int.tmod ((StartMarquee loadedExample 0).currentScreen + 1)
            (StartMarquee loadedExample 0).segmentCount,
          scrollPosition := (StartMarquee loadedExample 0).config.screenWidth,
          lastUpdate := 50 }
      else { StartMarquee loadedExample 0 with
             scrollPosition := (StartMarquee loadedExample 0).scrollPosition -
               (StartMarquee loadedExample 0).config.pixelsPerFrame,
             lastUpdate := 50 }) :=
  ((C27_scroll_step wide (StartMarquee loadedExample 0) 50 (by decide) (by decide) (by decide)
    (by decide) (by decide)).1 (by decide) (by decide) (by decide)).1

/-- C27 as stated fails: a tick that comes 10 ms after `lastUpdate`, with
`timePerFrame` 50, leaves `scrollPosition` at 600 although the renderer is
running, in the phase Scrolling, with one segment whose width 650 is greater
than the screen width 600; and when `currentScreen` is not below
`segmentCount` the text counts as fitting, so that with a negative screen width
a tick makes the phase Centered instead of scrolling.  A file with the lines
`SW -10` and `PM 2147483647` and two segments gives, after `StartMarquee`, a
renderer that is running, in the phase Scrolling, on segment 0 of 2, whose
width 20 is greater than the screen width -10, at `scrollPosition` -10; the
tick that is due makes `scrollPosition` 2147483639, which is not -10 less
2147483647, and leaves `currentScreen` at 0, although that difference is below
-20. -/
theorem C27_counterexample :
    (StartMarquee loadedExample 0).isRunning = true ∧
    (StartMarquee loadedExample 0).isCurrentScreenCentered = false ∧
    0 < (StartMarquee loadedExample 0).segmentCount ∧
    GetTextWidth wide (StartMarquee loadedExample 0) = 650 ∧
    (StartMarquee loadedExample 0).config.screenWidth = 600 ∧
    (StartMarquee loadedExample 0).config.pixelsPerFrame = 3 ∧
    (StartMarquee loadedExample 0).scrollPosition = 600 ∧
    (UpdateMarquee wide (StartMarquee loadedExample 0) 10).scrollPosition = 600 ∧
    GetTextWidth wide
      { StartMarquee loadedExample 0 with
        currentScreen := 1,
        config := { loadedExample.config with screenWidth := -5 },
        scrollPosition := -5 } = 0 ∧
    (UpdateMarquee wide
      { StartMarquee loadedExample 0 with
        currentScreen := 1,
        config := { loadedExample.config with screenWidth := -5 },
        scrollPosition := -5 } 50).scrollPosition = -5 ∧
    dwordSub 50 (StartMarquee loadedExample 0).lastUpdate ≥
      toDWORD (StartMarquee loadedExample 0).config.timePerFrame ∧
    (LoadLayoutFile InitRenderer
        "SW -10\nPM 2147483647\nSTART\nhi\nEND\nSTART\nho\nEND\n".toList []).map
      (fun r =>
        ((StartMarquee r 0).isRunning, (StartMarquee r 0).isCurrentScreenCentered,
         (StartMarquee r 0).segmentCount, (StartMarquee r 0).currentScreen)) =
      some (true, false, 2, 0) ∧
    (LoadLayoutFile InitRenderer
        "SW -10\nPM 2147483647\nSTART\nhi\nEND\nSTART\nho\nEND\n".toList []).map
      (fun r =>
        (GetTextWidth narrow (StartMarquee r 0), (StartMarquee r 0).config.screenWidth,
         (StartMarquee r 0).scrollPosition, (StartMarquee r 0).config.pixelsPerFrame)) =
      some (20, -10, -10, 2147483647) ∧
    (LoadLayoutFile InitRenderer
        "SW -10\nPM 2147483647\nSTART\nhi\nEND\nSTART\nho\nEND\n".toList []).map
      (fun r =>
        (decide (dwordSub 50 (StartMarquee r 0).lastUpdate ≥
           toDWORD (StartMarquee r 0).config.timePerFrame),
         (UpdateMarquee narrow (StartMarquee r 0) 50).scrollPosition,
         (UpdateMarquee narrow (StartMarquee r 0) 50).currentScreen)) =
      some (true, 2147483639, 0) ∧
    (-10 : Int) - 2147483647 < -20 := by
  refine ⟨by decide, by decide, by decide, by decide, by decide, by decide, by decide,
    by decide, by decide, by decide, by decide, by decide, by decide, by decide, by decide⟩

/-- C29. On a tick while the renderer is running, in the phase Centered, with
`segmentCount > 0` and `centerDelay` a non-negative `int`: if the time passed
since `centerStartTime` is at least `centerDelay`, `currentScreen` becomes the
remainder of `currentScreen + 1` by `segmentCount`, `scrollPosition` becomes
`screenWidth` and the phase becomes Scrolling; otherwise nothing changes.  The
time passed is `now - centerStartTime` as long as the tick counter has not
wrapped, and the remainder is the one of the integers as long as `currentScreen`
is not negative. -/
theorem C29_centered_step (measure : List Char → Int) (r : MarqueeRenderer) (now : Nat)
    (hrun : r.isRunning = true) (hc : r.isCurrentScreenCentered = true)
    (hseg : 0 < r.segmentCount) (hcd : 0 ≤ r.config.centerDelay)
    (hint : r.config.centerDelay ≤ LONG_MAX) :
    ((dwordSub now r.centerStartTime : Int) ≥ r.config.centerDelay →
      UpdateMarquee measure r now =
        { r with currentScreen := Int.tmod (r.currentScreen + 1) r.segmentCount,
                 scrollPosition := r.config.screenWidth,
                 isCurrentScreenCentered := false, centerStartTime := 0 }) ∧
    ((dwordSub now r.centerStartTime : Int) < r.config.centerDelay →
      UpdateMarquee measure r now = r) ∧
    (r.centerStartTime ≤ now → now < DWORD_RANGE →
      dwordSub now r.centerStartTime = now - r.centerStartTime) ∧
    (0 ≤ r.currentScreen →
      Int.tmod (r.currentScreen + 1) r.segmentCount = (r.currentScreen + 1) % r.segmentCount) := by
  have hstep := update_centered measure r now hrun hc hseg
  have hconv := toDWORD_of_nonneg hcd hint
  refine ⟨?_, ?_, ?_, ?_⟩
  · intro hdue
    rw [hstep, if_pos (by omega)]
  · intro hdue
    rw [hstep, if_neg (by omega)]
  · intro h1 h2
    exact dwordSub_of_le h1 h2
  · intro h0
    exact Int.tmod_eq_emod (by omega) (by omega)

theorem C29_centered_step_witness :
    UpdateMarquee narrow
        { StartMarquee loadedExample 0 with isCurrentScreenCentered := true,
                                            centerStartTime := 50 } 1550 =
      { ({ StartMarquee loadedExample 0 with isCurrentScreenCentered := true,
                                             centerStartTime := 50 } : MarqueeRenderer) with
        currentScreen := Int.tmod (0 + 1) 1, scrollPosition := 600,
        isCurrentScreenCentered := false, centerStartTime := 0 } :=
  (C29_centered_step narrow
    { StartMarquee loadedExample 0 with isCurrentScreenCentered := true, centerStartTime := 50 }
    1550 (by decide) (by decide) (by decide) (by decide) (by decide)).1 (by decide)

/-! ## Scrolling a segment out of the window -/

theorem spaced_take (delay : Nat) : ∀ (ticks : List Nat) (last k : Nat),
    spaced delay last ticks → spaced delay last (ticks.take k)
  | [], last, k, _ => by rw [List.take_nil]; trivial
  | now :: more, last, 0, _ => trivial
  | now :: more, last, k + 1, h => by
    rw [List.take_succ_cons]
    exact ⟨h.1, spaced_take delay more now k h.2⟩

/-- While the new position is not below minus the width, each tick that is due
moves the position by `pixelsPerFrame` and changes nothing else than
`lastUpdate`. -/
theorem runTicks_scroll (measure : List Char → Int) (r : MarqueeRenderer)
    (hrun : r.isRunning = true) (hs : r.isCurrentScreenCentered = false)
    (hseg : 0 < r.segmentCount) (hcur : r.currentScreen < r.segmentCount)
    (hw : GetTextWidth measure r > r.config.screenWidth) :
    ∀ (ticks : List Nat) (p : Int) (last : Nat),
    spaced (toDWORD r.config.timePerFrame) last ticks →
    ¬ (p - r.config.pixelsPerFrame * (ticks.length : Int) < -GetTextWidth measure r) →
    0 ≤ r.config.pixelsPerFrame →
    LONG_MIN ≤ p - r.config.pixelsPerFrame * (ticks.length : Int) → p ≤ LONG_MAX →
    runTicks measure ticks { r with scrollPosition := p, lastUpdate := last } =
      { r with scrollPosition := p - r.config.pixelsPerFrame * (ticks.length : Int),
               lastUpdate := ticks.getLastD last }
  | [], p, last, _, _, _, _, _ => by
    simp [runTicks]
  | now :: more, p, last, hsp, hp, hpp, hlo, hhi => by
    have hfit : DoesTextFitInWindow measure { r with scrollPosition := p, lastUpdate := last } =
        false := not_fits_of_width (r := { r with scrollPosition := p, lastUpdate := last })
          hseg hcur hw
    have hstep := update_scroll measure { r with scrollPosition := p, lastUpdate := last } now
      hrun hs hseg hfit
    have hwid : GetTextWidth measure { r with scrollPosition := p, lastUpdate := last } =
        GetTextWidth measure r := rfl
    rw [hwid] at hstep
    simp only at hstep
    have hlen : ((now :: more).length : Int) = (more.length : Int) + 1 := by
      simp
    rw [hlen] at hp hlo
    have hmul : 0 ≤ r.config.pixelsPerFrame * (more.length : Int) :=
      mul_nonneg hpp (Int.ofNat_nonneg _)
    have hexp : r.config.pixelsPerFrame * ((more.length : Int) + 1) =
        r.config.pixelsPerFrame * (more.length : Int) + r.config.pixelsPerFrame := by ring
    rw [hexp] at hp hlo
    have hwrap : wrapInt (p - r.config.pixelsPerFrame) = p - r.config.pixelsPerFrame :=
      wrapInt_of_range (by omega) (by omega)
    rw [hwrap] at hstep
    have hno : ¬ (p - r.config.pixelsPerFrame < -GetTextWidth measure r) := by
      intro hc
      apply hp
      omega
    rw [if_pos hsp.1, if_neg hno] at hstep
    rw [runTicks, hstep]
    have ih := runTicks_scroll measure r hrun hs hseg hcur hw more
      (p - r.config.pixelsPerFrame) now hsp.2 (by
        intro hc
        apply hp
        omega) hpp (by omega) (by omega)
    rw [ih, hlen]
    have h1 : p - r.config.pixelsPerFrame - r.config.pixelsPerFrame * (more.length : Int) =
        p - r.config.pixelsPerFrame * ((more.length : Int) + 1) := by ring
    have h2 : (now :: more).getLastD last = more.getLastD now := by
      cases more <;> rfl
    rw [h1, h2]

theorem runTicks_append (measure : List Char → Int) : ∀ (a b : List Nat) (r : MarqueeRenderer),
    runTicks measure (a ++ b) r = runTicks measure b (runTicks measure a r)
  | [], _, _ => rfl
  | now :: a, b, r => runTicks_append measure a b (UpdateMarquee measure r now)

theorem spaced_last (delay : Nat) : ∀ (a : List Nat) (last t : Nat),
    spaced delay last (a ++ [t]) → dwordSub t (a.getLastD last) ≥ delay
  | [], last, t, h => h.1
  | now :: a, last, t, h => by
    have := spaced_last delay a now t h.2
    have h2 : (now :: a).getLastD last = a.getLastD now := by
      cases a <;> rfl
    rw [h2]
    exact this

theorem everyFifty_length : ∀ (n t : Nat), (everyFifty n t).length = n
  | 0, _ => rfl
  | n + 1, t => by rw [everyFifty, List.length_cons, everyFifty_length n]

theorem everyFifty_spaced : ∀ (n t : Nat), t + 50 * n < DWORD_RANGE →
    spaced 50 t (everyFifty n t)
  | 0, _, _ => trivial
  | n + 1, t, h => by
    rw [everyFifty]
    constructor
    · rw [dwordSub_of_le (by omega) (by omega)]
      omega
    · exact everyFifty_spaced n (t + 50) (by omega)

/-- C28. With `screenWidth` 600, `pixelsPerFrame` 3, a measured width of 650 and
`scrollPosition` 600 at the start, and ticks that each come at least
`timePerFrame` after the one before: after `k` ticks with `k ≤ 416` the segment
is unchanged and `scrollPosition` is `600 - 3k`, which is not below -650; the
417th tick is the first to advance the segment: `currentScreen` becomes the
remainder of `currentScreen + 1` by `segmentCount` and `scrollPosition` is reset
to 600. -/
theorem C28_scroll_example (measure : List Char → Int) (r : MarqueeRenderer) (ticks : List Nat)
    (hrun : r.isRunning = true) (hs : r.isCurrentScreenCentered = false)
    (hseg : 0 < r.segmentCount) (hw : GetTextWidth measure r = 650)
    (hsw : r.config.screenWidth = 600) (hpp : r.config.pixelsPerFrame = 3)
    (hpos : r.scrollPosition = 600)
    (hsp : spaced (toDWORD r.config.timePerFrame) r.lastUpdate ticks)
    (hlen : 417 ≤ ticks.length) :
    (∀ k : Nat, k ≤ 416 →
      (runTicks measure (ticks.take k) r).scrollPosition = 600 - 3 * (k : Int) ∧
      -650 ≤ (runTicks measure (ticks.take k) r).scrollPosition ∧
      (runTicks measure (ticks.take k) r).currentScreen = r.currentScreen) ∧
    (runTicks measure (ticks.take 417) r).currentScreen =
      Int.tmod (r.currentScreen + 1) r.segmentCount ∧
    (runTicks measure (ticks.take 417) r).scrollPosition = 600 ∧
    (0 ≤ r.currentScreen →
      Int.tmod (r.currentScreen + 1) r.segmentCount = (r.currentScreen + 1) % r.segmentCount) := by
  have hcur : r.currentScreen < r.segmentCount := by
    by_contra hc
    unfold GetTextWidth at hw
    rw [if_pos (Or.inr (by omega))] at hw
    exact absurd hw (by decide)
  have hwide : GetTextWidth measure r > r.config.screenWidth := by rw [hw, hsw]; decide
  have hr : ({ r with scrollPosition := 600, lastUpdate := r.lastUpdate } : MarqueeRenderer) =
      r := by
    rw [← hpos]
  have hrun_k : ∀ k : Nat, k ≤ 416 →
      runTicks measure (ticks.take k) r =
        { r with scrollPosition := 600 - 3 * (k : Int),
                 lastUpdate := (ticks.take k).getLastD r.lastUpdate } := by
    intro k hk
    have hlk : (ticks.take k).length = k := by
      rw [List.length_take]; omega
    have h := runTicks_scroll measure r hrun hs hseg hcur hwide (ticks.take k) 600
      r.lastUpdate (spaced_take _ ticks _ k hsp) (by
        rw [hlk, hw, hpp]; omega) (by rw [hpp]; decide)
      (by
        have e1 : LONG_MIN = -2147483648 := rfl
        rw [hlk, hpp]; omega)
      (by decide)
    rw [hlk, hpp, hr] at h
    exact h
  obtain ⟨t, ht⟩ : ∃ t, ticks[416]? = some t := by
    rw [List.getElem?_eq_getElem (by omega)]
    exact ⟨_, rfl⟩
  have hdue := spaced_last _ (ticks.take 416) r.lastUpdate t (by
    rw [← take_succ_of_getElem? ht]
    exact spaced_take _ ticks _ 417 hsp)
  have hlast : runTicks measure (ticks.take 417) r =
      { r with currentScreen := Int.tmod (r.currentScreen + 1) r.segmentCount,
               scrollPosition := r.config.screenWidth, lastUpdate := t } := by
    have hstep := update_scroll measure
      { r with scrollPosition := 600 - 3 * ((416 : Nat) : Int),
               lastUpdate := (ticks.take 416).getLastD r.lastUpdate } t hrun hs hseg
      (not_fits_of_width hseg hcur hwide)
    have hwid : GetTextWidth measure
        { r with scrollPosition := 600 - 3 * ((416 : Nat) : Int),
                 lastUpdate := (ticks.take 416).getLastD r.lastUpdate } =
        GetTextWidth measure r := rfl
    rw [hwid, hw] at hstep
    simp only at hstep
    rw [if_pos hdue, hpp, if_pos (by decide)] at hstep
    rw [take_succ_of_getElem? ht, runTicks_append, hrun_k 416 (le_refl _), runTicks, runTicks,
      hstep]
  refine ⟨?_, ?_, ?_, ?_⟩
  · intro k hk
    rw [hrun_k k hk]
    refine ⟨rfl, ?_, rfl⟩
    simp only
    omega
  · rw [hlast]
  · rw [hlast]
    exact hsw
  · intro h0
    exact Int.tmod_eq_emod (by omega) (by omega)

theorem C28_scroll_example_witness :
    (runTicks wide ((everyFifty 417 0).take 417) (StartMarquee loadedExample 0)).currentScreen =
      Int.tmod ((StartMarquee loadedExample 0).currentScreen + 1)
        (StartMarquee loadedExample 0).segmentCount ∧
    (runTicks wide ((everyFifty 417 0).take 417) (StartMarquee loadedExample 0)).scrollPosition =
      600 :=
  ⟨(C28_scroll_example wide (StartMarquee loadedExample 0) (everyFifty 417 0) (by decide)
      (by decide) (by decide) (by decide) (by decide) (by decide) (by decide)
      (everyFifty_spaced 417 0 (by decide)) (by rw [everyFifty_length])).2.1,
   (C28_scroll_example wide (StartMarquee loadedExample 0) (everyFifty 417 0) (by decide)
      (by decide) (by decide) (by decide) (by decide) (by decide) (by decide)
      (everyFifty_spaced 417 0 (by decide)) (by rw [everyFifty_length])).2.2.1⟩

theorem drawRuns_y (measure : List Char → Int) : ∀ (ts : List ColoredText) (x y : Int),
    ∀ o ∈ drawRuns measure ts x y, o.y = y
  | [], _, _, o, h => by
    rw [drawRuns] at h
    exact absurd h (List.not_mem_nil o)
  | t :: ts, x, y, o, h => by
    rw [drawRuns, List.mem_cons] at h
    rcases h with h | h
    · rw [h]
    · exact drawRuns_y measure ts (x + measure t.text) y o h

/-- The calls of the line loop, line by line. -/
theorem drawLines_eq (measure : List Char → Int) (renderer : MarqueeRenderer)
    (segment : TextSegment) (lineHeight : Int) : ∀ (count lineIndex : Nat),
    drawLines measure renderer segment lineHeight count lineIndex =
      (List.range' lineIndex count).flatMap (fun i =>
        drawRuns measure (segment.lines.getD i { texts := [] }).texts
          (if renderer.isCurrentScreenCentered then
            Int.tdiv (renderer.config.screenWidth -
              lineWidth measure (segment.lines.getD i { texts := [] }).texts 0) 2
           else renderer.scrollPosition)
          ((i : Int) * lineHeight + 30))
  | 0, _ => rfl
  | count + 1, lineIndex => by
    rw [drawLines, drawLines_eq measure renderer segment lineHeight count (lineIndex + 1)]
    rfl

/-- C30. For `linesPerScreen > 0` and a current segment, `RenderMarquee` draws
exactly the lines of the current segment with index `i` below the smaller of
`linesPerScreen` and the number of lines, in order, and the runs of line `i`
are drawn at the vertical position `i * (screenHeight / linesPerScreen) + 30`,
the division being that of C, which is the integer division when
`screenHeight` is not negative. -/
theorem C30_line_placement (measure : List Char → Int) (r : MarqueeRenderer)
    (hseg : 0 < r.segmentCount) (hcur : r.currentScreen < r.segmentCount)
    (_ : 0 ≤ r.currentScreen) (hl : 0 < r.config.linesPerScreen) :
    RenderMarquee measure r =
      some ((List.range (min r.config.linesPerScreen.toNat
          (r.segments.getD r.currentScreen.toNat { lines := [] }).lines.length)).flatMap
        (fun i =>
          drawRuns measure
            ((r.segments.getD r.currentScreen.toNat { lines := [] }).lines.getD i
              { texts := [] }).texts
            (if r.isCurrentScreenCentered then
              Int.tdiv (r.config.screenWidth - lineWidth measure
                ((r.segments.getD r.currentScreen.toNat { lines := [] }).lines.getD i
                  { texts := [] }).texts 0) 2
             else r.scrollPosition)
            ((i : Int) * Int.tdiv r.config.screenHeight r.config.linesPerScreen + 30))) ∧
    (∀ (i : Nat) (x y : Int), ∀ o ∈ drawRuns measure
        ((r.segments.getD r.currentScreen.toNat { lines := [] }).lines.getD i
          { texts := [] }).texts x y, o.y = y) ∧
    (0 ≤ r.config.screenHeight →
      Int.tdiv r.config.screenHeight r.config.linesPerScreen =
        r.config.screenHeight / r.config.linesPerScreen) := by
  refine ⟨?_, fun i x y => drawRuns_y measure _ x y, fun h => Int.tdiv_eq_ediv h (le_of_lt hl)⟩
  unfold RenderMarquee
  rw [if_neg (by
    rintro (hg | hg)
    · omega
    · omega)]
  simp only
  rw [if_neg (by
    rintro (hg | ⟨_, hg⟩)
    · omega
    · omega)]
  rw [drawLines_eq, List.range_eq_range']
  congr 3
  by_cases hlt : ((r.segments.getD r.currentScreen.toNat { lines := [] }).lines.length : Int) <
      r.config.linesPerScreen
  · rw [if_pos hlt]
    omega
  · rw [if_neg hlt]
    omega

theorem C30_line_placement_witness :
    RenderMarquee narrow (StartMarquee loadedExample 0) =
      some [⟨600, 30, "hi".toList, RGB 255 255 255⟩] :=
  (C30_line_placement narrow (StartMarquee loadedExample 0) (by decide) (by decide) (by decide)
    (by decide)).1.trans (by decide)

/-- C30, the claim as first stated fails: the only line of the example is drawn at
the vertical position 30, and `0 * (80 / 2)` is 0. -/
theorem C30_counterexample :
    RenderMarquee narrow (StartMarquee loadedExample 0) =
      some [⟨600, 30, "hi".toList, RGB 255 255 255⟩] ∧
    (StartMarquee loadedExample 0).config.linesPerScreen = 2 ∧
    (StartMarquee loadedExample 0).config.screenHeight = 80 ∧
    (0 : Int) * ((StartMarquee loadedExample 0).config.screenHeight /
      (StartMarquee loadedExample 0).config.linesPerScreen) ≠ 30 := by
  decide

/-! ## Line endings -/

theorem scanText_dropCR (add : AddFn) : ∀ (text : List Char) (s : VState),
    scanTextWith add (dropCR text) s = scanTextWith add text s
  | [], s => rfl
  | c :: rest, s => by
    by_cases h1 : c = '\r'
    · have hd : dropCR (c :: rest) = dropCR rest := by
        simp [dropCR, h1]
      rw [hd, scanText_dropCR add rest s]
      conv_rhs => rw [scanTextWith, if_pos h1]
    · have hd : dropCR (c :: rest) = c :: dropCR rest := by
        simp [dropCR, h1]
      rw [hd, scanTextWith, scanTextWith, if_neg h1, if_neg h1]
      by_cases h2 : c = '\n'
      · rw [if_pos h2, if_pos h2]
        exact scanText_dropCR add rest _
      · rw [if_neg h2, if_neg h2]
        exact scanText_dropCR add rest _

theorem cstr_dropCR : ∀ (buffer : List Char), cstr (dropCR buffer) = dropCR (cstr buffer)
  | [] => rfl
  | c :: rest => by
    have ih := cstr_dropCR rest
    unfold cstr dropCR at ih ⊢
    by_cases h1 : c = '\r'
    · have h3 : (c != NUL) = true := by rw [h1]; decide
      simp only [List.filter_cons, List.takeWhile_cons, h3, if_true]
      simp only [h1, bne_self_eq_false, Bool.false_eq_true, if_false]
      exact ih
    · have h2 : (c != '\r') = true := by simpa using h1
      by_cases h3 : (c != NUL) = true
      · simp only [List.filter_cons, List.takeWhile_cons, h2, h3, if_true]
        rw [ih]
      · simp only [List.filter_cons, List.takeWhile_cons, h2, h3, if_true]
        simp

theorem dropCR_toCRLF : ∀ (text : List Char), dropCR (toCRLF text) = dropCR text
  | [] => rfl
  | c :: rest => by
    have ih := dropCR_toCRLF rest
    unfold dropCR at ih ⊢
    rw [toCRLF]
    by_cases h : c = '\n'
    · rw [if_pos h]
      simp only [List.filter_cons]
      rw [ih, h]
      simp
    · rw [if_neg h]
      simp only [List.filter_cons]
      rw [ih]

theorem ValidateFile_dropCR (add : AddFn) (buffer : List Char) :
    ValidateFileWith add (dropCR buffer) = ValidateFileWith add buffer := by
  unfold ValidateFileWith
  rw [cstr_dropCR, scanText_dropCR]

/-- C33. The validator gives the same list of diagnostics, line numbers
included, whatever the line-ending variant: for every text, turning each line
feed into carriage return, line feed leaves the list unchanged, and so does
removing every carriage return; two texts that differ only in their carriage
returns, wherever these stand, get the same list. -/
theorem C33_line_endings (text other : List Char) :
    ValidateFile (toCRLF text) = ValidateFile text ∧
    ValidateFile (dropCR text) = ValidateFile text ∧
    (dropCR other = dropCR text → ValidateFile other = ValidateFile text) := by
  unfold ValidateFile
  refine ⟨?_, ValidateFile_dropCR _ text, ?_⟩
  · rw [← ValidateFile_dropCR _ (toCRLF text), dropCR_toCRLF, ValidateFile_dropCR]
  · intro h
    rw [← ValidateFile_dropCR _ other, h, ValidateFile_dropCR]

theorem C33_line_endings_witness :
    ValidateFile "SC 1\r\nSTART\r\r\nhi'\nEN\rD\r\n".toList =
      ValidateFile "SC 1\nSTART\nhi'\nEND\n".toList :=
  (C33_line_endings "SC 1\nSTART\nhi'\nEND\n".toList "SC 1\r\nSTART\r\r\nhi'\nEN\rD\r\n".toList).2.2
    (by decide)

/-! ## The reads of LoadLayoutFile, branch by branch -/

theorem loadChunk_kind (st : LoadState) (ch : List Char) :
    loadChunk st ch =
      loadByKind st (readIntoBuf st.buf ch) (stripLine ch) (lineKind (stripLine ch)) := by
  unfold loadChunk
  simp only [cstr_readIntoBuf]
  generalize stripLine ch = line
  generalize readIntoBuf st.buf ch = buf
  rcases lineKind_cases line with ⟨h0, hk⟩ | ⟨h0, hp, hk⟩ |
    ⟨h0, h1, hp, hk⟩ |
    ⟨h0, h1, h2, hp, hk⟩ |
    ⟨h0, h1, h2, h3, hp, hk⟩ |
    ⟨h0, h1, h2, h3, h4, hp, hk⟩ |
    ⟨h0, h1, h2, h3, h4, h5, hp, hk⟩ |
    ⟨h0, h1, h2, h3, h4, h5, h6, hp, hk⟩ |
    ⟨h0, h1, h2, h3, h4, h5, h6, h7, hp, hk⟩ |
    ⟨h0, h1, h2, h3, h4, h5, h6, h7, h8, hp, hk⟩ |
    ⟨h0, h1, h2, h3, h4, h5, h6, h7, h8, h9, hp, hk⟩ |
    ⟨h0, h1, h2, h3, h4, h5, h6, h7, h8, h9, h10, hk⟩
  · have hs : line.length = 0 ∨ line.head? = some '/' := by
      by_cases hh : line.head? = some '/'
      · exact Or.inr hh
      · left
        by_contra hl
        exact h0 ⟨hh, by omega⟩
    rw [hk, if_pos hs]
    rfl
  all_goals
    have hs : ¬ (line.length = 0 ∨ line.head? = some '/') := by
      rintro (hl | hl)
      · omega
      · exact h0.1 hl
    rw [hk, if_neg hs]
  · rw [if_pos hp]; rfl
  · rw [if_neg h1, if_pos hp]; rfl
  · rw [if_neg h1, if_neg h2, if_pos hp]; rfl
  · rw [if_neg h1, if_neg h2, if_neg h3, if_pos hp]; rfl
  · rw [if_neg h1, if_neg h2, if_neg h3, if_neg h4, if_pos hp]; rfl
  · rw [if_neg h1, if_neg h2, if_neg h3, if_neg h4, if_neg h5, if_pos hp]; rfl
  · rw [if_neg h1, if_neg h2, if_neg h3, if_neg h4, if_neg h5, if_neg h6, if_pos hp]; rfl
  · rw [if_neg h1, if_neg h2, if_neg h3, if_neg h4, if_neg h5, if_neg h6, if_neg h7, if_pos hp]
    rfl
  · rw [if_neg h1, if_neg h2, if_neg h3, if_neg h4, if_neg h5, if_neg h6, if_neg h7, if_neg h8,
      if_pos hp]
    rfl
  · rw [if_neg h1, if_neg h2, if_neg h3, if_neg h4, if_neg h5, if_neg h6, if_neg h7, if_neg h8,
      if_neg h9, if_pos hp]
    rfl
  · rw [if_neg h1, if_neg h2, if_neg h3, if_neg h4, if_neg h5, if_neg h6, if_neg h7, if_neg h8,
      if_neg h9, if_neg h10]
    rfl

theorem appendLine_eq {r r1 : MarqueeRenderer} {seg : Nat} {tl : TextLine}
    (h : appendLine r seg tl = some r1) :
    r1 = { r with
      segments := r.segments.set seg
        { lines := (r.segments.getD seg { lines := [] }).lines ++ [tl] } } := by
  unfold appendLine at h
  simp only at h
  split_ifs at h
  injection h with h
  exact h.symm

/-- A read of `LoadLayoutFile` touches nothing of the renderer but the
configuration, the segments and `segmentCount`. -/
theorem loadChunk_frame {st st1 : LoadState} {ch : List Char} (h : loadChunk st ch = some st1) :
    st1.renderer.currentScreen = st.renderer.currentScreen ∧
    st1.renderer.isRunning = st.renderer.isRunning ∧
    st1.renderer.scrollPosition = st.renderer.scrollPosition ∧
    st1.renderer.lastUpdate = st.renderer.lastUpdate ∧
    st1.renderer.isCurrentScreenCentered = st.renderer.isCurrentScreenCentered ∧
    st1.renderer.centerStartTime = st.renderer.centerStartTime := by
  rw [loadChunk_kind] at h
  cases hk : lineKind (stripLine ch) <;> rw [hk] at h <;> simp only [loadByKind] at h
  all_goals
    (repeat' split at h) <;>
    cases h <;>
    first
    | exact ⟨rfl, rfl, rfl, rfl, rfl, rfl⟩
    | (rename_i ha
       rw [appendLine_eq ha]
       exact ⟨rfl, rfl, rfl, rfl, rfl, rfl⟩)

/-- A read of `LoadLayoutFile` changes `timePerFrame` only when the line read
begins with `TPF`, and `pixelsPerFrame` only when it begins with `PM`. -/
theorem loadChunk_optional {st st1 : LoadState} {ch : List Char}
    (h : loadChunk st ch = some st1) :
    (lineKind (stripLine ch) ≠ LineKind.tpf →
      st1.renderer.config.timePerFrame = st.renderer.config.timePerFrame) ∧
    (lineKind (stripLine ch) ≠ LineKind.pm →
      st1.renderer.config.pixelsPerFrame = st.renderer.config.pixelsPerFrame) := by
  rw [loadChunk_kind] at h
  cases hk : lineKind (stripLine ch) <;> rw [hk] at h <;> simp only [loadByKind] at h
  all_goals
    (repeat' split at h) <;>
    cases h <;>
    first
    | exact ⟨fun _ => rfl, fun _ => rfl⟩
    | (rename_i ha
       rw [appendLine_eq ha]
       exact ⟨fun _ => rfl, fun _ => rfl⟩)
    | exact ⟨fun _ => rfl, fun hn => absurd rfl hn⟩
    | exact ⟨fun hn => absurd rfl hn, fun _ => rfl⟩

theorem loadLoop_frame : ∀ (chunks : List (List Char)) {st st1 : LoadState},
    loadLoop chunks st = some st1 →
    st1.renderer.currentScreen = st.renderer.currentScreen ∧
    st1.renderer.isRunning = st.renderer.isRunning ∧
    st1.renderer.scrollPosition = st.renderer.scrollPosition ∧
    st1.renderer.lastUpdate = st.renderer.lastUpdate ∧
    st1.renderer.isCurrentScreenCentered = st.renderer.isCurrentScreenCentered ∧
    st1.renderer.centerStartTime = st.renderer.centerStartTime
  | [], st, st1, h => by
    rw [loadLoop] at h
    injection h with h
    subst h
    exact ⟨rfl, rfl, rfl, rfl, rfl, rfl⟩
  | ch :: more, st, st1, h => by
    rw [loadLoop] at h
    cases hc : loadChunk st ch with
    | none => rw [hc] at h; cases h
    | some st2 =>
      rw [hc] at h
      simp only at h
      have h1 := loadLoop_frame more h
      have h2 := loadChunk_frame hc
      exact ⟨h1.1.trans h2.1, h1.2.1.trans h2.2.1, h1.2.2.1.trans h2.2.2.1,
        h1.2.2.2.1.trans h2.2.2.2.1, h1.2.2.2.2.1.trans h2.2.2.2.2.1,
        h1.2.2.2.2.2.trans h2.2.2.2.2.2⟩

theorem loadLoop_optional : ∀ (chunks : List (List Char)) {st st1 : LoadState},
    loadLoop chunks st = some st1 →
    ((∀ ch ∈ chunks, lineKind (stripLine ch) ≠ LineKind.tpf) →
      st1.renderer.config.timePerFrame = st.renderer.config.timePerFrame) ∧
    ((∀ ch ∈ chunks, lineKind (stripLine ch) ≠ LineKind.pm) →
      st1.renderer.config.pixelsPerFrame = st.renderer.config.pixelsPerFrame)
  | [], st, st1, h => by
    rw [loadLoop] at h
    injection h with h
    subst h
    exact ⟨fun _ => rfl, fun _ => rfl⟩
  | ch :: more, st, st1, h => by
    rw [loadLoop] at h
    cases hc : loadChunk st ch with
    | none => rw [hc] at h; cases h
    | some st2 =>
      rw [hc] at h
      simp only at h
      have h1 := loadLoop_optional more h
      have h2 := loadChunk_optional hc
      constructor
      · intro hall
        rw [h1.1 (fun c hm => hall c (List.mem_cons_of_mem _ hm)),
          h2.1 (hall ch (List.mem_cons_self _ _))]
      · intro hall
        rw [h1.2 (fun c hm => hall c (List.mem_cons_of_mem _ hm)),
          h2.2 (hall ch (List.mem_cons_self _ _))]

/-- The state `LoadLayoutFile` returns is the one its loop of reads ends in. -/
theorem LoadLayoutFile_some {renderer r : MarqueeRenderer} {stream stack : List Char}
    (h : LoadLayoutFile renderer stream stack = some r) :
    ∃ st, loadLoop (fgetwsChunks stream [])
        { renderer := { renderer with segmentCount := 0 }, buf := stack, inSegment := false,
          currentSegment := none } = some st ∧ st.renderer = r ∧
      ¬ (r.config.linesPerScreen = 0 ∨
        (r.config.screenHeight = LONG_MIN ∧ r.config.linesPerScreen = -1)) := by
  unfold LoadLayoutFile at h
  simp only at h
  cases hl : loadLoop (fgetwsChunks stream [])
      { renderer := { renderer with segmentCount := 0 }, buf := stack, inSegment := false,
        currentSegment := none } with
  | none => rw [hl] at h; cases h
  | some st =>
    rw [hl] at h
    simp only at h
    split_ifs at h with hz
    injection h with h
    subst h
    exact ⟨st, rfl, rfl, hz⟩

theorem lineKind_tpf {l : List Char} (h : lineKind l = LineKind.tpf) :
    startsWith l "TPF" = true := by
  have k := lineKind_spec l
  rw [h] at k
  exact k.2.2.2.2.2.2.2

theorem lineKind_pm {l : List Char} (h : lineKind l = LineKind.pm) :
    startsWith l "PM" = true := by
  have k := lineKind_spec l
  rw [h] at k
  exact k.2.2.2.2.2.2.2.2

/-- C31 (amended). For every renderer state a load starts from, after
`LoadLayoutFile` reads a text none of whose lines begins with `TPF`,
`config.timePerFrame` is the one of the state the load started from, and after
it reads a text none of whose lines begins with `PM`, `config.pixelsPerFrame`
is the one of that state; these are 50 and 3 in the state `InitRenderer`
leaves. -/
theorem C31_optional_defaults (renderer r : MarqueeRenderer) (stream stack : List Char)
    (h : LoadLayoutFile renderer stream stack = some r) :
    ((∀ l ∈ rendererLines stream, startsWith l "TPF" = false) →
      r.config.timePerFrame = renderer.config.timePerFrame) ∧
    ((∀ l ∈ rendererLines stream, startsWith l "PM" = false) →
      r.config.pixelsPerFrame = renderer.config.pixelsPerFrame) ∧
    InitRenderer.config.timePerFrame = 50 ∧ InitRenderer.config.pixelsPerFrame = 3 := by
  obtain ⟨st, hl, hr, _⟩ := LoadLayoutFile_some h
  have ho := loadLoop_optional _ hl
  subst hr
  refine ⟨?_, ?_, rfl, rfl⟩
  · intro hall
    apply ho.1
    intro ch hm hk
    have := hall (stripLine ch) (List.mem_map_of_mem _ hm)
    rw [lineKind_tpf hk] at this
    cases this
  · intro hall
    apply ho.2
    intro ch hm hk
    have := hall (stripLine ch) (List.mem_map_of_mem _ hm)
    rw [lineKind_pm hk] at this
    cases this

theorem C31_optional_defaults_witness :
    loadedExample.config.timePerFrame = InitRenderer.config.timePerFrame :=
  (C31_optional_defaults InitRenderer loadedExample "SC 5\nSTART\nhi\nEND\n".toList []
    (by decide)).1 (by decide)

/-- C31 as stated fails: a renderer that has loaded a text with the lines
`TPF 20` and `PM 5` keeps 20 and 5 when it loads a text without these lines
afterwards. -/
theorem C31_counterexample :
    ((LoadLayoutFile InitRenderer "TPF 20\nPM 5\n".toList []).bind
      (fun r => LoadLayoutFile r "START\nhi\nEND\n".toList [])).map
        (fun r => (r.config.timePerFrame, r.config.pixelsPerFrame)) = some (20, 5) ∧
    (∀ l ∈ rendererLines "START\nhi\nEND\n".toList,
      startsWith l "TPF" = false ∧ startsWith l "PM" = false) := by
  constructor <;> decide

/-! ## START inside an open segment -/

/-- C36 (amended). In `LoadLayoutFile`, a `START` line met while a segment is
open (and fewer than `MAX_SEGMENTS` segments are complete) leaves that segment
open, in the same slot `segments[segmentCount]`, but empties it: its line count
is set to 0 and the lines collected so far are dropped.  The text `START`, `a`,
`START`, `b`, `END` yields one segment whose only line is `b`. -/
theorem C36_start_in_open_segment (st : LoadState) (ch : List Char)
    (hS : stripLine ch = "START".toList) (_ : st.inSegment = true)
    (hroom : st.renderer.segmentCount.toNat < MAX_SEGMENTS ∧
      st.renderer.segmentCount.toNat < st.renderer.segments.length) :
    loadChunk st ch =
      some { st with buf := readIntoBuf st.buf ch, inSegment := true,
                     currentSegment := some st.renderer.segmentCount.toNat,
                     renderer := { st.renderer with
                       segments := st.renderer.segments.set st.renderer.segmentCount.toNat
                         { lines := [] } } } ∧
    (LoadLayoutFile InitRenderer "START\na\nSTART\nb\nEND\n".toList []).map
      (fun r => (r.segmentCount, (r.segments.getD 0 { lines := [] }).lines)) =
      some (1, [{ texts := [{ text := "b".toList, color := RGB 255 255 255 }] }]) := by
  constructor
  · rw [loadChunk_kind, hS, lineKind_START]
    simp only [loadByKind]
    rw [if_pos hroom]
  · decide

theorem C36_start_in_open_segment_witness :
    loadChunk
      { renderer := { InitRenderer with
          segments := InitRenderer.segments.set 0
            { lines := [{ texts := [{ text := "a".toList, color := RGB 255 255 255 }] }] } },
        buf := "a".toList ++ [NUL], inSegment := true, currentSegment := some 0 }
      "START\n".toList =
    some
      { renderer := { InitRenderer with segments := InitRenderer.segments.set 0 { lines := [] } },
        buf := "START".toList ++ [NUL, NUL], inSegment := true, currentSegment := some 0 } :=
  (C36_start_in_open_segment
    { renderer := { InitRenderer with
        segments := InitRenderer.segments.set 0
          { lines := [{ texts := [{ text := "a".toList, color := RGB 255 255 255 }] }] } },
      buf := "a".toList ++ [NUL], inSegment := true, currentSegment := some 0 }
    "START\n".toList (by decide) (by decide) (by decide)).1.trans (by decide)

/-- C36 as stated fails: the text `START`, `a`, `START`, `b`, `END` yields one
segment with the single line `b`; the line `a` is not kept. -/
theorem C36_counterexample :
    (LoadLayoutFile InitRenderer "START\na\nSTART\nb\nEND\n".toList []).map
      (fun r => (r.segments.getD 0 { lines := [] }).lines) =
      some [{ texts := [{ text := "b".toList, color := RGB 255 255 255 }] }] ∧
    (LoadLayoutFile InitRenderer "START\na\nSTART\nb\nEND\n".toList []).map
      (fun r => (r.segments.getD 0 { lines := [] }).lines) ≠
      some [{ texts := [{ text := "a".toList, color := RGB 255 255 255 }] },
            { texts := [{ text := "b".toList, color := RGB 255 255 255 }] }] := by
  constructor <;> decide

/-! ## The index of the current segment -/

theorem UpdateMarquee_validScreen (measure : List Char → Int) (r : MarqueeRenderer) (now : Nat)
    (h : validScreen r) : validScreen (UpdateMarquee measure r now) := by
  have adv : ∀ r1 : MarqueeRenderer, r1.segmentCount = r.segmentCount →
      r1.currentScreen = Int.tmod (r.currentScreen + 1) r.segmentCount → validScreen r1 := by
    intro r1 h1 h2 hpos
    rw [h1] at hpos
    obtain ⟨ha, hb⟩ := h hpos
    rw [h1, h2, Int.tmod_eq_emod (by omega) (by omega)]
    exact ⟨Int.emod_nonneg _ (by omega), Int.emod_lt_of_pos _ hpos⟩
  unfold UpdateMarquee
  by_cases h1 : r.isRunning = false ∨ r.segmentCount = 0
  · rw [if_pos h1]; exact h
  · rw [if_neg h1]
    by_cases h2 : r.isCurrentScreenCentered = false ∧ DoesTextFitInWindow measure r = true
    · rw [if_pos h2]; exact h
    · rw [if_neg h2]
      by_cases h3 : r.isCurrentScreenCentered = true
      · rw [if_pos h3]
        by_cases h4 : dwordSub now r.centerStartTime ≥ toDWORD r.config.centerDelay
        · rw [if_pos h4]
          exact adv _ rfl rfl
        · rw [if_neg h4]; exact h
      · rw [if_neg h3]
        by_cases h4 : dwordSub now r.lastUpdate ≥ toDWORD r.config.timePerFrame
        · rw [if_pos h4]
          simp only
          by_cases h5 : wrapInt (r.scrollPosition - r.config.pixelsPerFrame) <
              -GetTextWidth measure
                { r with scrollPosition :=
                    wrapInt (r.scrollPosition - r.config.pixelsPerFrame) }
          · rw [if_pos h5]
            exact adv _ rfl rfl
          · rw [if_neg h5]; exact h
        · rw [if_neg h4]; exact h

/-- C39 (amended). The state `InitRenderer` leaves satisfies the invariant that
`currentScreen` is a valid segment index whenever a document is loaded
(`segmentCount > 0` implies `0 <= currentScreen < segmentCount`); `StartMarquee`,
`StopMarquee` and `UpdateMarquee` preserve it and `ResetMarquee` establishes it;
`LoadLayoutFile` leaves `currentScreen` as it is, so that the state it returns
satisfies the invariant when `currentScreen` was 0. -/
theorem C39_current_screen (measure : List Char → Int) (r : MarqueeRenderer) (now : Nat)
    (h : validScreen r) :
    validScreen InitRenderer ∧
    validScreen (StartMarquee r now) ∧
    validScreen (StopMarquee r) ∧
    validScreen (ResetMarquee r) ∧
    validScreen (UpdateMarquee measure r now) ∧
    (∀ (r1 : MarqueeRenderer) (stream stack : List Char),
      LoadLayoutFile r stream stack = some r1 →
        r1.currentScreen = r.currentScreen ∧ (r.currentScreen = 0 → validScreen r1)) := by
  refine ⟨?_, h, h, ?_, UpdateMarquee_validScreen measure r now h, ?_⟩
  · intro hpos
    exact absurd hpos (by decide)
  · intro hpos
    exact ⟨le_refl _, hpos⟩
  · intro r1 stream stack hl
    obtain ⟨st, hloop, hr, _⟩ := LoadLayoutFile_some hl
    have hf := (loadLoop_frame _ hloop).1
    subst hr
    refine ⟨hf, ?_⟩
    intro h0 hpos
    rw [hf, h0]
    exact ⟨le_refl _, hpos⟩

theorem C39_current_screen_witness :
    validScreen (UpdateMarquee narrow (StartMarquee loadedExample 0) 50) :=
  (C39_current_screen narrow (StartMarquee loadedExample 0) 50
    (fun _ => ⟨by decide, by decide⟩)).2.2.2.2.1

/-- C39 as stated fails: from `InitRenderer`, load a text with two segments,
start, let a first tick centre the first segment and a second tick, 1500 ms
later, advance to the second one; a load of a text with one segment then leaves
`segmentCount` 1 and `currentScreen` 1. -/
theorem C39_counterexample :
    ((((LoadLayoutFile InitRenderer "START\na\nEND\nSTART\nb\nEND\n".toList []).map
        (fun r => UpdateMarquee narrow (UpdateMarquee narrow (StartMarquee r 0) 50) 1550)).bind
      (fun r => LoadLayoutFile r "START\nc\nEND\n".toList [])).map
        (fun r => (r.segmentCount, r.currentScreen))) = some (1, 1) := by
  decide

/-! ## The arrays of the resolver -/

/-- C32, the writes that leave the arrays.  A line of 21 runs makes
`ParseColoredLine` store a run in `texts[20]`, past the end of `texts`, where a
line of 20 runs is stored in full; a segment of 51 lines makes `LoadLayoutFile`
write `lines[50]`, and an eleventh `START` makes it write `segments[10]`.  In
the embedding a write outside an array ends the call with `none`. -/
theorem C32_capacity_overflow :
    (ParseColoredLine (List.replicate 20 "a'".toList).flatten).map
      (fun tl => tl.texts.length) = some 20 ∧
    ParseColoredLine (List.replicate 21 "a'".toList).flatten = none ∧
    LoadLayoutFile InitRenderer
      ("START\n".toList ++ (List.replicate 21 "a'".toList).flatten ++ "\nEND\n".toList) [] =
      none ∧
    (LoadLayoutFile InitRenderer (repeatLines "START\n".toList "a\n".toList 50) []).map
      (fun r => ((r.segments.getD 0 { lines := [] }).lines).length) = some 50 ∧
    LoadLayoutFile InitRenderer (repeatLines "START\n".toList "a\n".toList 51) [] = none ∧
    (LoadLayoutFile InitRenderer (repeatLines [] "START\nEND\n".toList 10) []).map
      (fun r => r.segmentCount) = some 10 ∧
    LoadLayoutFile InitRenderer (repeatLines [] "START\nEND\n".toList 10 ++ "START\n".toList)
      [] = none := by
  refine ⟨by decide, by decide, by decide, by decide, by decide, by decide, by decide⟩

/-! ## Balanced marks -/

theorem specDiag_no_colon (rest : List Char) (n : Int) (h : ∀ c ∈ rest, c ≠ ':') :
    specDiag rest n = [] := by
  unfold specDiag
  rw [colorSpecOf_none rest h]

/-- On a line without backslash and without colon the loop of the markup
validator reports nothing and ends with an empty stack exactly when the marks
are in order. -/
theorem loop_marksOk (n : Int) : ∀ (l : List Char) (i : Nat) (st : BacktickStack),
    (∀ c ∈ l, c ≠ '\\') → (∀ c ∈ l, c ≠ ':') →
    (((colorSyntaxLoopWith appendError n l i st []).2 = [] ∧
      (colorSyntaxLoopWith appendError n l i st []).1.length = 0) ↔
      marksOk l st.length = true)
  | [], i, st, _, _ => by
    rw [colorSyntaxLoopWith, marksOk]
    simp
  | c :: rest, i, st, hb, hc => by
    have hb1 : ∀ x ∈ rest, x ≠ '\\' := fun x hx => hb x (List.mem_cons_of_mem _ hx)
    have hc1 : ∀ x ∈ rest, x ≠ ':' := fun x hx => hc x (List.mem_cons_of_mem _ hx)
    rw [colorSyntaxLoop_cons appendError n c rest i st [] (hb c (List.mem_cons_self _ _)),
      colorSyntaxLoop_grow recorder_append n rest (i + 1) _
        (colorSyntaxCharWith appendError n c rest i st []).2, marksOk]
    simp only [List.append_eq_nil]
    by_cases h1 : c = '`'
    · subst h1
      obtain ⟨hcol, hstep⟩ := colorSyntaxChar_tick n rest i st
      rw [hstep, specDiag_no_colon rest n hc1, if_pos rfl]
      by_cases hd : MAX_NESTING_DEPTH ≤ st.length
      · rw [if_pos hd, if_pos hd]
        have : ¬ st.length < MAX_NESTING_DEPTH := by omega
        simp [this]
      · rw [if_neg hd, if_neg hd]
        have hlt : st.length < MAX_NESTING_DEPTH := by omega
        have ih := loop_marksOk n rest (i + 1) (⟨i, hcol⟩ :: st) hb1 hc1
        rw [List.length_cons] at ih
        simp only [List.nil_append, true_and, hlt, decide_True, Bool.true_and]
        exact ih
    · rw [if_neg h1]
      by_cases h2 : c = '\''
      · subst h2
        rw [colorSyntaxChar_quote, if_pos rfl]
        cases st with
        | nil => simp
        | cons t st =>
          have ih := loop_marksOk n rest (i + 1) st hb1 hc1
          simp only [List.tail_cons, reduceCtorEq, if_false, true_and, List.length_cons,
            Nat.zero_lt_succ, decide_True, Bool.true_and, Nat.add_sub_cancel]
          exact ih
      · rw [if_neg h2, colorSyntaxChar_plain appendError n c rest i st [] h1 h2]
        simp only [true_and]
        exact loop_marksOk n rest (i + 1) st hb1 hc1

theorem markupDiags_nil_iff (l : List Char) (n : Int)
    (hb : ∀ c ∈ l, c ≠ '\\') (hc : ∀ c ∈ l, c ≠ ':') :
    markupDiags l n = [] ↔ marksOk l 0 = true := by
  have key := loop_marksOk n l 0 [] hb hc
  rw [List.length_nil] at key
  rw [← key]
  unfold markupDiags ValidateColorSyntaxWith
  simp only
  by_cases h : (colorSyntaxLoopWith appendError n l 0 [] []).1.length ≠ 0
  · rw [if_pos h]
    constructor
    · intro he
      exact absurd he (by rw [appendError]; simp)
    · intro he
      exact absurd he.2 h
  · rw [if_neg h]
    constructor
    · intro he
      exact ⟨he, by omega⟩
    · intro he
      exact he.1

/-- The marks are in order from depth `d` exactly when no prefix closes more
scopes than are open, the line closes all of them, and the depth stays within
`MAX_NESTING_DEPTH`. -/
theorem marksOk_iff : ∀ (l : List Char) (d : Nat), d ≤ MAX_NESTING_DEPTH →
    (marksOk l d = true ↔
      (∀ k ≤ l.length, (l.take k).count '\'' ≤ d + (l.take k).count '`') ∧
      l.count '\'' = d + l.count '`' ∧
      (∀ k ≤ l.length, d + (l.take k).count '`' - (l.take k).count '\'' ≤ MAX_NESTING_DEPTH))
  | [], d, hd => by
    rw [marksOk]
    simp only [decide_eq_true_eq, List.length_nil, Nat.le_zero_eq, forall_eq, List.take_nil,
      List.count_nil, Nat.add_zero, Nat.zero_le, true_and, Nat.sub_zero]
    constructor
    · intro h
      exact ⟨h.symm, hd⟩
    · intro h
      exact h.1.symm
  | c :: rest, d, hd => by
    have hq : ('`' : Char) ≠ '\'' := by decide
    have split : ∀ P : Nat → Prop,
        (∀ k ≤ (c :: rest).length, P k) ↔ P 0 ∧ ∀ k ≤ rest.length, P (k + 1) := by
      intro P
      constructor
      · intro h
        exact ⟨h 0 (Nat.zero_le _), fun k hk => h (k + 1) (by simp only [List.length_cons]; omega)⟩
      · intro h k hk
        cases k with
        | zero => exact h.1
        | succ k => exact h.2 k (by simp only [List.length_cons] at hk; omega)
    rw [marksOk, split, split]
    simp only [List.take_zero, List.count_nil, List.take_succ_cons, Nat.add_zero, Nat.sub_zero]
    by_cases h1 : c = '`'
    · subst h1
      rw [if_pos rfl]
      simp only [List.count_cons_self, List.count_cons_of_ne hq.symm, Bool.and_eq_true,
        decide_eq_true_eq]
      by_cases hlt : d < MAX_NESTING_DEPTH
      · rw [marksOk_iff rest (d + 1) (by omega)]
        constructor
        · rintro ⟨_, ha, hb, hc⟩
          refine ⟨⟨by omega, fun k hk => ?_⟩, by omega, by omega, fun k hk => ?_⟩
          · have := ha k hk; omega
          · have := hc k hk; omega
        · rintro ⟨⟨_, ha⟩, hb, _, hc⟩
          refine ⟨hlt, fun k hk => ?_, by omega, fun k hk => ?_⟩
          · have := ha k hk; omega
          · have := hc k hk; omega
      · constructor
        · rintro ⟨h, _⟩
          exact absurd h hlt
        · rintro ⟨_, _, _, hc⟩
          have := hc 0 (Nat.zero_le _)
          simp only [List.take_zero, List.count_nil] at this
          omega
    · rw [if_neg h1]
      by_cases h2 : c = '\''
      · subst h2
        rw [if_pos rfl]
        simp only [List.count_cons_self, List.count_cons_of_ne hq, Bool.and_eq_true,
          decide_eq_true_eq]
        by_cases hpos : 0 < d
        · rw [marksOk_iff rest (d - 1) (by omega)]
          constructor
          · rintro ⟨_, ha, hb, hc⟩
            refine ⟨⟨by omega, fun k hk => ?_⟩, by omega, by omega, fun k hk => ?_⟩
            · have := ha k hk; omega
            · have := hc k hk; omega
          · rintro ⟨⟨_, ha⟩, hb, _, hc⟩
            refine ⟨hpos, fun k hk => ?_, by omega, fun k hk => ?_⟩
            · have := ha k hk; omega
            · have := hc k hk; omega
        · constructor
          · rintro ⟨h, _⟩
            exact absurd h hpos
          · rintro ⟨⟨_, ha⟩, _⟩
            have := ha 0 (Nat.zero_le _)
            simp only [List.take_zero, List.count_nil] at this
            omega
      · rw [if_neg h2]
        have n1 : ('`' : Char) ≠ c := fun h => h1 h.symm
        have n2 : ('\'' : Char) ≠ c := fun h => h2 h.symm
        simp only [List.count_cons_of_ne n1, List.count_cons_of_ne n2]
        rw [marksOk_iff rest d hd]
        constructor
        · rintro ⟨ha, hb, hc⟩
          exact ⟨⟨by omega, ha⟩, hb, by omega, hc⟩
        · rintro ⟨⟨_, ha⟩, hb, _, hc⟩
          exact ⟨ha, hb, hc⟩

theorem marksOk_zero (l : List Char) :
    marksOk l 0 = true ↔ balancedMarks l = true ∧ depthWithin MAX_NESTING_DEPTH l = true := by
  rw [marksOk_iff l 0 (Nat.zero_le _)]
  unfold balancedMarks depthWithin
  simp only [Nat.zero_add, Bool.and_eq_true, List.all_eq_true, List.mem_range, decide_eq_true_eq]
  constructor
  · rintro ⟨ha, hb, hc⟩
    exact ⟨⟨fun k hk => ha k (by omega), hb⟩, fun k hk => hc k (by omega)⟩
  · rintro ⟨⟨ha, hb⟩, hc⟩
    exact ⟨fun k hk => ha k (by omega), hb, fun k hk => hc k (by omega)⟩

theorem addMany_eq_self {e D : List ValidationError} (h : e.length < MAX_ERRORS) :
    addMany e D = e ↔ D = [] := by
  unfold addMany
  constructor
  · intro he
    have h1 : D.take (MAX_ERRORS - e.length) = [] := by
      have := congrArg List.length he
      rw [List.length_append] at this
      exact List.length_eq_zero.mp (by omega)
    cases D with
    | nil => rfl
    | cons d D =>
      have h2 : MAX_ERRORS - e.length = (MAX_ERRORS - e.length - 1) + 1 := by omega
      rw [h2, List.take_succ_cons] at h1
      cases h1
  · intro he
    rw [he, List.take_nil, List.append_nil]

/-- C38 (amended). For every line that contains no backslash and no colon, and
every diagnostic list that is not full, `ValidateColorSyntax` adds no
diagnostic if and only if the backticks (as openers) and the single quotes (as
closers) of the line form a balanced bracket sequence (no prefix has more
quotes than backticks, and the totals are equal) whose nesting depth never
exceeds 255. -/
theorem C38_balanced_markup (l : List Char) (n : Int) (errors : List ValidationError)
    (hb : '\\' ∉ l) (hc : ':' ∉ l) (hroom : errors.length < MAX_ERRORS) :
    ValidateColorSyntax l n errors = errors ↔
      (balancedMarks l = true ∧ depthWithin MAX_NESTING_DEPTH l = true) := by
  rw [ValidateColorSyntax_eq_addMany, addMany_eq_self hroom,
    markupDiags_nil_iff l n (fun c hm he => hb (he ▸ hm)) (fun c hm he => hc (he ▸ hm)),
    marksOk_zero]

theorem C38_balanced_markup_witness :
    ValidateColorSyntax "a`b`c'd'e".toList 3 [] = [] ∧
    ValidateColorSyntax "a`b'c'd".toList 3 [] ≠ [] :=
  ⟨(C38_balanced_markup "a`b`c'd'e".toList 3 [] (by decide) (by decide) (by decide)).mpr
      (by decide),
   fun h => absurd
     ((C38_balanced_markup "a`b'c'd".toList 3 [] (by decide) (by decide) (by decide)).mp h)
     (by decide)⟩

/-- C38 as stated fails: with a full list `ValidateColorSyntax` adds nothing for
the line made of one quote, whose marks are not balanced. -/
theorem C38_counterexample :
    ValidateColorSyntax "'".toList 1 (junkErrors 1000 1) = junkErrors 1000 1 ∧
    balancedMarks "'".toList = false := by
  refine ⟨ValidateColorSyntax_full _ _ _ ?_, by decide⟩
  rw [junkErrors_length]
  decide

/-! ## Bounds of the guarded structures -/

theorem ParseColoredLine_eq (line : List Char) :
    ParseColoredLine line =
      (parseLoop line 0 parseInit).bind (fun st => (flushRun st).map (fun st1 => ⟨st1.texts⟩)) := by
  unfold ParseColoredLine parseInit
  generalize parseLoop line 0 _ = r
  cases r with
  | none => rfl
  | some st =>
    simp only [Option.bind]
    cases flushRun st <;> rfl

/-- The loop of `ParseColoredLine` is the repetition of `parseStep`. -/
theorem parseLoop_cons (c : Char) (rest : List Char) (st : ParseState) :
    parseLoop (c :: rest) 0 st =
      (parseStep c rest st).bind (fun p => parseLoop rest p.1 p.2) := by
  rw [parseLoop]
  unfold parseStep
  by_cases h1 : c = '\\' ∧ rest ≠ []
  · rw [if_pos h1, if_pos h1]
    cases putChar st (rest.headD NUL) <;> rfl
  · rw [if_neg h1, if_neg h1]
    by_cases h2 : c = '`'
    · rw [if_pos h2, if_pos h2]
      cases flushRun st with
      | none => rfl
      | some st1 =>
        simp only
        cases findColon rest 1 with
        | none =>
          simp only
          cases putChar st1 c <;> rfl
        | some colonOff => rfl
    · rw [if_neg h2, if_neg h2]
      by_cases h3 : c = '\''
      · rw [if_pos h3, if_pos h3]
        cases flushRun st with
        | none => rfl
        | some st1 =>
          simp only
          rcases hcs : st1.colorStack with _ | ⟨a, _ | ⟨b, more⟩⟩ <;> rfl
      · rw [if_neg h3, if_neg h3]
        cases putChar st c <;> rfl

theorem findColon_bound : ∀ (rest : List Char) (j p : Nat),
    findColon rest j = some p → j ≤ p ∧ p < j + rest.length
  | [], j, p, h => by rw [findColon] at h; cases h
  | [c], j, p, h => by
    rw [findColon] at h
    split_ifs at h
    injection h with h
    subst h
    simp
  | c :: d :: rest, j, p, h => by
    rw [findColon] at h
    by_cases h1 : c = '\\'
    · rw [if_pos h1] at h
      have := findColon_bound rest (j + 2) p h
      simp only [List.length_cons]
      omega
    · rw [if_neg h1] at h
      by_cases h2 : c = ':'
      · rw [if_pos h2] at h
        injection h with h
        subst h
        simp
      · rw [if_neg h2] at h
        by_cases h3 : c = '\'' ∨ c = '`'
        · rw [if_pos h3] at h; cases h
        · rw [if_neg h3] at h
          have := findColon_bound (d :: rest) (j + 1) p h
          simp only [List.length_cons] at this ⊢
          omega

theorem flushRun_bounds {st st1 : ParseState} (h : flushRun st = some st1) :
    st1.colorStack = st.colorStack ∧ st1.current.length ≤ st.current.length := by
  unfold flushRun at h
  split_ifs at h
  · injection h with h; subst h; exact ⟨rfl, Nat.zero_le _⟩
  · injection h with h; subst h; exact ⟨rfl, le_refl _⟩

theorem putChar_bounds {st st1 : ParseState} {c : Char} (h : putChar st c = some st1) :
    st1.colorStack = st.colorStack ∧ st1.current.length = st.current.length + 1 := by
  unfold putChar at h
  split_ifs at h
  injection h with h; subst h
  exact ⟨rfl, by simp⟩

/-- What one pass of the loop does to the depth of the colour stack and to the
accumulator, against the number of characters it uses. -/
theorem parseStep_bounds {c : Char} {rest : List Char} {st st1 : ParseState} {k : Nat}
    (h : parseStep c rest st = some (k, st1))
    (h1 : 1 ≤ st.colorStack.length) (h2 : st.colorStack.length ≤ MAX_NESTING_DEPTH) :
    k ≤ rest.length ∧ 1 ≤ st1.colorStack.length ∧ st1.colorStack.length ≤ MAX_NESTING_DEPTH ∧
    8 * (st1.colorStack.length - 1) ≤ 8 * (st.colorStack.length - 1) + (k + 1) ∧
    st1.current.length ≤ st.current.length + (k + 1) ∧
    (st1.colorStack.length ≤ st.colorStack.length ∨ k = 7) := by
  have hM : MAX_NESTING_DEPTH = 255 := rfl
  unfold parseStep at h
  by_cases c1 : c = '\\' ∧ rest ≠ []
  · rw [if_pos c1] at h
    cases hp : putChar st (rest.headD NUL) with
    | none => rw [hp] at h; cases h
    | some s1 =>
      rw [hp] at h
      injection h with h
      injection h with hk hs
      subst hk; subst hs
      obtain ⟨e1, e2⟩ := putChar_bounds hp
      have : 1 ≤ rest.length := List.length_pos.mpr c1.2
      rw [e1, e2]
      omega
  · rw [if_neg c1] at h
    by_cases c2 : c = '`'
    · rw [if_pos c2] at h
      cases hf : flushRun st with
      | none => rw [hf] at h; cases h
      | some s1 =>
        rw [hf] at h
        simp only at h
        obtain ⟨e1, e2⟩ := flushRun_bounds hf
        cases hc : findColon rest 1 with
        | none =>
          rw [hc] at h
          simp only at h
          cases hp : putChar s1 c with
          | none => rw [hp] at h; cases h
          | some s2 =>
            rw [hp] at h
            injection h with h
            injection h with hk hs
            subst hk; subst hs
            obtain ⟨e3, e4⟩ := putChar_bounds hp
            rw [e3, e1, e4]
            omega
        | some colonOff =>
          rw [hc] at h
          simp only at h
          injection h with h
          injection h with hk hs
          subst hk
          have hb := findColon_bound rest 1 colonOff hc
          by_cases hpush : colonOff - 1 = 6 ∧ (rest.take 6).all isHexChar = true ∧
              s1.colorStack.length - 1 < MAX_NESTING_DEPTH - 1
          · rw [if_pos hpush] at hs
            subst hs
            simp only [List.length_cons]
            rw [e1] at hpush ⊢
            omega
          · rw [if_neg hpush] at hs
            subst hs
            rw [e1]
            omega
    · rw [if_neg c2] at h
      by_cases c3 : c = '\''
      · rw [if_pos c3] at h
        cases hf : flushRun st with
        | none => rw [hf] at h; cases h
        | some s1 =>
          rw [hf] at h
          simp only at h
          obtain ⟨e1, e2⟩ := flushRun_bounds hf
          have e1b := e1
          rcases hcs : s1.colorStack with _ | ⟨a, _ | ⟨b, more⟩⟩
          all_goals
            rw [hcs] at h e1b
            injection h with h
            injection h with hk hs
            subst hk; subst hs
            rw [← e1b] at h1 h2 ⊢
            simp only [List.length_cons, List.length_nil] at h1 h2 ⊢
            omega
      · rw [if_neg c3] at h
        cases hp : putChar st c with
        | none => rw [hp] at h; cases h
        | some s1 =>
          rw [hp] at h
          injection h with h
          injection h with hk hs
          subst hk; subst hs
          obtain ⟨e1, e2⟩ := putChar_bounds hp
          rw [e1, e2]
          omega

/-- At every point of the loop of `ParseColoredLine`, eight characters of the
line have been used for each colour on the stack and one for each character in
the accumulator. -/
theorem Visits_bounds {line rest : List Char} {k : Nat} {st : ParseState}
    (h : Visits line rest k st) :
    k ≤ rest.length ∧ 1 ≤ st.colorStack.length ∧ st.colorStack.length ≤ MAX_NESTING_DEPTH ∧
    8 * (st.colorStack.length - 1) + (rest.length - k) ≤ line.length ∧
    st.current.length + (rest.length - k) ≤ line.length := by
  induction h with
  | start => exact ⟨Nat.zero_le _, by decide, by decide, by simp [parseInit], by simp [parseInit]⟩
  | skip _ ih =>
    simp only [List.length_cons] at ih
    omega
  | step _ hs ih =>
    have hb := parseStep_bounds hs ih.2.1 ih.2.2.1
    simp only [List.length_cons] at ih
    rcases hb.2.2.2.2.2 with h6 | h6 <;> omega

/-- The state in which the loop of `ParseColoredLine` ends is one it goes through. -/
theorem Visits_final {line : List Char} : ∀ (rest : List Char) (k : Nat) (st st1 : ParseState),
    Visits line rest k st → parseLoop rest k st = some st1 → Visits line [] 0 st1
  | [], k, st, st1, hv, h => by
    have hk : k = 0 := by
      have := (Visits_bounds hv).1
      simp only [List.length_nil] at this
      omega
    subst hk
    rw [parseLoop] at h
    injection h with h
    subst h
    exact hv
  | c :: rest, k + 1, st, st1, hv, h => by
    rw [parseLoop] at h
    exact Visits_final rest k st st1 (Visits.skip hv) h
  | c :: rest, 0, st, st1, hv, h => by
    rw [parseLoop_cons] at h
    cases hs : parseStep c rest st with
    | none => rw [hs] at h; cases h
    | some p =>
      rw [hs] at h
      exact Visits_final rest p.1 p.2 st1 (Visits.step hv hs) h

theorem PushBacktick_bound (stack : BacktickStack) (p : Nat) (hc : Bool)
    (h : stack.length ≤ MAX_NESTING_DEPTH) :
    (PushBacktick stack p hc).2.length ≤ MAX_NESTING_DEPTH := by
  unfold PushBacktick
  by_cases hd : stack.length ≥ MAX_NESTING_DEPTH
  · rw [if_pos hd]; exact h
  · rw [if_neg hd]
    simp only [List.length_cons]
    omega

theorem PopBacktick_bound (stack : BacktickStack) :
    (PopBacktick stack).2.length ≤ stack.length := by
  cases stack with
  | nil => exact le_refl _
  | cons t st =>
    simp only [PopBacktick, List.length_cons]
    omega

theorem colorSyntaxChar_bound (add : AddFn) (n : Int) (c : Char) (rest : List Char) (i : Nat)
    (st : BacktickStack) (e : List ValidationError) (h : st.length ≤ MAX_NESTING_DEPTH) :
    (colorSyntaxCharWith add n c rest i st e).1.length ≤ MAX_NESTING_DEPTH := by
  unfold colorSyntaxCharWith
  by_cases h1 : c = '`'
  · rw [if_pos h1]
    simp only
    split_ifs
    all_goals exact PushBacktick_bound st i _ h
  · rw [if_neg h1]
    by_cases h2 : c = '\''
    · rw [if_pos h2]
      simp only
      split_ifs
      all_goals exact le_trans (PopBacktick_bound st) h
    · rw [if_neg h2]
      exact h

theorem colorSyntaxLoop_bound (add : AddFn) (n : Int) :
    ∀ (l : List Char) (i : Nat) (st : BacktickStack) (e : List ValidationError),
    st.length ≤ MAX_NESTING_DEPTH →
    (colorSyntaxLoopWith add n l i st e).1.length ≤ MAX_NESTING_DEPTH
  | [], i, st, e, h => by rw [colorSyntaxLoopWith]; exact h
  | [c], i, st, e, h => by
    rw [colorSyntaxLoopWith]
    exact colorSyntaxChar_bound add n c [] i st e h
  | c :: d :: rest, i, st, e, h => by
    rw [colorSyntaxLoopWith]
    by_cases hc : c = '\\'
    · rw [if_pos hc]
      exact colorSyntaxLoop_bound add n rest (i + 2) st e h
    · rw [if_neg hc]
      exact colorSyntaxLoop_bound add n (d :: rest) (i + 1) _ _
        (colorSyntaxChar_bound add n c (d :: rest) i st e h)

theorem splitLines_bound : ∀ (text cur : List Char), cur.length ≤ 1023 →
    ∀ l ∈ splitLines text cur, l.length ≤ 1023
  | [], cur, h, l, hl => by
    rw [splitLines, List.mem_singleton] at hl
    rw [hl]; exact h
  | c :: rest, cur, h, l, hl => by
    rw [splitLines] at hl
    by_cases h1 : c = '\r'
    · rw [if_pos h1] at hl
      exact splitLines_bound rest cur h l hl
    · rw [if_neg h1] at hl
      by_cases h2 : c = '\n'
      · rw [if_pos h2, List.mem_cons] at hl
        rcases hl with hl | hl
        · rw [hl]; exact h
        · exact splitLines_bound rest [] (Nat.zero_le _) l hl
      · rw [if_neg h2] at hl
        by_cases h3 : cur.length < 1023
        · rw [if_pos h3] at hl
          exact splitLines_bound rest _ (by simp only [List.length_append, List.length_singleton]; omega) l hl
        · rw [if_neg h3] at hl
          exact splitLines_bound rest cur h l hl

/-- C37. The bounded structures that guard their capacity stay in bounds for
every input.  The error list of the validator never holds more than
`MAX_ERRORS` entries: `AddValidationError` keeps the bound and the list
`ValidateFile` leaves satisfies it.  The depth of its backtick stack stays
within 0..255: `PushBacktick` keeps the bound, `PopBacktick` does not raise the
depth, and so does every pass of the loop of `ValidateColorSyntax` and the loop
as a whole.  Its line buffer holds at most 1023 characters when a line ends, so
that the index `linePos` stays within 0..1023.  For every line shorter than
1000 characters, at every point of the loop of `ParseColoredLine` the resolver
has `colorDepth` at most a eighth of the length of the line and at most 254,
within `colorStack`, and the index of its text accumulator is at most the
length of the line, within `current`; the state in which the loop ends is one
of these points. -/
theorem C37_guarded_bounds :
    (∀ (e : List ValidationError) (n : Int) (m : String) (s : Nat),
      e.length ≤ MAX_ERRORS → (AddValidationError e n m s).length ≤ MAX_ERRORS) ∧
    (∀ buffer : List Char, (ValidateFile buffer).length ≤ MAX_ERRORS) ∧
    (∀ (stack : BacktickStack) (p : Nat) (hc : Bool), stack.length ≤ MAX_NESTING_DEPTH →
      (PushBacktick stack p hc).2.length ≤ MAX_NESTING_DEPTH) ∧
    (∀ stack : BacktickStack, (PopBacktick stack).2.length ≤ stack.length) ∧
    (∀ (add : AddFn) (n : Int) (c : Char) (rest : List Char) (i : Nat) (st : BacktickStack)
      (e : List ValidationError), st.length ≤ MAX_NESTING_DEPTH →
      (colorSyntaxCharWith add n c rest i st e).1.length ≤ MAX_NESTING_DEPTH) ∧
    (∀ (add : AddFn) (n : Int) (l : List Char) (i : Nat) (st : BacktickStack)
      (e : List ValidationError), st.length ≤ MAX_NESTING_DEPTH →
      (colorSyntaxLoopWith add n l i st e).1.length ≤ MAX_NESTING_DEPTH) ∧
    (∀ buffer : List Char, ∀ l ∈ logicalLines buffer, l.length ≤ 1023) ∧
    (∀ (line rest : List Char) (k : Nat) (st : ParseState),
      line.length < MAX_TEXT_LENGTH → Visits line rest k st →
        st.colorStack.length - 1 ≤ line.length / 8 ∧
        st.colorStack.length - 1 ≤ MAX_NESTING_DEPTH - 1 ∧
        st.current.length ≤ line.length ∧
        st.current.length < MAX_TEXT_LENGTH) ∧
    (∀ (line : List Char) (st : ParseState),
      parseLoop line 0 parseInit = some st → Visits line [] 0 st) := by
  refine ⟨?_, ?_, PushBacktick_bound, PopBacktick_bound, colorSyntaxChar_bound,
    colorSyntaxLoop_bound, ?_, ?_, ?_⟩
  · intro e n m s h
    unfold AddValidationError
    by_cases hl : e.length < MAX_ERRORS
    · rw [if_pos hl]
      simp only [List.length_append, List.length_singleton]
      omega
    · rw [if_neg hl]; exact h
  · intro buffer
    rw [ValidateFile_eq_take, List.length_take]
    exact Nat.min_le_left _ _
  · intro buffer l hl
    exact splitLines_bound (cstr buffer) [] (Nat.zero_le _) l hl
  · intro line rest k st hlen hv
    have hb := Visits_bounds hv
    refine ⟨?_, by omega, by omega, by omega⟩
    rw [Nat.le_div_iff_mul_le (by decide)]
    omega
  · intro line st h
    exact Visits_final line 0 parseInit st Visits.start h

theorem C37_guarded_bounds_witness :
    parseLoop "`00FF00:a`FF0000:b'c".toList 0 parseInit =
      some { texts := [⟨"a".toList, RGB 0 255 0⟩, ⟨"b".toList, RGB 255 0 0⟩],
             current := "c".toList, colorStack := [RGB 0 255 0, RGB 255 255 255],
             currentColor := RGB 0 255 0 } ∧
    (2 - 1 ≤ "`00FF00:a`FF0000:b'c".toList.length / 8 ∧ 2 - 1 ≤ MAX_NESTING_DEPTH - 1 ∧
      1 ≤ "`00FF00:a`FF0000:b'c".toList.length ∧ 1 < MAX_TEXT_LENGTH) :=
  ⟨by decide,
   C37_guarded_bounds.2.2.2.2.2.2.2.1 "`00FF00:a`FF0000:b'c".toList [] 0
     { texts := [⟨"a".toList, RGB 0 255 0⟩, ⟨"b".toList, RGB 255 0 0⟩],
       current := "c".toList, colorStack := [RGB 0 255 0, RGB 255 255 255],
       currentColor := RGB 0 255 0 }
     (by decide)
     (C37_guarded_bounds.2.2.2.2.2.2.2.2 "`00FF00:a`FF0000:b'c".toList _ (by decide))⟩

/-! ## The validator of the editor and the standalone validator -/

theorem editorMessage_of_ne {m : String}
    (h : m ≠ "Too many nested color specifications (maximum 255)") : editorMessage m = m := by
  unfold editorMessage
  rw [if_neg h]

theorem addIf_renAdd (add : AddFn) (c : Bool) (e : List ValidationError) (n : Int) (m : String)
    (s : Nat) (h : m ≠ "Too many nested color specifications (maximum 255)") :
    addIf (renAdd add) c e n m s = addIf add c e n m s := by
  unfold addIf renAdd
  rw [editorMessage_of_ne h]

theorem renAdd_of_ne (add : AddFn) (e : List ValidationError) (n : Int) (m : String)
    (s : Nat) (h : m ≠ "Too many nested color specifications (maximum 255)") :
    renAdd add e n m s = add e n m s := by
  unfold renAdd
  rw [editorMessage_of_ne h]

theorem renAdd_overflow (add : AddFn) (e : List ValidationError) (n : Int) (s : Nat) :
    renAdd add e n "Too many nested color specifications (maximum 255)" s =
      add e n "Too many nested color specifications (maximum 10)" s := rfl

theorem editor_colorSyntaxChar (add : AddFn) (n : Int) (c : Char) (rest : List Char) (i : Nat)
    (st : BacktickStack) (e : List ValidationError) :
    Editor.colorSyntaxCharWith add n c rest i st e =
      colorSyntaxCharWith (renAdd add) n c rest i st e := by
  have h1 : editorMessage "Invalid hex color specification" =
      "Invalid hex color specification" := editorMessage_of_ne (by decide)
  have h2 : editorMessage "Color specification must be exactly 6 hex characters" =
      "Color specification must be exactly 6 hex characters" := editorMessage_of_ne (by decide)
  have h3 : editorMessage "Closing quote without opening backtick" =
      "Closing quote without opening backtick" := editorMessage_of_ne (by decide)
  have h4 : editorMessage "Too many nested color specifications (maximum 255)" =
      "Too many nested color specifications (maximum 10)" := rfl
  unfold Editor.colorSyntaxCharWith colorSyntaxCharWith renAdd
  simp only [h1, h2, h3, h4]

theorem editor_colorSyntaxLoop (add : AddFn) (n : Int) :
    ∀ (l : List Char) (i : Nat) (st : BacktickStack) (e : List ValidationError),
    Editor.colorSyntaxLoopWith add n l i st e = colorSyntaxLoopWith (renAdd add) n l i st e
  | [], i, st, e => by rw [Editor.colorSyntaxLoopWith, colorSyntaxLoopWith]
  | [c], i, st, e => by
    rw [Editor.colorSyntaxLoopWith, colorSyntaxLoopWith, editor_colorSyntaxChar]
  | c :: d :: rest, i, st, e => by
    rw [Editor.colorSyntaxLoopWith, colorSyntaxLoopWith]
    by_cases hc : c = '\\'
    · rw [if_pos hc, if_pos hc]
      exact editor_colorSyntaxLoop add n rest (i + 2) st e
    · rw [if_neg hc, if_neg hc]
      simp only
      rw [editor_colorSyntaxChar]
      exact editor_colorSyntaxLoop add n (d :: rest) (i + 1) _ _

theorem editor_ValidateColorSyntax (add : AddFn) (l : List Char) (n : Int)
    (e : List ValidationError) :
    Editor.ValidateColorSyntaxWith add l n e = ValidateColorSyntaxWith (renAdd add) l n e := by
  unfold Editor.ValidateColorSyntaxWith ValidateColorSyntaxWith
  rw [editor_colorSyntaxLoop]
  simp only
  by_cases h : (colorSyntaxLoopWith (renAdd add) n l 0 [] e).1.length ≠ 0
  · rw [if_pos h, if_pos h, renAdd_of_ne _ _ _ _ _ (unclosedMessage_ne_of_head (by decide))]
  · rw [if_neg h, if_neg h]

theorem editor_finalChecks (add : AddFn) (s : Editor.VState) :
    Editor.finalChecksWith add s = finalChecksWith (renAdd add) s.toV := by
  unfold Editor.finalChecksWith finalChecksWith Editor.VState.toV
  simp only
  rw [addIf_renAdd add _ _ _ "Missing LPS command" 2 (by decide),
    addIf_renAdd add _ _ _ "Missing SW command" 2 (by decide),
    addIf_renAdd add _ _ _ "Missing SH command" 2 (by decide),
    addIf_renAdd add _ _ _ "Missing SC command" 2 (by decide),
    addIf_renAdd add _ _ _ "Missing SD command" 2 (by decide),
    addIf_renAdd add _ _ _ (expectedMessage s.expectedSegments s.segmentCount) 2
      (expectedMessage_ne_of_head (by decide)),
    addIf_renAdd add _ _ _ "File ends with unclosed segment" 2 (by decide)]

theorem cstr_drop_line (line rest : List Char) (k : Nat) (h : NUL ∉ line) (hk : k ≤ line.length) :
    cstr ((line ++ NUL :: rest).drop k) = line.drop k := by
  rw [List.drop_append_of_le_length hk]
  exact cstr_append_NUL _ _ (fun hm => h (List.mem_of_mem_drop hm))

theorem paramOK_length {line : List Char} (hp : paramOK line = true) :
    (lineKind line = LineKind.lps → line.length > 4) ∧
    (lineKind line = LineKind.tpf → line.length > 4) ∧
    (lineKind line = LineKind.sw → line.length > 3) ∧
    (lineKind line = LineKind.sh → line.length > 3) ∧
    (lineKind line = LineKind.sc → line.length > 3) ∧
    (lineKind line = LineKind.sd → line.length > 3) ∧
    (lineKind line = LineKind.cd → line.length > 3) ∧
    (lineKind line = LineKind.pm → line.length > 3) := by
  unfold paramOK at hp
  refine ⟨?_, ?_, ?_, ?_, ?_, ?_, ?_, ?_⟩ <;> intro hk <;> rw [hk] at hp <;> simpa using hp

/-- On a line that carries its parameter, the classification of editor.c is the
one of validate.c, in the wording of editor.c. -/
theorem editor_classify (add : AddFn) (s0 : Editor.VState) (line : List Char)
    (hline : cstr s0.buf = line)
    (harg3 : line.length > 3 → cstr (s0.buf.drop 3) = line.drop 3)
    (harg4 : line.length > 4 → cstr (s0.buf.drop 4) = line.drop 4)
    (hp : paramOK line = true) (h0 : line.head? ≠ some '/' ∧ line.length > 0) :
    classifyLineWith (renAdd add)
        { errors := s0.errors, line := line, lineNum := s0.lineNum, segmentCount := s0.segmentCount, hasLPS := s0.hasLPS, hasSW := s0.hasSW, hasSH := s0.hasSH, hasSC := s0.hasSC, hasSD := s0.hasSD, inSegment := s0.inSegment, expectedSegments := s0.expectedSegments, hasTPF := s0.hasTPF, hasPM := s0.hasPM } =
      { errors := (Editor.classifyLineWith add s0).errors, line := line, lineNum := (Editor.classifyLineWith add s0).lineNum, segmentCount := (Editor.classifyLineWith add s0).segmentCount, hasLPS := (Editor.classifyLineWith add s0).hasLPS, hasSW := (Editor.classifyLineWith add s0).hasSW, hasSH := (Editor.classifyLineWith add s0).hasSH, hasSC := (Editor.classifyLineWith add s0).hasSC, hasSD := (Editor.classifyLineWith add s0).hasSD, inSegment := (Editor.classifyLineWith add s0).inSegment, expectedSegments := (Editor.classifyLineWith add s0).expectedSegments, hasTPF := (Editor.classifyLineWith add s0).hasTPF, hasPM := (Editor.classifyLineWith add s0).hasPM } := by
  have hlen := paramOK_length hp
  have m1 := addIf_renAdd add
  rcases lineKind_cases line with ⟨hs, hk⟩ | ⟨_, hp1, hk⟩ |
    ⟨_, h1, hp1, hk⟩ |
    ⟨_, h1, h2, hp1, hk⟩ |
    ⟨_, h1, h2, h3, hp1, hk⟩ |
    ⟨_, h1, h2, h3, h4, hp1, hk⟩ |
    ⟨_, h1, h2, h3, h4, h5, hp1, hk⟩ |
    ⟨_, h1, h2, h3, h4, h5, h6, hp1, hk⟩ |
    ⟨_, h1, h2, h3, h4, h5, h6, h7, hp1, hk⟩ |
    ⟨_, h1, h2, h3, h4, h5, h6, h7, h8, hp1, hk⟩ |
    ⟨_, h1, h2, h3, h4, h5, h6, h7, h8, h9, hp1, hk⟩ |
    ⟨_, h1, h2, h3, h4, h5, h6, h7, h8, h9, h10, hk⟩
  · exact absurd h0 hs
  · have hl := hlen.1 hk
    have ha := harg4 hl
    unfold classifyLineWith Editor.classifyLineWith
    simp only [hline, ha, _wtoi]
    rw [if_pos hp1, if_pos hp1]
    simp only [hl, if_true]
    simp only [m1 _ _ _ "Duplicate LPS command" _ (by decide)]
    simp only [m1 _ _ _ "LPS must be positive" _ (by decide)]
  · have hl := hlen.2.2.1 hk
    have ha := harg3 hl
    unfold classifyLineWith Editor.classifyLineWith
    simp only [hline, ha, _wtoi]
    rw [if_neg h1, if_pos hp1, if_neg h1, if_pos hp1]
    simp only [hl, if_true]
    simp only [m1 _ _ _ "Duplicate SW command" _ (by decide)]
    simp only [m1 _ _ _ "SW must be positive" _ (by decide)]
  · have hl := hlen.2.2.2.1 hk
    have ha := harg3 hl
    unfold classifyLineWith Editor.classifyLineWith
    simp only [hline, ha, _wtoi]
    rw [if_neg h1, if_neg h2, if_pos hp1, if_neg h1, if_neg h2, if_pos hp1]
    simp only [hl, if_true]
    simp only [m1 _ _ _ "Duplicate SH command" _ (by decide)]
    simp only [m1 _ _ _ "SH must be positive" _ (by decide)]
  · have hl := hlen.2.2.2.2.1 hk
    have ha := harg3 hl
    unfold classifyLineWith Editor.classifyLineWith
    simp only [hline, ha, _wtoi]
    rw [if_neg h1, if_neg h2, if_neg h3, if_pos hp1, if_neg h1, if_neg h2, if_neg h3, if_pos hp1]
    simp only [hl, if_true]
    simp only [m1 _ _ _ "Duplicate SC command" _ (by decide)]
    simp only [m1 _ _ _ "SC must be positive" _ (by decide)]
  · have hl := hlen.2.2.2.2.2.1 hk
    have ha := harg3 hl
    unfold classifyLineWith Editor.classifyLineWith
    simp only [hline, ha, _wtoi]
    rw [if_neg h1, if_neg h2, if_neg h3, if_neg h4, if_pos hp1, if_neg h1, if_neg h2, if_neg h3, if_neg h4, if_pos hp1]
    simp only [hl, if_true]
    simp only [m1 _ _ _ "Duplicate SD command" _ (by decide)]
    simp only [m1 _ _ _ "SD cannot be negative" _ (by decide)]
  · have hl := hlen.2.2.2.2.2.2.1 hk
    have ha := harg3 hl
    unfold classifyLineWith Editor.classifyLineWith
    simp only [hline, ha, _wtoi]
    rw [if_neg h1, if_neg h2, if_neg h3, if_neg h4, if_neg h5, if_pos hp1, if_neg h1, if_neg h2, if_neg h3, if_neg h4, if_neg h5, if_pos hp1]
    simp only [hl, if_true]
    simp only [m1 _ _ _ "CD cannot be negative" _ (by decide)]
  · have hl := hlen.2.1 hk
    have ha := harg4 hl
    unfold classifyLineWith Editor.classifyLineWith
    simp only [hline, ha, _wtoi]
    rw [if_neg h1, if_neg h2, if_neg h3, if_neg h4, if_neg h5, if_neg h6, if_pos hp1, if_neg h1, if_neg h2, if_neg h3, if_neg h4, if_neg h5, if_neg h6, if_pos hp1]
    simp only [hl, if_true]
    simp only [m1 _ _ _ "Duplicate TPF command" _ (by decide)]
    simp only [m1 _ _ _ "TPF (millis per frame) must be positive" _ (by decide)]
    simp only [m1 _ _ _ "TPF below 16ms may cause performance issues" _ (by decide)]
  · have hl := hlen.2.2.2.2.2.2.2 hk
    have ha := harg3 hl
    unfold classifyLineWith Editor.classifyLineWith
    simp only [hline, ha, _wtoi]
    rw [if_neg h1, if_neg h2, if_neg h3, if_neg h4, if_neg h5, if_neg h6, if_neg h7, if_pos hp1, if_neg h1, if_neg h2, if_neg h3, if_neg h4, if_neg h5, if_neg h6, if_neg h7, if_pos hp1]
    simp only [hl, if_true]
    simp only [m1 _ _ _ "Duplicate PM command" _ (by decide)]
    simp only [m1 _ _ _ "PM (pixel movement per frame) must be positive" _ (by decide)]
    simp only [m1 _ _ _ "PM above 20 pixels may scroll too fast" _ (by decide)]
  · unfold classifyLineWith Editor.classifyLineWith
    simp only [hline]
    rw [if_neg h1, if_neg h2, if_neg h3, if_neg h4, if_neg h5, if_neg h6, if_neg h7, if_neg h8, if_pos hp1, if_neg h1, if_neg h2, if_neg h3, if_neg h4, if_neg h5, if_neg h6, if_neg h7, if_neg h8, if_pos hp1]
    simp only [m1 _ _ _ "START inside another segment" _ (by decide)]
  · unfold classifyLineWith Editor.classifyLineWith
    simp only [hline]
    rw [if_neg h1, if_neg h2, if_neg h3, if_neg h4, if_neg h5, if_neg h6, if_neg h7, if_neg h8, if_neg h9, if_pos hp1, if_neg h1, if_neg h2, if_neg h3, if_neg h4, if_neg h5, if_neg h6, if_neg h7, if_neg h8, if_neg h9, if_pos hp1]
    simp only [m1 _ _ _ "END without START" _ (by decide)]
  · unfold classifyLineWith Editor.classifyLineWith
    simp only [hline]
    rw [if_neg h1, if_neg h2, if_neg h3, if_neg h4, if_neg h5, if_neg h6, if_neg h7, if_neg h8, if_neg h9, if_neg h10, if_neg h1, if_neg h2, if_neg h3, if_neg h4, if_neg h5, if_neg h6, if_neg h7, if_neg h8, if_neg h9, if_neg h10]
    cases hin : s0.inSegment
    · simp only [Bool.false_eq_true, if_false]
      rw [renAdd_of_ne add _ _ "Text outside segment" 2 (by decide)]
    · simp only [if_true]
      rw [editor_ValidateColorSyntax]

theorem writeAt_take (buf : List Char) (pos : Nat) (c : Char) (h : pos ≤ buf.length) :
    (writeAt buf pos c).take pos = buf.take pos := by
  unfold writeAt
  rw [List.take_append_of_le_length (by rw [List.length_take]; omega),
    List.take_of_length_le (by rw [List.length_take]; omega)]

theorem writeAt_take_succ (buf : List Char) (pos : Nat) (c : Char) (h : pos ≤ buf.length) :
    (writeAt buf pos c).take (pos + 1) = buf.take pos ++ [c] := by
  unfold writeAt
  have hl : (buf.take pos).length = pos := by rw [List.length_take]; omega
  rw [List.take_append_eq_append_take, hl, List.take_of_length_le (by omega)]
  simp

theorem writeAt_length (buf : List Char) (pos : Nat) (c : Char) (h : pos ≤ buf.length) :
    pos + 1 ≤ (writeAt buf pos c).length := by
  unfold writeAt
  simp only [List.length_append, List.length_take, List.length_cons, List.length_drop]
  omega

/-- The end of a line in editor.c is the one of validate.c, in the wording of
editor.c, when the line carries its parameter. -/
theorem editor_endOfLine (add : AddFn) (s : Editor.VState) (hpos : s.linePos ≤ s.buf.length)
    (hnul : NUL ∉ s.buf.take s.linePos) (hp : paramOK (s.buf.take s.linePos) = true) :
    (Editor.endOfLineWith add s).toV = endOfLineWith (renAdd add) s.toV ∧
    (Editor.endOfLineWith add s).linePos = 0 := by
  have hlen : (s.buf.take s.linePos).length = s.linePos := by rw [List.length_take]; omega
  have hline : cstr (writeAt s.buf s.linePos NUL) = s.buf.take s.linePos :=
    cstr_append_NUL _ _ hnul
  have harg : ∀ k, (s.buf.take s.linePos).length > k →
      cstr ((writeAt s.buf s.linePos NUL).drop k) = (s.buf.take s.linePos).drop k :=
    fun k hk => cstr_drop_line _ _ k hnul (by omega)
  unfold Editor.endOfLineWith endOfLineWith
  simp only [hline]
  have hv : s.toV.line = s.buf.take s.linePos := rfl
  rw [hv]
  by_cases h0 : (s.buf.take s.linePos).head? ≠ some '/' ∧ (s.buf.take s.linePos).length > 0
  · rw [if_pos h0, if_pos h0]
    have key := editor_classify add { s with buf := writeAt s.buf s.linePos NUL }
      (s.buf.take s.linePos) hline (harg 3) (harg 4) hp h0
    refine ⟨?_, trivial⟩
    simp only at key
    simp only [Editor.VState.toV]
    rw [key]
    simp only [List.take_zero]
  · rw [if_neg h0, if_neg h0]
    exact ⟨by simp only [Editor.VState.toV, List.take_zero], trivial⟩

/-- The scan of editor.c is the one of validate.c, in the wording of editor.c,
on a text whose command lines carry their parameter. -/
theorem editor_scan (add : AddFn) : ∀ (text : List Char) (s : Editor.VState),
    s.linePos ≤ s.buf.length → NUL ∉ s.buf.take s.linePos → NUL ∉ text →
    (∀ l ∈ splitLines text (s.buf.take s.linePos), paramOK l = true) →
    (Editor.scanTextWith add text s).toV = scanTextWith (renAdd add) text s.toV
  | [], s, hpos, hnul, _, hp => by
    rw [Editor.scanTextWith, scanTextWith]
    exact (editor_endOfLine add s hpos hnul (hp _ (by rw [splitLines]; exact List.mem_singleton.mpr rfl))).1
  | c :: rest, s, hpos, hnul, ht, hp => by
    have ht1 : NUL ∉ rest := fun hm => ht (List.mem_cons_of_mem _ hm)
    have hc0 : c ≠ NUL := fun he => ht (he ▸ List.mem_cons_self _ _)
    rw [Editor.scanTextWith, scanTextWith]
    rw [splitLines] at hp
    by_cases h1 : c = '\r'
    · rw [if_pos h1] at hp ⊢
      rw [if_pos h1]
      exact editor_scan add rest s hpos hnul ht1 hp
    · rw [if_neg h1] at hp ⊢
      rw [if_neg h1]
      by_cases h2 : c = '\n'
      · rw [if_pos h2] at hp ⊢
        rw [if_pos h2]
        obtain ⟨e1, e2⟩ := editor_endOfLine add s hpos hnul (hp _ (List.mem_cons_self _ _))
        rw [← e1]
        apply editor_scan add rest _ (by rw [e2]; exact Nat.zero_le _)
          (by rw [e2, List.take_zero]; exact List.not_mem_nil _) ht1
        rw [e2, List.take_zero]
        exact fun l hl => hp l (List.mem_cons_of_mem _ hl)
      · rw [if_neg h2] at hp ⊢
        rw [if_neg h2]
        have hlen : (s.buf.take s.linePos).length = s.linePos := by
          rw [List.length_take]; omega
        have hv : s.toV.line = s.buf.take s.linePos := rfl
        rw [hv, hlen]
        rw [hlen] at hp
        by_cases h3 : s.linePos < 1023
        · rw [if_pos h3] at hp ⊢
          rw [if_pos h3]
          have hs : ({ s with buf := writeAt s.buf s.linePos c,
                              linePos := s.linePos + 1 } : Editor.VState).toV =
              { s.toV with line := s.buf.take s.linePos ++ [c] } := by
            simp only [Editor.VState.toV, writeAt_take_succ _ _ _ hpos]
          rw [← hs]
          apply editor_scan add rest _ (writeAt_length _ _ _ hpos) _ ht1
          · simp only [writeAt_take_succ _ _ _ hpos]
            exact hp
          · simp only [writeAt_take_succ _ _ _ hpos]
            intro hm
            rcases List.mem_append.mp hm with hm | hm
            · exact hnul hm
            · exact hc0 (List.mem_singleton.mp hm).symm
        · rw [if_neg h3] at hp ⊢
          rw [if_neg h3]
          exact editor_scan add rest s hpos hnul ht1 hp

/-- On a text whose command lines carry their parameter, `ValidateFile` of
editor.c hands over the diagnostics of `ValidateFile` of validate.c in its own
wording. -/
theorem editor_ValidateFileWith (add : AddFn) (stack buffer : List Char)
    (hp : ∀ l ∈ logicalLines buffer, paramOK l = true) :
    Editor.ValidateFileWith add stack buffer = ValidateFileWith (renAdd add) buffer := by
  unfold Editor.ValidateFileWith ValidateFileWith
  rw [editor_finalChecks, editor_scan add (cstr buffer) (Editor.VState.init stack)
    (Nat.zero_le _) (List.not_mem_nil _) (NUL_not_mem_cstr buffer) hp]
  rfl

theorem editorMany_append (e a b : List ValidationError) :
    editorMany (editorMany e a) b = editorMany e (a ++ b) := by
  unfold editorMany
  rw [List.append_assoc, List.map_append, List.take_append_eq_append_take]
  congr 2
  simp only [List.length_append, List.length_take, List.length_map]
  congr 1
  omega

theorem recorder_editor : Recorder (renAdd Editor.AddValidationError) editorMany where
  add_eq := by
    intro e n m s
    unfold renAdd Editor.AddValidationError editorMany
    by_cases h : e.length < Editor.MAX_ERRORS
    · have : Editor.MAX_ERRORS - e.length = (Editor.MAX_ERRORS - e.length - 1) + 1 := by omega
      rw [if_pos h, this]
      simp [editorWording]
    · have : Editor.MAX_ERRORS - e.length = 0 := by omega
      rw [if_neg h, this]
      simp
  grow_nil := by
    intro e
    simp [editorMany]
  grow_append := editorMany_append

/-- The list `ValidateFile` of editor.c leaves for a text whose command lines
carry their parameter: the first `MAX_ERRORS` (50) diagnostics that
`ValidateFile` of validate.c reports, in the wording of editor.c. -/
theorem editor_ValidateFile_eq (stack buffer : List Char)
    (hp : ∀ l ∈ logicalLines buffer, paramOK l = true) :
    Editor.ValidateFile stack buffer =
      ((reported buffer).map editorWording).take Editor.MAX_ERRORS := by
  unfold Editor.ValidateFile
  rw [editor_ValidateFileWith _ stack buffer hp, ValidateFileWith_eq recorder_editor]
  simp [editorMany]

theorem editorWording_of_ne {d : ValidationError}
    (h : d.message ≠ "Too many nested color specifications (maximum 255)") :
    editorWording d = d := by
  unfold editorWording
  rw [editorMessage_of_ne h]

/-- C34 (amended). For every text that produces fewer than 50 diagnostics and
whose command lines each carry a parameter (a line that begins with `LPS` or
`TPF` has more than 4 characters, one that begins with `SW`, `SH`, `SC`, `SD`,
`CD` or `PM` more than 3), `ValidateFile` of editor.c builds the list that
`ValidateFile` of validate.c builds, entry for entry and in the same order, but
for the wording of the Error for a backtick that finds the stack full
(`maximum 10` in editor.c, `maximum 255` in validate.c); the two lists are the
same when that Error does not occur.  This holds whatever the array `line` of
editor.c holds on entry. -/
theorem C34_editor_validator (stack buffer : List Char)
    (hp : ∀ l ∈ logicalLines buffer, paramOK l = true)
    (hfew : (ValidateFile buffer).length < Editor.MAX_ERRORS) :
    Editor.ValidateFile stack buffer = (ValidateFile buffer).map editorWording ∧
    ((∀ d ∈ ValidateFile buffer,
        d.message ≠ "Too many nested color specifications (maximum 255)") →
      Editor.ValidateFile stack buffer = ValidateFile buffer) := by
  have hM : Editor.MAX_ERRORS = 50 := rfl
  have hM2 : MAX_ERRORS = 1000 := rfl
  have hrep := ValidateFile_not_full buffer (by omega)
  have h1 : Editor.ValidateFile stack buffer = (ValidateFile buffer).map editorWording := by
    rw [editor_ValidateFile_eq stack buffer hp, ← hrep,
      List.take_of_length_le (by rw [List.length_map]; omega)]
  refine ⟨h1, ?_⟩
  intro hno
  rw [h1]
  conv_rhs => rw [← List.map_id (ValidateFile buffer)]
  apply List.map_congr_left
  intro d hd
  exact editorWording_of_ne (hno d hd)

theorem C34_editor_validator_witness :
    Editor.ValidateFile "junk".toList "LPS 0\nSW 5\nSTART\n`zz:a\n".toList =
      ValidateFile "LPS 0\nSW 5\nSTART\n`zz:a\n".toList :=
  (C34_editor_validator "junk".toList "LPS 0\nSW 5\nSTART\n`zz:a\n".toList (by decide)
    (by decide)).2 (by decide)

/-! ### A line that fills the backtick stack -/

theorem findColonQuote_ticks (n j : Nat) :
    findColonQuote (List.replicate n '`') j none = (none, none) := by
  rcases n with _ | _ | n
  · rfl
  · rfl
  · rw [List.replicate_succ, List.replicate_succ, findColonQuote, if_neg (by decide),
      if_neg (by decide), if_neg (by decide), if_pos rfl]

/-- A backtick followed by backticks only is pushed without a diagnostic while
the stack has room, and gives the Error of the full stack otherwise. -/
theorem colorSyntaxChar_ticks (add : AddFn) (ln : Int) (n i : Nat) (st : BacktickStack)
    (e : List ValidationError) :
    colorSyntaxCharWith add ln '`' (List.replicate n '`') i st e =
      if st.length ≥ MAX_NESTING_DEPTH then
        (st, add e ln "Too many nested color specifications (maximum 255)" 2)
      else (⟨i, false⟩ :: st, e) := by
  unfold colorSyntaxCharWith PushBacktick
  rw [if_pos rfl, findColonQuote_ticks]
  simp only
  by_cases h : st.length ≥ MAX_NESTING_DEPTH
  · rw [if_pos h, if_pos h]
    simp
  · rw [if_neg h, if_neg h]
    simp

/-- A line of backticks that reaches the depth 256 gives one Error of the full
stack and leaves 255 open scopes. -/
theorem colorSyntaxLoop_ticks (add : AddFn) (ln : Int) : ∀ (n i : Nat) (st : BacktickStack)
    (e : List ValidationError), 0 < n → st.length + n = MAX_NESTING_DEPTH + 1 →
    ∃ st1 : BacktickStack, st1.length = MAX_NESTING_DEPTH ∧
      colorSyntaxLoopWith add ln (List.replicate n '`') i st e =
        (st1, add e ln "Too many nested color specifications (maximum 255)" 2)
  | 0, _, _, _, h, _ => absurd h (by decide)
  | 1, i, st, e, _, hs => by
    have h : st.length ≥ MAX_NESTING_DEPTH := by omega
    refine ⟨st, by omega, ?_⟩
    rw [List.replicate_one, colorSyntaxLoopWith]
    have := colorSyntaxChar_ticks add ln 0 i st e
    rw [List.replicate_zero, if_pos h] at this
    exact this
  | n + 2, i, st, e, _, hs => by
    have h : ¬ st.length ≥ MAX_NESTING_DEPTH := by omega
    obtain ⟨st1, h1, h2⟩ := colorSyntaxLoop_ticks add ln (n + 1) (i + 1) (⟨i, false⟩ :: st) e
      (by omega) (by simp only [List.length_cons]; omega)
    refine ⟨st1, h1, ?_⟩
    rw [List.replicate_succ, colorSyntaxLoop_cons add ln '`' _ i st e (by decide),
      colorSyntaxChar_ticks, if_neg h]
    exact h2

theorem ValidateColorSyntax_ticks (add : AddFn) (ln : Int) (e : List ValidationError) :
    ValidateColorSyntaxWith add (List.replicate 256 '`') ln e =
      add (add e ln "Too many nested color specifications (maximum 255)" 2) ln
        "Unclosed color specification (255 unmatched backticks)" 2 := by
  obtain ⟨st1, h1, h2⟩ := colorSyntaxLoop_ticks add ln 256 0 [] e (by decide) (by decide)
  unfold ValidateColorSyntaxWith
  simp only
  rw [h2]
  simp only
  rw [if_pos (by rw [h1]; decide), h1]
  rfl

theorem cstr_of_not_mem : ∀ (l : List Char), NUL ∉ l → cstr l = l
  | [], _ => rfl
  | c :: l, h => by
    have hc : (c != NUL) = true := by
      simp only [bne_iff_ne, ne_eq]
      intro e
      exact h (e ▸ List.mem_cons_self _ _)
    have ih := cstr_of_not_mem l (fun hm => h (List.mem_cons_of_mem _ hm))
    unfold cstr at ih ⊢
    rw [List.takeWhile_cons, if_pos hc, ih]

theorem splitLines_plain : ∀ (a text cur : List Char),
    (∀ c ∈ a, c ≠ '\r' ∧ c ≠ '\n') → cur.length + a.length ≤ 1023 →
    splitLines (a ++ text) cur = splitLines text (cur ++ a)
  | [], text, cur, _, _ => by simp
  | c :: a, text, cur, h, hl => by
    have hc := h c (List.mem_cons_self _ _)
    simp only [List.length_cons] at hl
    rw [List.cons_append, splitLines, if_neg hc.1, if_neg hc.2, if_pos (by omega),
      splitLines_plain a text _ (fun x hx => h x (List.mem_cons_of_mem _ hx))
        (by simp only [List.length_append, List.length_singleton]; omega)]
    simp

theorem logicalLines_deepText :
    logicalLines deepText = ["START".toList, List.replicate 256 '`'] := by
  have hn : NUL ∉ deepText := by
    unfold deepText
    intro h
    rcases List.mem_append.mp h with h | h
    · exact absurd h (by decide)
    · exact absurd (List.eq_of_mem_replicate h) (by decide)
  unfold logicalLines
  rw [cstr_of_not_mem _ hn]
  unfold deepText
  have e1 : "START\n".toList = "START".toList ++ '\n' :: [] := rfl
  rw [e1, List.append_assoc, splitLines_plain _ _ _ (by decide) (by decide), List.nil_append,
    List.cons_append, List.nil_append, splitLines, if_neg (by decide), if_pos rfl]
  have e2 := splitLines_plain (List.replicate 256 '`') [] []
    (fun c hc => by rw [List.eq_of_mem_replicate hc]; decide)
    (by rw [List.length_replicate]; decide)
  rw [List.append_nil, List.nil_append] at e2
  rw [e2, splitLines]

theorem lineKind_tick_cons (t : List Char) : lineKind ('`' :: t) = LineKind.other := by
  apply lineKind_other_of (List.cons_ne_nil _ _) (by simp)
  · intro p hp
    simp only [List.mem_cons, List.mem_singleton, List.not_mem_nil, or_false] at hp
    rcases hp with rfl | rfl | rfl | rfl | rfl | rfl | rfl | rfl <;>
      simp [startsWith, String.length]
  · intro h
    injection h with h1 _
    exact absurd h1 (by decide)
  · intro h
    injection h with h1 _
    exact absurd h1 (by decide)

theorem lineKind_ticks : lineKind (List.replicate 256 '`') = LineKind.other :=
  lineKind_tick_cons (List.replicate 255 '`')

theorem reported_deepText :
    reported deepText =
      [⟨2, "Too many nested color specifications (maximum 255)", 2⟩,
       ⟨2, "Unclosed color specification (255 unmatched backticks)", 2⟩,
       ⟨0, "Missing LPS command", 2⟩, ⟨0, "Missing SW command", 2⟩,
       ⟨0, "Missing SH command", 2⟩, ⟨0, "Missing SC command", 2⟩,
       ⟨0, "Missing SD command", 2⟩, ⟨2, "File ends with unclosed segment", 2⟩] := by
  unfold reported
  rw [logicalLines_deepText]
  have hm : markupDiags (List.replicate 256 '`') 2 =
      [⟨2, "Too many nested color specifications (maximum 255)", 2⟩,
       ⟨2, "Unclosed color specification (255 unmatched backticks)", 2⟩] := by
    unfold markupDiags
    rw [ValidateColorSyntax_ticks]
    rfl
  have h1 : lineCtl VState.init "START".toList =
      { VState.init with lineNum := 2, inSegment := true } := by decide
  have h2 : lineCtl { VState.init with lineNum := 2, inSegment := true }
      (List.replicate 256 '`') = { VState.init with lineNum := 3, inSegment := true } := by
    unfold lineCtl
    rw [lineKind_ticks]
    rfl
  have h3 : lineDiags { VState.init with lineNum := 2, inSegment := true }
      (List.replicate 256 '`') = markupDiags (List.replicate 256 '`') 2 :=
    lineDiags_other_inside lineKind_ticks rfl
  have h0 : lineDiags VState.init "START".toList = [] := by decide
  simp only [scanDiags, runCtl, h0, h1, h2, h3, hm]
  rfl

theorem ValidateFile_deepText :
    ValidateFile deepText =
      [⟨2, "Too many nested color specifications (maximum 255)", 2⟩,
       ⟨2, "Unclosed color specification (255 unmatched backticks)", 2⟩,
       ⟨0, "Missing LPS command", 2⟩, ⟨0, "Missing SW command", 2⟩,
       ⟨0, "Missing SH command", 2⟩, ⟨0, "Missing SC command", 2⟩,
       ⟨0, "Missing SD command", 2⟩, ⟨2, "File ends with unclosed segment", 2⟩] := by
  rw [ValidateFile_eq_take, reported_deepText]
  rfl

theorem editor_ValidateFile_deepText (stack : List Char) :
    Editor.ValidateFile stack deepText =
      [⟨2, "Too many nested color specifications (maximum 10)", 2⟩,
       ⟨2, "Unclosed color specification (255 unmatched backticks)", 2⟩,
       ⟨0, "Missing LPS command", 2⟩, ⟨0, "Missing SW command", 2⟩,
       ⟨0, "Missing SH command", 2⟩, ⟨0, "Missing SC command", 2⟩,
       ⟨0, "Missing SD command", 2⟩, ⟨2, "File ends with unclosed segment", 2⟩] := by
  rw [editor_ValidateFile_eq stack deepText, reported_deepText]
  · decide
  · rw [logicalLines_deepText]
    intro l hl
    simp only [List.mem_cons, List.mem_singleton, List.not_mem_nil, or_false] at hl
    rcases hl with rfl | rfl
    · decide
    · unfold paramOK
      rw [lineKind_ticks]

/-- C34 as stated fails.  For the text `LPS `, `SW 600`, `SH 40`, `SC 1`, `SD 0`,
`START`, `END`, whose first line has no parameter, validate.c builds the empty
list and editor.c the Error `LPS must be positive`.  For the text made of
`START` and a line of 256 backticks, each program builds eight diagnostics, and
the first one reads `maximum 255` in validate.c and `maximum 10` in editor.c. -/
theorem C34_counterexample :
    ValidateFile "LPS \nSW 600\nSH 40\nSC 1\nSD 0\nSTART\nEND\n".toList = [] ∧
    Editor.ValidateFile [] "LPS \nSW 600\nSH 40\nSC 1\nSD 0\nSTART\nEND\n".toList =
      [⟨1, "LPS must be positive", 2⟩] ∧
    (ValidateFile deepText).length = 8 ∧
    (ValidateFile deepText).head? =
      some ⟨2, "Too many nested color specifications (maximum 255)", 2⟩ ∧
    (Editor.ValidateFile [] deepText).head? =
      some ⟨2, "Too many nested color specifications (maximum 10)", 2⟩ := by
  refine ⟨by decide, by decide, ?_, ?_, ?_⟩
  · rw [ValidateFile_deepText]; rfl
  · rw [ValidateFile_deepText]; rfl
  · rw [editor_ValidateFile_deepText]; rfl

/-! ## The lines of the validator and the reads of the renderer -/

theorem stripLine_plain (cur : List Char)
    (h : ∀ c ∈ cur, c ≠ '\n' ∧ c ≠ '\r' ∧ c ≠ NUL) : stripLine cur = cur := by
  have hn : NUL ∉ cur := fun hm => (h NUL hm).2.2 rfl
  unfold stripLine
  rw [cstr_of_not_mem cur hn]
  have h1 : cur.getLast? ≠ some '\n' := by
    intro he
    exact (h '\n' (List.mem_of_getLast?_eq_some he)).1 rfl
  have h2 : cur.getLast? ≠ some '\r' := by
    intro he
    exact (h '\r' (List.mem_of_getLast?_eq_some he)).2.1 rfl
  simp only [if_neg h1, if_neg h2]

theorem stripLine_newline (cur : List Char)
    (h : ∀ c ∈ cur, c ≠ '\n' ∧ c ≠ '\r' ∧ c ≠ NUL) : stripLine (cur ++ ['\n']) = cur := by
  have hn : NUL ∉ cur ++ ['\n'] := by
    intro hm
    rcases List.mem_append.mp hm with hm | hm
    · exact (h NUL hm).2.2 rfl
    · exact absurd (List.mem_singleton.mp hm) (by decide)
  unfold stripLine
  rw [cstr_of_not_mem _ hn]
  have h2 : cur.getLast? ≠ some '\r' := by
    intro he
    exact (h '\r' (List.mem_of_getLast?_eq_some he)).2.1 rfl
  have h1 : (cur ++ ['\n']).getLast? = some '\n' := by simp
  simp only [if_pos h1, List.dropLast_concat, if_neg h2]

theorem splitLines_head_length : ∀ (text cur : List Char), cur.length ≤ 1023 →
    ∃ l ∈ splitLines text cur, cur.length ≤ l.length
  | [], cur, _ => ⟨cur, by rw [splitLines]; exact List.mem_singleton.mpr rfl, le_refl _⟩
  | c :: rest, cur, h => by
    rw [splitLines]
    by_cases h1 : c = '\r'
    · rw [if_pos h1]
      exact splitLines_head_length rest cur h
    · rw [if_neg h1]
      by_cases h2 : c = '\n'
      · rw [if_pos h2]
        exact ⟨cur, List.mem_cons_self _ _, le_refl _⟩
      · rw [if_neg h2]
        by_cases h3 : cur.length < 1023
        · rw [if_pos h3]
          obtain ⟨l, hl, hle⟩ := splitLines_head_length rest (cur ++ [c])
            (by simp only [List.length_append, List.length_singleton]; omega)
          refine ⟨l, hl, ?_⟩
          simp only [List.length_append, List.length_singleton] at hle
          omega
        · rw [if_neg h3]
          exact splitLines_head_length rest cur h

/-- On a text without carriage return and NUL whose lines have at most 998
characters, the logical lines of the validator are the lines the renderer
reads, followed by one empty line when the text is empty or ends with a line
feed. -/
theorem splitLines_eq_chunks : ∀ (text cur : List Char), cur.length ≤ 1023 →
    (∀ c ∈ cur, c ≠ '\n' ∧ c ≠ '\r' ∧ c ≠ NUL) → (∀ c ∈ text, c ≠ '\r' ∧ c ≠ NUL) →
    (∀ l ∈ splitLines text cur, l.length ≤ 998) →
    ∃ E : List (List Char), (E = [] ∨ E = [[]]) ∧
      splitLines text cur = (fgetwsChunks text cur).map stripLine ++ E
  | [], cur, _, hcur, _, _ => by
    rw [splitLines, fgetwsChunks]
    by_cases h : cur = []
    · rw [if_pos h, h]
      exact ⟨[[]], Or.inr rfl, rfl⟩
    · rw [if_neg h]
      exact ⟨[], Or.inl rfl, by rw [List.map_singleton, stripLine_plain cur hcur]; rfl⟩
  | c :: rest, cur, hb, hcur, ht, hl => by
    have hc := ht c (List.mem_cons_self _ _)
    have ht1 : ∀ x ∈ rest, x ≠ '\r' ∧ x ≠ NUL := fun x hx => ht x (List.mem_cons_of_mem _ hx)
    rw [splitLines, if_neg hc.1] at hl ⊢
    rw [fgetwsChunks]
    by_cases h2 : c = '\n'
    · rw [if_pos h2] at hl ⊢
      rw [if_pos (Or.inl h2)]
      obtain ⟨E, hE, heq⟩ := splitLines_eq_chunks rest [] (Nat.zero_le _)
        (fun x hx => absurd hx (List.not_mem_nil _))
        ht1 (fun l hm => hl l (List.mem_cons_of_mem _ hm))
      refine ⟨E, hE, ?_⟩
      rw [heq, List.map_cons, h2, stripLine_newline cur hcur]
      rfl
    · rw [if_neg h2] at hl ⊢
      have hlen : cur.length + 1 ≤ 998 := by
        by_cases h3 : cur.length < 1023
        · rw [if_pos h3] at hl
          obtain ⟨l, hm, hle⟩ := splitLines_head_length rest (cur ++ [c])
            (by simp only [List.length_append, List.length_singleton]; omega)
          have := hl l hm
          simp only [List.length_append, List.length_singleton] at hle
          omega
        · rw [if_neg h3] at hl
          obtain ⟨l, hm, hle⟩ := splitLines_head_length rest cur hb
          have := hl l hm
          omega
      have hM : MAX_TEXT_LENGTH - 1 = 999 := rfl
      rw [if_pos (by omega)] at hl ⊢
      rw [if_neg (by rw [hM]; rintro (h | h); exact h2 h; omega)]
      exact splitLines_eq_chunks rest (cur ++ [c])
        (by simp only [List.length_append, List.length_singleton]; omega)
        (fun x hx => by
          rcases List.mem_append.mp hx with hx | hx
          · exact hcur x hx
          · rw [List.mem_singleton.mp hx]; exact ⟨h2, hc.1, hc.2⟩)
        ht1 hl

/-! ## A validated text in the renderer -/

/-- After a read the array `line` holds the line read, its terminator, and
what the array held before past it. -/
theorem readIntoBuf_form (buf chunk : List Char) :
    ∃ rest, readIntoBuf buf chunk = stripLine chunk ++ NUL :: rest := by
  unfold readIntoBuf stripLine
  obtain ⟨rest, hr⟩ := append_NUL_eq chunk (buf.drop (chunk.length + 1))
  have hw := NUL_not_mem_cstr chunk
  simp only [hr, cstr_append_NUL _ _ hw]
  obtain ⟨rest1, h1⟩ := strip_last (cstr chunk) rest '\n'
  have hw1 := not_mem_strip (cstr chunk) '\n' hw
  rw [h1, cstr_append_NUL _ _ hw1]
  obtain ⟨rest2, h2⟩ := strip_last _ rest1 '\r'
  exact ⟨rest2, h2⟩

/-- The parameter the renderer reads at `&line[k]` is the line from its
character `k` on, when the line has that many characters. -/
theorem arg_readIntoBuf (buf chunk : List Char) (k : Nat) (h : k ≤ (stripLine chunk).length) :
    cstr ((readIntoBuf buf chunk).drop k) = (stripLine chunk).drop k := by
  obtain ⟨rest, hr⟩ := readIntoBuf_form buf chunk
  rw [hr]
  apply cstr_drop_line _ _ k _ h
  rw [← cstr_readIntoBuf buf chunk]
  exact NUL_not_mem_cstr _

/-- The value a field of the configuration has after the reads, when each line
of the command that sets it carries a parameter with the property `P`, and the
field has the property at the start or such a line is read. -/
theorem loadLoop_field (K : LineKind) (k : Nat) (get : MarqueeConfig → Int) (P : Int → Prop)
    (hstep : ∀ (st st1 : LoadState) (ch : List Char), loadChunk st ch = some st1 →
      (lineKind (stripLine ch) = K →
        get st1.renderer.config = _wtoi (cstr ((readIntoBuf st.buf ch).drop k))) ∧
      (lineKind (stripLine ch) ≠ K → get st1.renderer.config = get st.renderer.config)) :
    ∀ (chunks : List (List Char)) (st st1 : LoadState), loadLoop chunks st = some st1 →
      (∀ ch ∈ chunks, lineKind (stripLine ch) = K →
        (stripLine ch).length > k ∧ P (wcstol ((stripLine ch).drop k))) →
      (P (get st.renderer.config) ∨ ∃ ch ∈ chunks, lineKind (stripLine ch) = K) →
      P (get st1.renderer.config)
  | [], st, st1, h, _, hp => by
    rw [loadLoop] at h
    injection h with h
    subst h
    rcases hp with hp | ⟨ch, hm, _⟩
    · exact hp
    · exact absurd hm (List.not_mem_nil _)
  | ch :: more, st, st1, h, hall, hp => by
    rw [loadLoop] at h
    cases hc : loadChunk st ch with
    | none => rw [hc] at h; cases h
    | some st2 =>
      rw [hc] at h
      simp only at h
      apply loadLoop_field K k get P hstep more st2 st1 h
        (fun c hm => hall c (List.mem_cons_of_mem _ hm))
      obtain ⟨s1, s2⟩ := hstep st st2 ch hc
      by_cases hk : lineKind (stripLine ch) = K
      · left
        obtain ⟨hl, hv⟩ := hall ch (List.mem_cons_self _ _) hk
        rw [s1 hk, arg_readIntoBuf _ _ k (by omega)]
        exact hv
      · rcases hp with hp | ⟨c, hm, hck⟩
        · left
          rw [s2 hk]
          exact hp
        · rcases List.mem_cons.mp hm with rfl | hm
          · exact absurd hck hk
          · exact Or.inr ⟨c, hm, hck⟩

theorem loadChunk_linesPerScreen (st st1 : LoadState) (ch : List Char)
    (h : loadChunk st ch = some st1) :
    (lineKind (stripLine ch) = LineKind.lps →
      st1.renderer.config.linesPerScreen = _wtoi (cstr ((readIntoBuf st.buf ch).drop 4))) ∧
    (lineKind (stripLine ch) ≠ LineKind.lps →
      st1.renderer.config.linesPerScreen = st.renderer.config.linesPerScreen) := by
  rw [loadChunk_kind] at h
  by_cases hK : lineKind (stripLine ch) = LineKind.lps
  · rw [hK] at h
    simp only [loadByKind] at h
    cases h
    exact ⟨fun _ => rfl, fun hn => absurd hK hn⟩
  · refine ⟨fun hn => absurd hn hK, fun _ => ?_⟩
    cases hk : lineKind (stripLine ch) <;> rw [hk] at h hK <;> simp only [loadByKind] at h
    all_goals
      (repeat' split at h) <;>
      cases h <;>
      first
      | exact absurd rfl hK
      | rfl
      | (rename_i ha
         rw [appendLine_eq ha])

theorem loadChunk_screenWidth (st st1 : LoadState) (ch : List Char)
    (h : loadChunk st ch = some st1) :
    (lineKind (stripLine ch) = LineKind.sw →
      st1.renderer.config.screenWidth = _wtoi (cstr ((readIntoBuf st.buf ch).drop 3))) ∧
    (lineKind (stripLine ch) ≠ LineKind.sw →
      st1.renderer.config.screenWidth = st.renderer.config.screenWidth) := by
  rw [loadChunk_kind] at h
  by_cases hK : lineKind (stripLine ch) = LineKind.sw
  · rw [hK] at h
    simp only [loadByKind] at h
    cases h
    exact ⟨fun _ => rfl, fun hn => absurd hK hn⟩
  · refine ⟨fun hn => absurd hn hK, fun _ => ?_⟩
    cases hk : lineKind (stripLine ch) <;> rw [hk] at h hK <;> simp only [loadByKind] at h
    all_goals
      (repeat' split at h) <;>
      cases h <;>
      first
      | exact absurd rfl hK
      | rfl
      | (rename_i ha
         rw [appendLine_eq ha])

theorem loadChunk_screenHeight (st st1 : LoadState) (ch : List Char)
    (h : loadChunk st ch = some st1) :
    (lineKind (stripLine ch) = LineKind.sh →
      st1.renderer.config.screenHeight = _wtoi (cstr ((readIntoBuf st.buf ch).drop 3))) ∧
    (lineKind (stripLine ch) ≠ LineKind.sh →
      st1.renderer.config.screenHeight = st.renderer.config.screenHeight) := by
  rw [loadChunk_kind] at h
  by_cases hK : lineKind (stripLine ch) = LineKind.sh
  · rw [hK] at h
    simp only [loadByKind] at h
    cases h
    exact ⟨fun _ => rfl, fun hn => absurd hK hn⟩
  · refine ⟨fun hn => absurd hn hK, fun _ => ?_⟩
    cases hk : lineKind (stripLine ch) <;> rw [hk] at h hK <;> simp only [loadByKind] at h
    all_goals
      (repeat' split at h) <;>
      cases h <;>
      first
      | exact absurd rfl hK
      | rfl
      | (rename_i ha
         rw [appendLine_eq ha])

theorem loadChunk_screenCount (st st1 : LoadState) (ch : List Char)
    (h : loadChunk st ch = some st1) :
    (lineKind (stripLine ch) = LineKind.sc →
      st1.renderer.config.screenCount = _wtoi (cstr ((readIntoBuf st.buf ch).drop 3))) ∧
    (lineKind (stripLine ch) ≠ LineKind.sc →
      st1.renderer.config.screenCount = st.renderer.config.screenCount) := by
  rw [loadChunk_kind] at h
  by_cases hK : lineKind (stripLine ch) = LineKind.sc
  · rw [hK] at h
    simp only [loadByKind] at h
    cases h
    exact ⟨fun _ => rfl, fun hn => absurd hK hn⟩
  · refine ⟨fun hn => absurd hn hK, fun _ => ?_⟩
    cases hk : lineKind (stripLine ch) <;> rw [hk] at h hK <;> simp only [loadByKind] at h
    all_goals
      (repeat' split at h) <;>
      cases h <;>
      first
      | exact absurd rfl hK
      | rfl
      | (rename_i ha
         rw [appendLine_eq ha])

theorem loadChunk_screenDelay (st st1 : LoadState) (ch : List Char)
    (h : loadChunk st ch = some st1) :
    (lineKind (stripLine ch) = LineKind.sd →
      st1.renderer.config.screenDelay = _wtoi (cstr ((readIntoBuf st.buf ch).drop 3))) ∧
    (lineKind (stripLine ch) ≠ LineKind.sd →
      st1.renderer.config.screenDelay = st.renderer.config.screenDelay) := by
  rw [loadChunk_kind] at h
  by_cases hK : lineKind (stripLine ch) = LineKind.sd
  · rw [hK] at h
    simp only [loadByKind] at h
    cases h
    exact ⟨fun _ => rfl, fun hn => absurd hK hn⟩
  · refine ⟨fun hn => absurd hn hK, fun _ => ?_⟩
    cases hk : lineKind (stripLine ch) <;> rw [hk] at h hK <;> simp only [loadByKind] at h
    all_goals
      (repeat' split at h) <;>
      cases h <;>
      first
      | exact absurd rfl hK
      | rfl
      | (rename_i ha
         rw [appendLine_eq ha])

theorem loadChunk_centerDelay (st st1 : LoadState) (ch : List Char)
    (h : loadChunk st ch = some st1) :
    (lineKind (stripLine ch) = LineKind.cd →
      st1.renderer.config.centerDelay = _wtoi (cstr ((readIntoBuf st.buf ch).drop 3))) ∧
    (lineKind (stripLine ch) ≠ LineKind.cd →
      st1.renderer.config.centerDelay = st.renderer.config.centerDelay) := by
  rw [loadChunk_kind] at h
  by_cases hK : lineKind (stripLine ch) = LineKind.cd
  · rw [hK] at h
    simp only [loadByKind] at h
    cases h
    exact ⟨fun _ => rfl, fun hn => absurd hK hn⟩
  · refine ⟨fun hn => absurd hn hK, fun _ => ?_⟩
    cases hk : lineKind (stripLine ch) <;> rw [hk] at h hK <;> simp only [loadByKind] at h
    all_goals
      (repeat' split at h) <;>
      cases h <;>
      first
      | exact absurd rfl hK
      | rfl
      | (rename_i ha
         rw [appendLine_eq ha])

theorem splitLines_dropCR : ∀ (text cur : List Char),
    splitLines (dropCR text) cur = splitLines text cur
  | [], cur => rfl
  | c :: rest, cur => by
    by_cases h1 : c = '\r'
    · have hd : dropCR (c :: rest) = dropCR rest := by
        simp [dropCR, h1]
      rw [hd, splitLines_dropCR rest cur]
      conv_rhs => rw [splitLines, if_pos h1]
    · have hd : dropCR (c :: rest) = c :: dropCR rest := by
        simp [dropCR, h1]
      rw [hd, splitLines, splitLines, if_neg h1, if_neg h1]
      by_cases h2 : c = '\n'
      · rw [if_pos h2, if_pos h2, splitLines_dropCR rest []]
      · rw [if_neg h2, if_neg h2, splitLines_dropCR rest _]

/-- The Errors of the scan for the value of a command. -/
theorem lineDiags_value (s : VState) (l : List Char) :
    (lineKind l = LineKind.lps → l.length > 4 → wcstol (l.drop 4) ≤ 0 →
      (⟨s.lineNum, "LPS must be positive", 2⟩ : ValidationError) ∈ lineDiags s l) ∧
    (lineKind l = LineKind.sw → l.length > 3 → wcstol (l.drop 3) ≤ 0 →
      (⟨s.lineNum, "SW must be positive", 2⟩ : ValidationError) ∈ lineDiags s l) ∧
    (lineKind l = LineKind.sh → l.length > 3 → wcstol (l.drop 3) ≤ 0 →
      (⟨s.lineNum, "SH must be positive", 2⟩ : ValidationError) ∈ lineDiags s l) ∧
    (lineKind l = LineKind.sc → l.length > 3 → wcstol (l.drop 3) ≤ 0 →
      (⟨s.lineNum, "SC must be positive", 2⟩ : ValidationError) ∈ lineDiags s l) ∧
    (lineKind l = LineKind.sd → l.length > 3 → wcstol (l.drop 3) < 0 →
      (⟨s.lineNum, "SD cannot be negative", 2⟩ : ValidationError) ∈ lineDiags s l) ∧
    (lineKind l = LineKind.cd → l.length > 3 → wcstol (l.drop 3) < 0 →
      (⟨s.lineNum, "CD cannot be negative", 2⟩ : ValidationError) ∈ lineDiags s l) := by
  refine ⟨?_, ?_, ?_, ?_, ?_, ?_⟩
  all_goals
    intro hk hl hv
    unfold lineDiags
    rw [hk]
    simp only
    first
    | exact List.mem_append_right _ (mem_diagIf_iff.mpr ⟨decide_eq_true ⟨hl, hv⟩, rfl⟩)
    | exact mem_diagIf_iff.mpr ⟨decide_eq_true ⟨hl, hv⟩, rfl⟩

/-- In a scan without Error, every command line that carries a parameter
carries an admissible one. -/
theorem clean_scan_values (ls : List (List Char)) (s : VState)
    (hclean : ∀ d ∈ scanDiags ls s, d.severity ≠ 2) (l : List Char) (hl : l ∈ ls) :
    (lineKind l = LineKind.lps → l.length > 4 → 0 < wcstol (l.drop 4)) ∧
    (lineKind l = LineKind.sw → l.length > 3 → 0 < wcstol (l.drop 3)) ∧
    (lineKind l = LineKind.sh → l.length > 3 → 0 < wcstol (l.drop 3)) ∧
    (lineKind l = LineKind.sc → l.length > 3 → 0 < wcstol (l.drop 3)) ∧
    (lineKind l = LineKind.sd → l.length > 3 → 0 ≤ wcstol (l.drop 3)) ∧
    (lineKind l = LineKind.cd → l.length > 3 → 0 ≤ wcstol (l.drop 3)) := by
  obtain ⟨k, hk⟩ := List.mem_iff_getElem?.mp hl
  have hv := lineDiags_value (runCtl (ls.take k) s) l
  have no : ∀ d : ValidationError, d.severity = 2 →
      d ∈ lineDiags (runCtl (ls.take k) s) l → False :=
    fun d h2 hd => hclean d (scanDiags_mem s hk hd) h2
  refine ⟨?_, ?_, ?_, ?_, ?_, ?_⟩
  · intro h1 h2
    by_contra h3
    exact no _ rfl (hv.1 h1 h2 (by omega))
  · intro h1 h2
    by_contra h3
    exact no _ rfl (hv.2.1 h1 h2 (by omega))
  · intro h1 h2
    by_contra h3
    exact no _ rfl (hv.2.2.1 h1 h2 (by omega))
  · intro h1 h2
    by_contra h3
    exact no _ rfl (hv.2.2.2.1 h1 h2 (by omega))
  · intro h1 h2
    by_contra h3
    exact no _ rfl (hv.2.2.2.2.1 h1 h2 (by omega))
  · intro h1 h2
    by_contra h3
    exact no _ rfl (hv.2.2.2.2.2 h1 h2 (by omega))

theorem configParamOK_length {line : List Char} (hp : configParamOK line = true) :
    (lineKind line = LineKind.lps → line.length > 4) ∧
    (lineKind line = LineKind.sw → line.length > 3) ∧
    (lineKind line = LineKind.sh → line.length > 3) ∧
    (lineKind line = LineKind.sc → line.length > 3) ∧
    (lineKind line = LineKind.sd → line.length > 3) ∧
    (lineKind line = LineKind.cd → line.length > 3) := by
  unfold configParamOK at hp
  refine ⟨?_, ?_, ?_, ?_, ?_, ?_⟩ <;> intro hk <;> rw [hk] at hp <;> simpa using hp

/-- With a positive `linesPerScreen` the division in `RenderMarquee` is defined. -/
theorem RenderMarquee_defined (measure : List Char → Int) (r : MarqueeRenderer)
    (h : 0 < r.config.linesPerScreen) : RenderMarquee measure r ≠ none := by
  unfold RenderMarquee
  by_cases hg : r.segmentCount = 0 ∨ r.currentScreen ≥ r.segmentCount
  · rw [if_pos hg]
    exact fun e => by cases e
  · rw [if_neg hg]
    simp only
    rw [if_neg (by
      rintro (hz | ⟨_, hz⟩)
      · omega
      · omega)]
    exact fun e => by cases e

/-- The lines the renderer reads in a text without carriage return are the
logical lines of the validator, the last empty one left out. -/
theorem chunks_of_clean_text (buffer : List Char) (hnul : NUL ∉ buffer)
    (hlen : ∀ l ∈ logicalLines buffer, l.length ≤ 998) :
    ∃ E : List (List Char), (E = [] ∨ E = [[]]) ∧
      logicalLines buffer = (fgetwsChunks (dropCR buffer) []).map stripLine ++ E := by
  have hb : logicalLines buffer = splitLines (dropCR buffer) [] := by
    unfold logicalLines
    rw [cstr_of_not_mem buffer hnul, splitLines_dropCR]
  rw [hb] at hlen ⊢
  apply splitLines_eq_chunks (dropCR buffer) [] (Nat.zero_le _)
    (fun c hc => absurd hc (List.not_mem_nil _)) _ hlen
  intro c hc
  unfold dropCR at hc
  rw [List.mem_filter] at hc
  refine ⟨by simpa using hc.2, ?_⟩
  intro he
  exact hnul (he ▸ hc.1)

/-- C35 (amended). For every text without NUL whose lines have at most 998
characters, on which the standalone validator reports fewer than 1000
diagnostics, none of them an Error, and whose `LPS`, `SW`, `SH`, `SC`, `SD` and
`CD` lines each carry a parameter, the configuration that `LoadLayoutFile` reads
from the text without its carriage returns satisfies `linesPerScreen > 0`,
`screenWidth > 0`, `screenHeight > 0`, `screenCount > 0` and `screenDelay >= 0`,
and also `centerDelay >= 0` when the text has a `CD` line or `centerDelay` was
not negative before the load; so the division `screenHeight / linesPerScreen`
is defined in `LoadLayoutFile`, which returns the state its reads end in, and
in `RenderMarquee`.  The reads themselves have to stay within the arrays of the
renderer. -/
theorem C35_validated_config (measure : List Char → Int) (renderer : MarqueeRenderer)
    (buffer stack : List Char) (st : LoadState)
    (hnul : NUL ∉ buffer) (hlen : ∀ l ∈ logicalLines buffer, l.length ≤ 998)
    (hroom : (ValidateFile buffer).length < MAX_ERRORS)
    (hclean : ∀ d ∈ ValidateFile buffer, d.severity ≠ 2)
    (hparam : ∀ l ∈ logicalLines buffer, configParamOK l = true)
    (hcd : 0 ≤ renderer.config.centerDelay ∨
      ∃ l ∈ logicalLines buffer, lineKind l = LineKind.cd)
    (hload : loadLoop (fgetwsChunks (dropCR buffer) []) (loadInit renderer stack) = some st) :
    validConfig st.renderer.config ∧
    LoadLayoutFile renderer (dropCR buffer) stack = some st.renderer ∧
    RenderMarquee measure st.renderer ≠ none := by
  obtain ⟨E, hE, hlines⟩ := chunks_of_clean_text buffer hnul hlen
  have hrep := ValidateFile_not_full buffer hroom
  rw [hrep] at hclean
  have hscan : ∀ d ∈ scanDiags (logicalLines buffer) VState.init, d.severity ≠ 2 :=
    fun d hd => hclean d ((mem_reported_iff buffer d).mpr (Or.inl hd))
  have hfinal : ∀ d ∈ finalDiags (runCtl (logicalLines buffer) VState.init), d.severity ≠ 2 :=
    fun d hd => hclean d ((mem_reported_iff buffer d).mpr (Or.inr hd))
  -- every line read is a logical line
  have hsub : ∀ ch ∈ fgetwsChunks (dropCR buffer) [], stripLine ch ∈ logicalLines buffer := by
    intro ch hch
    rw [hlines]
    exact List.mem_append_left _ (List.mem_map_of_mem _ hch)
  -- every logical line that is a command is read
  have hsup : ∀ l ∈ logicalLines buffer, l ≠ [] →
      ∃ ch ∈ fgetwsChunks (dropCR buffer) [], stripLine ch = l := by
    intro l hl hne
    rw [hlines] at hl
    rcases List.mem_append.mp hl with hl | hl
    · obtain ⟨ch, hch, he⟩ := List.mem_map.mp hl
      exact ⟨ch, hch, he⟩
    · rcases hE with hE | hE
      · rw [hE] at hl; exact absurd hl (List.not_mem_nil _)
      · rw [hE] at hl; exact absurd (List.mem_singleton.mp hl) hne
  have hval := fun ch hch => clean_scan_values _ _ hscan (stripLine ch) (hsub ch hch)
  have hpar := fun ch hch => configParamOK_length (hparam (stripLine ch) (hsub ch hch))
  -- the required commands are present
  have present : ∀ (p : String) (K : LineKind), K ≠ LineKind.skip →
      (∀ l, startsWith l p = true → lineKind l = K) →
      (logicalLines buffer).any (fun l => startsWith l p) = true →
      ∃ ch ∈ fgetwsChunks (dropCR buffer) [], lineKind (stripLine ch) = K := by
    intro p K hns hK hany
    obtain ⟨l, hl, hs⟩ := List.any_eq_true.mp hany
    have hk := hK l hs
    have hne : l ≠ [] := by
      intro he
      rw [he] at hk
      have h0 : lineKind ([] : List Char) = LineKind.skip := by decide
      rw [h0] at hk
      exact hns hk.symm
    obtain ⟨ch, hch, he⟩ := hsup l hl hne
    exact ⟨ch, hch, by rw [he]; exact hk⟩
  have flag : ∀ (b : Bool) (m : String), (b = false → (⟨0, m, 2⟩ : ValidationError) ∈
      finalDiags (runCtl (logicalLines buffer) VState.init)) → b = true := by
    intro b m h
    cases b with
    | true => rfl
    | false => exact absurd rfl (hfinal _ (h rfl))
  have hLPS := flag (runCtl (logicalLines buffer) VState.init).hasLPS "Missing LPS command"
    (fun h => (mem_finalDiags_iff _ _).mpr (Or.inl ⟨h, rfl⟩))
  have hSW := flag (runCtl (logicalLines buffer) VState.init).hasSW "Missing SW command"
    (fun h => (mem_finalDiags_iff _ _).mpr (Or.inr (Or.inl ⟨h, rfl⟩)))
  have hSH := flag (runCtl (logicalLines buffer) VState.init).hasSH "Missing SH command"
    (fun h => (mem_finalDiags_iff _ _).mpr (Or.inr (Or.inr (Or.inl ⟨h, rfl⟩))))
  have hSC := flag (runCtl (logicalLines buffer) VState.init).hasSC "Missing SC command"
    (fun h => (mem_finalDiags_iff _ _).mpr (Or.inr (Or.inr (Or.inr (Or.inl ⟨h, rfl⟩)))))
  have hSD := flag (runCtl (logicalLines buffer) VState.init).hasSD "Missing SD command"
    (fun h => (mem_finalDiags_iff _ _).mpr
      (Or.inr (Or.inr (Or.inr (Or.inr (Or.inl ⟨h, rfl⟩))))))
  rw [runCtl_hasLPS] at hLPS
  rw [runCtl_hasSW] at hSW
  rw [runCtl_hasSH] at hSH
  rw [runCtl_hasSC] at hSC
  rw [runCtl_hasSD] at hSD
  simp only [VState.init, Bool.false_or] at hLPS hSW hSH hSC hSD
  have c1 : 0 < st.renderer.config.linesPerScreen :=
    loadLoop_field LineKind.lps 4 (fun c => c.linesPerScreen) (fun v => 0 < v)
      loadChunk_linesPerScreen _ _ _ hload
      (fun ch hch hk => ⟨(hpar ch hch).1 hk, (hval ch hch).1 hk ((hpar ch hch).1 hk)⟩)
      (Or.inr (present "LPS" LineKind.lps (by decide) (fun l h => lineKind_of_LPS h) hLPS))
  have c2 : 0 < st.renderer.config.screenWidth :=
    loadLoop_field LineKind.sw 3 (fun c => c.screenWidth) (fun v => 0 < v)
      loadChunk_screenWidth _ _ _ hload
      (fun ch hch hk => ⟨(hpar ch hch).2.1 hk, (hval ch hch).2.1 hk ((hpar ch hch).2.1 hk)⟩)
      (Or.inr (present "SW" LineKind.sw (by decide) (fun l h => lineKind_of_SW h) hSW))
  have c3 : 0 < st.renderer.config.screenHeight :=
    loadLoop_field LineKind.sh 3 (fun c => c.screenHeight) (fun v => 0 < v)
      loadChunk_screenHeight _ _ _ hload
      (fun ch hch hk =>
        ⟨(hpar ch hch).2.2.1 hk, (hval ch hch).2.2.1 hk ((hpar ch hch).2.2.1 hk)⟩)
      (Or.inr (present "SH" LineKind.sh (by decide) (fun l h => lineKind_of_SH h) hSH))
  have c4 : 0 < st.renderer.config.screenCount :=
    loadLoop_field LineKind.sc 3 (fun c => c.screenCount) (fun v => 0 < v)
      loadChunk_screenCount _ _ _ hload
      (fun ch hch hk =>
        ⟨(hpar ch hch).2.2.2.1 hk, (hval ch hch).2.2.2.1 hk ((hpar ch hch).2.2.2.1 hk)⟩)
      (Or.inr (present "SC" LineKind.sc (by decide) (fun l h => lineKind_of_SC h) hSC))
  have c5 : 0 ≤ st.renderer.config.screenDelay :=
    loadLoop_field LineKind.sd 3 (fun c => c.screenDelay) (fun v => 0 ≤ v)
      loadChunk_screenDelay _ _ _ hload
      (fun ch hch hk =>
        ⟨(hpar ch hch).2.2.2.2.1 hk, (hval ch hch).2.2.2.2.1 hk ((hpar ch hch).2.2.2.2.1 hk)⟩)
      (Or.inr (present "SD" LineKind.sd (by decide) (fun l h => lineKind_of_SD h) hSD))
  have c6 : 0 ≤ st.renderer.config.centerDelay :=
    loadLoop_field LineKind.cd 3 (fun c => c.centerDelay) (fun v => 0 ≤ v)
      loadChunk_centerDelay _ _ _ hload
      (fun ch hch hk =>
        ⟨(hpar ch hch).2.2.2.2.2 hk, (hval ch hch).2.2.2.2.2 hk ((hpar ch hch).2.2.2.2.2 hk)⟩)
      (by
        rcases hcd with h | ⟨l, hl, hk⟩
        · exact Or.inl h
        · right
          have hne : l ≠ [] := by
            intro he
            rw [he] at hk
            exact absurd hk (by decide)
          obtain ⟨ch, hch, he⟩ := hsup l hl hne
          exact ⟨ch, hch, by rw [he]; exact hk⟩)
  refine ⟨⟨c1, c2, c3, c4, c5, c6⟩, ?_, RenderMarquee_defined measure st.renderer c1⟩
  unfold loadInit at hload
  unfold LoadLayoutFile
  simp only
  rw [hload]
  simp only
  rw [if_neg (by
    rintro (hz | ⟨_, hz⟩)
    · omega
    · omega)]

theorem C35_validated_config_witness :
    validConfig
      ((loadLoop (fgetwsChunks
          (dropCR "LPS 2\r\nSW 600\r\nSH 40\r\nSC 1\r\nSD 0\r\nSTART\r\nhi\r\nEND\r\n".toList) [])
        (loadInit InitRenderer [])).getD (loadInit InitRenderer [])).renderer.config :=
  (C35_validated_config narrow InitRenderer
    "LPS 2\r\nSW 600\r\nSH 40\r\nSC 1\r\nSD 0\r\nSTART\r\nhi\r\nEND\r\n".toList []
    ((loadLoop (fgetwsChunks
        (dropCR "LPS 2\r\nSW 600\r\nSH 40\r\nSC 1\r\nSD 0\r\nSTART\r\nhi\r\nEND\r\n".toList) [])
      (loadInit InitRenderer [])).getD (loadInit InitRenderer []))
    (by decide) (by decide) (by decide) (by decide) (by decide) (Or.inl (by decide))
    (by decide)).1

set_option maxRecDepth 100000 in
/-- C40. The text that `NewFile` of editor.c puts into the edit control is a
valid document.  `ValidateFile` of validate.c leaves an empty list for it, and
so does `ValidateFile` of editor.c, whatever its line buffer held before.  Its
content line is the line after `START`, and `ParseColoredLine` resolves it to
exactly three runs: `Hello, ` in the colour of `00FF00`, `world` in the colour
of `FF0000`, and `!` in the colour of `00FF00` again.  `LoadLayoutFile` reads
the whole text as one segment holding that one line. -/
theorem C40_template (stack : List Char) :
    ValidateFile Editor.template = [] ∧
    Editor.ValidateFile stack Editor.template = [] ∧
    "`00FF00:Hello, `FF0000:world'!'".toList ∈ logicalLines Editor.template ∧
    ParseColoredLine "`00FF00:Hello, `FF0000:world'!'".toList =
      some { texts := [⟨"Hello, ".toList, ParseHexColor "00FF00".toList⟩,
                       ⟨"world".toList, ParseHexColor "FF0000".toList⟩,
                       ⟨"!".toList, ParseHexColor "00FF00".toList⟩] } ∧
    ParseHexColor "00FF00".toList = RGB 0 255 0 ∧
    ParseHexColor "FF0000".toList = RGB 255 0 0 ∧
    (LoadLayoutFile InitRenderer Editor.template []).map
        (fun r => (r.segmentCount, (r.segments.getD 0 { lines := [] }).lines)) =
      some (1, [{ texts := [⟨"Hello, ".toList, RGB 0 255 0⟩,
                            ⟨"world".toList, RGB 255 0 0⟩,
                            ⟨"!".toList, RGB 0 255 0⟩] }]) := by
  have hv : ValidateFile Editor.template = [] := by decide
  have hr : reported Editor.template = [] := by
    have h := hv
    rw [ValidateFile_eq_take, List.take_eq_nil_iff] at h
    rcases h with h | h
    · exact absurd h (by decide)
    · exact h
  refine ⟨hv, ?_, by decide, by decide, by decide, by decide, by decide⟩
  rw [editor_ValidateFile_eq stack Editor.template (by decide), hr]
  rfl

/-! ## Texts that leave the validator's view and the renderer's apart -/

theorem splitLines_newline : ∀ (a rest cur : List Char),
    splitLines (a ++ '\n' :: rest) cur = splitLines a cur ++ splitLines rest []
  | [], rest, cur => by
    rw [List.nil_append]
    conv_lhs => rw [splitLines, if_neg (by decide), if_pos rfl]
    conv_rhs => rw [splitLines]
    rfl
  | c :: a, rest, cur => by
    rw [List.cons_append, splitLines, splitLines]
    by_cases h1 : c = '\r'
    · rw [if_pos h1, if_pos h1, splitLines_newline a rest cur]
    · rw [if_neg h1, if_neg h1]
      by_cases h2 : c = '\n'
      · rw [if_pos h2, if_pos h2, splitLines_newline a rest []]
        rfl
      · rw [if_neg h2, if_neg h2, splitLines_newline a rest _]

theorem splitLines_whole (l : List Char) (h : ∀ c ∈ l, c ≠ '\r' ∧ c ≠ '\n')
    (hl : l.length ≤ 1023) : splitLines l [] = [l] := by
  have := splitLines_plain l [] [] h (by simpa using hl)
  rw [List.append_nil, List.nil_append] at this
  rw [this, splitLines]

theorem splitLines_repeat (l : List Char) (h : ∀ c ∈ l, c ≠ '\r' ∧ c ≠ '\n')
    (hl : l.length ≤ 1023) (rest : List Char) : ∀ n : Nat,
    splitLines ((List.replicate n (l ++ ['\n'])).flatten ++ rest) [] =
      List.replicate n l ++ splitLines rest []
  | 0 => rfl
  | n + 1 => by
    rw [List.replicate_succ, List.flatten_cons, List.append_assoc, List.append_assoc,
      List.singleton_append, splitLines_newline, splitLines_whole l h hl,
      splitLines_repeat l h hl rest n]
    rfl

theorem fgetws_newline : ∀ (a rest cur : List Char),
    fgetwsChunks (a ++ '\n' :: rest) cur =
      fgetwsChunks (a ++ ['\n']) cur ++ fgetwsChunks rest []
  | [], rest, cur => by
    rw [List.nil_append, List.nil_append, fgetwsChunks, if_pos (Or.inl rfl), fgetwsChunks,
      if_pos (Or.inl rfl), fgetwsChunks, if_pos rfl]
    rfl
  | c :: a, rest, cur => by
    rw [List.cons_append, List.cons_append, fgetwsChunks, fgetwsChunks]
    by_cases h : c = '\n' ∨ cur.length + 1 = MAX_TEXT_LENGTH - 1
    · rw [if_pos h, if_pos h, fgetws_newline a rest []]
      rfl
    · rw [if_neg h, if_neg h, fgetws_newline a rest _]

theorem fgetws_plain : ∀ (l text cur : List Char), '\n' ∉ l → cur.length + l.length ≤ 998 →
    fgetwsChunks (l ++ text) cur = fgetwsChunks text (cur ++ l)
  | [], text, cur, _, _ => by simp
  | c :: l, text, cur, h, hl => by
    simp only [List.length_cons] at hl
    have hc : ¬ (c = '\n' ∨ cur.length + 1 = MAX_TEXT_LENGTH - 1) := by
      unfold MAX_TEXT_LENGTH
      intro hh
      rcases hh with hh | hh
      · exact h (hh ▸ List.mem_cons_self _ _)
      · omega
    rw [List.cons_append, fgetwsChunks, if_neg hc,
      fgetws_plain l text _ (fun hm => h (List.mem_cons_of_mem _ hm))
        (by simp only [List.length_append, List.length_singleton]; omega)]
    simp

theorem fgetws_whole (l : List Char) (h : '\n' ∉ l) (hl : l.length ≤ 997) :
    fgetwsChunks (l ++ ['\n']) [] = [l ++ ['\n']] := by
  rw [fgetws_plain l _ [] h (by simp only [List.length_nil]; omega), List.nil_append,
    fgetwsChunks, if_pos (Or.inl rfl), fgetwsChunks, if_pos rfl]

theorem fgetws_fill (l : List Char) (c : Char) (rest : List Char) (h : '\n' ∉ l)
    (hl : l.length = 998) :
    fgetwsChunks (l ++ c :: rest) [] = (l ++ [c]) :: fgetwsChunks rest [] := by
  rw [fgetws_plain l _ [] h (by simp only [List.length_nil]; omega), List.nil_append,
    fgetwsChunks, if_pos (Or.inr (by unfold MAX_TEXT_LENGTH; omega))]

theorem fgetws_repeat (l : List Char) (h : '\n' ∉ l) (hl : l.length ≤ 997)
    (rest : List Char) : ∀ n : Nat,
    fgetwsChunks ((List.replicate n (l ++ ['\n'])).flatten ++ rest) [] =
      List.replicate n (l ++ ['\n']) ++ fgetwsChunks rest []
  | 0 => rfl
  | n + 1 => by
    rw [List.replicate_succ, List.flatten_cons, List.append_assoc, List.append_assoc,
      List.singleton_append, fgetws_newline, fgetws_whole l h hl,
      fgetws_repeat l h hl rest n]
    rfl

theorem loadLoop_append : ∀ (a b : List (List Char)) (st : LoadState),
    loadLoop (a ++ b) st = (loadLoop a st).bind (loadLoop b)
  | [], b, st => rfl
  | ch :: a, b, st => by
    rw [List.cons_append, loadLoop, loadLoop]
    cases loadChunk st ch with
    | none => rfl
    | some st1 => exact loadLoop_append a b st1

/-- A read of an `LPS` line succeeds and sets `linesPerScreen`. -/
theorem loadChunk_lps (st : LoadState) (ch : List Char)
    (h : lineKind (stripLine ch) = LineKind.lps) (hl : 4 ≤ (stripLine ch).length) :
    ∃ st1, loadChunk st ch = some st1 ∧
      st1.renderer.config.linesPerScreen = wcstol ((stripLine ch).drop 4) := by
  rw [loadChunk_kind, h]
  refine ⟨_, rfl, ?_⟩
  simp only [_wtoi]
  rw [arg_readIntoBuf _ _ 4 hl]

/-- A read of a `PM` line succeeds. -/
theorem loadChunk_pm (st : LoadState) (ch : List Char)
    (h : lineKind (stripLine ch) = LineKind.pm) : ∃ st1, loadChunk st ch = some st1 := by
  rw [loadChunk_kind, h]
  unfold loadByKind
  by_cases hv : _wtoi (cstr ((readIntoBuf st.buf ch).drop 3)) > 0
  · rw [if_pos hv]
    exact ⟨_, rfl⟩
  · rw [if_neg hv]
    exact ⟨_, rfl⟩

/-- A read of a comment succeeds. -/
theorem loadChunk_comment (st : LoadState) (ch : List Char)
    (h : (stripLine ch).head? = some '/') : ∃ st1, loadChunk st ch = some st1 := by
  have hk : lineKind (stripLine ch) = LineKind.skip := by
    unfold lineKind
    rw [if_pos (fun hh => hh.1 h)]
  rw [loadChunk_kind, hk]
  unfold loadByKind
  rw [if_neg (fun hh => hh.2.2 h)]
  exact ⟨_, rfl⟩

theorem loadLoop_pm (ch : List Char) (h : lineKind (stripLine ch) = LineKind.pm) :
    ∀ (n : Nat) (st : LoadState), ∃ st1, loadLoop (List.replicate n ch) st = some st1
  | 0, st => ⟨st, rfl⟩
  | n + 1, st => by
    obtain ⟨st1, h1⟩ := loadChunk_pm st ch h
    rw [List.replicate_succ, loadLoop, h1]
    exact loadLoop_pm ch h n st1

theorem capText_eq :
    capText = (List.replicate 1000 ("PM 21".toList ++ ['\n'])).flatten ++
      ("LPS 0".toList ++ '\n' :: []) := by
  have e1 : "PM 21\n".toList = "PM 21".toList ++ ['\n'] := by decide
  have e2 : "LPS 0\n".toList = "LPS 0".toList ++ '\n' :: [] := by decide
  unfold capText repeatLines
  rw [e1, e2, List.nil_append]

theorem NUL_not_mem_capText : NUL ∉ capText := by
  rw [capText_eq]
  intro h
  rcases List.mem_append.mp h with h1 | h1
  · obtain ⟨l, hl, hm⟩ := List.mem_flatten.mp h1
    rw [List.eq_of_mem_replicate hl] at hm
    exact absurd hm (by decide)
  · exact absurd h1 (by decide)

theorem logicalLines_capText :
    logicalLines capText = List.replicate 1000 "PM 21".toList ++ ["LPS 0".toList, []] := by
  unfold logicalLines
  rw [cstr_of_not_mem _ NUL_not_mem_capText, capText_eq,
    splitLines_repeat "PM 21".toList (by decide) (by decide)]
  rfl

theorem scanDiags_pm : ∀ (n : Nat) (s : VState),
    n ≤ (scanDiags (List.replicate n "PM 21".toList) s).length ∧
    ∀ d ∈ scanDiags (List.replicate n "PM 21".toList) s, d.severity = 1
  | 0, _ => ⟨Nat.zero_le _, fun d hd => absurd hd (List.not_mem_nil _)⟩
  | n + 1, s => by
    have hline : lineDiags s "PM 21".toList =
        diagIf s.hasPM s.lineNum "Duplicate PM command" 1 ++
          [⟨s.lineNum, "PM above 20 pixels may scroll too fast", 1⟩] := by
      have h := lineDiags_PM_line s 21 (by decide) (by decide)
      have e : commandLine "PM" 21 = "PM 21".toList := by decide
      have hb : diagIf (decide ((21 : Int) ≤ 0)) s.lineNum
          "PM (pixel movement per frame) must be positive" 2 = [] := rfl
      have hc : diagIf (decide ((21 : Int) > 20)) s.lineNum
          "PM above 20 pixels may scroll too fast" 1 =
            [⟨s.lineNum, "PM above 20 pixels may scroll too fast", 1⟩] := rfl
      rw [e] at h
      rw [h, hb, hc, List.append_nil]
    obtain ⟨h1, h2⟩ := scanDiags_pm n (lineCtl s "PM 21".toList)
    rw [List.replicate_succ, scanDiags, hline]
    constructor
    · simp only [List.length_append, List.length_singleton]
      omega
    · intro d hd
      rcases List.mem_append.mp hd with hd | hd
      · rcases List.mem_append.mp hd with hd | hd
        · rw [mem_diagIf_iff] at hd
          rw [hd.2]
        · rw [List.mem_singleton] at hd
          rw [hd]
      · exact h2 d hd

/-- The validator keeps 1000 warnings for `capText` and no Error: the list is
full before the line `LPS 0` is met. -/
theorem ValidateFile_capText :
    (ValidateFile capText).length = 1000 ∧ ∀ d ∈ ValidateFile capText, d.severity = 1 := by
  obtain ⟨h1, h2⟩ := scanDiags_pm 1000 VState.init
  have e : ValidateFile capText =
      (scanDiags (List.replicate 1000 "PM 21".toList) VState.init).take 1000 := by
    rw [ValidateFile_eq_take]
    unfold reported
    rw [logicalLines_capText, scanDiags_append, List.append_assoc]
    exact List.take_append_of_le_length h1
  rw [e]
  constructor
  · rw [List.length_take]
    omega
  · intro d hd
    exact h2 d (List.mem_of_mem_take hd)

/-- The renderer reads `linesPerScreen` 0 from `capText`. -/
theorem loadLoop_capText :
    ∃ st, loadLoop (fgetwsChunks capText []) (loadInit InitRenderer []) = some st ∧
      st.renderer.config.linesPerScreen = 0 := by
  have hc : fgetwsChunks capText [] =
      List.replicate 1000 ("PM 21".toList ++ ['\n']) ++ ["LPS 0\n".toList] := by
    rw [capText_eq, fgetws_repeat "PM 21".toList (by decide) (by decide)]
    rfl
  obtain ⟨st1, h1⟩ := loadLoop_pm ("PM 21".toList ++ ['\n']) (by decide) 1000
    (loadInit InitRenderer [])
  obtain ⟨st2, h2, hv⟩ := loadChunk_lps st1 "LPS 0\n".toList (by decide) (by decide)
  refine ⟨st2, ?_, ?_⟩
  · rw [hc, loadLoop_append, h1]
    simp only [Option.bind]
    rw [loadLoop, h2]
    rfl
  · rw [hv]
    decide

theorem LoadLayoutFile_zero (renderer : MarqueeRenderer) (stream stack : List Char)
    (h : ∃ st, loadLoop (fgetwsChunks stream []) (loadInit renderer stack) = some st ∧
      st.renderer.config.linesPerScreen = 0) :
    (loadLoop (fgetwsChunks stream []) (loadInit renderer stack)).map
      (fun st => st.renderer.config.linesPerScreen) = some 0 ∧
    LoadLayoutFile renderer stream stack = none := by
  obtain ⟨st, h1, h2⟩ := h
  constructor
  · rw [h1]
    simp only [Option.map]
    rw [h2]
  · unfold loadInit at h1
    unfold LoadLayoutFile
    simp only
    rw [h1]
    simp only
    rw [if_pos (Or.inl h2)]

theorem lineKind_comment (t : List Char) : lineKind ('/' :: t) = LineKind.skip := by
  unfold lineKind
  rw [if_pos (fun hh => hh.1 rfl)]

theorem lineDiags_skip (s : VState) (l : List Char) (h : lineKind l = LineKind.skip) :
    lineDiags s l = [] := by
  simp only [lineDiags, h]

theorem finalDiags_skip (s : VState) (l : List Char) (h : lineKind l = LineKind.skip)
    (hin : s.inSegment = false) :
    finalDiags (lineCtl s l) = finalDiags s ∧ (lineCtl s l).inSegment = false := by
  simp only [lineCtl, h, finalDiags, hin, diagIf]
  trivial

theorem longText_lines :
    longText = "LPS 2\nSW 600\nSH 40\nSC 1\nSD 0\nSTART\nEND".toList ++
      '\n' :: (('/' :: List.replicate 998 'x' ++ "LPS 0".toList) ++ '\n' :: []) := by
  have e1 : "LPS 2\nSW 600\nSH 40\nSC 1\nSD 0\nSTART\nEND\n".toList =
      "LPS 2\nSW 600\nSH 40\nSC 1\nSD 0\nSTART\nEND".toList ++ ['\n'] := by decide
  have e2 : "LPS 0\n".toList = "LPS 0".toList ++ ['\n'] := by decide
  unfold longText
  rw [e1, e2]
  simp only [List.append_assoc, List.cons_append, List.singleton_append, List.nil_append]

theorem longText_reads :
    longText = "LPS 2\nSW 600\nSH 40\nSC 1\nSD 0\nSTART\nEND".toList ++
      '\n' :: (('/' :: List.replicate 997 'x') ++ 'x' :: "LPS 0\n".toList) := by
  have e1 : "LPS 2\nSW 600\nSH 40\nSC 1\nSD 0\nSTART\nEND\n".toList =
      "LPS 2\nSW 600\nSH 40\nSC 1\nSD 0\nSTART\nEND".toList ++ ['\n'] := by decide
  have e2 : List.replicate 998 'x' = List.replicate 997 'x' ++ ['x'] :=
    List.replicate_succ' 997 'x'
  unfold longText
  rw [e1, e2]
  simp only [List.append_assoc, List.cons_append, List.singleton_append, List.nil_append]

theorem comment_plain (c : Char) (h : c ∈ '/' :: List.replicate 998 'x' ++ "LPS 0".toList) :
    c ≠ '\r' ∧ c ≠ '\n' ∧ c ≠ NUL := by
  have hq : ∀ c ∈ "LPS 0".toList, c ≠ '\r' ∧ c ≠ '\n' ∧ c ≠ NUL := by decide
  rcases List.mem_append.mp h with h1 | h1
  · rcases List.mem_cons.mp h1 with h2 | h2
    · rw [h2]
      decide
    · rw [List.eq_of_mem_replicate h2]
      decide
  · exact hq c h1

theorem NUL_not_mem_longText : NUL ∉ longText := by
  rw [longText_lines]
  intro h
  rcases List.mem_append.mp h with h1 | h1
  · exact absurd h1 (by decide)
  · rcases List.mem_cons.mp h1 with h2 | h2
    · exact absurd h2 (by decide)
    · rcases List.mem_append.mp h2 with h3 | h3
      · exact (comment_plain NUL h3).2.2 rfl
      · exact absurd h3 (by decide)

theorem logicalLines_longText :
    logicalLines longText =
      splitLines "LPS 2\nSW 600\nSH 40\nSC 1\nSD 0\nSTART\nEND".toList [] ++
        ['/' :: List.replicate 998 'x' ++ "LPS 0".toList, []] := by
  unfold logicalLines
  rw [cstr_of_not_mem _ NUL_not_mem_longText, longText_lines, splitLines_newline,
    splitLines_newline, splitLines_whole _ (fun c hc => ⟨(comment_plain c hc).1,
      (comment_plain c hc).2.1⟩)
      (by
        have hq : "LPS 0".toList.length = 5 := rfl
        simp only [List.length_append, List.length_cons, List.length_replicate, hq]
        omega)]
  rfl

/-- The validator reports nothing for `longText`: its last line is a comment. -/
theorem ValidateFile_longText : ValidateFile longText = [] := by
  have hk := lineKind_comment (List.replicate 998 'x' ++ "LPS 0".toList)
  rw [← List.cons_append] at hk
  have hk0 : lineKind [] = LineKind.skip := by decide
  have hin : (runCtl (splitLines "LPS 2\nSW 600\nSH 40\nSC 1\nSD 0\nSTART\nEND".toList [])
      VState.init).inSegment = false := by decide
  rw [ValidateFile_eq_take]
  unfold reported
  rw [logicalLines_longText, scanDiags_append, runCtl_append]
  have h1 : scanDiags (splitLines "LPS 2\nSW 600\nSH 40\nSC 1\nSD 0\nSTART\nEND".toList [])
      VState.init = [] := by decide
  have h2 : finalDiags (runCtl
      (splitLines "LPS 2\nSW 600\nSH 40\nSC 1\nSD 0\nSTART\nEND".toList []) VState.init) = [] := by
    decide
  obtain ⟨f1, i1⟩ := finalDiags_skip _ _ hk hin
  obtain ⟨f2, _⟩ := finalDiags_skip _ _ hk0 i1
  rw [h1, scanDiags, scanDiags, scanDiags, lineDiags_skip _ _ hk, lineDiags_skip _ _ hk0,
    runCtl, runCtl, runCtl, f2, f1, h2]
  rfl

/-- The renderer reads `longText` in pieces: the comment ends a read after 999
characters and `LPS 0` is read as a line. -/
theorem loadLoop_longText :
    ∃ st, loadLoop (fgetwsChunks longText []) (loadInit InitRenderer []) = some st ∧
      st.renderer.config.linesPerScreen = 0 := by
  have hc : fgetwsChunks longText [] =
      fgetwsChunks "LPS 2\nSW 600\nSH 40\nSC 1\nSD 0\nSTART\nEND\n".toList [] ++
        [('/' :: List.replicate 997 'x') ++ ['x'], "LPS 0\n".toList] := by
    have e1 : "LPS 2\nSW 600\nSH 40\nSC 1\nSD 0\nSTART\nEND\n".toList =
        "LPS 2\nSW 600\nSH 40\nSC 1\nSD 0\nSTART\nEND".toList ++ ['\n'] := by decide
    have e3 : fgetwsChunks "LPS 0\n".toList [] = ["LPS 0\n".toList] := by decide
    have hnl : '\n' ∉ '/' :: List.replicate 997 'x' := by
      intro h
      rcases List.mem_cons.mp h with h2 | h2
      · exact absurd h2 (by decide)
      · exact absurd (List.eq_of_mem_replicate h2) (by decide)
    rw [longText_reads, fgetws_newline,
      fgetws_fill _ _ _ hnl (by simp only [List.length_cons, List.length_replicate]),
      e3, ← e1]
  have h0 : (loadLoop (fgetwsChunks "LPS 2\nSW 600\nSH 40\nSC 1\nSD 0\nSTART\nEND\n".toList [])
      (loadInit InitRenderer [])).isSome = true := by decide
  obtain ⟨st1, h1⟩ := Option.isSome_iff_exists.mp h0
  have hs : stripLine (('/' :: List.replicate 997 'x') ++ ['x']) =
      ('/' :: List.replicate 997 'x') ++ ['x'] := by
    apply stripLine_plain
    intro c hm
    have e2 : List.replicate 998 'x' = List.replicate 997 'x' ++ ['x'] :=
      List.replicate_succ' 997 'x'
    have hm2 : c ∈ '/' :: List.replicate 998 'x' ++ "LPS 0".toList := by
      rw [e2]
      exact List.mem_append_left _ hm
    exact ⟨(comment_plain c hm2).2.1, (comment_plain c hm2).1, (comment_plain c hm2).2.2⟩
  obtain ⟨st2, h2⟩ := loadChunk_comment st1 (('/' :: List.replicate 997 'x') ++ ['x'])
    (by rw [hs]; rfl)
  obtain ⟨st3, h3, hv⟩ := loadChunk_lps st2 "LPS 0\n".toList (by decide) (by decide)
  refine ⟨st3, ?_, ?_⟩
  · rw [hc, loadLoop_append, h1]
    simp only [Option.bind]
    rw [loadLoop, h2]
    simp only
    rw [loadLoop, h3]
    rfl
  · rw [hv]
    decide

/-- C35 as stated fails, in more than one way.  The validator reports nothing
for the text `LPS `, `SW 600`, `SH 40`, `SC 1`, `SD 0`, `START`, `END`, whose
first line has no parameter, and the renderer reads `linesPerScreen` 0 from it
and divides by it.  The same happens when a carriage return stands inside the
parameter (`LPS 0`, carriage return, `5`: the validator reads 5, the renderer
0), and when the text goes on after a NUL, which ends it for the validator.  A
renderer whose `centerDelay` is negative keeps it when the text has no `CD`
line.  For `capText` the validator's list is full of warnings before it meets
`LPS 0`, so that it holds no Error; and the comment that ends `longText` is one
line for the validator, while the renderer reads its end as the line `LPS 0`. -/
theorem C35_counterexample :
    ValidateFile "LPS \nSW 600\nSH 40\nSC 1\nSD 0\nSTART\nEND\n".toList = [] ∧
    (loadLoop (fgetwsChunks "LPS \nSW 600\nSH 40\nSC 1\nSD 0\nSTART\nEND\n".toList [])
      (loadInit InitRenderer [])).map (fun st => st.renderer.config.linesPerScreen) = some 0 ∧
    LoadLayoutFile InitRenderer "LPS \nSW 600\nSH 40\nSC 1\nSD 0\nSTART\nEND\n".toList [] =
      none ∧
    ValidateFile "LPS 0\r5\nSW 600\nSH 40\nSC 1\nSD 0\nSTART\nEND\n".toList = [] ∧
    (loadLoop (fgetwsChunks "LPS 0\r5\nSW 600\nSH 40\nSC 1\nSD 0\nSTART\nEND\n".toList [])
      (loadInit InitRenderer [])).map (fun st => st.renderer.config.linesPerScreen) = some 0 ∧
    ValidateFile ("LPS 2\nSW 600\nSH 40\nSC 1\nSD 0\nSTART\nEND\n".toList ++
      NUL :: "\nLPS 0\n".toList) = [] ∧
    (loadLoop (fgetwsChunks ("LPS 2\nSW 600\nSH 40\nSC 1\nSD 0\nSTART\nEND\n".toList ++
        NUL :: "\nLPS 0\n".toList) [])
      (loadInit InitRenderer [])).map (fun st => st.renderer.config.linesPerScreen) = some 0 ∧
    ValidateFile "LPS 2\nSW 600\nSH 40\nSC 1\nSD 0\nSTART\nEND\n".toList = [] ∧
    ((LoadLayoutFile InitRenderer "CD -5\n".toList []).bind
      (fun r => LoadLayoutFile r "LPS 2\nSW 600\nSH 40\nSC 1\nSD 0\nSTART\nEND\n".toList [])).map
        (fun r => r.config.centerDelay) = some (-5) ∧
    (ValidateFile capText).length = 1000 ∧
    (∀ d ∈ ValidateFile capText, d.severity = 1) ∧
    (loadLoop (fgetwsChunks capText []) (loadInit InitRenderer [])).map
      (fun st => st.renderer.config.linesPerScreen) = some 0 ∧
    LoadLayoutFile InitRenderer capText [] = none ∧
    ValidateFile longText = [] ∧
    (loadLoop (fgetwsChunks longText []) (loadInit InitRenderer [])).map
      (fun st => st.renderer.config.linesPerScreen) = some 0 ∧
    LoadLayoutFile InitRenderer longText [] = none := by
  refine ⟨by decide, by decide, by decide, by decide, by decide, by decide, by decide,
    by decide, by decide, ValidateFile_capText.1, ValidateFile_capText.2,
    (LoadLayoutFile_zero _ _ _ loadLoop_capText).1,
    (LoadLayoutFile_zero _ _ _ loadLoop_capText).2, ValidateFile_longText,
    (LoadLayoutFile_zero _ _ _ loadLoop_longText).1,
    (LoadLayoutFile_zero _ _ _ loadLoop_longText).2⟩

/-! ### The values of the optional commands -/

theorem lineKind_of_TPF {l : List Char} (h : startsWith l "TPF" = true) :
    lineKind l = LineKind.tpf := by
  have h3 : l.take 3 = ['T', 'P', 'F'] := by
    unfold startsWith at h
    simpa using h
  have hs : l = ['T', 'P', 'F'] ++ l.drop 3 := by
    rw [← h3, List.take_append_drop]
  generalize l.drop 3 = t at hs
  subst hs
  simp [lineKind, startsWith, String.length]

theorem lineKind_of_PM {l : List Char} (h : startsWith l "PM" = true) :
    lineKind l = LineKind.pm := by
  have hs := startsWith_split h (by decide)
  have h2 : "PM".toList.take 2 = ['P', 'M'] := by decide
  rw [h2] at hs
  generalize l.drop 2 = t at hs
  subst hs
  simp [lineKind, startsWith, String.length]

theorem lineCtl_hasTPF (s : VState) (l : List Char) :
    (lineCtl s l).hasTPF = (s.hasTPF || startsWith l "TPF") := by
  unfold lineCtl
  by_cases h : startsWith l "TPF" = true
  · rw [lineKind_of_TPF h, h]; simp
  · have k : lineKind l ≠ LineKind.tpf := fun hk => h (lineKind_tpf hk)
    have h' : startsWith l "TPF" = false := by simpa using h
    rw [h']
    revert k
    cases lineKind l <;> simp

theorem runCtl_hasTPF (ls : List (List Char)) (s : VState) :
    (runCtl ls s).hasTPF = (s.hasTPF || ls.any (fun l => startsWith l "TPF")) := by
  induction ls generalizing s with
  | nil => simp [runCtl]
  | cons l ls ih => rw [runCtl, ih, lineCtl_hasTPF]; simp [Bool.or_assoc]

theorem lineCtl_hasPM (s : VState) (l : List Char) :
    (lineCtl s l).hasPM = (s.hasPM || startsWith l "PM") := by
  unfold lineCtl
  by_cases h : startsWith l "PM" = true
  · rw [lineKind_of_PM h, h]; simp
  · have k : lineKind l ≠ LineKind.pm := fun hk => h (lineKind_pm hk)
    have h' : startsWith l "PM" = false := by simpa using h
    rw [h']
    revert k
    cases lineKind l <;> simp

theorem runCtl_hasPM (ls : List (List Char)) (s : VState) :
    (runCtl ls s).hasPM = (s.hasPM || ls.any (fun l => startsWith l "PM")) := by
  induction ls generalizing s with
  | nil => simp [runCtl]
  | cons l ls ih => rw [runCtl, ih, lineCtl_hasPM]; simp [Bool.or_assoc]

/-- No flag is set by lines none of which begins with the command. -/
theorem any_false_of_forall {ls : List (List Char)} {p : String}
    (h : ∀ l ∈ ls, startsWith l p = false) : ls.any (fun l => startsWith l p) = false := by
  rw [List.any_eq_false]
  intro l hl
  rw [h l hl]
  decide

/-- The entries of a list that is not full with the number of line `k` (from
0): the diagnostics of the scan for that line, and after them the Error of the
check that follows the scan when the line is the last one and a segment is
open. -/
theorem filter_line {buffer : List Char} {k : Nat} {l : List Char}
    (hl : (logicalLines buffer)[k]? = some l)
    (hfull : (ValidateFile buffer).length < MAX_ERRORS) :
    (ValidateFile buffer).filter (fun e => e.lineNumber = (k : Int) + 1) =
      lineDiags (runCtl ((logicalLines buffer).take k) VState.init) l ++
        (if openAfter (logicalLines buffer) false = true ∧ (logicalLines buffer).length = k + 1
          then [⟨(k : Int) + 1, "File ends with unclosed segment", 2⟩] else []) := by
  rw [ValidateFile_not_full buffer hfull, reported, List.filter_append]
  have hp : (fun (e : ValidationError) => decide (e.lineNumber = (k : Int) + 1)) =
      (fun e => decide (e.lineNumber = VState.init.lineNum + (k : Int))) := by
    funext e; rw [init_lineNum, add_comm]
  have h1 := scanDiags_filter VState.init hl
  rw [← hp] at h1
  rw [h1]
  congr 1
  obtain ⟨Z, hZ, hsplit⟩ := finalDiags_split (runCtl (logicalLines buffer) VState.init)
  have hz : Z.filter (fun e => e.lineNumber = (k : Int) + 1) = [] := by
    rw [List.filter_eq_nil_iff]
    intro d hd
    rw [hZ d hd]
    simp
    omega
  have hnum := final_lineNum buffer
  have hin : (runCtl (logicalLines buffer) VState.init).inSegment =
      openAfter (logicalLines buffer) false := runCtl_inSegment _ _
  rw [hsplit, List.filter_append, hz, List.nil_append, hnum, hin]
  by_cases hc : openAfter (logicalLines buffer) false = true ∧
      (logicalLines buffer).length = k + 1
  · rw [if_pos hc, hc.1, hc.2]
    simp [diagIf]
  · rw [if_neg hc]
    cases ho : openAfter (logicalLines buffer) false
    · simp [diagIf]
    · rw [ho] at hc
      have hne : ((logicalLines buffer).length : Int) ≠ (k : Int) + 1 := by
        intro he
        apply hc
        exact ⟨rfl, by omega⟩
      simp [diagIf, hne]

/-- C13 (amended). For every integer `n` in the `int` range, when a line of a
text is `TPF n` and no line before it begins with `TPF`, the entries of the
list with the number of that line are the Error `TPF (millis per frame) must be
positive` if and only if `n ≤ 0` and the Warning `TPF below 16ms may cause
performance issues` if and only if `n < 16`; when it is `PM n` and no line
before it begins with `PM`, they are the Error `PM (pixel movement per frame)
must be positive` if and only if `n ≤ 0` and the Warning `PM above 20 pixels
may scroll too fast` if and only if `n > 20`; unless the list is full.  The
list holds no other entry with the number of that line, except the Error `File
ends with unclosed segment` of the check that follows the scan, which carries
the number of the last line when a segment is open at the end. -/
theorem C13_optional_values (buffer : List Char) (k : Nat) (n : Int)
    (h1 : LONG_MIN ≤ n) (h2 : n ≤ LONG_MAX)
    (hfull : (ValidateFile buffer).length < MAX_ERRORS) :
    ((logicalLines buffer)[k]? = some (commandLine "TPF" n) →
      (∀ l ∈ (logicalLines buffer).take k, startsWith l "TPF" = false) →
      (ValidateFile buffer).filter (fun e => e.lineNumber = (k : Int) + 1) =
        (if n ≤ 0 then [⟨k + 1, "TPF (millis per frame) must be positive", 2⟩] else []) ++
        (if n < 16 then [⟨k + 1, "TPF below 16ms may cause performance issues", 1⟩] else []) ++
        (if openAfter (logicalLines buffer) false = true ∧ (logicalLines buffer).length = k + 1
          then [⟨k + 1, "File ends with unclosed segment", 2⟩] else [])) ∧
    ((logicalLines buffer)[k]? = some (commandLine "PM" n) →
      (∀ l ∈ (logicalLines buffer).take k, startsWith l "PM" = false) →
      (ValidateFile buffer).filter (fun e => e.lineNumber = (k : Int) + 1) =
        (if n ≤ 0 then [⟨k + 1, "PM (pixel movement per frame) must be positive", 2⟩] else []) ++
        (if n > 20 then [⟨k + 1, "PM above 20 pixels may scroll too fast", 1⟩] else []) ++
        (if openAfter (logicalLines buffer) false = true ∧ (logicalLines buffer).length = k + 1
          then [⟨k + 1, "File ends with unclosed segment", 2⟩] else [])) := by
  constructor
  · intro hl hfirst
    have hnum := stateBefore_lineNum hl
    have hflag : (runCtl ((logicalLines buffer).take k) VState.init).hasTPF = false := by
      rw [runCtl_hasTPF, any_false_of_forall hfirst]
      rfl
    rw [filter_line hl hfull, lineDiags_TPF_line _ n h1 h2, hflag, hnum]
    congr 1
    by_cases ha : n ≤ 0 <;> by_cases hb : n < 16 <;> simp [diagIf, ha, hb]
  · intro hl hfirst
    have hnum := stateBefore_lineNum hl
    have hflag : (runCtl ((logicalLines buffer).take k) VState.init).hasPM = false := by
      rw [runCtl_hasPM, any_false_of_forall hfirst]
      rfl
    rw [filter_line hl hfull, lineDiags_PM_line _ n h1 h2, hflag, hnum]
    congr 1
    by_cases ha : n ≤ 0 <;> by_cases hb : n > 20 <;> simp [diagIf, ha, hb]

theorem C13_optional_values_witness :
    (ValidateFile "START\nTPF 10".toList).filter
        (fun e => e.lineNumber = ((1 : Nat) : Int) + 1) =
      (if (10 : Int) ≤ 0 then
        [⟨((1 : Nat) : Int) + 1, "TPF (millis per frame) must be positive", 2⟩] else []) ++
      (if (10 : Int) < 16 then
        [⟨((1 : Nat) : Int) + 1, "TPF below 16ms may cause performance issues", 1⟩] else []) ++
      (if openAfter (logicalLines "START\nTPF 10".toList) false = true ∧
          (logicalLines "START\nTPF 10".toList).length = 1 + 1
        then [⟨((1 : Nat) : Int) + 1, "File ends with unclosed segment", 2⟩] else []) :=
  (C13_optional_values "START\nTPF 10".toList 1 10 (by decide) (by decide) (by decide)).1
    (by decide) (by decide)

/-- C13 as stated fails: after 1000 stray lines the line `TPF 0` (line 1001) is
the first line `TPF` of the text and carries the value 0, and the list holds no
`TPF (millis per frame) must be positive` entry (it is full).  And in the text
`START`, `TPF 10` the list holds two entries with the number of the line
`TPF 10`: the Warning for its value and the Error `File ends with unclosed
segment`. -/
theorem C13_counterexample :
    (logicalLines (junk 1000 ++ "TPF 0".toList))[1000]? = some (commandLine "TPF" 0) ∧
    (∀ l ∈ (logicalLines (junk 1000 ++ "TPF 0".toList)).take 1000,
      startsWith l "TPF" = false) ∧
    (0 : Int) ≤ 0 ∧
    (⟨1001, "TPF (millis per frame) must be positive", 2⟩ : ValidationError) ∉
      ValidateFile (junk 1000 ++ "TPF 0".toList) ∧
    (logicalLines "START\nTPF 10".toList)[1]? = some (commandLine "TPF" 10) ∧
    (ValidateFile "START\nTPF 10".toList).filter (fun e => e.lineNumber = 2) =
      [⟨2, "TPF below 16ms may cause performance issues", 1⟩,
       ⟨2, "File ends with unclosed segment", 2⟩] := by
  refine ⟨?_, ?_, le_refl _, ?_, by decide, by decide⟩
  · rw [show (1000 : Nat) = 1000 + 0 from rfl, junk_getElem?]
    decide
  · intro l hl
    rw [show (1000 : Nat) = 1000 + 0 from rfl, junk_take, List.take_zero, List.append_nil] at hl
    rw [List.eq_of_mem_replicate hl]
    decide
  · exact not_mem_ValidateFile_junk _ _ (Or.inl (by decide))

end Marquee
